import Mathlib

/-!
# Verification development for the wave renderer (`src/waves/src/App.jsx`)

The development has two layers.

In the first, JavaScript numbers are embedded exactly: a finite number is an element of a
linearly ordered field `α` with a floor function (`ℚ` for evaluation, `ℝ` for the
transcendental functions).  The primitives of the host `Math` object that are not field
operations (`Math.PI`, `sin`, `cos`, `exp`, `sqrt`, `pow`) are the fields of a `JsMath α` record
passed to every definition that calls them.

In the second, the rounding of the arithmetic is explicit.  The functions whose contract depends
on it (`mod`, `wrapSigned`, `sampleBilinear`, the time step of the basin, the centre of the
tsunami, the loops and the `Float32Array` stores of the rasteriser) have a second translation
(`modR`, `wrapSignedR`, `sampleBilinearR`, ...) in which the result of each arithmetic operation
passes through a rounding function `fl`.  `round64` and `round32` are the roundings to nearest, ties to even, of
binary64 and binary32 on the rationals, and `JsNum` adds the infinities and the `NaN` of
operations that overflow.  With `fl` the identity the second translation is the first.

Integer-valued numbers whose size matters (the state of `mulberry32`) are embedded as
integers together with the rounding of a sum to the nearest 53-bit significand.
-/

set_option linter.unusedSectionVars false
set_option linter.unusedVariables false

namespace Waves

/-! ## Host primitives -/

/-- The `Math` members used by the program that are not field operations. -/
structure JsMath (α : Type) where
  /-- `Math.PI` -/
  PI : α
  /-- `Math.sin` -/
  sin : α → α
  /-- `Math.cos` -/
  cos : α → α
  /-- `Math.exp` -/
  exp : α → α
  /-- `Math.sqrt` -/
  sqrt : α → α
  /-- `Math.pow` -/
  pow : α → α → α

section Field

variable {α : Type} [LinearOrderedField α] [FloorRing α]

/-- `Math.hypot(a, b)`, the square root of the sum of squares. -/
def hypot (M : JsMath α) (a b : α) : α := M.sqrt (a * a + b * b)

/-- `Math.round(x)`: the integer nearest to `x`, halves going up. -/
def jsRound (x : α) : ℤ := ⌊x + 1 / 2⌋

/-- Truncation toward zero, the integer quotient used by the `%` operator. -/
def jsTrunc (x : α) : ℤ := if 0 ≤ x then ⌊x⌋ else ⌈x⌉

/-- The `%` operator on numbers: the remainder has the sign of the dividend. -/
def jsRem (value period : α) : α := value - period * (jsTrunc (value / period) : α)

/-- `a || b` on numbers: `b` replaces a zero `a`. -/
def orElse (a b : α) : α := if a = 0 then b else a

/-- `const clamp = (value, min, max) => Math.max(min, Math.min(max, value))` -/
def clamp (value lo hi : α) : α := max lo (min hi value)

/-- `smoothstep(edge0, edge1, x)` -/
def smoothstep (edge0 edge1 x : α) : α :=
  if edge0 = edge1 then 0
  else
    let t := clamp ((x - edge0) / (edge1 - edge0)) 0 1
    t * t * (3 - 2 * t)

/-- `mod(value, period)` -/
def mod (value period : α) : α :=
  if period = 0 then 0
  else
    let x := jsRem value period
    if x < 0 then x + period else x

/-- `wrapSigned(value, period)` -/
def wrapSigned (value period : α) : α := mod (value + period / 2) period - period / 2

/-- `reflectCoord(value, half)` -/
def reflectCoord (value half : α) : α :=
  let L := half * 2
  let period := L * 2
  let x := value + half
  let x := jsRem (jsRem x period + period) period
  let x := if x > L then period - x else x
  x - half

/-- A typed array read through its index; the indices the program uses are integers. -/
abbrev Grid (α : Type) := ℤ → α

/-- `sampleBilinear(field, n, half, x, z)` -/
def sampleBilinear (field : Grid α) (n : ℕ) (half x z : α) : α :=
  let L := half * 2
  let fx := clamp (((x + half) / L) * ((n : α) - 1)) 0 ((n : α) - 1)
  let fz := clamp (((z + half) / L) * ((n : α) - 1)) 0 ((n : α) - 1)
  let x0 : ℤ := ⌊fx⌋
  let z0 : ℤ := ⌊fz⌋
  let x1 : ℤ := min (x0 + 1) ((n : ℤ) - 1)
  let z1 : ℤ := min (z0 + 1) ((n : ℤ) - 1)
  let tx := fx - (x0 : α)
  let tz := fz - (z0 : α)
  let i00 := z0 * n + x0
  let i10 := z0 * n + x1
  let i01 := z1 * n + x0
  let i11 := z1 * n + x1
  let a := field i00 * (1 - tx) + field i10 * tx
  let b := field i01 * (1 - tx) + field i11 * tx
  a * (1 - tz) + b * tz

end Field

/-! ## 32-bit integer operators and `mulberry32` -/

/-- `ToUint32`: the value modulo `2^32`, in `[0, 2^32)`. -/
def toUint32 (x : ℤ) : ℕ := (x % 4294967296).toNat

/-- `ToInt32`: the value modulo `2^32`, in `[-2^31, 2^31)`. -/
def toInt32 (x : ℤ) : ℤ :=
  let u := x % 4294967296
  if 2147483648 ≤ u then u - 4294967296 else u

/-- `Math.imul(a, b)` -/
def imul (a b : ℤ) : ℤ := toInt32 (toInt32 a * toInt32 b)

/-- `a ^ b` -/
def bitXor (a b : ℤ) : ℤ := toInt32 ((toUint32 a ^^^ toUint32 b : ℕ) : ℤ)

/-- `a | b` -/
def bitOr (a b : ℤ) : ℤ := toInt32 ((toUint32 a ||| toUint32 b : ℕ) : ℤ)

/-- `a >>> k` -/
def ushr (a : ℤ) (k : ℕ) : ℤ := ((toUint32 a >>> k : ℕ) : ℤ)

/-- The spacing of representable numbers around `x ≥ 2^53`: the least `u = u0 * 2^i`
(`i ≤ fuel`) with `x / u < 2^53`. -/
def ulpFrom : ℕ → ℕ → ℕ → ℕ
  | 0, _, u => u
  | fuel + 1, x, u => if x / u < 9007199254740992 then u else ulpFrom fuel x (2 * u)

/-- The number a non-negative integer is stored as: itself below `2^53`, otherwise the nearest
multiple of the spacing, a tie going to the even multiple.  (The range of the format,
`2^1024`, is never approached by the program.) -/
def roundDouble (x : ℕ) : ℕ :=
  if x < 9007199254740992 then x
  else
    let u := ulpFrom 1024 x 1
    let q := x / u
    let r := x % u
    if 2 * r < u then q * u
    else if u < 2 * r then (q + 1) * u
    else if q % 2 = 0 then q * u else (q + 1) * u

/-- The initial state of `mulberry32(seed)`: `let t = seed >>> 0`. -/
def mulberryInit (seed : ℤ) : ℕ := toUint32 seed

/-- The state update of one call: `t += 0x6d2b79f5` (a number addition, not truncated). -/
def mulberryAdvance (t : ℕ) : ℕ := roundDouble (t + 1831565813)

/-- The 32-bit output computed from the updated state `t`:
`r = imul(t ^ (t >>> 15), t | 1); r ^= r + imul(r ^ (r >>> 7), r | 61);
(r ^ (r >>> 14)) >>> 0`. -/
def mulberryMix (t : ℤ) : ℕ :=
  let r := imul (bitXor t (ushr t 15)) (bitOr t 1)
  let r := bitXor r (r + imul (bitXor r (ushr r 7)) (bitOr r 61))
  toUint32 (bitXor r (ushr r 14))

/-- One call of the closure returned by `mulberry32`: the new state and the integer `v`
such that the call returns `v / 4294967296`. -/
def mulberryStep (t : ℕ) : ℕ × ℕ :=
  let t1 := mulberryAdvance t
  (t1, mulberryMix (t1 : ℤ))

/-- The state after `n` calls of `mulberry32(seed)`. -/
def mulberryState (seed : ℤ) : ℕ → ℕ
  | 0 => mulberryInit seed
  | n + 1 => mulberryAdvance (mulberryState seed n)

/-- The integer numerator of the value returned by call number `n + 1` of `mulberry32(seed)`. -/
def mulberryOut (seed : ℤ) (n : ℕ) : ℕ := (mulberryStep (mulberryState seed n)).2

/-- The value returned by call number `n + 1` of `mulberry32(seed)`. -/
def mulberryValue (α : Type) [LinearOrderedField α] (seed : ℤ) (n : ℕ) : α :=
  (mulberryOut seed n : α) / 4294967296

/-- The variant whose state is wrapped to 32 unsigned bits after each increment. -/
def wrappedState (seed : ℤ) : ℕ → ℕ
  | 0 => toUint32 seed
  | n + 1 => (wrappedState seed n + 1831565813) % 4294967296

/-- The output of call number `n + 1` of the wrapping variant. -/
def wrappedOut (seed : ℤ) (n : ℕ) : ℕ := mulberryMix (wrappedState seed (n + 1) : ℤ)

/-! ## Configuration -/

/-- The value of `settings.model`; `other` stands for any string that names no model. -/
inductive Model where
  | trochoidal | spectrum | basin | tsunami | other
  deriving DecidableEq

/-- The edge mode after `settings.basinEdge === 'fixed' ? 'fixed' : 'free'`. -/
inductive Edge where
  | free | fixed
  deriving DecidableEq

/-- The value of `settings.colorMode`; `depth` stands for any string other than `'mono'` and
`'phase'`. -/
inductive ColorMode where
  | mono | depth | phase
  deriving DecidableEq

/-- The `settings` record (`DEFAULT_SETTINGS` lists its fields). -/
structure Settings (α : Type) where
  model : Model
  amplitude : α
  wavelength : α
  speed : α
  steepness : α
  components : α
  minWavelength : α
  maxWavelength : α
  windDir : α
  spread : α
  seed : α
  basinModes : α
  basinDepth : α
  basinEdge : Edge
  crestWidth : α
  curl : α
  ripple : α
  colorMode : ColorMode
  hue : α
  hueRange : α
  saturation : α

/-- `DEFAULT_SETTINGS` -/
def DEFAULT_SETTINGS (α : Type) [LinearOrderedField α] : Settings α where
  model := Model.spectrum
  amplitude := 2.2
  wavelength := 3.2
  speed := 0.6
  steepness := 0.75
  components := 12
  minWavelength := 0.8
  maxWavelength := 5.5
  windDir := 20
  spread := 120
  seed := 1337
  basinModes := 28
  basinDepth := 2.2
  basinEdge := Edge.free
  crestWidth := 0.8
  curl := 0.7
  ripple := 0.12
  colorMode := ColorMode.mono
  hue := 200
  hueRange := 120
  saturation := 70

section Spectrum

variable {α : Type} [LinearOrderedField α] [FloorRing α]

/-- One call `rand()` of a generator in state `t`: the returned number and the new state. -/
def rand (α : Type) [LinearOrderedField α] (t : ℕ) : α × ℕ :=
  let s := mulberryStep t
  ((s.2 : α) / 4294967296, s.1)

/-- A spectrum component as pushed by the builder: `{ dirX0, dirZ0, k, w, weight, phase }`. -/
structure Wave (α : Type) where
  dirX0 : α
  dirZ0 : α
  k : α
  w : α
  weight : α
  phase : α

/-- The generation loop `for (let i = 0; i < count; i++) { ... waves.push(...) }`, with the
generator state threaded through the four `rand()` calls of each iteration. -/
def genWaves (M : JsMath α) (minWL maxWL spread : α) : ℕ → ℕ → List (Wave α)
  | 0, _ => []
  | count + 1, t0 =>
    let g : α := 9.81
    let r1 := rand α t0
    let lambda := minWL * M.pow (maxWL / minWL) r1.1
    let k := (M.PI * 2) / lambda
    let w := M.sqrt (g * k)
    let r2 := rand α r1.2
    let angleOffset := (r2.1 - 0.5) * spread * 2
    let dirX0 := M.cos angleOffset
    let dirZ0 := M.sin angleOffset
    let r3 := rand α r2.2
    let weight := (0.3 + 0.7 * r3.1) * M.pow (lambda / maxWL) 1.25
    let r4 := rand α r3.2
    let phase := r4.1 * M.PI * 2
    ⟨dirX0, dirZ0, k, w, weight, phase⟩ :: genWaves M minWL maxWL spread count r4.2

/-- The sum loop `let sum = 0; for (const wave of waves) sum += wave.weight`. -/
def weightSum (waves : List (Wave α)) : α := waves.foldl (fun sum wave => sum + wave.weight) 0

/-- The spectrum builder (the `spectrum` memo): `none` is `null`. -/
def spectrum (M : JsMath α) (settings : Settings α) : Option (List (Wave α)) :=
  if settings.model ≠ Model.spectrum then none
  else
    let count := jsRound (clamp settings.components 1 24)
    let minWL := clamp settings.minWavelength 0.4 12
    let maxWL := clamp settings.maxWavelength (minWL + 0.2) 12
    let spread := clamp settings.spread 0 180 * (M.PI / 180)
    let rand0 := mulberryInit ⌊orElse settings.seed 1⌋
    let waves := genWaves M minWL maxWL spread count.toNat rand0
    let norm := orElse (weightSum waves) 1
    some (waves.map fun wave =>
      ⟨wave.dirX0, wave.dirZ0, wave.k, wave.w, wave.weight / norm, wave.phase⟩)

/-- A component of the oriented spectrum: the component and its wind-rotated direction. -/
structure OrientedWave (α : Type) extends Wave α where
  dirX : α
  dirZ : α

/-- The wind angle in radians, `((settings.windDir % 360) * Math.PI) / 180`. -/
def windAngle (M : JsMath α) (settings : Settings α) : α :=
  (jsRem settings.windDir 360 * M.PI) / 180

/-- The `orientedSpectrum` memo. -/
def orientedSpectrum (M : JsMath α) (settings : Settings α) : Option (List (OrientedWave α)) :=
  match spectrum M settings with
  | none => none
  | some [] => some []
  | some waves =>
    let wind := windAngle M settings
    let c := M.cos wind
    let s := M.sin wind
    some (waves.map fun wave =>
      ⟨wave, wave.dirX0 * c - wave.dirZ0 * s, wave.dirX0 * s + wave.dirZ0 * c⟩)

end Spectrum

/-! ## The basin solver -/

section Basin

variable {α : Type} [LinearOrderedField α] [FloorRing α]

/-- `for (let i = 0; i < n; i++) body`, the loop state passed explicitly. -/
def forRange {σ : Type} (n : ℕ) (body : ℕ → σ → σ) (init : σ) : σ :=
  (List.range n).foldl (fun s i => body i s) init

/-- `field[idx] = v` -/
def setAt (g : Grid α) (idx : ℤ) (v : α) : Grid α := fun k => if k = idx then v else g k

/-- `field[idx] += v` -/
def addAt (g : Grid α) (idx : ℤ) (v : α) : Grid α := setAt g idx (g idx + v)

/-- The key of a simulation, `n|half|edge|seed|depthBase.toFixed(2)`; the two-decimal text of the
depth is represented by the integer number of hundredths it shows. -/
abbrev BasinKey (α : Type) := ℕ × α × Edge × ℤ × ℤ

/-- The record held by `basinSimRef.current`. -/
structure BasinSim (α : Type) where
  key : BasinKey α
  n : ℕ
  half : α
  dx : α
  prev : Grid α
  curr : Grid α
  next : Grid α
  c2 : Grid α
  solid : ℤ → Bool
  edge : Edge
  time : α
  rand : ℕ
  paddleProfile : Grid α
  maxC : α

/-- The grid size `n` of the basin. -/
def basinN : ℕ := 96

/-- The half-extent `half` of the basin. -/
def basinHalf (α : Type) [LinearOrderedField α] : α := 3.5

/-- The clamped wave-speed-squared `h` of cell `(i, j)` in the depth loop. -/
def depthCell (M : JsMath α) (depthBase half L : α) (n i j : ℕ) : α :=
  let z := ((j : α) / ((n : α) - 1) - 0.5) * L
  let x := ((i : α) / ((n : α) - 1) - 0.5) * L
  let r := clamp (hypot M x z / half) 0 1
  let bowl := 0.35 + 0.65 * (1 - r * r)
  let sandbar :=
    1 -
      0.12 * M.exp (-((x + 1.1) * (x + 1.1) + (z - 0.9) * (z - 0.9)) / 0.8) -
      0.09 * M.exp (-((x - 1.4) * (x - 1.4) + (z + 1.0) * (z + 1.0)) / 1.1)
  clamp (depthBase * bowl * sandbar) 0.15 12

/-- The depth loop: fills `c2` and tracks `maxC`. -/
def depthField (M : JsMath α) (depthBase half L : α) (n : ℕ) : Grid α × α :=
  forRange n (fun j st =>
    forRange n (fun i st =>
      let h := depthCell M depthBase half L n i j
      let c := M.sqrt h
      let idx : ℤ := (j : ℤ) * n + i
      (setAt st.1 idx h, if c > st.2 then c else st.2)) st) (fun _ => 0, 0)

/-- One initial impulse; the state is `(curr, prev, rand)`. -/
def impulse (n : ℕ) (st : Grid α × Grid α × ℕ) : Grid α × Grid α × ℕ :=
  let r1 := rand α st.2.2
  let i0 : ℤ := ⌊(n : α) * (0.25 + 0.5 * r1.1)⌋
  let r2 := rand α r1.2
  let j0 : ℤ := ⌊(n : α) * (0.25 + 0.5 * r2.1)⌋
  let idx := j0 * n + i0
  let r3 := rand α r2.2
  let curr := setAt st.1 idx (0.5 * (0.4 + 0.6 * r3.1))
  let prev := setAt st.2.1 idx (-curr idx * 0.6)
  (curr, prev, r3.2)

/-- The `seed` of the basin, `Math.floor(settings.seed || 1)`. -/
def basinSeed (settings : Settings α) : ℤ := ⌊orElse settings.seed 1⌋

/-- The clamped depth, `clamp(settings.basinDepth, 0.2, 10)`. -/
def depthBase (settings : Settings α) : α := clamp settings.basinDepth 0.2 10

/-- The key computed from the settings of the frame. -/
def basinKey (settings : Settings α) : BasinKey α :=
  (basinN, basinHalf α, settings.basinEdge, basinSeed settings, jsRound (depthBase settings * 100))

/-- Creation of the simulation (the body of `if (!basinSimRef.current || key differs)`). -/
def basinCreate (M : JsMath α) (settings : Settings α) : BasinSim α :=
  let n := basinN
  let half := basinHalf α
  let L := half * 2
  let dx := L / ((n : α) - 1)
  let rand0 := mulberryInit (basinSeed settings)
  let paddleProfile : Grid α :=
    forRange n (fun j g => setAt g j (M.pow (M.sin (M.PI * ((j : α) / ((n : α) - 1)))) 2))
      (fun _ => 0)
  let field := depthField M (depthBase settings) half L n
  let st := forRange 6 (fun _ st => impulse n st) ((fun _ => 0), (fun _ => 0), rand0)
  { key := basinKey settings, n := n, half := half, dx := dx, prev := st.2.1, curr := st.1,
    next := fun _ => 0, c2 := field.1, solid := fun _ => false, edge := settings.basinEdge,
    time := 0, rand := st.2.2, paddleProfile := paddleProfile, maxC := field.2 }

/-- The leapfrog update of cell `(i, j)` (the body of the inner loop). -/
def leapfrogCell (sim : BasinSim α) (gdt factor : α) (j i : ℕ) (next : Grid α) : Grid α :=
  let n0 : ℤ := sim.n
  let row : ℤ := j * n0
  let isTop : Bool := decide ((j : ℤ) = 0)
  let isBottom : Bool := decide ((j : ℤ) = n0 - 1)
  let idx : ℤ := row + i
  if sim.solid idx then setAt next idx 0
  else
    let center := sim.curr idx
    let leftIdx : ℤ := if (i : ℤ) > 0 then idx - 1 else -1
    let rightIdx : ℤ := if (i : ℤ) < n0 - 1 then idx + 1 else -1
    let downIdx : ℤ := if !isTop then idx - n0 else -1
    let upIdx : ℤ := if !isBottom then idx + n0 else -1
    let edgeValue := if sim.edge = Edge.fixed then 0 else center
    let left := if leftIdx ≥ 0 ∧ sim.solid leftIdx = false then sim.curr leftIdx else edgeValue
    let right := if rightIdx ≥ 0 ∧ sim.solid rightIdx = false then sim.curr rightIdx else edgeValue
    let down := if downIdx ≥ 0 ∧ sim.solid downIdx = false then sim.curr downIdx else edgeValue
    let up := if upIdx ≥ 0 ∧ sim.solid upIdx = false then sim.curr upIdx else edgeValue
    let lap := left + right + down + up - 4 * center
    setAt next idx ((2 - gdt) * center - (1 - gdt) * sim.prev idx + sim.c2 idx * factor * lap)

/-- The paddle source added to column `iPaddle = 1`. -/
def paddle (M : JsMath α) (sim : BasinSim α) (time paddleMag dt2 : α) (next : Grid α) : Grid α :=
  let n0 := sim.n
  let omega0 : α := 1.8
  let omega1 : α := 2.3
  let zCenter := M.sin (time * 0.22) * 1.6
  let sigmaZ : α := 1.3
  let drive := (M.sin (time * omega0) * 0.85 + M.sin (time * omega1 + 1.4) * 0.45) * paddleMag
  let iPaddle : ℤ := 1
  forRange n0 (fun j next =>
    let z := ((j : α) / ((n0 : α) - 1) - 0.5) * basinHalf α * 2
    let envelope := M.exp (-((z - zCenter) * (z - zCenter)) / (2 * sigmaZ * sigmaZ))
    let idx : ℤ := (j : ℤ) * n0 + iPaddle
    addAt next idx (drive * sim.paddleProfile j * envelope * dt2)) next

/-- One raindrop; the state is `(next, rand)`. -/
def raindrop (n0 : ℕ) (dropMag : α) (st : Grid α × ℕ) : Grid α × ℕ :=
  let r1 := rand α st.2
  let i : ℤ := 2 + ⌊r1.1 * ((n0 : α) - 4)⌋
  let r2 := rand α r1.2
  let j : ℤ := 2 + ⌊r2.1 * ((n0 : α) - 4)⌋
  let idx : ℤ := j * n0 + i
  let r3 := rand α r2.2
  let impulse := dropMag * (0.6 + 0.4 * r3.1)
  let next := addAt st.1 idx impulse
  let next := addAt next (idx - 1) (impulse * 0.45)
  let next := addAt next (idx + 1) (impulse * 0.45)
  let next := addAt next (idx - n0) (impulse * 0.45)
  let next := addAt next (idx + n0) (impulse * 0.45)
  let next := addAt next (idx - n0 - 1) (impulse * 0.22)
  let next := addAt next (idx - n0 + 1) (impulse * 0.22)
  let next := addAt next (idx + n0 - 1) (impulse * 0.22)
  let next := addAt next (idx + n0 + 1) (impulse * 0.22)
  (next, r3.2)

/-- The raindrops of one sub-step: their number and the splats; the state is `(next, rand)`. -/
def raindrops (n0 : ℕ) (dropRate dropMag dt : α) (st : Grid α × ℕ) : Grid α × ℕ :=
  let expected := dropRate * dt
  let drops0 : ℤ := ⌊expected⌋
  let r := rand α st.2
  let drops : ℤ := if r.1 < expected - (drops0 : α) then drops0 + 1 else drops0
  forRange drops.toNat (fun _ st => raindrop n0 dropMag st) (st.1, r.2)

/-- The two loops that zero the first and last row and the first and last column. -/
def zeroEdges (n0 : ℕ) (next : Grid α) : Grid α :=
  let next := forRange n0 (fun i g => setAt (setAt g (i : ℤ) 0) (((n0 : ℤ) - 1) * n0 + i) 0) next
  forRange n0 (fun j g => setAt (setAt g ((j : ℤ) * n0) 0) ((j : ℤ) * n0 + ((n0 : ℤ) - 1)) 0) next

/-- The pair `(meanSum, meanCount)` over the non-solid cells. -/
def meanStats (size0 : ℕ) (solid : ℤ → Bool) (next : Grid α) : α × α :=
  forRange size0 (fun idx st =>
    if solid idx then st else (st.1 + next idx, st.2 + 1)) (0, 0)

/-- The loop `sim.next[idx] -= mean` over the non-solid cells. -/
def subtractMean (size0 : ℕ) (solid : ℤ → Bool) (mean : α) (next : Grid α) : Grid α :=
  forRange size0 (fun idx g => if solid idx then g else addAt g idx (-mean)) next

/-- Mean removal: the part of the sub-step from `let meanSum = 0` to the end of `if (mean)`. -/
def removeMean (sim : BasinSim α) (next : Grid α) : Grid α :=
  let size0 := sim.n * sim.n
  let st := meanStats size0 sim.solid next
  let mean := if st.2 = 0 then 0 else st.1 / st.2
  if mean = 0 then next
  else
    let next := subtractMean size0 sim.solid mean next
    if sim.edge = Edge.fixed then zeroEdges sim.n next else next

/-- One solver sub-step (the body of `for (let step = 0; step < subSteps; step++)`). -/
def basinSubStep (M : JsMath α) (dt dropRate dropMag paddleMag : α) (sim : BasinSim α) :
    BasinSim α :=
  let dt2 := dt * dt
  let gamma : α := 0.85
  let time := sim.time + dt
  let gdt := gamma * dt
  let n0 := sim.n
  let size0 := n0 * n0
  let factor := dt2 / (sim.dx * sim.dx)
  let next := forRange size0 (fun idx g => setAt g idx 0) sim.next
  let next := forRange n0 (fun j g => forRange n0 (fun i g => leapfrogCell sim gdt factor j i g) g)
    next
  let next := paddle M sim time paddleMag dt2 next
  let st := raindrops n0 dropRate dropMag dt (next, sim.rand)
  let next := if sim.edge = Edge.fixed then zeroEdges n0 st.1 else st.1
  let next := removeMean sim next
  { sim with time := time, rand := st.2, prev := sim.curr, curr := next, next := sim.prev }

/-- `dtWanted = 0.045 * clamp(settings.speed, 0.05, 2.5)` -/
def dtWanted (settings : Settings α) : α := 0.045 * clamp settings.speed 0.05 2.5

/-- `dtMax = (0.65 * sim.dx) / Math.max(0.01, sim.maxC)` -/
def dtMax (sim : BasinSim α) : α := (0.65 * sim.dx) / max 0.01 sim.maxC

/-- `subSteps = Math.max(1, Math.min(10, Math.ceil(dtWanted / dtMax)))` -/
def subSteps (settings : Settings α) (sim : BasinSim α) : ℤ :=
  max 1 (min 10 ⌈dtWanted settings / dtMax sim⌉)

/-- `dt = dtWanted / subSteps` -/
def basinDt (settings : Settings α) (sim : BasinSim α) : α :=
  dtWanted settings / (subSteps settings sim : α)

/-- The simulation the frame works on: the stored one when its key matches, a new one
otherwise; `sim.edge = edge` is then assigned. -/
def basinEnsure (M : JsMath α) (settings : Settings α) (ref : Option (BasinSim α)) :
    BasinSim α :=
  let sim :=
    match ref with
    | none => basinCreate M settings
    | some sim => if sim.key ≠ basinKey settings then basinCreate M settings else sim
  { sim with edge := settings.basinEdge }

/-- The basin part of a frame (`if (settings.model === 'basin') { ... }`): the content of
`basinSimRef.current` after the frame. -/
def basinFrame (M : JsMath α) (settings : Settings α) (ref : Option (BasinSim α)) :
    Option (BasinSim α) :=
  if settings.model ≠ Model.basin then ref
  else
    let sim := basinEnsure M settings ref
    let dt := basinDt settings sim
    let forcing := clamp (settings.basinModes / 48) 0 1
    let dropRate := 1.5 + forcing * 10.5
    let dropMag := 0.6 + forcing * 1.8
    let paddleMag := 0.7 + forcing * 0.7
    some (forRange (subSteps settings sim).toNat
      (fun _ sim => basinSubStep M dt dropRate dropMag paddleMag sim) sim)

/-- The forcing parameters and step size a frame passes to a sub-step. -/
structure StepParams (α : Type) where
  dt : α
  dropRate : α
  dropMag : α
  paddleMag : α

/-- A run of sub-steps, each with the parameters of the frame it belongs to. -/
def basinRun (M : JsMath α) : List (StepParams α) → BasinSim α → BasinSim α
  | [], sim => sim
  | p :: ps, sim => basinRun M ps (basinSubStep M p.dt p.dropRate p.dropMag p.paddleMag sim)

/-- Every cell of the first and last row and of the first and last column of an `n x n` grid
is `0`. -/
def BorderZero (n : ℕ) (g : Grid α) : Prop :=
  ∀ k : ℕ, k < n →
    g (k : ℤ) = 0 ∧ g (((n : ℤ) - 1) * n + k) = 0 ∧
      g ((k : ℤ) * n) = 0 ∧ g ((k : ℤ) * n + ((n : ℤ) - 1)) = 0

end Basin

/-! ## The surface sampler -/

section Sampler

variable {α : Type} [LinearOrderedField α] [FloorRing α]

/-- The result `{ x, y, z, lum }` of `sampleWave`. -/
structure WaveSample (α : Type) where
  x : α
  y : α
  z : α
  lum : α

/-- A vector `{ x, y, z }`. -/
structure Vec3 (α : Type) where
  x : α
  y : α
  z : α

/-- `const light = { x: 0.3, y: 1, z: -0.4 }` -/
def light (α : Type) [LinearOrderedField α] : Vec3 α := ⟨0.3, 1, -0.4⟩

/-- `const amp = Math.max(0.001, settings.amplitude)` -/
def amp (settings : Settings α) : α := max 0.001 settings.amplitude

/-- `const k = (Math.PI * 2) / Math.max(0.5, settings.wavelength)` -/
def k (M : JsMath α) (settings : Settings α) : α := (M.PI * 2) / max 0.5 settings.wavelength

/-- The final shading step `Math.max(0, Math.min(1, L * 0.6 + foam + 0.08))`. -/
def lumOut (L foam : α) : α := max 0 (min 1 (L * 0.6 + foam + 0.08))

/-- The basin branch of `sampleWave`; the second component is the local `foam`. -/
def basinSample (M : JsMath α) (settings : Settings α) (sim : BasinSim α) (u v : α) :
    WaveSample α × α :=
  let eps : α := 0.055
  let y0 := sampleBilinear sim.curr sim.n sim.half u v
  let y := y0 * amp settings
  let hu := sampleBilinear sim.curr sim.n sim.half (u + eps) v * amp settings
  let hv := sampleBilinear sim.curr sim.n sim.half u (v + eps) * amp settings
  let dx := (hu - y) / eps
  let dz := (hv - y) / eps
  let nx := -dx
  let ny : α := 1
  let nz := -dz
  let nl := orElse (M.sqrt (nx * nx + ny * ny + nz * nz)) 1
  let L := (nx * (light α).x + ny * (light α).y + nz * (light α).z) / nl
  let slope := hypot M dx dz
  let foam := clamp ((slope - 0.75) * 0.28) 0 0.32
  (⟨u, y, v, lumOut L foam⟩, foam)

/-- The accumulators of the component loop of the spectrum branch. -/
structure SpectrumAcc (α : Type) where
  x : α
  z : α
  y : α
  dx_dx0 : α
  dx_dz0 : α
  dz_dx0 : α
  dz_dz0 : α
  dy_dx0 : α
  dy_dz0 : α

/-- The body of `for (const wave of orientedSpectrum)`; `x0`, `z0` are the sample point. -/
def spectrumAdd (M : JsMath α) (settings : Settings α) (t x0 z0 : α) (acc : SpectrumAcc α)
    (wave : OrientedWave α) : SpectrumAcc α :=
  let A := amp settings * wave.weight
  let phase := wave.k * (wave.dirX * x0 + wave.dirZ * z0) - wave.w * t * settings.speed + wave.phase
  let sinP := M.sin phase
  let cosP := M.cos phase
  let y := acc.y + A * sinP
  let QA := (settings.steepness * wave.weight) / wave.k
  let x := acc.x + wave.dirX * QA * cosP
  let z := acc.z + wave.dirZ * QA * cosP
  let common := QA * wave.k * sinP
  let dx_dx0 := acc.dx_dx0 - common * wave.dirX * wave.dirX
  let dx_dz0 := acc.dx_dz0 - common * wave.dirX * wave.dirZ
  let dz_dx0 := acc.dz_dx0 - common * wave.dirZ * wave.dirX
  let dz_dz0 := acc.dz_dz0 - common * wave.dirZ * wave.dirZ
  let dyCommon := A * wave.k * cosP
  let dy_dx0 := acc.dy_dx0 + dyCommon * wave.dirX
  let dy_dz0 := acc.dy_dz0 + dyCommon * wave.dirZ
  ⟨x, z, y, dx_dx0, dx_dz0, dz_dx0, dz_dz0, dy_dx0, dy_dz0⟩

/-- The spectrum branch of `sampleWave`; the second component is the local `foam`. -/
def spectrumSample (M : JsMath α) (settings : Settings α) (t : α)
    (waves : List (OrientedWave α)) (u v : α) : WaveSample α × α :=
  let x0 := u
  let z0 := v
  let acc := waves.foldl (spectrumAdd M settings t x0 z0) ⟨x0, z0, 0, 1, 0, 0, 1, 0, 0⟩
  let jac := acc.dx_dx0 * acc.dz_dz0 - acc.dx_dz0 * acc.dz_dx0
  let breakness := clamp ((0.55 - jac) * 2.2) 0 1
  let crestness := clamp (acc.y / (amp settings * 0.85)) 0 1
  let foam := breakness * crestness * 0.35
  let nx := acc.dy_dz0 * acc.dz_dx0 - acc.dz_dz0 * acc.dy_dx0
  let ny := acc.dz_dz0 * acc.dx_dx0 - acc.dx_dz0 * acc.dz_dx0
  let nz := acc.dx_dz0 * acc.dy_dx0 - acc.dy_dz0 * acc.dx_dx0
  let nl := orElse (M.sqrt (nx * nx + ny * ny + nz * nz)) 1
  let nxf := nx / nl
  let nyf := ny / nl
  let nzf := nz / nl
  let L := nxf * (light α).x + nyf * (light α).y + nzf * (light α).z
  (⟨acc.x, acc.y, acc.z, lumOut L foam⟩, foam)

/-- The trochoidal branch of `sampleWave`; the second component is the local `foam`. -/
def trochoidalSample (M : JsMath α) (settings : Settings α) (t u v : α) : WaveSample α × α :=
  let g : α := 9.81
  let w := M.sqrt (g * k M settings)
  let wind := windAngle M settings
  let dirX := M.cos wind
  let dirZ := M.sin wind
  let phase := k M settings * (dirX * u + dirZ * v) - w * t * settings.speed
  let sinP := M.sin phase
  let cosP := M.cos phase
  let QA := settings.steepness / k M settings
  let x := u + dirX * QA * cosP
  let z := v + dirZ * QA * cosP
  let y := amp settings * sinP
  let steepSin := settings.steepness * sinP
  let dx_dx0 := 1 - steepSin * dirX * dirX
  let dx_dz0 := -steepSin * dirX * dirZ
  let dz_dx0 := -steepSin * dirZ * dirX
  let dz_dz0 := 1 - steepSin * dirZ * dirZ
  let dy_dx0 := amp settings * k M settings * cosP * dirX
  let dy_dz0 := amp settings * k M settings * cosP * dirZ
  let jac := dx_dx0 * dz_dz0 - dx_dz0 * dz_dx0
  let foam := clamp ((0.55 - jac) * 2.2) 0 1 * clamp (y / (amp settings * 0.85)) 0 1 * 0.3
  let nx := dy_dz0 * dz_dx0 - dz_dz0 * dy_dx0
  let ny := dz_dz0 * dx_dx0 - dx_dz0 * dz_dx0
  let nz := dx_dz0 * dy_dx0 - dy_dz0 * dx_dx0
  let nl := orElse (M.sqrt (nx * nx + ny * ny + nz * nz)) 1
  let nxf := nx / nl
  let nyf := ny / nl
  let nzf := nz / nl
  let L := nxf * (light α).x + nyf * (light α).y + nzf * (light α).z
  (⟨x, y, z, lumOut L foam⟩, foam)

/-- The Jacobian determinant `jac` of the trochoidal branch of `sampleWave`. -/
def trochoidalJacobian (M : JsMath α) (settings : Settings α) (t u v : α) : α :=
  let g : α := 9.81
  let w := M.sqrt (g * k M settings)
  let wind := windAngle M settings
  let dirX := M.cos wind
  let dirZ := M.sin wind
  let phase := k M settings * (dirX * u + dirZ * v) - w * t * settings.speed
  let sinP := M.sin phase
  let steepSin := settings.steepness * sinP
  let dx_dx0 := 1 - steepSin * dirX * dirX
  let dx_dz0 := -steepSin * dirX * dirZ
  let dz_dx0 := -steepSin * dirZ * dirX
  let dz_dz0 := 1 - steepSin * dirZ * dirZ
  dx_dx0 * dz_dz0 - dx_dz0 * dz_dx0

/-- The record returned by the `tsunami` block. -/
structure Tsunami (α : Type) where
  dirX : α
  dirZ : α
  half : α
  period : α
  time : α
  center : α
  y : α → α → α
  baseline : α

/-- The height function `y(uu, vv)` of the tsunami block. -/
def tsunamiY (M : JsMath α) (settings : Settings α)
    (dirX dirZ period time center crestWidth curl ripple uu vv : α) : α :=
  let s := dirX * uu + dirZ * vv
  let q := -dirZ * uu + dirX * vv
  let d := wrapSigned (s - center) period
  let cw := crestWidth * 1.1
  let crest := amp settings * M.exp (-(d * d) * cw)
  let drawdown := -amp settings * 0.62 * M.exp (-((d + 1.45) * (d + 1.45)) * cw * 0.55)
  let curlFactor := max 0 (crest - amp settings * 0.52)
  let curlTerm := M.sin ((s + time) * 2.6 + 0.5) * curlFactor * curl
  let wakeGate := smoothstep 0.0 2.8 d
  let wakeTerm :=
    M.sin (s * 1.55 + time * 2.0) * (0.22 + 0.08 * curl) * wakeGate * M.exp (-(d * d) * 0.22)
  let crestMask := 1 - clamp (crest / (amp settings * 1.1)) 0 1
  let rippleTerm := M.sin (q * 2.45 + time * 1.65) * ripple * crestMask
  let texture :=
    (M.sin (uu * 5 + vv * 3 + time * 2) + M.sin (uu * 7 - vv * 4 + time * 2.8) * 0.6) * 0.04
  crest + drawdown + curlTerm + wakeTerm + rippleTerm + texture

/-- The `tsunami` block: `none` is `null`. -/
def tsunami (M : JsMath α) (settings : Settings α) (t : α) : Option (Tsunami α) :=
  if settings.model ≠ Model.tsunami then none
  else
    let wind := windAngle M settings
    let dirX := M.cos wind
    let dirZ := M.sin wind
    let absSum := max 0.25 (|dirX| + |dirZ|)
    let half : α := 3.5
    let period := 2 * half * absSum
    let time := t * settings.speed
    let center := wrapSigned (0.55 - time * 1.35) period
    let crestWidth := clamp settings.crestWidth 0.3 1.6
    let curl := clamp settings.curl 0 1.4
    let ripple := clamp settings.ripple 0 0.4
    let y := tsunamiY M settings dirX dirZ period time center crestWidth curl ripple
    let baselineCoords : List α := [-3, -1, 1, 3]
    let baselineSum := baselineCoords.foldl (fun sum uu =>
      baselineCoords.foldl (fun sum vv => sum + y uu vv) sum) 0
    let baseline := baselineSum / ((baselineCoords.length : α) * (baselineCoords.length : α))
    some ⟨dirX, dirZ, half, period, time, center, y, baseline⟩

/-- The tsunami branch of `sampleWave`; the second component is the local `foam`. -/
def tsunamiSample (M : JsMath α) (settings : Settings α) (ts : Tsunami α) (u v : α) :
    WaveSample α × α :=
  let y := ts.y u v - ts.baseline
  let eps : α := 0.05
  let hu := ts.y (u + eps) v - ts.baseline
  let hv := ts.y u (v + eps) - ts.baseline
  let dx := (hu - y) / eps
  let dz := (hv - y) / eps
  let slope := hypot M dx dz
  let crestness := clamp ((y - amp settings * 0.15) / (amp settings * 0.85)) 0 1
  let breaking := clamp ((slope - 0.85) * 0.75 + crestness * 1.15) 0 1
  let foam := breaking * 0.38
  let nx := -dx
  let ny : α := 1
  let nz := -dz
  let nl := orElse (M.sqrt (nx * nx + ny * ny + nz * nz)) 1
  let L := (nx * (light α).x + ny * (light α).y + nz * (light α).z) / nl
  (⟨u, y, v, lumOut L foam⟩, foam)

/-- `sampleWave(u, v)` in a frame with the given settings, time `t` and content `ref` of
`basinSimRef.current`. -/
def sampleWave (M : JsMath α) (settings : Settings α) (t : α) (ref : Option (BasinSim α))
    (u v : α) : WaveSample α :=
  match settings.model, ref, orientedSpectrum M settings, tsunami M settings t with
  | Model.basin, some sim, _, _ => (basinSample M settings sim u v).1
  | Model.spectrum, _, some (wave :: waves), _ =>
    (spectrumSample M settings t (wave :: waves) u v).1
  | Model.trochoidal, _, _, _ => (trochoidalSample M settings t u v).1
  | Model.tsunami, _, _, some ts => (tsunamiSample M settings ts u v).1
  | _, _, _, _ => ⟨u, 0, v, 0⟩

end Sampler

/-! ## The single-component closed form -/

section ClosedForm

variable {α : Type} [LinearOrderedField α] [FloorRing α]

/-- The single-component closed form in the words of the specification: at phase `theta` a
wave of wavenumber `kk`, direction `(dX, dZ)`, steepness `steepness` and amplitude `ampl`
places the point `(u, v)` at `x = u + dX*(steepness/kk)*cos(theta)`, `y = ampl*sin(theta)`,
`z = v + dZ*(steepness/kk)*cos(theta)`. -/
def closedFormPosition (M : JsMath α) (ampl steepness kk dX dZ theta u v : α) : α × α × α :=
  (u + dX * (steepness / kk) * M.cos theta, ampl * M.sin theta,
    v + dZ * (steepness / kk) * M.cos theta)

/-- The phase of the closed form, `theta = k*(d.u) - sqrt(9.81*k)*t*speed + phi`. -/
def closedFormPhase (M : JsMath α) (kk dX dZ phi speed t u v : α) : α :=
  kk * (dX * u + dZ * v) - M.sqrt (9.81 * kk) * t * speed + phi

/-- The spectrum component with the parameters of the trochoidal wave of the settings: the
wavenumber `k`, the wind direction, weight `1` and phase offset `0`. -/
def equivalentWave (M : JsMath α) (settings : Settings α) : OrientedWave α :=
  ⟨⟨M.cos (windAngle M settings), M.sin (windAngle M settings), k M settings,
      M.sqrt (9.81 * k M settings), 1, 0⟩,
    M.cos (windAngle M settings), M.sin (windAngle M settings)⟩

end ClosedForm

/-! ## The mean of the basin grid -/

section BasinMean

variable {α : Type} [LinearOrderedField α] [FloorRing α]

/-- The `next` grid of a sub-step at the point where the mean is taken (after the leapfrog
update, the paddle, the raindrops and, with fixed edges, the first zeroing of the border). -/
def forcedNext (M : JsMath α) (dt dropRate dropMag paddleMag : α) (sim : BasinSim α) : Grid α :=
  let dt2 := dt * dt
  let gamma : α := 0.85
  let time := sim.time + dt
  let gdt := gamma * dt
  let n0 := sim.n
  let size0 := n0 * n0
  let factor := dt2 / (sim.dx * sim.dx)
  let next := forRange size0 (fun idx g => setAt g idx 0) sim.next
  let next := forRange n0 (fun j g => forRange n0 (fun i g => leapfrogCell sim gdt factor j i g) g)
    next
  let next := paddle M sim time paddleMag dt2 next
  let st := raindrops n0 dropRate dropMag dt (next, sim.rand)
  if sim.edge = Edge.fixed then zeroEdges n0 st.1 else st.1

/-- The `next` grid of a sub-step after the leapfrog update, before the paddle and the
raindrops are added (the clearing loop and the two nested update loops). -/
def leapfrogPass (dt : α) (sim : BasinSim α) : Grid α :=
  let dt2 := dt * dt
  let gamma : α := 0.85
  let gdt := gamma * dt
  let n0 := sim.n
  let size0 := n0 * n0
  let factor := dt2 / (sim.dx * sim.dx)
  let next := forRange size0 (fun idx g => setAt g idx 0) sim.next
  forRange n0 (fun j g => forRange n0 (fun i g => leapfrogCell sim gdt factor j i g) g) next

/-- The value the update uses for the neighbour in column `i` and row `j` of a cell whose
current value is `center`, in the words of the specification: the current value of that cell
when it lies in the grid, otherwise `0` with fixed edges and `center` with free edges. -/
def neighbourValue (sim : BasinSim α) (center : α) (i j : ℤ) : α :=
  if 0 ≤ i ∧ i < sim.n ∧ 0 ≤ j ∧ j < sim.n then sim.curr (j * sim.n + i)
  else if sim.edge = Edge.fixed then 0 else center

/-- The 5-point Laplacian `left + right + down + up - 4 * curr` of the cell in column `i` and
row `j`, in the words of the specification. -/
def laplacian (sim : BasinSim α) (i j : ℤ) : α :=
  let center := sim.curr (j * sim.n + i)
  neighbourValue sim center (i - 1) j + neighbourValue sim center (i + 1) j
    + neighbourValue sim center i (j - 1) + neighbourValue sim center i (j + 1) - 4 * center

/-- The damped leapfrog update of the specification,
`(2 - 0.85*dt)*curr - (1 - 0.85*dt)*prev + c2*(dt^2/dx^2)*lap`. -/
def leapfrogValue (dt : α) (sim : BasinSim α) (i j : ℤ) : α :=
  (2 - 0.85 * dt) * sim.curr (j * sim.n + i) - (1 - 0.85 * dt) * sim.prev (j * sim.n + i)
    + sim.c2 (j * sim.n + i) * (dt * dt / (sim.dx * sim.dx)) * laplacian sim i j

/-- The `mean` of the mean-removal block: `meanCount ? meanSum / meanCount : 0`. -/
def gridMean (sim : BasinSim α) (next : Grid α) : α :=
  if (meanStats (sim.n * sim.n) sim.solid next).2 = 0 then 0
  else (meanStats (sim.n * sim.n) sim.solid next).1 / (meanStats (sim.n * sim.n) sim.solid next).2

/-- The index `k` is written by the loops that zero the border of an `n x n` grid. -/
def isBorder (n : ℕ) (k : ℤ) : Prop :=
  (∃ i : ℕ, i < n ∧ (k = (i : ℤ) ∨ k = ((n : ℤ) - 1) * n + i)) ∨
    ∃ j : ℕ, j < n ∧ (k = (j : ℤ) * n ∨ k = (j : ℤ) * n + ((n : ℤ) - 1))

instance isBorderDecidable (n : ℕ) (k : ℤ) : Decidable (isBorder n k) := by
  unfold isBorder
  infer_instance

/-- The number of cells of an `n x n` grid on its border. -/
def borderCount (n : ℕ) : ℕ :=
  ((Finset.range (n * n)).filter fun i : ℕ => isBorder n (i : ℤ)).card

/-- A rational stand-in for `Math`, for evaluations in which every call of a transcendental
function is multiplied by `0`. -/
def ratMath : JsMath ℚ := ⟨355 / 113, fun _ => 0, fun _ => 0, fun _ => 0, fun _ => 0, fun _ _ => 0⟩

/-- A `3 x 3` basin with fixed edges, unit spacing and wave speed, at rest except for a bump of
height `1` in the centre cell. -/
def bump3 : BasinSim ℚ :=
  { key := (3, 1, Edge.fixed, 1337, 100), n := 3, half := 1, dx := 1, prev := fun _ => 0,
    curr := fun idx => if idx = 4 then 1 else 0, next := fun _ => 0, c2 := fun _ => 1,
    solid := fun _ => false, edge := Edge.fixed, time := 0, rand := 1337,
    paddleProfile := fun _ => 1, maxC := 1 }

end BasinMean

/-! ## The rasteriser -/

section Rasteriser

variable {α : Type} [LinearOrderedField α] [FloorRing α]

/-- The three pixel buffers `zBuf`, `lum`, `heightBuf`. -/
structure PixelBuffers (α : Type) where
  zBuf : Grid α
  lum : Grid α
  heightBuf : Grid α

/-- The buffers after `zBuf.fill(0)`, `lum.fill(0)`, `heightBuf.fill(0)`. -/
def clearBuffers (α : Type) [LinearOrderedField α] : PixelBuffers α :=
  ⟨fun _ => 0, fun _ => 0, fun _ => 0⟩

/-- `const sampleStep = clamp(0.05 * Math.sqrt((baseW * 2) / Math.max(1, PW)), 0.03, 0.07)`
with `baseW = 90`. -/
def sampleStep (M : JsMath α) (PW : ℕ) : α :=
  clamp (0.05 * M.sqrt ((90 * 2) / max 1 (PW : α))) 0.03 0.07

/-- The rotation constants `cA`, `sA`, `cB`, `sB` of a frame. -/
structure Rotation (α : Type) where
  cA : α
  sA : α
  cB : α
  sB : α

/-- The rotation block: `B = sin(t*0.08)*0.35`, `cA = cos(0.4 + sin(t*0.2)*0.2)`, ... -/
def rotation (M : JsMath α) (t : α) : Rotation α :=
  let B := M.sin (t * 0.08) * 0.35
  ⟨M.cos (0.4 + M.sin (t * 0.2) * 0.2), M.sin (0.4 + M.sin (t * 0.2) * 0.2), M.cos B, M.sin B⟩

/-- The values taken by the variable of `for (let u = lo; u <= hi; u += step)`, in order;
`fuel` bounds the number of iterations. -/
def stepValues : ℕ → α → α → α → List α
  | 0, _, _, _ => []
  | fuel + 1, u, hi, step => if u ≤ hi then u :: stepValues fuel (u + step) hi step else []

/-- The coordinates visited by `for (let u = -3.5; u <= 3.5; u += sampleStep)`; the step is at
least `0.03`, so the loop ends within 234 iterations. -/
def sampleCoords (step : α) : List α := stepValues 234 (-3.5) 3.5 step

/-- What a surface sample asks of the pixel buffers: the pixel index, the inverse depth, the
luminance and the height; `none` when the sample is skipped (`depth <= 0.1`, or a pixel
outside the buffer). -/
def project (rot : Rotation α) (PW PH : ℕ) (s : WaveSample α) : Option (ℤ × α × α × α) :=
  let y1 := s.y * rot.cA - s.z * rot.sA
  let z1 := s.y * rot.sA + s.z * rot.cA
  let x2 := s.x * rot.cB + z1 * rot.sB
  let z2 := -s.x * rot.sB + z1 * rot.cB
  let y2 := y1
  let camDist : α := 7
  let depth := z2 + camDist
  if depth ≤ 0.1 then none
  else
    let fov : α := 75
    let scale := fov / depth
    let px : ℤ := ⌊(PW : α) / 2 + x2 * scale * 4⌋
    let py : ℤ := ⌊(PH : α) / 2 - y2 * scale * 4⌋
    if px ≥ 0 ∧ px < PW ∧ py ≥ 0 ∧ py < PH then
      let idx := py * PW + px
      let invZ := 1 / depth
      some (idx, invZ, s.lum, s.y)
    else none

/-- The `depth` of a sample, `z2 + camDist`. -/
def viewDepth (rot : Rotation α) (s : WaveSample α) : α :=
  -s.x * rot.sB + (s.y * rot.sA + s.z * rot.cA) * rot.cB + 7

/-- The pixel column `px` of a sample. -/
def pixelX (rot : Rotation α) (PW : ℕ) (s : WaveSample α) : ℤ :=
  ⌊(PW : α) / 2 + (s.x * rot.cB + (s.y * rot.sA + s.z * rot.cA) * rot.sB)
    * (75 / viewDepth rot s) * 4⌋

/-- The pixel row `py` of a sample. -/
def pixelY (rot : Rotation α) (PH : ℕ) (s : WaveSample α) : ℤ :=
  ⌊(PH : α) / 2 - (s.y * rot.cA - s.z * rot.sA) * (75 / viewDepth rot s) * 4⌋

/-- The inverse-depth test and the writes: `if (invZ > zBuf[idx]) { ... }`. -/
def depthWrite (buf : PixelBuffers α) : Option (ℤ × α × α × α) → PixelBuffers α
  | none => buf
  | some (idx, invZ, lumOut, y) =>
    if invZ > buf.zBuf idx then
      ⟨setAt buf.zBuf idx invZ, setAt buf.lum idx lumOut, setAt buf.heightBuf idx y⟩
    else buf

/-- The body of the sampling loops for the point `(u, v)`. -/
def plot (M : JsMath α) (settings : Settings α) (t : α) (ref : Option (BasinSim α))
    (rot : Rotation α) (PW PH : ℕ) (buf : PixelBuffers α) (uv : α × α) : PixelBuffers α :=
  depthWrite buf (project rot PW PH (sampleWave M settings t ref uv.1 uv.2))

/-- What the sample at the point `uv` asks of the pixel buffers. -/
def sampleRequest (M : JsMath α) (settings : Settings α) (t : α) (ref : Option (BasinSim α))
    (PW PH : ℕ) (uv : α × α) : Option (ℤ × α × α × α) :=
  project (rotation M t) PW PH (sampleWave M settings t ref uv.1 uv.2)

/-- The surface pass: the two nested sampling loops. -/
def surfacePass (M : JsMath α) (settings : Settings α) (t : α) (ref : Option (BasinSim α))
    (PW PH : ℕ) (buf : PixelBuffers α) : PixelBuffers α :=
  let rot := rotation M t
  let step := sampleStep M PW
  (sampleCoords step).foldl (fun buf u =>
    (sampleCoords step).foldl (fun buf v => plot M settings t ref rot PW PH buf (u, v)) buf) buf

/-- The sample points of the surface pass in iteration order. -/
def samplePoints (step : α) : List (α × α) :=
  (sampleCoords step).flatMap fun u => (sampleCoords step).map fun v => (u, v)

/-- One spray particle of the tsunami model (the body of `for (let i = 0; i < 90; i++)`). -/
def sprayParticle (M : JsMath α) (settings : Settings α) (t : α) (ts : Tsunami α)
    (rot : Rotation α) (PW PH : ℕ) (i : ℕ) (buf : PixelBuffers α) : PixelBuffers α :=
  let q := M.sin ((i : α) * 1.31) * 3.1
  let s := ts.center + M.sin ((i : α) * 0.73 + ts.time * 0.6) * 0.24
  let sx := ts.dirX * s - ts.dirZ * q + M.sin ((i : α) * 2.1) * 0.12
  let sz := ts.dirZ * s + ts.dirX * q + M.cos ((i : α) * 1.7) * 0.12
  let crest := ts.y sx sz - ts.baseline
  if crest > amp settings * 0.72 then
    let sy := crest + 0.25 + M.sin (ts.time * 10 + (i : α)) * 0.22
    let y1 := sy * rot.cA - sz * rot.sA
    let z1 := sy * rot.sA + sz * rot.cA
    let x2 := sx * rot.cB + z1 * rot.sB
    let z2 := -sx * rot.sB + z1 * rot.cB
    let y2 := y1
    let depth := z2 + 7
    if depth > 0.1 then
      let scale := 75 / depth
      let px : ℤ := ⌊(PW : α) / 2 + x2 * scale * 4⌋
      let py : ℤ := ⌊(PH : α) / 2 - y2 * scale * 4⌋
      if px ≥ 0 ∧ px < PW ∧ py ≥ 0 ∧ py < PH then
        if M.sin (t * 10 + (i : α) * 0.7) > 0 then
          let idx := py * PW + px
          ⟨setAt buf.zBuf idx 1, setAt buf.lum idx 1, setAt buf.heightBuf idx sy⟩
        else buf
      else buf
    else buf
  else buf

/-- The spray pass, run in the tsunami model only. -/
def sprayPass (M : JsMath α) (settings : Settings α) (t : α) (PW PH : ℕ)
    (buf : PixelBuffers α) : PixelBuffers α :=
  match settings.model, tsunami M settings t with
  | Model.tsunami, some ts =>
    forRange 90 (fun i buf => sprayParticle M settings t ts (rotation M t) PW PH i buf) buf
  | _, _ => buf

/-- The pixel buffers of a frame of `W x H` character cells (`PW = W * 2`, `PH = H * 4`). -/
def frameBuffers (M : JsMath α) (settings : Settings α) (t : α) (ref : Option (BasinSim α))
    (W H : ℕ) : PixelBuffers α :=
  sprayPass M settings t (W * 2) (H * 4)
    (surfacePass M settings t ref (W * 2) (H * 4) (clearBuffers α))

end Rasteriser

/-! ## The glyph encoder -/

section Encoder

variable {α : Type} [LinearOrderedField α] [FloorRing α]

/-- The character codes `patterns` of the nine density glyphs. -/
def patterns : List ℕ :=
  [0x2800, 0x2801, 0x2821, 0x2825, 0x282d, 0x282f, 0x286f, 0x28ef, 0x28ff]

/-- The character code of `blankChar`. -/
def blankChar : ℕ := 0x2800

/-- The code of `String.fromCharCode(patterns[level])`; an index outside the table gives
`undefined`, whose character code is `0`. -/
def patternChar (level : ℤ) : ℕ := if 0 ≤ level then patterns.getD level.toNat 0 else 0

/-- `const level = Math.min(8, Math.floor(avgLum * 9))` -/
def densityLevel (avgLum : α) : ℤ := min 8 ⌊avgLum * 9⌋

/-- A colour of the output: `'#f5f5f7'` or `hsl(hue saturation% lightness%)`. -/
inductive Color (α : Type) where
  | plain
  | hsl (hue saturation lightness : α)

/-- A colour key: `none` is the empty string, `some (hueQ, lightQ)` the text `hueQ|lightQ`. -/
abbrev ColorKey (α : Type) := Option (α × α)

/-- The `char`, `color` and `colorKey` computed for a character cell. -/
structure Cell (α : Type) where
  char : ℕ
  color : Color α
  colorKey : ColorKey α

/-- The indices of the `2 x 4` pixels of the cell `(cx, cy)`, in the order the loops visit
them. -/
def cellPixels (PW cx cy : ℕ) : List ℤ :=
  (List.range 4).flatMap fun dy => (List.range 2).map fun dx =>
    ((cy : ℤ) * 4 + dy) * PW + ((cx : ℤ) * 2 + dx)

/-- The accumulation loops of a cell: `(total, count, heightTotal)`. -/
def cellStats (buf : PixelBuffers α) (PW cx cy : ℕ) : α × α × α :=
  forRange 4 (fun dy st =>
    forRange 2 (fun dx st =>
      let idx : ℤ := ((cy : ℤ) * 4 + dy) * PW + ((cx : ℤ) * 2 + dx)
      if buf.zBuf idx > 0 then (st.1 + buf.lum idx, st.2.1 + 1, st.2.2 + buf.heightBuf idx)
      else st) st) (0, 0, 0)

/-- Those of the `2 x 4` pixels of the cell `(cx, cy)` whose stored inverse depth is above
`0`. -/
def cellHits (buf : PixelBuffers α) (PW cx cy : ℕ) : List ℤ :=
  (cellPixels PW cx cy).filter fun idx => buf.zBuf idx > 0

/-- `const saturation = clamp(Math.round(settings.saturation), 0, 100)` -/
def saturation (settings : Settings α) : α := clamp ((jsRound settings.saturation : ℤ) : α) 0 100

/-- `const hueShift = settings.colorMode === 'phase' ? t * 25 : 0` -/
def hueShift (settings : Settings α) (t : α) : α :=
  if settings.colorMode = ColorMode.phase then t * 25 else 0

/-- The quantised hue `hueQ` of a cell of average height `avgHeight`. -/
def hueQ (settings : Settings α) (t avgHeight : α) : α :=
  let hueStep : α := 12
  let heightNorm := clamp ((avgHeight + amp settings) / (2 * amp settings)) 0 1
  let hue := jsRem (settings.hue + heightNorm * settings.hueRange + hueShift settings t) 360
  jsRem (jsRem (((jsRound (hue / hueStep) : ℤ) : α) * hueStep) 360 + 360) 360

/-- The quantised lightness `lightQ` of a cell of average luminance `avgLum`. -/
def lightQ (avgLum : α) : α :=
  let lightStep : α := 6
  let lightness := clamp (15 + avgLum * 70) 8 90
  clamp (((jsRound (lightness / lightStep) : ℤ) : α) * lightStep) 0 100

/-- The glyph and colour of the cell `(cx, cy)` (the body of the `cx` loop up to the run
grouping). -/
def encodeCell (settings : Settings α) (t : α) (buf : PixelBuffers α) (PW cx cy : ℕ) : Cell α :=
  let st := cellStats buf PW cx cy
  let total := st.1
  let count := st.2.1
  let heightTotal := st.2.2
  let useColor := settings.colorMode ≠ ColorMode.mono
  if count > 0 then
    let avgLum := total / count
    let level := densityLevel avgLum
    let char := patternChar level
    if useColor then
      let avgHeight := heightTotal / count
      ⟨char, Color.hsl (hueQ settings t avgHeight) (saturation settings) (lightQ avgLum),
        some (hueQ settings t avgHeight, lightQ avgLum)⟩
    else ⟨char, Color.plain, none⟩
  else ⟨blankChar, Color.plain, none⟩

/-- An emitted `<span>`: its React key `r-row-index`, its colour and its text. -/
structure Span (α : Type) where
  row : ℕ
  index : ℕ
  color : Color α
  text : List ℕ

/-- The variables of the run grouping and the spans pushed so far. -/
structure RunState (α : Type) where
  runColorKey : ColorKey α
  runColor : Color α
  runText : List ℕ
  runIndex : ℕ
  coloredOutput : List (Span α)

/-- The run grouping of one cell in colour mode. -/
def runStep (cy : ℕ) (st : RunState α) (cell : Cell α) : RunState α :=
  if cell.colorKey ≠ st.runColorKey then
    let st1 : RunState α :=
      if st.runText ≠ [] then
        { st with
          coloredOutput := st.coloredOutput ++ [⟨cy, st.runIndex, st.runColor, st.runText⟩],
          runIndex := st.runIndex + 1 }
      else st
    { st1 with runColorKey := cell.colorKey, runColor := cell.color, runText := [cell.char] }
  else { st with runText := st.runText ++ [cell.char] }

/-- The code of the newline character. -/
def newline : ℕ := 10

/-- A row in colour mode: the spans pushed so far, extended by those of the row. -/
def encodeRowColor (cy : ℕ) (cells : List (Cell α)) (out : List (Span α)) : List (Span α) :=
  let st := cells.foldl (runStep cy) ⟨none, Color.plain, [], 0, out⟩
  st.coloredOutput ++ [⟨cy, st.runIndex, st.runColor, st.runText ++ [newline]⟩]

/-- A row in mono mode: the text so far, extended by the glyphs of the row and a newline. -/
def encodeRowMono (cells : List (Cell α)) (output : List ℕ) : List ℕ :=
  cells.foldl (fun output cell => output ++ [cell.char]) output ++ [newline]

/-- The cells of row `cy`, in the order of the `cx` loop. -/
def rowCells (settings : Settings α) (t : α) (buf : PixelBuffers α) (W cy : ℕ) :
    List (Cell α) :=
  (List.range W).map fun cx => encodeCell settings t buf (W * 2) cx cy

/-- What the frame hands to the `<pre>` element: the text in mono mode, the spans otherwise. -/
inductive Output (α : Type) where
  | mono (output : List ℕ)
  | colored (coloredOutput : List (Span α))

/-- The glyph encoder over the pixel buffers of a frame. -/
def encode (settings : Settings α) (t : α) (buf : PixelBuffers α) (W H : ℕ) : Output α :=
  if settings.colorMode ≠ ColorMode.mono then
    Output.colored
      (forRange H (fun cy out => encodeRowColor cy (rowCells settings t buf W cy) out) [])
  else
    Output.mono (forRange H (fun cy output => encodeRowMono (rowCells settings t buf W cy) output) [])

/-- A frame: sampling, rasterisation and encoding for `W x H` character cells. -/
def renderFrame (M : JsMath α) (settings : Settings α) (t : α) (ref : Option (BasinSim α))
    (W H : ℕ) : Output α :=
  encode settings t (frameBuffers M settings t ref W H) W H

/-- The dots of a Braille glyph: the positions `0..7` of the bits set in the offset of its
code from `0x2800`. -/
def glyphDots (code : ℕ) : List ℕ := (List.range 8).filter fun b => (code - 0x2800).testBit b

/-! ### Maximal runs, in the words of the specification -/

/-- The maximal runs of consecutive cells with equal colour keys: the cells of a row cut at
every position where the colour key changes. -/
def groupRuns : List (Cell α) → List (List (Cell α))
  | [] => []
  | [c] => [[c]]
  | c :: d :: cs =>
    if c.colorKey = d.colorKey then
      match groupRuns (d :: cs) with
      | r :: rs => (c :: r) :: rs
      | [] => [[c]]
    else [c] :: groupRuns (d :: cs)

/-- The number of positions of a row where the colour key differs from that of the cell
before. -/
def keyChanges : List (Cell α) → ℕ
  | [] => 0
  | [_] => 0
  | c :: d :: cs => (if c.colorKey = d.colorKey then 0 else 1) + keyChanges (d :: cs)

/-- The runs of a row: its maximal runs, or one empty run for a row without cells. -/
def rowRuns : List (Cell α) → List (List (Cell α))
  | [] => [[]]
  | c :: cs => groupRuns (c :: cs)

/-- The colour of a run: that of its first cell. -/
def runColorOf : List (Cell α) → Color α
  | [] => Color.plain
  | c :: _ => c.color

/-- The spans that present the runs of row `cy`, numbered from `i`: one span per run, with the
colour of the run and the glyphs of its cells, the last one closed by a newline. -/
def spansOfRuns (cy : ℕ) : ℕ → List (List (Cell α)) → List (Span α)
  | _, [] => []
  | i, [r] => [⟨cy, i, runColorOf r, r.map Cell.char ++ [newline]⟩]
  | i, r :: s :: rs => ⟨cy, i, runColorOf r, r.map Cell.char⟩ :: spansOfRuns cy (i + 1) (s :: rs)

end Encoder

/-! ## Binary floating-point rounding -/

/-- The number of binary digits of `n`, counted with `fuel` halvings at most. -/
def bitsGo : ℕ → ℕ → ℕ
  | 0, _ => 0
  | fuel + 1, n => if n = 0 then 0 else bitsGo fuel (n / 2) + 1

/-- The number of binary digits of `n`: `0` for `0`, and `b` with `2^(b-1) ≤ n < 2^b`
otherwise. -/
def bitLength (n : ℕ) : ℕ := bitsGo n n

/-- The power `2^e` of an integer exponent as a rational. -/
def pow2 (e : ℤ) : ℚ :=
  if 0 ≤ e then ((2 ^ e.toNat : ℕ) : ℚ) else 1 / ((2 ^ (-e).toNat : ℕ) : ℚ)

/-- The binary exponent of a positive rational `q`: the integer `e` with
`2^e ≤ q < 2^(e+1)`. -/
def expo (q : ℚ) : ℤ :=
  let e0 : ℤ := (bitLength q.num.natAbs : ℤ) - (bitLength q.den : ℤ)
  if pow2 e0 ≤ q then e0 else e0 - 1

/-- Rounding to the nearest integer, a tie going to the even neighbour. -/
def rne (x : ℚ) : ℤ :=
  let f := ⌊x⌋
  if x - f < 1 / 2 then f
  else if 1 / 2 < x - f then f + 1
  else if f % 2 = 0 then f else f + 1

/-- A positive rational rounded to `prec` significant binary digits: the nearest multiple of
`2^(e - prec + 1)`, where `e` is the binary exponent, a tie going to the even multiple. -/
def roundPos (prec : ℕ) (q : ℚ) : ℚ :=
  let u := pow2 (expo q - ((prec : ℤ) - 1))
  (rne (q / u) : ℚ) * u

/-- Rounding to the nearest number of `prec` significant binary digits, ties to even, the
rounding of IEEE 754 arithmetic.  The exponent is not bounded: this is the rounding of the
format for results between its underflow and overflow thresholds. -/
def roundTo (prec : ℕ) (q : ℚ) : ℚ :=
  if q = 0 then 0 else if 0 < q then roundPos prec q else -roundPos prec (-q)

/-- The rounding of an arithmetic operation on JavaScript numbers (binary64: 53 significant
digits). -/
def round64 (q : ℚ) : ℚ := roundTo 53 q

/-- The rounding of a store into a `Float32Array` (binary32: 24 significant digits). -/
def round32 (q : ℚ) : ℚ := roundTo 24 q

section Rounded

variable {α : Type} [LinearOrderedField α] [FloorRing α]

/-- `mod(value, period)` with the result of each arithmetic operation rounded by `fl`.  The
remainder `value % period` of two numbers of the format is a number of the format, so the
operator `%` does not round. -/
def modR (fl : α → α) (value period : α) : α :=
  if period = 0 then 0
  else
    let x := jsRem value period
    if x < 0 then fl (x + period) else x

/-- `wrapSigned(value, period)` with the result of each arithmetic operation rounded by
`fl`. -/
def wrapSignedR (fl : α → α) (value period : α) : α :=
  fl (modR fl (fl (value + fl (period / 2))) period - fl (period / 2))

/-- The period and the centre of the `tsunami` block, in this order, with the result of each
arithmetic operation rounded by `fl`; `Math.cos` and `Math.sin` return numbers of the
format. -/
def tsunamiCenterR (fl : α → α) (M : JsMath α) (settings : Settings α) (t : α) : α × α :=
  let wind := fl (fl (jsRem settings.windDir 360 * M.PI) / 180)
  let dirX := M.cos wind
  let dirZ := M.sin wind
  let absSum := max (fl 0.25) (fl (|dirX| + |dirZ|))
  let half : α := fl 3.5
  let period := fl (fl (2 * half) * absSum)
  let time := fl (t * settings.speed)
  let center := wrapSignedR fl (fl (fl 0.55 - fl (time * fl 1.35))) period
  (period, center)

/-- The four indices and the two weights of one call of `sampleBilinear`. -/
structure BilinearTrace (α : Type) where
  i00 : ℤ
  i10 : ℤ
  i01 : ℤ
  i11 : ℤ
  tx : α
  tz : α

/-- A read `field[i]` of a typed array, `none` standing for the `undefined` of an index
outside the array. -/
def readAt (field : List α) (i : ℤ) : Option α :=
  if 0 ≤ i then field.get? i.toNat else none

/-- The indices `i00`, `i10`, `i01`, `i11` and the weights `tx`, `tz` that
`sampleBilinear(field, n, half, x, z)` computes, the result of each arithmetic operation being
rounded by `fl`.  The integer-valued operations (`n - 1`, `x0 + 1`, `z0 * n + x0`) are
exact. -/
def bilinearTrace (fl : α → α) (n : ℕ) (half x z : α) : BilinearTrace α :=
  let L := fl (half * 2)
  let fx := clamp (fl (fl (fl (x + half) / L) * ((n : α) - 1))) 0 ((n : α) - 1)
  let fz := clamp (fl (fl (fl (z + half) / L) * ((n : α) - 1))) 0 ((n : α) - 1)
  let x0 : ℤ := ⌊fx⌋
  let z0 : ℤ := ⌊fz⌋
  let x1 : ℤ := min (x0 + 1) ((n : ℤ) - 1)
  let z1 : ℤ := min (z0 + 1) ((n : ℤ) - 1)
  let tx := fl (fx - (x0 : α))
  let tz := fl (fz - (z0 : α))
  ⟨z0 * n + x0, z0 * n + x1, z1 * n + x0, z1 * n + x1, tx, tz⟩

/-- The blend `a * (1 - tz) + b * tz` of `a = v00 * (1 - tx) + v10 * tx` and
`b = v01 * (1 - tx) + v11 * tx`, the result of each operation being rounded by `fl`. -/
def bilinearBlend (fl : α → α) (v00 v10 v01 v11 tx tz : α) : α :=
  let a := fl (fl (v00 * fl (1 - tx)) + fl (v10 * tx))
  let b := fl (fl (v01 * fl (1 - tx)) + fl (v11 * tx))
  fl (fl (a * fl (1 - tz)) + fl (b * tz))

/-- `sampleBilinear(field, n, half, x, z)` on an array, the result of each arithmetic operation
being rounded by `fl`; `none` when one of the four reads falls outside the array. -/
def sampleBilinearR (fl : α → α) (field : List α) (n : ℕ) (half x z : α) : Option α :=
  let c := bilinearTrace fl n half x z
  match readAt field c.i00, readAt field c.i10, readAt field c.i01, readAt field c.i11 with
  | some v00, some v10, some v01, some v11 =>
    some (bilinearBlend fl v00 v10 v01 v11 c.tx c.tz)
  | _, _, _, _ => none

/-- The coordinate `-half + i * (2 * half) / (n - 1)` of node `i`, the result of each
arithmetic operation being rounded by `fl`. -/
def nodeCoordR (fl : α → α) (n : ℕ) (half : α) (i : ℕ) : α :=
  fl (-half + fl (fl ((i : α) * fl (2 * half)) / ((n : α) - 1)))

/-- The array as the total function `sampleBilinear` reads it through. -/
def gridOf (field : List α) : Grid α := fun i => (readAt field i).getD 0

/-- `dtWanted = 0.045 * clamp(settings.speed, 0.05, 2.5)`, the product rounded by `fl` and
the decimal constants read as numbers of the format. -/
def dtWantedR (fl : α → α) (settings : Settings α) : α :=
  fl (fl 0.045 * clamp settings.speed (fl 0.05) (fl 2.5))

/-- `dtMax = (0.65 * sim.dx) / Math.max(0.01, sim.maxC)` with the result of each operation
rounded by `fl`. -/
def dtMaxR (fl : α → α) (sim : BasinSim α) : α :=
  fl (fl (fl 0.65 * sim.dx) / max (fl 0.01) sim.maxC)

/-- `subSteps = Math.max(1, Math.min(10, Math.ceil(dtWanted / dtMax)))` with the quotient
rounded by `fl`. -/
def subStepsR (fl : α → α) (settings : Settings α) (sim : BasinSim α) : ℤ :=
  max 1 (min 10 ⌈fl (dtWantedR fl settings / dtMaxR fl sim)⌉)

/-- `dt = dtWanted / subSteps` with the quotient rounded by `fl`. -/
def basinDtR (fl : α → α) (settings : Settings α) (sim : BasinSim α) : α :=
  fl (dtWantedR fl settings / (subStepsR fl settings sim : α))

/-- The value of `sim.time` after the sub-step loop of a frame: `sim.time += dt` is run
`subSteps` times, each sum being rounded by `fl`. -/
def frameTimeR (fl : α → α) (settings : Settings α) (sim : BasinSim α) : α :=
  forRange (subStepsR fl settings sim).toNat
    (fun _ time => fl (time + basinDtR fl settings sim)) sim.time

/-- The inverse-depth test and the writes `zBuf[idx] = invZ; lum[idx] = lumOut;
heightBuf[idx] = y` into `Float32Array` buffers: every stored value is rounded by `f32`, and
the test compares the number `invZ` with the stored, rounded value. -/
def depthWriteR (f32 : α → α) (buf : PixelBuffers α) :
    Option (ℤ × α × α × α) → PixelBuffers α
  | none => buf
  | some (idx, invZ, lumOut, y) =>
    if invZ > buf.zBuf idx then
      ⟨setAt buf.zBuf idx (f32 invZ), setAt buf.lum idx (f32 lumOut),
        setAt buf.heightBuf idx (f32 y)⟩
    else buf

/-- The values taken by the variable of `for (let u = lo; u <= hi; u += step)`, in order, the
sum `u + step` being rounded by `fl`; `fuel` bounds the number of iterations. -/
def stepValuesR (fl : α → α) : ℕ → α → α → α → List α
  | 0, _, _, _ => []
  | fuel + 1, u, hi, step =>
    if u ≤ hi then u :: stepValuesR fl fuel (fl (u + step)) hi step else []

/-- The coordinates visited by `for (let u = -3.5; u <= 3.5; u += sampleStep)` with the sums
rounded by `fl`. -/
def sampleCoordsR (fl : α → α) (step : α) : List α := stepValuesR fl 234 (-3.5) 3.5 step

/-- The sample points of the surface pass in iteration order, the loop variables being
advanced with the rounding `fl`. -/
def samplePointsR (fl : α → α) (step : α) : List (α × α) :=
  (sampleCoordsR fl step).flatMap fun u => (sampleCoordsR fl step).map fun v => (u, v)

/-- The surface pass on `Float32Array` buffers: the two nested sampling loops of step `step`
(the value of `sampleStep`), the loop variables advanced with the rounding `fl` and the
stores rounded by `f32`. -/
def surfacePassR (fl f32 : α → α) (M : JsMath α) (settings : Settings α) (t : α)
    (ref : Option (BasinSim α)) (PW PH : ℕ) (step : α) (buf : PixelBuffers α) :
    PixelBuffers α :=
  let rot := rotation M t
  (sampleCoordsR fl step).foldl (fun buf u =>
    (sampleCoordsR fl step).foldl (fun buf v =>
      depthWriteR f32 buf (project rot PW PH (sampleWave M settings t ref u v))) buf) buf

end Rounded

/-- A stand-in for the host functions over the rationals with the values of an angle `0`:
`sin = 0` and `cos = 1`. -/
def axisMath : JsMath ℚ := ⟨355 / 113, fun _ => 0, fun _ => 1, fun _ => 1, fun _ => 0, fun _ _ => 1⟩

/-! ## Numbers with infinities and `NaN` -/

/-- A JavaScript number with the special values: a finite number, an infinity with its sign
(`true` for the negative one), or `NaN`.  The sign of a zero is not represented. -/
inductive JsNum where
  | fin (q : ℚ)
  | inf (negative : Bool)
  | nan
  deriving DecidableEq

/-- The result of an arithmetic operation whose exact value is `q`: `q` rounded to binary64,
and an infinity when the rounded magnitude reaches `2^1024` (overflow). -/
def JsNum.ofRat (q : ℚ) : JsNum :=
  if pow2 1024 ≤ round64 q then JsNum.inf false
  else if round64 q ≤ -pow2 1024 then JsNum.inf true
  else JsNum.fin (round64 q)

/-- A decimal literal of the source, read as the nearest number. -/
def num (q : ℚ) : JsNum := JsNum.ofRat q

/-- The unary `-`. -/
def JsNum.neg : JsNum → JsNum
  | JsNum.fin q => JsNum.fin (-q)
  | JsNum.inf s => JsNum.inf (!s)
  | JsNum.nan => JsNum.nan

/-- The operator `+`: `NaN` propagates, and `Infinity + -Infinity` is `NaN`. -/
def JsNum.add : JsNum → JsNum → JsNum
  | JsNum.nan, _ => JsNum.nan
  | _, JsNum.nan => JsNum.nan
  | JsNum.inf a, JsNum.inf b => if a = b then JsNum.inf a else JsNum.nan
  | JsNum.inf a, JsNum.fin _ => JsNum.inf a
  | JsNum.fin _, JsNum.inf b => JsNum.inf b
  | JsNum.fin a, JsNum.fin b => JsNum.ofRat (a + b)

/-- The operator `*`: `NaN` propagates, and `Infinity * 0` is `NaN`. -/
def JsNum.mul : JsNum → JsNum → JsNum
  | JsNum.nan, _ => JsNum.nan
  | _, JsNum.nan => JsNum.nan
  | JsNum.inf a, JsNum.inf b => JsNum.inf (a != b)
  | JsNum.inf a, JsNum.fin q => if q = 0 then JsNum.nan else JsNum.inf (a != decide (q < 0))
  | JsNum.fin q, JsNum.inf b => if q = 0 then JsNum.nan else JsNum.inf (decide (q < 0) != b)
  | JsNum.fin a, JsNum.fin b => JsNum.ofRat (a * b)

/-- The operator `/`: `NaN` propagates, `Infinity / Infinity` and `0 / 0` are `NaN`. -/
def JsNum.div : JsNum → JsNum → JsNum
  | JsNum.nan, _ => JsNum.nan
  | _, JsNum.nan => JsNum.nan
  | JsNum.inf _, JsNum.inf _ => JsNum.nan
  | JsNum.inf a, JsNum.fin q => JsNum.inf (a != decide (q < 0))
  | JsNum.fin _, JsNum.inf _ => JsNum.fin 0
  | JsNum.fin a, JsNum.fin b =>
    if b = 0 then (if a = 0 then JsNum.nan else JsNum.inf (decide (a < 0)))
    else JsNum.ofRat (a / b)

/-- The operator `%`. -/
def JsNum.rem : JsNum → JsNum → JsNum
  | JsNum.fin a, JsNum.fin b => if b = 0 then JsNum.nan else JsNum.fin (jsRem a b)
  | JsNum.fin a, JsNum.inf _ => JsNum.fin a
  | _, _ => JsNum.nan

/-- `Math.max(a, b)`: `NaN` when an argument is `NaN`. -/
def JsNum.max : JsNum → JsNum → JsNum
  | JsNum.nan, _ => JsNum.nan
  | _, JsNum.nan => JsNum.nan
  | JsNum.inf false, _ => JsNum.inf false
  | _, JsNum.inf false => JsNum.inf false
  | JsNum.inf true, b => b
  | a, JsNum.inf true => a
  | JsNum.fin a, JsNum.fin b => JsNum.fin (if a ≤ b then b else a)

/-- `Math.min(a, b)`: `NaN` when an argument is `NaN`. -/
def JsNum.min : JsNum → JsNum → JsNum
  | JsNum.nan, _ => JsNum.nan
  | _, JsNum.nan => JsNum.nan
  | JsNum.inf true, _ => JsNum.inf true
  | _, JsNum.inf true => JsNum.inf true
  | JsNum.inf false, b => b
  | a, JsNum.inf false => a
  | JsNum.fin a, JsNum.fin b => JsNum.fin (if a ≤ b then a else b)

/-- `a || b` on numbers: `b` replaces an `a` that is `0` or `NaN`. -/
def JsNum.orElse (a b : JsNum) : JsNum :=
  match a with
  | JsNum.nan => b
  | JsNum.fin q => if q = 0 then b else a
  | JsNum.inf _ => a

/-- `clamp(value, min, max)`, that is `Math.max(min, Math.min(max, value))`. -/
def JsNum.clamp (value lo hi : JsNum) : JsNum := JsNum.max lo (JsNum.min hi value)

instance jsNumAdd : Add JsNum := ⟨JsNum.add⟩

instance jsNumSub : Sub JsNum := ⟨fun a b => JsNum.add a (JsNum.neg b)⟩

instance jsNumMul : Mul JsNum := ⟨JsNum.mul⟩

instance jsNumDiv : Div JsNum := ⟨JsNum.div⟩

instance jsNumNeg : Neg JsNum := ⟨JsNum.neg⟩

instance jsNumMod : Mod JsNum := ⟨JsNum.rem⟩

/-- `const amp = Math.max(0.001, settings.amplitude)` on numbers with infinities; the settings
are the configured values, read as the nearest numbers. -/
def ampJs (settings : Settings ℚ) : JsNum := JsNum.max (num 0.001) (num settings.amplitude)

/-- `const k = (Math.PI * 2) / Math.max(0.5, settings.wavelength)` on numbers with
infinities. -/
def kJs (M : JsMath JsNum) (settings : Settings ℚ) : JsNum :=
  (M.PI * num 2) / JsNum.max (num 0.5) (num settings.wavelength)

/-- The trochoidal branch of `sampleWave` on numbers with infinities and `NaN`. -/
def trochoidalJs (M : JsMath JsNum) (settings : Settings ℚ) (t u v : JsNum) :
    WaveSample JsNum :=
  let g := num 9.81
  let w := M.sqrt (g * kJs M settings)
  let wind := ((num settings.windDir % num 360) * M.PI) / num 180
  let dirX := M.cos wind
  let dirZ := M.sin wind
  let phase := kJs M settings * (dirX * u + dirZ * v) - w * t * num settings.speed
  let sinP := M.sin phase
  let cosP := M.cos phase
  let QA := num settings.steepness / kJs M settings
  let x := u + dirX * QA * cosP
  let z := v + dirZ * QA * cosP
  let y := ampJs settings * sinP
  let steepSin := num settings.steepness * sinP
  let dx_dx0 := num 1 - steepSin * dirX * dirX
  let dx_dz0 := -steepSin * dirX * dirZ
  let dz_dx0 := -steepSin * dirZ * dirX
  let dz_dz0 := num 1 - steepSin * dirZ * dirZ
  let dy_dx0 := ampJs settings * kJs M settings * cosP * dirX
  let dy_dz0 := ampJs settings * kJs M settings * cosP * dirZ
  let jac := dx_dx0 * dz_dz0 - dx_dz0 * dz_dx0
  let foam := JsNum.clamp ((num 0.55 - jac) * num 2.2) (num 0) (num 1)
    * JsNum.clamp (y / (ampJs settings * num 0.85)) (num 0) (num 1) * num 0.3
  let nx := dy_dz0 * dz_dx0 - dz_dz0 * dy_dx0
  let ny := dz_dz0 * dx_dx0 - dx_dz0 * dz_dx0
  let nz := dx_dz0 * dy_dx0 - dy_dz0 * dx_dx0
  let nl := JsNum.orElse (M.sqrt (nx * nx + ny * ny + nz * nz)) (num 1)
  let nxf := nx / nl
  let nyf := ny / nl
  let nzf := nz / nl
  let L := nxf * num 0.3 + nyf * num 1 + nzf * num (-0.4)
  let lumOut := JsNum.max (num 0) (JsNum.min (num 1) (L * num 0.6 + foam + num 0.08))
  ⟨x, y, z, lumOut⟩

/-- The number nearest to `π`, the value of `Math.PI`. -/
def piNumber : ℚ := 884279719003555 / 281474976710656

/-- Host functions on numbers with infinities that have the values of the real ones at the
arguments `0` and `NaN`: `sin 0 = 0`, `cos 0 = 1`, `exp 0 = 1`, and `NaN` for `NaN`; the square
root of a finite number is replaced by the finite value `1`. -/
def originMath : JsMath JsNum :=
  ⟨JsNum.fin piNumber,
    fun x => if x = JsNum.fin 0 then JsNum.fin 0 else JsNum.nan,
    fun x => if x = JsNum.fin 0 then JsNum.fin 1 else JsNum.nan,
    fun x => if x = JsNum.fin 0 then JsNum.fin 1 else JsNum.nan,
    fun x => match x with
      | JsNum.fin _ => JsNum.fin 1
      | _ => JsNum.nan,
    fun _ _ => JsNum.nan⟩

/-- The default settings with the trochoidal model, a wind along the first axis and the
amplitude `1.7e308`, a finite number. -/
def hugeAmplitude : Settings ℚ :=
  { DEFAULT_SETTINGS ℚ with
    model := Model.trochoidal, amplitude := ((17 * 10 ^ 307 : ℕ) : ℚ), windDir := 0 }

end Waves

/-! # Theorems -/

namespace Waves

section FieldLemmas

variable {α : Type} [LinearOrderedField α] [FloorRing α]

theorem clamp_ge (v lo hi : α) : lo ≤ clamp v lo hi := le_max_left _ _

theorem clamp_le (v lo hi : α) (h : lo ≤ hi) : clamp v lo hi ≤ hi :=
  max_le h (min_le_left _ _)

theorem clamp_of_mem (v lo hi : α) (h1 : lo ≤ v) (h2 : v ≤ hi) : clamp v lo hi = v := by
  unfold clamp
  rw [min_eq_right h2, max_eq_right h1]

/-- For a positive period `mod` returns a value in `[0, period)` that differs from its argument
by an integer multiple of the period. -/
theorem mod_spec (v p : α) (hp : 0 < p) :
    0 ≤ mod v p ∧ mod v p < p ∧ ∃ k : ℤ, mod v p = v - p * (k : α) := by
  have hp0 : p ≠ 0 := ne_of_gt hp
  unfold mod jsRem jsTrunc
  rw [if_neg hp0]
  by_cases hq : 0 ≤ v / p
  · rw [if_pos hq]
    have h1 : ((⌊v / p⌋ : ℤ) : α) ≤ v / p := Int.floor_le _
    have h2 : v / p < (⌊v / p⌋ : ℤ) + 1 := Int.lt_floor_add_one _
    rw [le_div_iff₀ hp] at h1
    rw [div_lt_iff₀ hp] at h2
    have h3 : ¬ (v - p * ((⌊v / p⌋ : ℤ) : α) < 0) := by
      rw [not_lt]; nlinarith
    simp only [h3, if_false]
    refine ⟨by nlinarith, by nlinarith, ⌊v / p⌋, rfl⟩
  · rw [if_neg hq]
    have h1 : v / p ≤ ((⌈v / p⌉ : ℤ) : α) := Int.le_ceil _
    have h2 : ((⌈v / p⌉ : ℤ) : α) < v / p + 1 := Int.ceil_lt_add_one _
    rw [div_le_iff₀ hp] at h1
    rw [← sub_lt_iff_lt_add, lt_div_iff₀ hp] at h2
    by_cases h3 : v - p * ((⌈v / p⌉ : ℤ) : α) < 0
    · simp only [h3, if_true]
      refine ⟨by nlinarith, by nlinarith, ⌈v / p⌉ - 1, ?_⟩
      push_cast; ring
    · simp only [h3, if_false]
      refine ⟨by linarith [not_lt.mp h3], by nlinarith, ⌈v / p⌉, rfl⟩

/-- Two values of `[0, p)` that differ by an integer multiple of `p` are equal. -/
theorem eq_of_range_of_congr (a b p : α) (hp : 0 < p) (ha : 0 ≤ a ∧ a < p)
    (hb : 0 ≤ b ∧ b < p) (k : ℤ) (h : a = b + p * (k : α)) : a = b := by
  have hk : k = 0 := by
    by_contra hne
    rcases lt_or_gt_of_ne hne with hlt | hgt
    · have : (k : α) ≤ -1 := by exact_mod_cast Int.le_sub_one_of_lt hlt
      nlinarith [ha.1, hb.2]
    · have : (1 : α) ≤ k := by exact_mod_cast Int.add_one_le_of_lt hgt
      nlinarith [ha.2, hb.1]
  rw [h, hk]; simp

/-- C6, in exact arithmetic: `wrapSigned` is periodic in its first argument: for every `x` and
every period `p > 0`, `wrapSigned(x + p, p) = wrapSigned(x, p)`. -/
theorem wrapSigned_periodic (x p : α) (hp : 0 < p) :
    wrapSigned (x + p) p = wrapSigned x p := by
  obtain ⟨a0, a1, ka, ha⟩ := mod_spec (x + p + p / 2) p hp
  obtain ⟨b0, b1, kb, hb⟩ := mod_spec (x + p / 2) p hp
  have key : mod (x + p + p / 2) p = mod (x + p / 2) p := by
    refine eq_of_range_of_congr _ _ p hp ⟨a0, a1⟩ ⟨b0, b1⟩ (1 + kb - ka) ?_
    rw [ha, hb]; push_cast; ring
  unfold wrapSigned
  rw [key]

/-- At a node the scaled coordinate is the node index. -/
theorem node_coord (n i : ℕ) (half : α) (hn : 2 ≤ n) (hh : 0 < half) (hi : i < n) :
    clamp ((((-half + (i : α) * (2 * half) / ((n : α) - 1)) + half) / (half * 2))
      * ((n : α) - 1)) 0 ((n : α) - 1) = (i : α) := by
  have hn1 : (0 : α) < (n : α) - 1 := by
    have : (2 : α) ≤ (n : α) := by exact_mod_cast hn
    linarith
  have hi1 : (i : α) ≤ (n : α) - 1 := by
    have : (i : α) + 1 ≤ (n : α) := by exact_mod_cast hi
    linarith
  have e : (((-half + (i : α) * (2 * half) / ((n : α) - 1)) + half) / (half * 2))
      * ((n : α) - 1) = (i : α) := by
    field_simp
    ring
  rw [e]
  exact clamp_of_mem _ _ _ (Nat.cast_nonneg i) hi1

/-- C7, in exact arithmetic: for every grid size `n ≥ 2`, half-extent `half > 0`, field and
node indices `i, j < n`, `sampleBilinear` evaluated at the coordinates of node `(i, j)`,
`x = -half + i*(2*half)/(n-1)`, `z = -half + j*(2*half)/(n-1)`, returns `field[j*n + i]`. -/
theorem sampleBilinear_node (field : Grid α) (n i j : ℕ) (half : α) (hn : 2 ≤ n)
    (hh : 0 < half) (hi : i < n) (hj : j < n) :
    sampleBilinear field n half (-half + (i : α) * (2 * half) / ((n : α) - 1))
      (-half + (j : α) * (2 * half) / ((n : α) - 1)) = field ((j : ℤ) * (n : ℤ) + (i : ℤ)) := by
  unfold sampleBilinear
  simp only [node_coord n i half hn hh hi, node_coord n j half hn hh hj]
  have fi : ⌊(i : α)⌋ = (i : ℤ) := by exact_mod_cast @Int.floor_natCast α _ _ i
  have fj : ⌊(j : α)⌋ = (j : ℤ) := by exact_mod_cast @Int.floor_natCast α _ _ j
  simp only [fi, fj, Int.cast_natCast, sub_self, mul_zero, add_zero, sub_zero, mul_one]

end FieldLemmas

/-- The witness of C6: `wrapSigned(7/2 + 2, 2) = wrapSigned(7/2, 2)`. -/
theorem wrapSigned_periodic_witness :
    (0 : ℚ) < 2 ∧ wrapSigned ((7 / 2 : ℚ) + 2) 2 = wrapSigned (7 / 2 : ℚ) 2 :=
  ⟨by norm_num, wrapSigned_periodic (7 / 2 : ℚ) 2 (by norm_num)⟩

/-- The witness of C7: a 3 x 3 field of half-extent 1 sampled at node `(1, 2)`. -/
theorem sampleBilinear_node_witness :
    sampleBilinear (fun k => (k : ℚ)) 3 1 (-1 + ((1 : ℕ) : ℚ) * (2 * 1) / (((3 : ℕ) : ℚ) - 1))
      (-1 + ((2 : ℕ) : ℚ) * (2 * 1) / (((3 : ℕ) : ℚ) - 1))
      = (fun k : ℤ => (k : ℚ)) (((2 : ℕ) : ℤ) * ((3 : ℕ) : ℤ) + ((1 : ℕ) : ℤ)) :=
  sampleBilinear_node (fun k => (k : ℚ)) 3 1 2 1 (by norm_num) (by norm_num) (by norm_num)
    (by norm_num)

/-! ## The generator -/

theorem toUint32_lt (x : ℤ) : toUint32 x < 4294967296 := by
  unfold toUint32
  have h := Int.emod_lt_of_pos x (by norm_num : (0 : ℤ) < 4294967296)
  have h0 := Int.emod_nonneg x (by norm_num : (4294967296 : ℤ) ≠ 0)
  omega

theorem toUint32_emod (x : ℤ) : toUint32 (x % 4294967296) = toUint32 x := by
  unfold toUint32
  rw [Int.emod_emod_of_dvd x (dvd_refl _)]

/-- The output depends on the state only through its residue modulo `2^32`. -/
theorem mulberryMix_emod (t : ℤ) : mulberryMix (t % 4294967296) = mulberryMix t := by
  unfold mulberryMix bitXor bitOr ushr
  simp only [toUint32_emod]

theorem roundDouble_small (x : ℕ) (h : x < 9007199254740992) : roundDouble x = x := by
  unfold roundDouble
  rw [if_pos h]

/-- While the counter stays below `2^53` it is the exact sum. -/
theorem mulberryState_exact (seed : ℤ) (n : ℕ)
    (h : toUint32 seed + n * 1831565813 < 9007199254740992) :
    mulberryState seed n = toUint32 seed + n * 1831565813 := by
  induction n with
  | zero => simp [mulberryState, mulberryInit]
  | succ k ih =>
    have hk : toUint32 seed + k * 1831565813 < 9007199254740992 := by omega
    rw [mulberryState, ih hk, mulberryAdvance, roundDouble_small _ (by omega)]
    ring

theorem wrappedState_eq (seed : ℤ) (n : ℕ) :
    wrappedState seed n = (toUint32 seed + n * 1831565813) % 4294967296 := by
  induction n with
  | zero =>
    have := toUint32_lt seed
    simp [wrappedState, Nat.mod_eq_of_lt this]
  | succ k ih =>
    rw [wrappedState, ih]
    omega

theorem mulberryOut_eq (seed : ℤ) (n : ℕ) :
    mulberryOut seed n = mulberryMix ((mulberryState seed (n + 1) : ℕ) : ℤ) := rfl

/-- C8: for every seed and every call index, the value returned by `mulberry32(seed)` is
`v / 2^32` for an integer `0 ≤ v < 2^32`, hence lies in `[0, 1)`. -/
theorem mulberry32_range (α : Type) [LinearOrderedField α] (seed : ℤ) (n : ℕ) :
    ∃ v : ℕ, v < 4294967296 ∧ mulberryValue α seed n = (v : α) / 4294967296 ∧
      0 ≤ mulberryValue α seed n ∧ mulberryValue α seed n < 1 := by
  have hv : mulberryOut seed n < 4294967296 := by
    unfold mulberryOut mulberryStep mulberryMix
    exact toUint32_lt _
  refine ⟨mulberryOut seed n, hv, rfl, ?_, ?_⟩
  · unfold mulberryValue
    positivity
  · unfold mulberryValue
    rw [div_lt_one (by norm_num)]
    exact_mod_cast hv

/-- As long as the untruncated counter is below `2^53`, the generator returns the outputs of
the variant that wraps its state to 32 bits. -/
theorem mulberryOut_eq_wrappedOut (seed : ℤ) (n : ℕ)
    (h : toUint32 seed + (n + 1) * 1831565813 < 9007199254740992) :
    mulberryOut seed n = wrappedOut seed n := by
  rw [mulberryOut_eq, mulberryState_exact seed (n + 1) h, wrappedOut, wrappedState_eq]
  rw [← mulberryMix_emod ((toUint32 seed + (n + 1) * 1831565813 : ℕ) : ℤ)]
  congr 1

/-- The failing input of C9: with the default seed 1337, call number 4917760 is the first
whose untruncated counter `1337 + 4917760 * 0x6d2b79f5 = 9007201092540217` is odd and not below
`2^53`; the counter is stored rounded to `9007201092540216`, and the call returns
`1148761939 / 2^32` where the generator with a wrapped 32-bit state returns
`1407222052 / 2^32`. -/
theorem mulberry32_diverges :
    mulberryState 1337 4917760 = 9007201092540216 ∧
      1337 + 4917760 * 1831565813 = 9007201092540217 ∧
      mulberryOut 1337 4917759 = 1148761939 ∧ wrappedOut 1337 4917759 = 1407222052 := by
  have hs : toUint32 1337 = 1337 := by decide
  have h0 : mulberryState 1337 4917758 = 9007197429408591 := by
    rw [mulberryState_exact 1337 4917758 (by rw [hs]; norm_num), hs]
  have h1 : mulberryState 1337 4917759 = 9007199260974404 := by
    rw [mulberryState, h0]
    decide
  have h2 : mulberryState 1337 4917760 = 9007201092540216 := by
    rw [mulberryState, h1]
    decide
  refine ⟨h2, by norm_num, ?_, ?_⟩
  · rw [mulberryOut_eq, h2]
    decide
  · rw [wrappedOut, wrappedState_eq]
    decide

/-- Generators created from seeds congruent modulo `2^32` return the same values at every call
index. -/
theorem mulberryOut_congr (seed1 seed2 : ℤ) (h : seed1 % 4294967296 = seed2 % 4294967296)
    (n : ℕ) : mulberryOut seed1 n = mulberryOut seed2 n := by
  have e : ∀ m, mulberryState seed1 m = mulberryState seed2 m := by
    intro m
    induction m with
    | zero => simp [mulberryState, mulberryInit, toUint32, h]
    | succ m ih => simp [mulberryState, ih]
  rw [mulberryOut_eq, mulberryOut_eq, e]

/-! ## The spectrum builder -/

section SpectrumLemmas

variable {α : Type} [LinearOrderedField α] [FloorRing α]

theorem rand_range (t : ℕ) : 0 ≤ (rand α t).1 ∧ (rand α t).1 < 1 := by
  have hv : (mulberryStep t).2 < 4294967296 := by
    unfold mulberryStep mulberryMix
    exact toUint32_lt _
  unfold rand
  constructor
  · positivity
  · show ((mulberryStep t).2 : α) / 4294967296 < 1
    rw [div_lt_one (by norm_num)]
    exact_mod_cast hv

theorem genWaves_length (M : JsMath α) (minWL maxWL spread : α) (count t : ℕ) :
    (genWaves M minWL maxWL spread count t).length = count := by
  induction count generalizing t with
  | zero => rfl
  | succ c ih => simp [genWaves, ih]

theorem genWaves_weight_pos (M : JsMath α) (hpow : ∀ x y : α, 0 < x → 0 < M.pow x y)
    (minWL maxWL spread : α) (hmin : 0 < minWL) (hmax : 0 < maxWL) (count t : ℕ) :
    ∀ w ∈ genWaves M minWL maxWL spread count t, 0 < w.weight := by
  induction count generalizing t with
  | zero => intro w hw; simp [genWaves] at hw
  | succ c ih =>
    intro w hw
    simp only [genWaves, List.mem_cons] at hw
    rcases hw with rfl | hw
    · have hr := (@rand_range α _ _ (rand α (rand α t).2).2).1
      have hl : 0 < minWL * M.pow (maxWL / minWL) (rand α t).1 :=
        mul_pos hmin (hpow _ _ (div_pos hmax hmin))
      have hp := hpow (minWL * M.pow (maxWL / minWL) (rand α t).1 / maxWL) 1.25
        (div_pos hl hmax)
      show 0 < (0.3 + 0.7 * _) * _
      apply mul_pos _ hp
      norm_num
      linarith
    · exact ih _ w hw

theorem foldl_weight_add (ws : List (Wave α)) (a : α) :
    ws.foldl (fun sum wave => sum + wave.weight) a = a + weightSum ws := by
  unfold weightSum
  induction ws generalizing a with
  | nil => simp
  | cons w ws ih =>
    simp only [List.foldl_cons]
    rw [ih (a + w.weight), ih (0 + w.weight)]
    ring

theorem weightSum_cons (w : Wave α) (ws : List (Wave α)) :
    weightSum (w :: ws) = w.weight + weightSum ws := by
  show (w :: ws).foldl (fun sum wave => sum + wave.weight) 0 = _
  rw [List.foldl_cons, foldl_weight_add]
  ring

theorem weightSum_nonneg (ws : List (Wave α)) (h : ∀ w ∈ ws, 0 < w.weight) :
    0 ≤ weightSum ws := by
  induction ws with
  | nil => simp [weightSum]
  | cons w ws ih =>
    rw [weightSum_cons]
    have := h w (List.mem_cons_self _ _)
    have := ih (fun v hv => h v (List.mem_cons_of_mem _ hv))
    linarith

theorem weightSum_pos (ws : List (Wave α)) (h : ∀ w ∈ ws, 0 < w.weight) (hne : ws ≠ []) :
    0 < weightSum ws := by
  cases ws with
  | nil => exact absurd rfl hne
  | cons w ws =>
    rw [weightSum_cons]
    have := h w (List.mem_cons_self _ _)
    have := weightSum_nonneg ws (fun v hv => h v (List.mem_cons_of_mem _ hv))
    linarith

theorem weightSum_scale (ws : List (Wave α)) (c : α) :
    weightSum (ws.map fun wave =>
      (⟨wave.dirX0, wave.dirZ0, wave.k, wave.w, wave.weight / c, wave.phase⟩ : Wave α))
      = weightSum ws / c := by
  induction ws with
  | nil => simp [weightSum]
  | cons w ws ih =>
    rw [List.map_cons, weightSum_cons, weightSum_cons, ih]
    ring

theorem jsRound_clamp_pos (c : α) : 1 ≤ jsRound (clamp c 1 24) := by
  unfold jsRound
  rw [Int.le_floor]
  have := clamp_ge c 1 24
  push_cast
  linarith

/-- C1: for every seed and every configured component count, the spectrum builder produces
`N = round(clamp(components, 1, 24))` components whose normalised weights are all positive and
sum to 1 (`Math.pow` being positive on a positive base). -/
theorem spectrum_weights (M : JsMath α) (settings : Settings α)
    (hm : settings.model = Model.spectrum)
    (hpow : ∀ x y : α, 0 < x → 0 < M.pow x y) :
    ∃ waves, spectrum M settings = some waves ∧
      (waves.length : ℤ) = jsRound (clamp settings.components 1 24) ∧
      (∀ w ∈ waves, 0 < w.weight) ∧ weightSum waves = 1 := by
  have hmin : (0 : α) < clamp settings.minWavelength 0.4 12 :=
    lt_of_lt_of_le (by norm_num) (clamp_ge _ _ _)
  have hmax : (0 : α) < clamp settings.maxWavelength
      (clamp settings.minWavelength 0.4 12 + 0.2) 12 :=
    lt_of_lt_of_le (by linarith) (clamp_ge _ _ _)
  have hcount := jsRound_clamp_pos settings.components
  set ws := genWaves M (clamp settings.minWavelength 0.4 12)
    (clamp settings.maxWavelength (clamp settings.minWavelength 0.4 12 + 0.2) 12)
    (clamp settings.spread 0 180 * (M.PI / 180))
    (jsRound (clamp settings.components 1 24)).toNat
    (mulberryInit ⌊orElse settings.seed 1⌋) with hws
  have hlen : ws.length = (jsRound (clamp settings.components 1 24)).toNat :=
    genWaves_length _ _ _ _ _ _
  have hpos : ∀ w ∈ ws, 0 < w.weight := genWaves_weight_pos M hpow _ _ _ hmin hmax _ _
  have hne : ws ≠ [] := by
    intro h
    rw [h] at hlen
    simp at hlen
    omega
  have hsum : 0 < weightSum ws := weightSum_pos ws hpos hne
  have hnorm : orElse (weightSum ws) 1 = weightSum ws := by
    unfold orElse
    rw [if_neg (ne_of_gt hsum)]
  refine ⟨ws.map fun wave => ⟨wave.dirX0, wave.dirZ0, wave.k, wave.w,
    wave.weight / orElse (weightSum ws) 1, wave.phase⟩, ?_, ?_, ?_, ?_⟩
  · unfold spectrum
    rw [if_neg (by simp [hm])]
  · simp only [List.length_map, ← hws, hlen]
    omega
  · intro w hw
    simp only [← hws, List.mem_map] at hw
    obtain ⟨v, hv, rfl⟩ := hw
    show 0 < v.weight / _
    rw [hnorm]
    exact div_pos (hpos v hv) hsum
  · rw [weightSum_scale, hnorm, div_self (ne_of_gt hsum)]

end SpectrumLemmas

/-- The witness of C1: the default settings over the reals, with the real power function. -/
theorem spectrum_weights_witness :
    ∃ waves, spectrum (JsMath.mk Real.pi Real.sin Real.cos Real.exp Real.sqrt Real.rpow)
        (DEFAULT_SETTINGS ℝ) = some waves ∧
      (waves.length : ℤ) = jsRound (clamp (DEFAULT_SETTINGS ℝ).components 1 24) ∧
      (∀ w ∈ waves, 0 < w.weight) ∧ weightSum waves = 1 :=
  spectrum_weights (JsMath.mk Real.pi Real.sin Real.cos Real.exp Real.sqrt Real.rpow)
    (DEFAULT_SETTINGS ℝ) rfl (fun _ y hx => Real.rpow_pos_of_pos hx y)

/-! ## The basin solver -/

section BasinLemmas

variable {α : Type} [LinearOrderedField α] [FloorRing α]

theorem forRange_zero {σ : Type} (body : ℕ → σ → σ) (init : σ) : forRange 0 body init = init :=
  rfl

theorem forRange_succ {σ : Type} (n : ℕ) (body : ℕ → σ → σ) (init : σ) :
    forRange (n + 1) body init = body n (forRange n body init) := by
  unfold forRange
  rw [List.range_succ, List.foldl_append]
  rfl

theorem setAt_same (g : Grid α) (idx : ℤ) (v : α) : setAt g idx v idx = v := by
  simp [setAt]

theorem setAt_other (g : Grid α) (idx k : ℤ) (v : α) (h : k ≠ idx) : setAt g idx v k = g k := by
  simp [setAt, h]

theorem setAt_zero_keep (g : Grid α) (idx k : ℤ) (h : g k = 0) : setAt g idx 0 k = 0 := by
  unfold setAt
  split <;> simp [h]

/-- A loop that only writes zeros keeps the zeros and zeroes the cells it writes. -/
theorem zeroLoop (a b : ℕ → ℤ) (n : ℕ) (g : Grid α) :
    (∀ k, g k = 0 → forRange n (fun i g => setAt (setAt g (a i) 0) (b i) 0) g k = 0) ∧
      ∀ i, i < n →
        forRange n (fun i g => setAt (setAt g (a i) 0) (b i) 0) g (a i) = 0 ∧
          forRange n (fun i g => setAt (setAt g (a i) 0) (b i) 0) g (b i) = 0 := by
  induction n with
  | zero => exact ⟨fun k hk => hk, fun i hi => absurd hi (Nat.not_lt_zero i)⟩
  | succ m ih =>
    rw [forRange_succ]
    refine ⟨fun k hk => ?_, fun i hi => ?_⟩
    · exact setAt_zero_keep _ _ _ (setAt_zero_keep _ _ _ (ih.1 k hk))
    · rcases Nat.lt_succ_iff_lt_or_eq.mp hi with h | h
      · exact ⟨setAt_zero_keep _ _ _ (setAt_zero_keep _ _ _ (ih.2 i h).1),
          setAt_zero_keep _ _ _ (setAt_zero_keep _ _ _ (ih.2 i h).2)⟩
      · subst h
        exact ⟨setAt_zero_keep _ _ _ (setAt_same _ _ _), setAt_same _ _ _⟩

theorem zeroEdges_border (n : ℕ) (g : Grid α) : BorderZero n (zeroEdges n g) := by
  intro k hk
  unfold zeroEdges
  have h1 := zeroLoop (fun i : ℕ => (i : ℤ)) (fun i : ℕ => ((n : ℤ) - 1) * n + i) n g
  have h2 := zeroLoop (fun j : ℕ => (j : ℤ) * n) (fun j : ℕ => (j : ℤ) * n + ((n : ℤ) - 1)) n
    (forRange n (fun i g => setAt (setAt g (i : ℤ) 0) (((n : ℤ) - 1) * n + i) 0) g)
  exact ⟨h2.1 _ (h1.2 k hk).1, h2.1 _ (h1.2 k hk).2, (h2.2 k hk).1, (h2.2 k hk).2⟩

theorem removeMean_border (sim : BasinSim α) (next : Grid α) (he : sim.edge = Edge.fixed)
    (hb : BorderZero sim.n next) : BorderZero sim.n (removeMean sim next) := by
  unfold removeMean
  simp only [if_pos he]
  by_cases hm : (if (meanStats (sim.n * sim.n) sim.solid next).2 = 0 then (0 : α)
      else (meanStats (sim.n * sim.n) sim.solid next).1 /
        (meanStats (sim.n * sim.n) sim.solid next).2) = 0
  · rw [if_pos hm]
    exact hb
  · rw [if_neg hm]
    exact zeroEdges_border _ _

theorem basinSubStep_n (M : JsMath α) (dt dropRate dropMag paddleMag : α) (sim : BasinSim α) :
    (basinSubStep M dt dropRate dropMag paddleMag sim).n = sim.n := rfl

theorem basinSubStep_edge (M : JsMath α) (dt dropRate dropMag paddleMag : α)
    (sim : BasinSim α) : (basinSubStep M dt dropRate dropMag paddleMag sim).edge = sim.edge :=
  rfl

/-- With fixed edges a sub-step leaves zeros on the border of the new current grid. -/
theorem basinSubStep_border (M : JsMath α) (dt dropRate dropMag paddleMag : α)
    (sim : BasinSim α) (he : sim.edge = Edge.fixed) :
    BorderZero sim.n (basinSubStep M dt dropRate dropMag paddleMag sim).curr := by
  unfold basinSubStep
  simp only [if_pos he]
  exact removeMean_border sim _ he (zeroEdges_border _ _)

theorem impulse_index (r : α) (h0 : 0 ≤ r) (h1 : r < 1) :
    24 ≤ ⌊((96 : ℕ) : α) * (0.25 + 0.5 * r)⌋ ∧ ⌊((96 : ℕ) : α) * (0.25 + 0.5 * r)⌋ < 72 := by
  constructor
  · rw [Int.le_floor]
    push_cast
    norm_num
    linarith
  · rw [Int.floor_lt]
    push_cast
    norm_num
    linarith

theorem interior_ne_border (i0 j0 : ℤ) (k : ℕ) (hi : 24 ≤ i0 ∧ i0 < 72)
    (hj : 24 ≤ j0 ∧ j0 < 72) (hk : k < 96) :
    (k : ℤ) ≠ j0 * ((96 : ℕ) : ℤ) + i0 ∧
      (((96 : ℕ) : ℤ) - 1) * ((96 : ℕ) : ℤ) + k ≠ j0 * ((96 : ℕ) : ℤ) + i0 ∧
      (k : ℤ) * ((96 : ℕ) : ℤ) ≠ j0 * ((96 : ℕ) : ℤ) + i0 ∧
      (k : ℤ) * ((96 : ℕ) : ℤ) + (((96 : ℕ) : ℤ) - 1) ≠ j0 * ((96 : ℕ) : ℤ) + i0 := by
  push_cast
  omega

/-- An initial impulse is written to an interior cell. -/
theorem impulse_border (st : Grid α × Grid α × ℕ) (hb : BorderZero 96 st.1) :
    BorderZero 96 (impulse 96 st).1 := by
  have hi := impulse_index (rand α st.2.2).1 (rand_range _).1 (rand_range _).2
  have hj := impulse_index (rand α (rand α st.2.2).2).1 (rand_range _).1 (rand_range _).2
  intro k hk
  obtain ⟨b1, b2, b3, b4⟩ := hb k hk
  obtain ⟨n1, n2, n3, n4⟩ := interior_ne_border _ _ k hi hj hk
  unfold impulse
  simp only
  exact ⟨by rw [setAt_other _ _ _ _ n1]; exact b1, by rw [setAt_other _ _ _ _ n2]; exact b2,
    by rw [setAt_other _ _ _ _ n3]; exact b3, by rw [setAt_other _ _ _ _ n4]; exact b4⟩

theorem impulses_border (m : ℕ) (st : Grid α × Grid α × ℕ) (hb : BorderZero 96 st.1) :
    BorderZero 96 (forRange m (fun _ st => impulse 96 st) st).1 := by
  induction m with
  | zero => exact hb
  | succ m ih =>
    rw [forRange_succ]
    exact impulse_border _ ih

theorem basinCreate_border (M : JsMath α) (settings : Settings α) :
    BorderZero 96 (basinCreate M settings).curr := by
  unfold basinCreate
  simp only [basinN]
  apply impulses_border
  intro k hk
  exact ⟨rfl, rfl, rfl, rfl⟩

theorem basinRun_border (M : JsMath α) (ps : List (StepParams α)) (sim : BasinSim α)
    (hn : sim.n = 96) (he : sim.edge = Edge.fixed) (hb : BorderZero 96 sim.curr) :
    BorderZero 96 (basinRun M ps sim).curr := by
  induction ps generalizing sim with
  | nil => exact hb
  | cons p ps ih =>
    rw [basinRun]
    apply ih
    · rw [basinSubStep_n, hn]
    · rw [basinSubStep_edge, he]
    · have := basinSubStep_border M p.dt p.dropRate p.dropMag p.paddleMag sim he
      rw [hn] at this
      exact this

/-- C2: with edge mode `'fixed'`, in the state as created and after any number of solver
sub-steps (whatever step size and forcing each one is run with), every cell of the first and
last row and of the first and last column of the current height grid is exactly `0`. -/
theorem basin_fixed_border (M : JsMath α) (settings : Settings α)
    (hfixed : settings.basinEdge = Edge.fixed) (ps : List (StepParams α)) :
    BorderZero basinN (basinRun M ps (basinCreate M settings)).curr :=
  basinRun_border M ps (basinCreate M settings) rfl hfixed (basinCreate_border M settings)

theorem substeps_border (M : JsMath α) (dt dropRate dropMag paddleMag : α) (m : ℕ)
    (sim : BasinSim α) (hn : sim.n = 96) (he : sim.edge = Edge.fixed)
    (hb : BorderZero 96 sim.curr) :
    (forRange m (fun _ sim => basinSubStep M dt dropRate dropMag paddleMag sim) sim).n = 96 ∧
      (forRange m (fun _ sim => basinSubStep M dt dropRate dropMag paddleMag sim) sim).edge
        = Edge.fixed ∧
      BorderZero 96
        (forRange m (fun _ sim => basinSubStep M dt dropRate dropMag paddleMag sim) sim).curr := by
  induction m with
  | zero => exact ⟨hn, he, hb⟩
  | succ m ih =>
    rw [forRange_succ]
    obtain ⟨h1, h2, -⟩ := ih
    refine ⟨by rw [basinSubStep_n, h1], by rw [basinSubStep_edge, h2], ?_⟩
    have := basinSubStep_border M dt dropRate dropMag paddleMag _ h2
    rw [h1] at this
    exact this

/-- The content of `basinSimRef.current` after a basin frame with edge mode `'fixed'` has a
zero border, whatever simulation was stored before, provided a stored simulation whose key
matches has one. -/
theorem basinFrame_border (M : JsMath α) (settings : Settings α) (ref : Option (BasinSim α))
    (hmodel : settings.model = Model.basin) (hfixed : settings.basinEdge = Edge.fixed)
    (href : ∀ sim, ref = some sim → sim.key = basinKey settings →
      sim.n = 96 ∧ BorderZero 96 sim.curr) :
    ∃ sim, basinFrame M settings ref = some sim ∧ sim.n = 96 ∧ BorderZero 96 sim.curr := by
  have hen : (basinEnsure M settings ref).n = 96 ∧
      BorderZero 96 (basinEnsure M settings ref).curr := by
    unfold basinEnsure
    cases ref with
    | none => exact ⟨rfl, basinCreate_border M settings⟩
    | some sim =>
      by_cases hk : sim.key = basinKey settings
      · simp only [ne_eq, hk, not_true_eq_false, if_false]
        exact href sim rfl hk
      · simp only [ne_eq, hk, not_false_eq_true, if_true]
        exact ⟨rfl, basinCreate_border M settings⟩
  have hee : (basinEnsure M settings ref).edge = Edge.fixed := hfixed
  unfold basinFrame
  rw [if_neg (by simp [hmodel])]
  have h := substeps_border M (basinDt settings (basinEnsure M settings ref))
    (1.5 + clamp (settings.basinModes / 48) 0 1 * 10.5)
    (0.6 + clamp (settings.basinModes / 48) 0 1 * 1.8)
    (0.7 + clamp (settings.basinModes / 48) 0 1 * 0.7)
    (subSteps settings (basinEnsure M settings ref)).toNat _ hen.1 hee hen.2
  exact ⟨_, rfl, h.1, h.2.2⟩

/-- The witness of C2: the default settings with the basin model and fixed edges, over the
reals, after two sub-steps. -/
theorem basin_fixed_border_witness :
    BorderZero basinN
      (basinRun (JsMath.mk Real.pi Real.sin Real.cos Real.exp Real.sqrt Real.rpow)
        [⟨0.027, 7.625, 1.65, 1.1⟩, ⟨0.027, 7.625, 1.65, 1.1⟩]
        (basinCreate (JsMath.mk Real.pi Real.sin Real.cos Real.exp Real.sqrt Real.rpow)
          { DEFAULT_SETTINGS ℝ with model := Model.basin, basinEdge := Edge.fixed })).curr :=
  basin_fixed_border (JsMath.mk Real.pi Real.sin Real.cos Real.exp Real.sqrt Real.rpow)
    { DEFAULT_SETTINGS ℝ with model := Model.basin, basinEdge := Edge.fixed } rfl
    [⟨0.027, 7.625, 1.65, 1.1⟩, ⟨0.027, 7.625, 1.65, 1.1⟩]

/-! ### The step size -/

theorem forRange_invariant {σ : Type} (P : σ → Prop) (body : ℕ → σ → σ)
    (h : ∀ i s, P s → P (body i s)) (n : ℕ) (init : σ) (h0 : P init) :
    P (forRange n body init) := by
  induction n with
  | zero => exact h0
  | succ m ih =>
    rw [forRange_succ]
    exact h m _ ih

/-- Every wave-speed-squared cell is at most `10` (and at least `0.15`). -/
theorem depthCell_range (M : JsMath α) (hexp : ∀ x : α, 0 ≤ M.exp x) (d half L : α)
    (hd0 : 0 ≤ d) (hd : d ≤ 10) (n i j : ℕ) :
    0.15 ≤ depthCell M d half L n i j ∧ depthCell M d half L n i j ≤ 10 := by
  unfold depthCell
  simp only
  refine ⟨clamp_ge _ _ _, ?_⟩
  set x : α := ((i : α) / ((n : α) - 1) - 0.5) * L
  set z : α := ((j : α) / ((n : α) - 1) - 0.5) * L
  set r : α := clamp (hypot M x z / half) 0 1
  have hr0 : 0 ≤ r := clamp_ge _ _ _
  have hr1 : r ≤ 1 := clamp_le _ _ _ (by norm_num)
  have e1 := hexp (-((x + 1.1) * (x + 1.1) + (z - 0.9) * (z - 0.9)) / 0.8)
  have e2 := hexp (-((x - 1.4) * (x - 1.4) + (z + 1.0) * (z + 1.0)) / 1.1)
  set E1 : α := M.exp (-((x + 1.1) * (x + 1.1) + (z - 0.9) * (z - 0.9)) / 0.8)
  set E2 : α := M.exp (-((x - 1.4) * (x - 1.4) + (z + 1.0) * (z + 1.0)) / 1.1)
  have hb0 : 0 ≤ d * (0.35 + 0.65 * (1 - r * r)) := by
    apply mul_nonneg hd0
    nlinarith
  have hb1 : d * (0.35 + 0.65 * (1 - r * r)) ≤ 10 := by
    have : 0.35 + 0.65 * (1 - r * r) ≤ 1 := by nlinarith
    have : 0 ≤ 0.35 + 0.65 * (1 - r * r) := by nlinarith
    nlinarith
  have hs : 1 - 0.12 * E1 - 0.09 * E2 ≤ 1 := by linarith
  have hprod : d * (0.35 + 0.65 * (1 - r * r)) * (1 - 0.12 * E1 - 0.09 * E2) ≤ 10 := by
    nlinarith
  unfold clamp
  apply max_le (by norm_num)
  exact le_trans (min_le_right _ _) hprod

/-- The largest wave speed found by the depth loop is non-negative and its square is at most
`10`. -/
theorem depthField_maxC (M : JsMath α)
    (hsqrt : ∀ x : α, 0 ≤ x → 0 ≤ M.sqrt x ∧ M.sqrt x * M.sqrt x = x)
    (hexp : ∀ x : α, 0 ≤ M.exp x) (d half L : α) (hd0 : 0 ≤ d) (hd : d ≤ 10) (n : ℕ) :
    0 ≤ (depthField M d half L n).2 ∧
      (depthField M d half L n).2 * (depthField M d half L n).2 ≤ 10 := by
  unfold depthField
  apply forRange_invariant (fun st : Grid α × α => 0 ≤ st.2 ∧ st.2 * st.2 ≤ 10)
  · intro j st hst
    apply forRange_invariant (fun st : Grid α × α => 0 ≤ st.2 ∧ st.2 * st.2 ≤ 10) _ _ _ _ hst
    intro i st hst
    obtain ⟨h1, h2⟩ := depthCell_range M hexp d half L hd0 hd n i j
    obtain ⟨s1, s2⟩ := hsqrt (depthCell M d half L n i j) (by linarith)
    simp only
    split
    · exact ⟨s1, by rw [s2]; exact h2⟩
    · exact hst
  · exact ⟨le_refl _, by norm_num⟩

/-- After a non-empty depth loop the largest wave speed is at least `0.01`, so that
`Math.max(0.01, maxC)` is `maxC`. -/
theorem depthField_maxC_ge (M : JsMath α)
    (hsqrt : ∀ x : α, 0 ≤ x → 0 ≤ M.sqrt x ∧ M.sqrt x * M.sqrt x = x)
    (hexp : ∀ x : α, 0 ≤ M.exp x) (d half L : α) (hd0 : 0 ≤ d) (hd : d ≤ 10) (m : ℕ) :
    0.01 ≤ (depthField M d half L (m + 1)).2 := by
  unfold depthField
  rw [forRange_succ, forRange_succ]
  obtain ⟨h1, h2⟩ := depthCell_range M hexp d half L hd0 hd (m + 1) m m
  obtain ⟨s1, s2⟩ := hsqrt (depthCell M d half L (m + 1) m m) (by linarith)
  have hc : 0.01 ≤ M.sqrt (depthCell M d half L (m + 1) m m) := by
    by_contra hcon
    push_neg at hcon
    nlinarith
  simp only
  split
  · exact hc
  · rename_i hle
    push_neg at hle
    linarith

theorem basinRun_dx_maxC (M : JsMath α) (ps : List (StepParams α)) (sim : BasinSim α) :
    (basinRun M ps sim).dx = sim.dx ∧ (basinRun M ps sim).maxC = sim.maxC := by
  induction ps generalizing sim with
  | nil => exact ⟨rfl, rfl⟩
  | cons p ps ih =>
    rw [basinRun]
    exact ih _

theorem depthBase_range (settings : Settings α) :
    0 ≤ depthBase settings ∧ depthBase settings ≤ 10 := by
  unfold depthBase
  exact ⟨le_trans (by norm_num) (clamp_ge _ _ _), clamp_le _ _ _ (by norm_num)⟩

theorem basinCreate_maxC (M : JsMath α) (settings : Settings α) :
    (basinCreate M settings).maxC
      = (depthField M (depthBase settings) (basinHalf α) (basinHalf α * 2) basinN).2 := by
  simp only [basinCreate]

/-- The bound behind C3 for an arbitrary simulation record: with the grid spacing of the
basin and a largest wave speed whose square is at most `10`, the sub-step size is at most
`dtMax`. -/
theorem basinDt_le (settings : Settings α) (sim : BasinSim α)
    (hdx : sim.dx = basinHalf α * 2 / (((basinN : ℕ) : α) - 1))
    (hc0 : 0.01 ≤ sim.maxC) (hc : sim.maxC * sim.maxC ≤ 10) :
    dtMax sim = 0.65 * sim.dx / sim.maxC ∧
      ⌈dtWanted settings / dtMax sim⌉ ≤ 10 ∧ basinDt settings sim ≤ dtMax sim := by
  have hw0 : (0 : α) < dtWanted settings := by
    unfold dtWanted
    have := clamp_ge settings.speed 0.05 2.5
    nlinarith
  have hw1 : dtWanted settings ≤ 0.1125 := by
    unfold dtWanted
    have := clamp_le settings.speed 0.05 2.5 (by norm_num)
    linarith
  have hdxv : sim.dx = 7 / 95 := by
    rw [hdx]
    unfold basinHalf basinN
    norm_num
  have hm0 : (0 : α) < max 0.01 sim.maxC := lt_of_lt_of_le (by norm_num) (le_max_left _ _)
  have hm4 : max 0.01 sim.maxC ≤ 4 := by
    apply max_le (by norm_num)
    by_contra hcon
    push_neg at hcon
    nlinarith
  have hmax0 : 0 < dtMax sim := by
    unfold dtMax
    rw [hdxv]
    apply div_pos (by norm_num) hm0
  have hq : dtWanted settings / dtMax sim ≤ 10 := by
    rw [div_le_iff₀ hmax0]
    unfold dtMax
    rw [hdxv, mul_div_assoc', le_div_iff₀ hm0]
    nlinarith
  have hceil : ⌈dtWanted settings / dtMax sim⌉ ≤ 10 := by
    rw [Int.ceil_le]
    exact_mod_cast hq
  have hS : subSteps settings sim = max 1 ⌈dtWanted settings / dtMax sim⌉ := by
    unfold subSteps
    rw [min_eq_right hceil]
  have hS1 : (1 : α) ≤ (subSteps settings sim : α) := by
    have : (1 : ℤ) ≤ subSteps settings sim := by rw [hS]; exact le_max_left _ _
    exact_mod_cast this
  have hSq : dtWanted settings / dtMax sim ≤ (subSteps settings sim : α) := by
    have : ⌈dtWanted settings / dtMax sim⌉ ≤ subSteps settings sim := by
      rw [hS]; exact le_max_right _ _
    exact le_trans (Int.le_ceil _) (by exact_mod_cast this)
  refine ⟨by unfold dtMax; rw [max_eq_right hc0], hceil, ?_⟩
  unfold basinDt
  rw [div_le_iff₀ (by linarith)]
  rw [div_le_iff₀ hmax0] at hSq
  linarith

/-- C3: for every speed setting and every basin depth setting, `dtMax` is `0.65*dx/maxC`,
`ceil(dtWanted / dtMax)` is at most `10`, so the clamp of the sub-step count never binds from
above, and the sub-step size `dt = dtWanted / subSteps` is at most `dtMax`, for the simulation
as created and after any sub-steps (`Math.sqrt` being a non-negative square root and
`Math.exp` non-negative). -/
theorem basin_dt_le_dtMax (M : JsMath α)
    (hsqrt : ∀ x : α, 0 ≤ x → 0 ≤ M.sqrt x ∧ M.sqrt x * M.sqrt x = x)
    (hexp : ∀ x : α, 0 ≤ M.exp x)
    (created frame : Settings α) (ps : List (StepParams α)) :
    dtMax (basinRun M ps (basinCreate M created))
        = 0.65 * (basinRun M ps (basinCreate M created)).dx
          / (basinRun M ps (basinCreate M created)).maxC ∧
      ⌈dtWanted frame / dtMax (basinRun M ps (basinCreate M created))⌉ ≤ 10 ∧
      basinDt frame (basinRun M ps (basinCreate M created))
        ≤ dtMax (basinRun M ps (basinCreate M created)) := by
  obtain ⟨e1, e2⟩ := basinRun_dx_maxC M ps (basinCreate M created)
  obtain ⟨d0, d1⟩ := depthBase_range created
  obtain ⟨-, c1⟩ := depthField_maxC M hsqrt hexp (depthBase created) (basinHalf α)
    (basinHalf α * 2) d0 d1 basinN
  have c0 := depthField_maxC_ge M hsqrt hexp (depthBase created) (basinHalf α)
    (basinHalf α * 2) d0 d1 95
  apply basinDt_le
  · rw [e1]; rfl
  · rw [e2, basinCreate_maxC]; exact c0
  · rw [e2, basinCreate_maxC]; exact c1

end BasinLemmas

/-- The witness of C3: the default settings over the reals, with the real square root and
exponential, in the simulation as created. -/
theorem basin_dt_le_dtMax_witness :
    dtMax (basinRun (JsMath.mk Real.pi Real.sin Real.cos Real.exp Real.sqrt Real.rpow) []
        (basinCreate (JsMath.mk Real.pi Real.sin Real.cos Real.exp Real.sqrt Real.rpow)
          (DEFAULT_SETTINGS ℝ)))
      = 0.65 * (basinRun (JsMath.mk Real.pi Real.sin Real.cos Real.exp Real.sqrt Real.rpow) []
          (basinCreate (JsMath.mk Real.pi Real.sin Real.cos Real.exp Real.sqrt Real.rpow)
            (DEFAULT_SETTINGS ℝ))).dx
        / (basinRun (JsMath.mk Real.pi Real.sin Real.cos Real.exp Real.sqrt Real.rpow) []
          (basinCreate (JsMath.mk Real.pi Real.sin Real.cos Real.exp Real.sqrt Real.rpow)
            (DEFAULT_SETTINGS ℝ))).maxC ∧
    ⌈dtWanted (DEFAULT_SETTINGS ℝ) / dtMax (basinRun
        (JsMath.mk Real.pi Real.sin Real.cos Real.exp Real.sqrt Real.rpow) []
        (basinCreate (JsMath.mk Real.pi Real.sin Real.cos Real.exp Real.sqrt Real.rpow)
          (DEFAULT_SETTINGS ℝ)))⌉ ≤ 10 ∧
      basinDt (DEFAULT_SETTINGS ℝ) (basinRun
          (JsMath.mk Real.pi Real.sin Real.cos Real.exp Real.sqrt Real.rpow) []
          (basinCreate (JsMath.mk Real.pi Real.sin Real.cos Real.exp Real.sqrt Real.rpow)
            (DEFAULT_SETTINGS ℝ)))
        ≤ dtMax (basinRun (JsMath.mk Real.pi Real.sin Real.cos Real.exp Real.sqrt Real.rpow) []
          (basinCreate (JsMath.mk Real.pi Real.sin Real.cos Real.exp Real.sqrt Real.rpow)
            (DEFAULT_SETTINGS ℝ))) :=
  basin_dt_le_dtMax (JsMath.mk Real.pi Real.sin Real.cos Real.exp Real.sqrt Real.rpow)
    (fun x hx => ⟨Real.sqrt_nonneg x, Real.mul_self_sqrt hx⟩) (fun x => (Real.exp_pos x).le)
    (DEFAULT_SETTINGS ℝ) (DEFAULT_SETTINGS ℝ) []

/-! ## The surface sampler -/

section SamplerLemmas

variable {α : Type} [LinearOrderedField α] [FloorRing α]

theorem amp_pos (settings : Settings α) : 0 < amp settings :=
  lt_of_lt_of_le (by norm_num) (le_max_left _ _)

theorem k_pos (M : JsMath α) (hpi : 0 < M.PI) (settings : Settings α) : 0 < k M settings := by
  unfold k
  exact div_pos (by linarith) (lt_of_lt_of_le (by norm_num) (le_max_left _ _))

theorem lumOut_range (L foam : α) : 0 ≤ lumOut L foam ∧ lumOut L foam ≤ 1 :=
  ⟨le_max_left _ _, max_le (by norm_num) (min_le_left _ _)⟩

/-- The product of two clamped factors and a gain `c` lies in `[0, c]`. -/
theorem foam_product_range (a b c : α) (hc : 0 ≤ c) :
    0 ≤ clamp a 0 1 * clamp b 0 1 * c ∧ clamp a 0 1 * clamp b 0 1 * c ≤ c := by
  have a0 := clamp_ge a 0 1
  have a1 := clamp_le a 0 1 (by norm_num)
  have b0 := clamp_ge b 0 1
  have b1 := clamp_le b 0 1 (by norm_num)
  have h0 : 0 ≤ clamp a 0 1 * clamp b 0 1 := mul_nonneg a0 b0
  have h1 : clamp a 0 1 * clamp b 0 1 ≤ 1 := by nlinarith
  constructor
  · exact mul_nonneg h0 hc
  · nlinarith

theorem basinSample_foam (M : JsMath α) (settings : Settings α) (sim : BasinSim α) (u v : α) :
    0 ≤ (basinSample M settings sim u v).2 ∧ (basinSample M settings sim u v).2 ≤ 0.32 :=
  ⟨clamp_ge _ _ _, clamp_le _ _ _ (by norm_num)⟩

theorem spectrumSample_foam (M : JsMath α) (settings : Settings α) (t : α)
    (waves : List (OrientedWave α)) (u v : α) :
    0 ≤ (spectrumSample M settings t waves u v).2 ∧
      (spectrumSample M settings t waves u v).2 ≤ 0.35 :=
  foam_product_range _ _ 0.35 (by norm_num)

theorem trochoidalSample_foam (M : JsMath α) (settings : Settings α) (t u v : α) :
    0 ≤ (trochoidalSample M settings t u v).2 ∧ (trochoidalSample M settings t u v).2 ≤ 0.3 :=
  foam_product_range _ _ 0.3 (by norm_num)

theorem tsunamiSample_foam (M : JsMath α) (settings : Settings α) (ts : Tsunami α) (u v : α) :
    0 ≤ (tsunamiSample M settings ts u v).2 ∧ (tsunamiSample M settings ts u v).2 ≤ 0.38 := by
  unfold tsunamiSample
  simp only
  set b : α := clamp ((hypot M ((ts.y (u + 0.05) v - ts.baseline - (ts.y u v - ts.baseline)) / 0.05)
    ((ts.y u (v + 0.05) - ts.baseline - (ts.y u v - ts.baseline)) / 0.05) - 0.85) * 0.75 +
    clamp ((ts.y u v - ts.baseline - amp settings * 0.15) / (amp settings * 0.85)) 0 1 * 1.15)
    0 1 with hb
  have b0 : 0 ≤ b := clamp_ge _ _ _
  have b1 : b ≤ 1 := clamp_le _ _ _ (by norm_num)
  constructor <;> nlinarith

theorem sampleWave_lum_range (M : JsMath α) (settings : Settings α) (t : α)
    (ref : Option (BasinSim α)) (u v : α) :
    0 ≤ (sampleWave M settings t ref u v).lum ∧ (sampleWave M settings t ref u v).lum ≤ 1 := by
  unfold sampleWave
  split
  · exact lumOut_range _ _
  · exact lumOut_range _ _
  · exact lumOut_range _ _
  · exact lumOut_range _ _
  · exact ⟨le_refl _, zero_le_one⟩

theorem sampleWave_trochoidal (M : JsMath α) (settings : Settings α) (t : α)
    (ref : Option (BasinSim α)) (u v : α) (hm : settings.model = Model.trochoidal) :
    sampleWave M settings t ref u v = (trochoidalSample M settings t u v).1 := by
  unfold sampleWave
  split
  next h1 => rw [hm] at h1; cases h1
  next h1 _ => rw [hm] at h1; cases h1
  next => rfl
  next h1 _ => rw [hm] at h1; cases h1
  next =>
    have hne : ¬ settings.model = Model.trochoidal := by assumption
    exact absurd hm hne

/-- C10: in the trochoidal model with steepness 0 at `t = 0` (amplitude 2.2, wavelength 3.2,
speed 0.6, any wind direction), for every point `(u, v)` `sampleWave` returns `x = u`, `z = v`
and `y = amplitude * sin(k*(dirX*u + dirZ*v))` with `k = 2*pi/wavelength` and
`(dirX, dirZ) = (cos wind, sin wind)`. -/
theorem trochoidal_scenario_A (M : JsMath α) (settings : Settings α)
    (ref : Option (BasinSim α)) (u v : α)
    (hm : settings.model = Model.trochoidal) (ha : settings.amplitude = 2.2)
    (hw : settings.wavelength = 3.2) (hs : settings.steepness = 0)
    (hsp : settings.speed = 0.6) :
    (sampleWave M settings 0 ref u v).x = u ∧ (sampleWave M settings 0 ref u v).z = v ∧
      (sampleWave M settings 0 ref u v).y =
        settings.amplitude * M.sin (M.PI * 2 / settings.wavelength *
          (M.cos (windAngle M settings) * u + M.sin (windAngle M settings) * v)) := by
  have hamp : amp settings = settings.amplitude := by
    unfold amp
    rw [ha]
    norm_num
  have hk : k M settings = M.PI * 2 / settings.wavelength := by
    unfold k
    rw [hw]
    norm_num
  rw [sampleWave_trochoidal M settings 0 ref u v hm]
  unfold trochoidalSample
  simp only [hs, hamp, hk, zero_div, mul_zero, zero_mul, add_zero, sub_zero, and_self,
    true_and]

end SamplerLemmas

/-- The witness of C10: the default settings with the trochoidal model and steepness 0, over
the reals, at the point `(1, 2)`. -/
theorem trochoidal_scenario_A_witness :
    (sampleWave (JsMath.mk Real.pi Real.sin Real.cos Real.exp Real.sqrt Real.rpow)
        { DEFAULT_SETTINGS ℝ with model := Model.trochoidal, steepness := 0 } 0 none 1 2).x = 1 ∧
      (sampleWave (JsMath.mk Real.pi Real.sin Real.cos Real.exp Real.sqrt Real.rpow)
        { DEFAULT_SETTINGS ℝ with model := Model.trochoidal, steepness := 0 } 0 none 1 2).z = 2 ∧
      (sampleWave (JsMath.mk Real.pi Real.sin Real.cos Real.exp Real.sqrt Real.rpow)
        { DEFAULT_SETTINGS ℝ with model := Model.trochoidal, steepness := 0 } 0 none 1 2).y =
        (2.2 : ℝ) * Real.sin (Real.pi * 2 / 3.2 *
          (Real.cos (windAngle (JsMath.mk Real.pi Real.sin Real.cos Real.exp Real.sqrt Real.rpow)
              { DEFAULT_SETTINGS ℝ with model := Model.trochoidal, steepness := 0 }) * 1 +
            Real.sin (windAngle (JsMath.mk Real.pi Real.sin Real.cos Real.exp Real.sqrt Real.rpow)
              { DEFAULT_SETTINGS ℝ with model := Model.trochoidal, steepness := 0 }) * 2)) :=
  trochoidal_scenario_A (JsMath.mk Real.pi Real.sin Real.cos Real.exp Real.sqrt Real.rpow)
    { DEFAULT_SETTINGS ℝ with model := Model.trochoidal, steepness := 0 } none 1 2
    rfl rfl rfl rfl rfl

/-! ## One spectrum component and the trochoidal wave -/

section SingleComponent

variable {α : Type} [LinearOrderedField α] [FloorRing α]

/-- The position returned by the spectrum branch for a one-component list. -/
theorem spectrumSample_single (M : JsMath α) (settings : Settings α) (t u v : α)
    (wave : OrientedWave α) (hw : wave.weight = 1) :
    ((spectrumSample M settings t [wave] u v).1.x, (spectrumSample M settings t [wave] u v).1.y,
        (spectrumSample M settings t [wave] u v).1.z)
      = closedFormPosition M (amp settings) settings.steepness wave.k wave.dirX wave.dirZ
          (wave.k * (wave.dirX * u + wave.dirZ * v) - wave.w * t * settings.speed + wave.phase)
          u v := by
  unfold spectrumSample closedFormPosition
  simp only [List.foldl_cons, List.foldl_nil, spectrumAdd, hw, mul_one, zero_add]

/-- The position returned by the trochoidal branch is the closed form at the wavenumber `k`,
the wind direction and phase offset `0`. -/
theorem trochoidalSample_closedForm (M : JsMath α) (settings : Settings α) (t u v : α) :
    ((trochoidalSample M settings t u v).1.x, (trochoidalSample M settings t u v).1.y,
        (trochoidalSample M settings t u v).1.z)
      = closedFormPosition M (amp settings) settings.steepness (k M settings)
          (M.cos (windAngle M settings)) (M.sin (windAngle M settings))
          (closedFormPhase M (k M settings) (M.cos (windAngle M settings))
            (M.sin (windAngle M settings)) 0 settings.speed t u v) u v := by
  unfold trochoidalSample closedFormPosition closedFormPhase
  simp only [add_zero]

theorem sampleWave_spectrum (M : JsMath α) (settings : Settings α) (t : α)
    (ref : Option (BasinSim α)) (u v : α) (wave : OrientedWave α) (waves : List (OrientedWave α))
    (hm : settings.model = Model.spectrum)
    (ho : orientedSpectrum M settings = some (wave :: waves)) :
    sampleWave M settings t ref u v = (spectrumSample M settings t (wave :: waves) u v).1 := by
  unfold sampleWave
  split
  next h1 => rw [hm] at h1; cases h1
  next _ h2 =>
    rw [ho] at h2
    cases h2
    rfl
  next h1 => rw [hm] at h1; cases h1
  next h1 _ => rw [hm] at h1; cases h1
  next =>
    have hne : ∀ (w : OrientedWave α) (ws : List (OrientedWave α)),
        settings.model = Model.spectrum → orientedSpectrum M settings = some (w :: ws) → False := by
      assumption
    exact absurd ho (fun h => hne wave waves hm h)

theorem genWaves_one (M : JsMath α) (minWL maxWL spread : α) (t0 : ℕ) :
    ∃ wave : Wave α, genWaves M minWL maxWL spread 1 t0 = [wave] ∧
      wave.w = M.sqrt (9.81 * wave.k) :=
  ⟨_, rfl, rfl⟩

/-- With a component count of one the builder returns one component of weight `1` whose
angular frequency is `sqrt(9.81 * k)`. -/
theorem spectrum_one (M : JsMath α) (settings : Settings α)
    (hm : settings.model = Model.spectrum)
    (hc : jsRound (clamp settings.components 1 24) = 1)
    (hpow : ∀ x y : α, 0 < x → 0 < M.pow x y) :
    ∃ wave : Wave α, spectrum M settings = some [wave] ∧ wave.weight = 1 ∧
      wave.w = M.sqrt (9.81 * wave.k) := by
  have hmin : (0 : α) < clamp settings.minWavelength 0.4 12 :=
    lt_of_lt_of_le (by norm_num) (clamp_ge _ _ _)
  have hmax : (0 : α) < clamp settings.maxWavelength
      (clamp settings.minWavelength 0.4 12 + 0.2) 12 :=
    lt_of_lt_of_le (by linarith) (clamp_ge _ _ _)
  have hpos := genWaves_weight_pos M hpow _ _ (clamp settings.spread 0 180 * (M.PI / 180))
    hmin hmax 1 (mulberryInit ⌊orElse settings.seed 1⌋)
  obtain ⟨W, hW, hWw⟩ := genWaves_one M (clamp settings.minWavelength 0.4 12)
    (clamp settings.maxWavelength (clamp settings.minWavelength 0.4 12 + 0.2) 12)
    (clamp settings.spread 0 180 * (M.PI / 180)) (mulberryInit ⌊orElse settings.seed 1⌋)
  rw [hW] at hpos
  have hw : 0 < W.weight := hpos W (List.mem_singleton_self _)
  have hsum : weightSum [W] = W.weight := by
    rw [weightSum_cons]
    simp [weightSum]
  refine ⟨⟨W.dirX0, W.dirZ0, W.k, W.w, 1, W.phase⟩, ?_, rfl, hWw⟩
  unfold spectrum
  rw [if_neg (by simp [hm]), hc]
  have hn : orElse W.weight 1 = W.weight := by
    unfold orElse
    rw [if_neg (ne_of_gt hw)]
  simp only [Int.toNat_one, hW, hsum, List.map_cons, List.map_nil, hn, div_self (ne_of_gt hw)]

/-- C11: for a spectrum with a single component (component count 1, normalised weight 1,
angular frequency `sqrt(9.81*k)`) the position returned by `sampleWave` at every `(u, v, t)` is
the closed form `x = u + dX*(steepness/k)*cos(theta)`, `y = amp*sin(theta)`,
`z = v + dZ*(steepness/k)*cos(theta)` at `theta = k*(d.u) - sqrt(9.81*k)*t*speed + phi`, the
form the trochoidal branch returns at its own wavenumber and direction. -/
theorem spectrum_single_closedForm (M : JsMath α) (settings : Settings α)
    (hm : settings.model = Model.spectrum)
    (hc : jsRound (clamp settings.components 1 24) = 1)
    (hpow : ∀ x y : α, 0 < x → 0 < M.pow x y) :
    (∃ wave : OrientedWave α, orientedSpectrum M settings = some [wave] ∧ wave.weight = 1 ∧
      wave.w = M.sqrt (9.81 * wave.k) ∧
      ∀ (t : α) (ref : Option (BasinSim α)) (u v : α),
        ((sampleWave M settings t ref u v).x, (sampleWave M settings t ref u v).y,
            (sampleWave M settings t ref u v).z)
          = closedFormPosition M (amp settings) settings.steepness wave.k wave.dirX wave.dirZ
              (closedFormPhase M wave.k wave.dirX wave.dirZ wave.phase settings.speed t u v)
              u v) ∧
      ∀ (troch : Settings α) (t u v : α),
        ((trochoidalSample M troch t u v).1.x, (trochoidalSample M troch t u v).1.y,
            (trochoidalSample M troch t u v).1.z)
          = closedFormPosition M (amp troch) troch.steepness (k M troch)
              (M.cos (windAngle M troch)) (M.sin (windAngle M troch))
              (closedFormPhase M (k M troch) (M.cos (windAngle M troch))
                (M.sin (windAngle M troch)) 0 troch.speed t u v) u v := by
  refine ⟨?_, fun troch t u v => trochoidalSample_closedForm M troch t u v⟩
  obtain ⟨w0, hs, hw1, hww⟩ := spectrum_one M settings hm hc hpow
  have ho : orientedSpectrum M settings
      = some [⟨w0, w0.dirX0 * M.cos (windAngle M settings) - w0.dirZ0 * M.sin (windAngle M settings),
          w0.dirX0 * M.sin (windAngle M settings) + w0.dirZ0 * M.cos (windAngle M settings)⟩] := by
    unfold orientedSpectrum
    rw [hs]
    rfl
  refine ⟨_, ho, hw1, hww, fun t ref u v => ?_⟩
  rw [sampleWave_spectrum M settings t ref u v _ _ hm ho, spectrumSample_single M settings t u v _ hw1]
  unfold closedFormPhase
  rw [hww]

theorem jsRound_clamp_one : jsRound (clamp (1 : α) 1 24) = 1 := by
  rw [clamp_of_mem _ _ _ (le_refl _) (by norm_num)]
  unfold jsRound
  rw [Int.floor_eq_iff]
  constructor <;> norm_num

/-- The accumulators of the spectrum branch after the one component that has the parameters of
the trochoidal wave are the quantities of the trochoidal branch. -/
theorem spectrumAdd_equivalentWave (M : JsMath α) (settings : Settings α) (t u v : α)
    (hk : k M settings ≠ 0) :
    spectrumAdd M settings t u v ⟨u, v, 0, 1, 0, 0, 1, 0, 0⟩ (equivalentWave M settings)
      = ⟨u + M.cos (windAngle M settings) * (settings.steepness / k M settings) *
            M.cos (k M settings * (M.cos (windAngle M settings) * u +
              M.sin (windAngle M settings) * v) -
              M.sqrt (9.81 * k M settings) * t * settings.speed),
          v + M.sin (windAngle M settings) * (settings.steepness / k M settings) *
            M.cos (k M settings * (M.cos (windAngle M settings) * u +
              M.sin (windAngle M settings) * v) -
              M.sqrt (9.81 * k M settings) * t * settings.speed),
          amp settings * M.sin (k M settings * (M.cos (windAngle M settings) * u +
              M.sin (windAngle M settings) * v) -
              M.sqrt (9.81 * k M settings) * t * settings.speed),
          1 - settings.steepness * M.sin (k M settings * (M.cos (windAngle M settings) * u +
              M.sin (windAngle M settings) * v) -
              M.sqrt (9.81 * k M settings) * t * settings.speed) *
            M.cos (windAngle M settings) * M.cos (windAngle M settings),
          -(settings.steepness * M.sin (k M settings * (M.cos (windAngle M settings) * u +
              M.sin (windAngle M settings) * v) -
              M.sqrt (9.81 * k M settings) * t * settings.speed)) *
            M.cos (windAngle M settings) * M.sin (windAngle M settings),
          -(settings.steepness * M.sin (k M settings * (M.cos (windAngle M settings) * u +
              M.sin (windAngle M settings) * v) -
              M.sqrt (9.81 * k M settings) * t * settings.speed)) *
            M.sin (windAngle M settings) * M.cos (windAngle M settings),
          1 - settings.steepness * M.sin (k M settings * (M.cos (windAngle M settings) * u +
              M.sin (windAngle M settings) * v) -
              M.sqrt (9.81 * k M settings) * t * settings.speed) *
            M.sin (windAngle M settings) * M.sin (windAngle M settings),
          amp settings * k M settings * M.cos (k M settings * (M.cos (windAngle M settings) * u +
              M.sin (windAngle M settings) * v) -
              M.sqrt (9.81 * k M settings) * t * settings.speed) * M.cos (windAngle M settings),
          amp settings * k M settings * M.cos (k M settings * (M.cos (windAngle M settings) * u +
              M.sin (windAngle M settings) * v) -
              M.sqrt (9.81 * k M settings) * t * settings.speed) *
            M.sin (windAngle M settings)⟩ := by
  have hq : settings.steepness / k M settings * k M settings = settings.steepness := by
    field_simp
  unfold spectrumAdd equivalentWave
  simp only [add_zero, mul_one, zero_add, zero_sub, hq, SpectrumAcc.mk.injEq, true_and, and_true,
    neg_mul]

/-- The spectrum branch on the component that has the parameters of the trochoidal wave against
the trochoidal branch: same position, foams in the ratio of the gains, same diffuse term. -/
theorem single_component_core (M : JsMath α) (settings : Settings α) (t u v : α)
    (hpi : 0 < M.PI) :
    (spectrumSample M settings t [equivalentWave M settings] u v).1.x
        = (trochoidalSample M settings t u v).1.x ∧
      (spectrumSample M settings t [equivalentWave M settings] u v).1.y
        = (trochoidalSample M settings t u v).1.y ∧
      (spectrumSample M settings t [equivalentWave M settings] u v).1.z
        = (trochoidalSample M settings t u v).1.z ∧
      (spectrumSample M settings t [equivalentWave M settings] u v).2 * 0.3
        = (trochoidalSample M settings t u v).2 * 0.35 ∧
      ∃ L : α,
        (spectrumSample M settings t [equivalentWave M settings] u v).1.lum
            = lumOut L (spectrumSample M settings t [equivalentWave M settings] u v).2 ∧
          (trochoidalSample M settings t u v).1.lum
            = lumOut L (trochoidalSample M settings t u v).2 := by
  have hk : k M settings ≠ 0 := ne_of_gt (k_pos M hpi settings)
  unfold spectrumSample
  simp only [List.foldl_cons, List.foldl_nil]
  rw [spectrumAdd_equivalentWave M settings t u v hk]
  unfold trochoidalSample
  refine ⟨rfl, rfl, rfl, by ring, _, rfl, rfl⟩

/-- C12 (amended): for the one-component spectrum that has the parameters of the trochoidal
wave, the two branches return the same position, their foam terms are the same product of
breaking and crest factors with the gains `0.35` (spectrum) and `0.3` (trochoidal), so that
`0.3 * foam_spectrum = 0.35 * foam_trochoidal`, and their luminances are `lumOut L foam` for
the same diffuse term `L`, each with its own foam. -/
theorem single_component_shading (M : JsMath α) (settings : Settings α) (t u v : α)
    (hpi : 0 < M.PI) :
    (spectrumSample M settings t [equivalentWave M settings] u v).1.x
        = (trochoidalSample M settings t u v).1.x ∧
      (spectrumSample M settings t [equivalentWave M settings] u v).1.y
        = (trochoidalSample M settings t u v).1.y ∧
      (spectrumSample M settings t [equivalentWave M settings] u v).1.z
        = (trochoidalSample M settings t u v).1.z ∧
      (spectrumSample M settings t [equivalentWave M settings] u v).2 * 0.3
        = (trochoidalSample M settings t u v).2 * 0.35 ∧
      ∃ L : α,
        (spectrumSample M settings t [equivalentWave M settings] u v).1.lum
            = lumOut L (spectrumSample M settings t [equivalentWave M settings] u v).2 ∧
          (trochoidalSample M settings t u v).1.lum
            = lumOut L (trochoidalSample M settings t u v).2 :=
  single_component_core M settings t u v hpi

end SingleComponent

/-- The witness of C11: the default settings with one component, over the reals. -/
theorem spectrum_single_closedForm_witness :
    (∃ wave : OrientedWave ℝ,
      orientedSpectrum (JsMath.mk Real.pi Real.sin Real.cos Real.exp Real.sqrt Real.rpow)
          { DEFAULT_SETTINGS ℝ with components := 1 } = some [wave] ∧
        wave.weight = 1 ∧ wave.w = Real.sqrt (9.81 * wave.k) ∧
        ∀ (t : ℝ) (ref : Option (BasinSim ℝ)) (u v : ℝ),
          ((sampleWave (JsMath.mk Real.pi Real.sin Real.cos Real.exp Real.sqrt Real.rpow)
                { DEFAULT_SETTINGS ℝ with components := 1 } t ref u v).x,
              (sampleWave (JsMath.mk Real.pi Real.sin Real.cos Real.exp Real.sqrt Real.rpow)
                { DEFAULT_SETTINGS ℝ with components := 1 } t ref u v).y,
              (sampleWave (JsMath.mk Real.pi Real.sin Real.cos Real.exp Real.sqrt Real.rpow)
                { DEFAULT_SETTINGS ℝ with components := 1 } t ref u v).z)
            = closedFormPosition (JsMath.mk Real.pi Real.sin Real.cos Real.exp Real.sqrt Real.rpow)
                (amp { DEFAULT_SETTINGS ℝ with components := 1 })
                ({ DEFAULT_SETTINGS ℝ with components := 1 } : Settings ℝ).steepness
                wave.k wave.dirX wave.dirZ
                (closedFormPhase
                  (JsMath.mk Real.pi Real.sin Real.cos Real.exp Real.sqrt Real.rpow)
                  wave.k wave.dirX wave.dirZ wave.phase
                  ({ DEFAULT_SETTINGS ℝ with components := 1 } : Settings ℝ).speed t u v) u v) ∧
      ∀ (troch : Settings ℝ) (t u v : ℝ),
        ((trochoidalSample (JsMath.mk Real.pi Real.sin Real.cos Real.exp Real.sqrt Real.rpow)
              troch t u v).1.x,
            (trochoidalSample (JsMath.mk Real.pi Real.sin Real.cos Real.exp Real.sqrt Real.rpow)
              troch t u v).1.y,
            (trochoidalSample (JsMath.mk Real.pi Real.sin Real.cos Real.exp Real.sqrt Real.rpow)
              troch t u v).1.z)
          = closedFormPosition (JsMath.mk Real.pi Real.sin Real.cos Real.exp Real.sqrt Real.rpow)
              (amp troch) troch.steepness
              (k (JsMath.mk Real.pi Real.sin Real.cos Real.exp Real.sqrt Real.rpow) troch)
              (Real.cos (windAngle
                (JsMath.mk Real.pi Real.sin Real.cos Real.exp Real.sqrt Real.rpow) troch))
              (Real.sin (windAngle
                (JsMath.mk Real.pi Real.sin Real.cos Real.exp Real.sqrt Real.rpow) troch))
              (closedFormPhase (JsMath.mk Real.pi Real.sin Real.cos Real.exp Real.sqrt Real.rpow)
                (k (JsMath.mk Real.pi Real.sin Real.cos Real.exp Real.sqrt Real.rpow) troch)
                (Real.cos (windAngle
                  (JsMath.mk Real.pi Real.sin Real.cos Real.exp Real.sqrt Real.rpow) troch))
                (Real.sin (windAngle
                  (JsMath.mk Real.pi Real.sin Real.cos Real.exp Real.sqrt Real.rpow) troch))
                0 troch.speed t u v) u v :=
  spectrum_single_closedForm (JsMath.mk Real.pi Real.sin Real.cos Real.exp Real.sqrt Real.rpow)
    { DEFAULT_SETTINGS ℝ with components := 1 } rfl jsRound_clamp_one
    (fun _ y hx => Real.rpow_pos_of_pos hx y)

/-- The values of the trochoidal branch at the crest `u = 0.8`, `v = 0`, `t = 0` of the default
settings with wind direction `0` (wavelength `3.2`, steepness `0.75`, amplitude `2.2`). -/
theorem trochoidal_crest_value :
    trochoidalSample (JsMath.mk Real.pi Real.sin Real.cos Real.exp Real.sqrt Real.rpow)
      { DEFAULT_SETTINGS ℝ with windDir := 0 } 0 0.8 0 = (⟨0.8, 2.2, 0, 0.878⟩, 0.198) := by
  have hw : windAngle (JsMath.mk Real.pi Real.sin Real.cos Real.exp Real.sqrt Real.rpow)
      { DEFAULT_SETTINGS ℝ with windDir := 0 } = 0 := by
    simp [windAngle, jsRem, jsTrunc]
  have hk : k (JsMath.mk Real.pi Real.sin Real.cos Real.exp Real.sqrt Real.rpow)
      { DEFAULT_SETTINGS ℝ with windDir := 0 } = Real.pi * 2 / 3.2 := by
    unfold k
    simp only [DEFAULT_SETTINGS]
    rw [max_eq_right (by norm_num)]
  have ha : amp { DEFAULT_SETTINGS ℝ with windDir := 0 } = 2.2 := by
    unfold amp
    simp only [DEFAULT_SETTINGS]
    rw [max_eq_right (by norm_num)]
  have hp : Real.pi * 2 / 3.2 * (1 * 0.8 + 0 * 0) - Real.sqrt (9.81 * (Real.pi * 2 / 3.2)) * 0 * 0.6
      = Real.pi / 2 := by
    ring
  have hs : Real.sqrt 16 = 4 := by
    rw [show (16 : ℝ) = 4 ^ 2 by norm_num]
    exact Real.sqrt_sq (by norm_num)
  have c1 : clamp (33 / 50 : ℝ) 0 1 = 33 / 50 := clamp_of_mem _ _ _ (by norm_num) (by norm_num)
  have c2 : clamp (20 / 17 : ℝ) 0 1 = 1 := by
    unfold clamp
    rw [min_eq_left (by norm_num), max_eq_right (by norm_num)]
  unfold trochoidalSample
  simp only [hw, hk, ha, Real.cos_zero, Real.sin_zero]
  simp only [DEFAULT_SETTINGS, hp, Real.sin_pi_div_two, Real.cos_pi_div_two]
  norm_num
  rw [hs, c1, c2]
  unfold orElse lumOut light
  norm_num

/-- The values of the spectrum branch on the equivalent component at the same point. -/
theorem spectrum_crest_value :
    spectrumSample (JsMath.mk Real.pi Real.sin Real.cos Real.exp Real.sqrt Real.rpow)
      { DEFAULT_SETTINGS ℝ with windDir := 0 } 0
      [equivalentWave (JsMath.mk Real.pi Real.sin Real.cos Real.exp Real.sqrt Real.rpow)
        { DEFAULT_SETTINGS ℝ with windDir := 0 }] 0.8 0 = (⟨0.8, 2.2, 0, 0.911⟩, 0.231) := by
  have hw : windAngle (JsMath.mk Real.pi Real.sin Real.cos Real.exp Real.sqrt Real.rpow)
      { DEFAULT_SETTINGS ℝ with windDir := 0 } = 0 := by
    simp [windAngle, jsRem, jsTrunc]
  have hk : k (JsMath.mk Real.pi Real.sin Real.cos Real.exp Real.sqrt Real.rpow)
      { DEFAULT_SETTINGS ℝ with windDir := 0 } = Real.pi * 2 / 3.2 := by
    unfold k
    simp only [DEFAULT_SETTINGS]
    rw [max_eq_right (by norm_num)]
  have hk0 : k (JsMath.mk Real.pi Real.sin Real.cos Real.exp Real.sqrt Real.rpow)
      { DEFAULT_SETTINGS ℝ with windDir := 0 } ≠ 0 :=
    ne_of_gt (k_pos _ Real.pi_pos _)
  have ha : amp { DEFAULT_SETTINGS ℝ with windDir := 0 } = 2.2 := by
    unfold amp
    simp only [DEFAULT_SETTINGS]
    rw [max_eq_right (by norm_num)]
  have hp : Real.pi * 2 / 3.2 * (1 * 0.8 + 0 * 0) - Real.sqrt (9.81 * (Real.pi * 2 / 3.2)) * 0 * 0.6
      = Real.pi / 2 := by
    ring
  have hs : Real.sqrt 16 = 4 := by
    rw [show (16 : ℝ) = 4 ^ 2 by norm_num]
    exact Real.sqrt_sq (by norm_num)
  have c1 : clamp (33 / 50 : ℝ) 0 1 = 33 / 50 := clamp_of_mem _ _ _ (by norm_num) (by norm_num)
  have c2 : clamp (20 / 17 : ℝ) 0 1 = 1 := by
    unfold clamp
    rw [min_eq_left (by norm_num), max_eq_right (by norm_num)]
  unfold spectrumSample
  simp only [List.foldl_cons, List.foldl_nil]
  rw [spectrumAdd_equivalentWave _ _ _ _ _ hk0]
  simp only [hw, hk, ha, Real.cos_zero, Real.sin_zero]
  simp only [DEFAULT_SETTINGS, hp, Real.sin_pi_div_two, Real.cos_pi_div_two]
  norm_num
  rw [hs, c1, c2]
  unfold orElse lumOut light
  norm_num

/-- The counterexample of C12: at the crest `u = 0.8`, `v = 0`, `t = 0` of the default wave
with wind direction `0`, the spectrum branch on the equivalent single component has foam
`0.231` and luminance `0.911`, the trochoidal branch foam `0.198` and luminance `0.878`. -/
theorem single_component_foam_differs :
    (spectrumSample (JsMath.mk Real.pi Real.sin Real.cos Real.exp Real.sqrt Real.rpow)
        { DEFAULT_SETTINGS ℝ with windDir := 0 } 0
        [equivalentWave (JsMath.mk Real.pi Real.sin Real.cos Real.exp Real.sqrt Real.rpow)
          { DEFAULT_SETTINGS ℝ with windDir := 0 }] 0.8 0).2
      ≠ (trochoidalSample (JsMath.mk Real.pi Real.sin Real.cos Real.exp Real.sqrt Real.rpow)
        { DEFAULT_SETTINGS ℝ with windDir := 0 } 0 0.8 0).2 ∧
    (spectrumSample (JsMath.mk Real.pi Real.sin Real.cos Real.exp Real.sqrt Real.rpow)
        { DEFAULT_SETTINGS ℝ with windDir := 0 } 0
        [equivalentWave (JsMath.mk Real.pi Real.sin Real.cos Real.exp Real.sqrt Real.rpow)
          { DEFAULT_SETTINGS ℝ with windDir := 0 }] 0.8 0).1.lum
      ≠ (trochoidalSample (JsMath.mk Real.pi Real.sin Real.cos Real.exp Real.sqrt Real.rpow)
        { DEFAULT_SETTINGS ℝ with windDir := 0 } 0 0.8 0).1.lum := by
  rw [spectrum_crest_value, trochoidal_crest_value]
  constructor <;> norm_num

/-- The witness of C12: the same point of the default wave, over the reals. -/
theorem single_component_shading_witness :
    (spectrumSample (JsMath.mk Real.pi Real.sin Real.cos Real.exp Real.sqrt Real.rpow)
        (DEFAULT_SETTINGS ℝ) 0
        [equivalentWave (JsMath.mk Real.pi Real.sin Real.cos Real.exp Real.sqrt Real.rpow)
          (DEFAULT_SETTINGS ℝ)] 0.8 0).1.x
        = (trochoidalSample (JsMath.mk Real.pi Real.sin Real.cos Real.exp Real.sqrt Real.rpow)
          (DEFAULT_SETTINGS ℝ) 0 0.8 0).1.x ∧
      (spectrumSample (JsMath.mk Real.pi Real.sin Real.cos Real.exp Real.sqrt Real.rpow)
        (DEFAULT_SETTINGS ℝ) 0
        [equivalentWave (JsMath.mk Real.pi Real.sin Real.cos Real.exp Real.sqrt Real.rpow)
          (DEFAULT_SETTINGS ℝ)] 0.8 0).1.y
        = (trochoidalSample (JsMath.mk Real.pi Real.sin Real.cos Real.exp Real.sqrt Real.rpow)
          (DEFAULT_SETTINGS ℝ) 0 0.8 0).1.y ∧
      (spectrumSample (JsMath.mk Real.pi Real.sin Real.cos Real.exp Real.sqrt Real.rpow)
        (DEFAULT_SETTINGS ℝ) 0
        [equivalentWave (JsMath.mk Real.pi Real.sin Real.cos Real.exp Real.sqrt Real.rpow)
          (DEFAULT_SETTINGS ℝ)] 0.8 0).1.z
        = (trochoidalSample (JsMath.mk Real.pi Real.sin Real.cos Real.exp Real.sqrt Real.rpow)
          (DEFAULT_SETTINGS ℝ) 0 0.8 0).1.z ∧
      (spectrumSample (JsMath.mk Real.pi Real.sin Real.cos Real.exp Real.sqrt Real.rpow)
        (DEFAULT_SETTINGS ℝ) 0
        [equivalentWave (JsMath.mk Real.pi Real.sin Real.cos Real.exp Real.sqrt Real.rpow)
          (DEFAULT_SETTINGS ℝ)] 0.8 0).2 * 0.3
        = (trochoidalSample (JsMath.mk Real.pi Real.sin Real.cos Real.exp Real.sqrt Real.rpow)
          (DEFAULT_SETTINGS ℝ) 0 0.8 0).2 * 0.35 ∧
      ∃ L : ℝ,
        (spectrumSample (JsMath.mk Real.pi Real.sin Real.cos Real.exp Real.sqrt Real.rpow)
          (DEFAULT_SETTINGS ℝ) 0
          [equivalentWave (JsMath.mk Real.pi Real.sin Real.cos Real.exp Real.sqrt Real.rpow)
            (DEFAULT_SETTINGS ℝ)] 0.8 0).1.lum
            = lumOut L (spectrumSample
              (JsMath.mk Real.pi Real.sin Real.cos Real.exp Real.sqrt Real.rpow)
              (DEFAULT_SETTINGS ℝ) 0
              [equivalentWave (JsMath.mk Real.pi Real.sin Real.cos Real.exp Real.sqrt Real.rpow)
                (DEFAULT_SETTINGS ℝ)] 0.8 0).2 ∧
          (trochoidalSample (JsMath.mk Real.pi Real.sin Real.cos Real.exp Real.sqrt Real.rpow)
            (DEFAULT_SETTINGS ℝ) 0 0.8 0).1.lum
            = lumOut L (trochoidalSample
              (JsMath.mk Real.pi Real.sin Real.cos Real.exp Real.sqrt Real.rpow)
              (DEFAULT_SETTINGS ℝ) 0 0.8 0).2 :=
  single_component_shading (JsMath.mk Real.pi Real.sin Real.cos Real.exp Real.sqrt Real.rpow)
    (DEFAULT_SETTINGS ℝ) 0 0.8 0 Real.pi_pos

/-! ## The mean of the basin grid -/

section BasinMeanLemmas

variable {α : Type} [LinearOrderedField α] [FloorRing α]

theorem basinSubStep_curr (M : JsMath α) (dt dropRate dropMag paddleMag : α)
    (sim : BasinSim α) :
    (basinSubStep M dt dropRate dropMag paddleMag sim).curr
      = removeMean sim (forcedNext M dt dropRate dropMag paddleMag sim) := rfl

theorem basinSubStep_solid (M : JsMath α) (dt dropRate dropMag paddleMag : α)
    (sim : BasinSim α) : (basinSubStep M dt dropRate dropMag paddleMag sim).solid = sim.solid :=
  rfl

theorem removeMean_eq (sim : BasinSim α) (next : Grid α) :
    removeMean sim next =
      if gridMean sim next = 0 then next
      else if sim.edge = Edge.fixed then
        zeroEdges sim.n (subtractMean (sim.n * sim.n) sim.solid (gridMean sim next) next)
      else subtractMean (sim.n * sim.n) sim.solid (gridMean sim next) next := rfl

theorem addAt_same (g : Grid α) (idx : ℤ) (v : α) : addAt g idx v idx = g idx + v := by
  unfold addAt
  rw [setAt_same]

theorem addAt_other (g : Grid α) (idx k : ℤ) (v : α) (h : k ≠ idx) : addAt g idx v k = g k := by
  unfold addAt
  rw [setAt_other _ _ _ _ h]

/-- The sum and the count of the mean loop as sums over the index range. -/
theorem meanStats_eq (m : ℕ) (solid : ℤ → Bool) (g : Grid α) :
    meanStats m solid g =
      (∑ i in Finset.range m, if solid (i : ℤ) then 0 else g (i : ℤ),
        ∑ i in Finset.range m, if solid (i : ℤ) then (0 : α) else 1) := by
  unfold meanStats
  induction m with
  | zero => simp [forRange]
  | succ m ih =>
    rw [forRange_succ, ih, Finset.sum_range_succ, Finset.sum_range_succ]
    by_cases hs : solid (m : ℤ) = true
    · simp [hs]
    · simp [hs]

/-- The subtraction loop changes the non-solid cells of the index range, each once. -/
theorem subtractMean_apply (m : ℕ) (solid : ℤ → Bool) (mu : α) (g : Grid α) (j : ℕ) :
    subtractMean m solid mu g (j : ℤ) =
      if j < m ∧ solid (j : ℤ) = false then g (j : ℤ) - mu else g (j : ℤ) := by
  unfold subtractMean
  induction m with
  | zero => simp [forRange]
  | succ m ih =>
    rw [forRange_succ]
    by_cases hs : solid (m : ℤ) = true
    · simp only [hs, if_true]
      rw [ih]
      by_cases hj : j = m
      · subst hj
        simp [hs]
      · have : (j < m + 1) ↔ (j < m) := by omega
        simp only [this]
    · simp only [hs, Bool.false_eq_true, if_false]
      by_cases hj : j = m
      · subst hj
        rw [addAt_same, ih]
        simp [hs]
        ring
      · have hne : (j : ℤ) ≠ (m : ℤ) := by exact_mod_cast hj
        rw [addAt_other _ _ _ _ hne, ih]
        have : (j < m + 1) ↔ (j < m) := by omega
        simp only [this]

theorem sum_subtractMean (m : ℕ) (solid : ℤ → Bool) (mu : α) (g : Grid α) :
    (meanStats m solid (subtractMean m solid mu g)).1
      = (meanStats m solid g).1 - (meanStats m solid g).2 * mu := by
  simp only [meanStats_eq]
  rw [Finset.sum_mul, ← Finset.sum_sub_distrib]
  apply Finset.sum_congr rfl
  intro i hi
  rw [subtractMean_apply]
  have him : i < m := Finset.mem_range.mp hi
  by_cases hs : solid (i : ℤ) = true
  · simp [hs]
  · simp [hs, him]

theorem sum_zero_of_count_zero (m : ℕ) (solid : ℤ → Bool) (g : Grid α)
    (h : (meanStats m solid g).2 = 0) : (meanStats m solid g).1 = 0 := by
  simp only [meanStats_eq] at h ⊢
  have hall := (Finset.sum_eq_zero_iff_of_nonneg (fun i _ => by
    by_cases hs : solid (i : ℤ) = true
    · simp [hs]
    · simp [hs])).mp h
  apply Finset.sum_eq_zero
  intro i hi
  have := hall i hi
  by_cases hs : solid (i : ℤ) = true
  · simp [hs]
  · simp [hs] at this

/-- A zero mean is a zero sum. -/
theorem sum_zero_of_gridMean_zero (sim : BasinSim α) (g : Grid α) (h : gridMean sim g = 0) :
    (meanStats (sim.n * sim.n) sim.solid g).1 = 0 := by
  unfold gridMean at h
  by_cases hc : (meanStats (sim.n * sim.n) sim.solid g).2 = 0
  · exact sum_zero_of_count_zero _ _ _ hc
  · rw [if_neg hc] at h
    rcases div_eq_zero_iff.mp h with h1 | h1
    · exact h1
    · exact absurd h1 hc

/-- With free edges the grid returned by the mean removal has sum `0` over the non-solid
cells. -/
theorem removeMean_free_sum (sim : BasinSim α) (g : Grid α) (he : sim.edge = Edge.free) :
    (meanStats (sim.n * sim.n) sim.solid (removeMean sim g)).1 = 0 := by
  rw [removeMean_eq]
  by_cases hm : gridMean sim g = 0
  · rw [if_pos hm]
    exact sum_zero_of_gridMean_zero sim g hm
  · rw [if_neg hm, if_neg (by rw [he]; decide), sum_subtractMean]
    have hc : (meanStats (sim.n * sim.n) sim.solid g).2 ≠ 0 := by
      intro hc
      apply hm
      unfold gridMean
      rw [if_pos hc]
    have hmu : gridMean sim g = (meanStats (sim.n * sim.n) sim.solid g).1 /
        (meanStats (sim.n * sim.n) sim.solid g).2 := by
      unfold gridMean
      rw [if_neg hc]
    rw [hmu]
    field_simp

/-- The value left by a loop that only writes zeros. -/
theorem zeroLoop_apply (a b : ℕ → ℤ) (n : ℕ) (g : Grid α) (k : ℤ) :
    forRange n (fun i g => setAt (setAt g (a i) 0) (b i) 0) g k =
      if ∃ i : ℕ, i < n ∧ (k = a i ∨ k = b i) then 0 else g k := by
  induction n with
  | zero => simp [forRange]
  | succ m ih =>
    rw [forRange_succ]
    by_cases hb : k = b m
    · rw [hb, setAt_same, if_pos ⟨m, Nat.lt_succ_self m, Or.inr rfl⟩]
    · rw [setAt_other _ _ _ _ hb]
      by_cases ha : k = a m
      · rw [ha, setAt_same, if_pos ⟨m, Nat.lt_succ_self m, Or.inl rfl⟩]
      · rw [setAt_other _ _ _ _ ha, ih]
        have hiff : (∃ i : ℕ, i < m + 1 ∧ (k = a i ∨ k = b i)) ↔
            ∃ i : ℕ, i < m ∧ (k = a i ∨ k = b i) := by
          constructor
          · rintro ⟨i, hi, h⟩
            rcases Nat.lt_succ_iff_lt_or_eq.mp hi with h1 | h1
            · exact ⟨i, h1, h⟩
            · subst h1
              rcases h with h | h
              · exact absurd h ha
              · exact absurd h hb
          · rintro ⟨i, hi, h⟩
            exact ⟨i, Nat.lt_succ_of_lt hi, h⟩
        simp only [hiff]

theorem zeroEdges_apply (n : ℕ) (g : Grid α) (k : ℤ) :
    zeroEdges n g k = if isBorder n k then 0 else g k := by
  unfold zeroEdges
  rw [zeroLoop_apply (fun j : ℕ => (j : ℤ) * n) (fun j : ℕ => (j : ℤ) * n + ((n : ℤ) - 1)),
    zeroLoop_apply (fun i : ℕ => (i : ℤ)) (fun i : ℕ => ((n : ℤ) - 1) * n + i)]
  unfold isBorder
  by_cases h2 : ∃ j : ℕ, j < n ∧ (k = (j : ℤ) * n ∨ k = (j : ℤ) * n + ((n : ℤ) - 1))
  · rw [if_pos h2, if_pos (Or.inr h2)]
  · rw [if_neg h2]
    by_cases h1 : ∃ i : ℕ, i < n ∧ (k = (i : ℤ) ∨ k = ((n : ℤ) - 1) * n + i)
    · rw [if_pos h1, if_pos (Or.inl h1)]
    · rw [if_neg h1, if_neg (by rintro (h | h); exact h1 h; exact h2 h)]

theorem BorderZero_isBorder (n : ℕ) (g : Grid α) (hb : BorderZero n g) (k : ℤ)
    (hk : isBorder n k) : g k = 0 := by
  rcases hk with ⟨i, hi, h | h⟩ | ⟨j, hj, h | h⟩
  · rw [h]; exact (hb i hi).1
  · rw [h]; exact (hb i hi).2.1
  · rw [h]; exact (hb j hj).2.2.1
  · rw [h]; exact (hb j hj).2.2.2

theorem borderCount_pos (n : ℕ) (hn : 0 < n) : 0 < borderCount n := by
  unfold borderCount
  apply Finset.card_pos.mpr
  refine ⟨0, Finset.mem_filter.mpr ⟨Finset.mem_range.mpr (Nat.mul_pos hn hn), ?_⟩⟩
  exact Or.inl ⟨0, hn, Or.inl rfl⟩

/-- With fixed edges and no solid cell, the grid returned by the mean removal for an input with
a zero border has the sum `borderCount * mean`, `mean` being the mean that is subtracted. -/
theorem removeMean_fixed_sum (sim : BasinSim α) (g : Grid α) (he : sim.edge = Edge.fixed)
    (hsolid : ∀ k, sim.solid k = false) (hb : BorderZero sim.n g) :
    (meanStats (sim.n * sim.n) sim.solid (removeMean sim g)).1
      = (borderCount sim.n : α) * gridMean sim g := by
  rw [removeMean_eq]
  by_cases hm : gridMean sim g = 0
  · rw [if_pos hm, hm, mul_zero]
    exact sum_zero_of_gridMean_zero sim g hm
  · rw [if_neg hm, if_pos he]
    have hfree : (meanStats (sim.n * sim.n) sim.solid
        (subtractMean (sim.n * sim.n) sim.solid (gridMean sim g) g)).1 = 0 := by
      rw [sum_subtractMean]
      have hc : (meanStats (sim.n * sim.n) sim.solid g).2 ≠ 0 := by
        intro hc
        apply hm
        unfold gridMean
        rw [if_pos hc]
      have hmu : gridMean sim g = (meanStats (sim.n * sim.n) sim.solid g).1 /
          (meanStats (sim.n * sim.n) sim.solid g).2 := by
        unfold gridMean
        rw [if_neg hc]
      rw [hmu]
      field_simp
    have hsplit : (meanStats (sim.n * sim.n) sim.solid
        (zeroEdges sim.n (subtractMean (sim.n * sim.n) sim.solid (gridMean sim g) g))).1
        = (meanStats (sim.n * sim.n) sim.solid
            (subtractMean (sim.n * sim.n) sim.solid (gridMean sim g) g)).1
          + ∑ i in Finset.range (sim.n * sim.n),
              if isBorder sim.n (i : ℤ) then gridMean sim g else 0 := by
      simp only [meanStats_eq, hsolid, Bool.false_eq_true, if_false]
      rw [← Finset.sum_add_distrib]
      apply Finset.sum_congr rfl
      intro i hi
      rw [zeroEdges_apply, subtractMean_apply]
      have him : i < sim.n * sim.n := Finset.mem_range.mp hi
      by_cases hbi : isBorder sim.n (i : ℤ)
      · simp [hbi, him, hsolid, BorderZero_isBorder sim.n g hb _ hbi]
      · simp [hbi]
    rw [hsplit, hfree, zero_add, Finset.sum_ite, Finset.sum_const_zero, add_zero,
      Finset.sum_const, nsmul_eq_mul]
    rfl

theorem forcedNext_fixed_border (M : JsMath α) (dt dropRate dropMag paddleMag : α)
    (sim : BasinSim α) (he : sim.edge = Edge.fixed) :
    BorderZero sim.n (forcedNext M dt dropRate dropMag paddleMag sim) := by
  unfold forcedNext
  simp only [if_pos he]
  exact zeroEdges_border _ _

/-- C14 (amended): with edge mode `'fixed'` and no solid cell, immediately after a solver
sub-step the border of the current grid is `0` and the sum of the grid is the mean that was
subtracted times the number of border cells: the subtraction brings the sum to `0` and the
re-zeroing of the border cells, which then hold `-mean`, shifts it.  The sum (and the mean) of
the grid is therefore `0` after the sub-step exactly when the mean before the removal was `0`. -/
theorem basin_fixed_mean (M : JsMath α) (dt dropRate dropMag paddleMag : α)
    (sim : BasinSim α) (hfixed : sim.edge = Edge.fixed) (hsolid : ∀ k, sim.solid k = false)
    (hn : 0 < sim.n) :
    BorderZero sim.n (basinSubStep M dt dropRate dropMag paddleMag sim).curr ∧
      (meanStats (sim.n * sim.n) sim.solid
          (basinSubStep M dt dropRate dropMag paddleMag sim).curr).1
        = (borderCount sim.n : α) *
          gridMean sim (forcedNext M dt dropRate dropMag paddleMag sim) ∧
      ((meanStats (sim.n * sim.n) sim.solid
          (basinSubStep M dt dropRate dropMag paddleMag sim).curr).1 = 0 ↔
        gridMean sim (forcedNext M dt dropRate dropMag paddleMag sim) = 0) := by
  have hsum := removeMean_fixed_sum sim (forcedNext M dt dropRate dropMag paddleMag sim) hfixed
    hsolid (forcedNext_fixed_border M dt dropRate dropMag paddleMag sim hfixed)
  have hbc : (borderCount sim.n : α) ≠ 0 := by
    have := borderCount_pos sim.n hn
    exact_mod_cast (ne_of_gt this)
  refine ⟨basinSubStep_border M dt dropRate dropMag paddleMag sim hfixed, ?_, ?_⟩
  · rw [basinSubStep_curr]
    exact hsum
  · rw [basinSubStep_curr, hsum]
    constructor
    · intro h
      rcases mul_eq_zero.mp h with h1 | h1
      · exact absurd h1 hbc
      · exact h1
    · intro h
      rw [h, mul_zero]

/-- C13: with edge mode `'free'`, immediately after every solver sub-step (whatever the state
before it, the step size and the forcing) the sum of the current height grid over the non-solid
cells, and so its mean, is exactly `0`. -/
theorem basin_free_mean_zero (M : JsMath α) (dt dropRate dropMag paddleMag : α)
    (sim : BasinSim α) (hfree : sim.edge = Edge.free) :
    (meanStats (sim.n * sim.n) sim.solid
        (basinSubStep M dt dropRate dropMag paddleMag sim).curr).1 = 0 ∧
      gridMean sim (basinSubStep M dt dropRate dropMag paddleMag sim).curr = 0 := by
  have h := removeMean_free_sum sim (forcedNext M dt dropRate dropMag paddleMag sim) hfree
  rw [basinSubStep_curr]
  refine ⟨h, ?_⟩
  unfold gridMean
  split
  · rfl
  · rw [h, zero_div]

end BasinMeanLemmas

/-- The witness of C13: a sub-step of the simulation created from the default settings (free
edges), over the reals. -/
theorem basin_free_mean_zero_witness :
    (meanStats
        ((basinCreate (JsMath.mk Real.pi Real.sin Real.cos Real.exp Real.sqrt Real.rpow)
          (DEFAULT_SETTINGS ℝ)).n *
          (basinCreate (JsMath.mk Real.pi Real.sin Real.cos Real.exp Real.sqrt Real.rpow)
            (DEFAULT_SETTINGS ℝ)).n)
        (basinCreate (JsMath.mk Real.pi Real.sin Real.cos Real.exp Real.sqrt Real.rpow)
          (DEFAULT_SETTINGS ℝ)).solid
        (basinSubStep (JsMath.mk Real.pi Real.sin Real.cos Real.exp Real.sqrt Real.rpow)
          0.027 7.625 1.65 1.1
          (basinCreate (JsMath.mk Real.pi Real.sin Real.cos Real.exp Real.sqrt Real.rpow)
            (DEFAULT_SETTINGS ℝ))).curr).1 = 0 ∧
      gridMean
        (basinCreate (JsMath.mk Real.pi Real.sin Real.cos Real.exp Real.sqrt Real.rpow)
          (DEFAULT_SETTINGS ℝ))
        (basinSubStep (JsMath.mk Real.pi Real.sin Real.cos Real.exp Real.sqrt Real.rpow)
          0.027 7.625 1.65 1.1
          (basinCreate (JsMath.mk Real.pi Real.sin Real.cos Real.exp Real.sqrt Real.rpow)
            (DEFAULT_SETTINGS ℝ))).curr = 0 :=
  basin_free_mean_zero (JsMath.mk Real.pi Real.sin Real.cos Real.exp Real.sqrt Real.rpow)
    0.027 7.625 1.65 1.1
    (basinCreate (JsMath.mk Real.pi Real.sin Real.cos Real.exp Real.sqrt Real.rpow)
      (DEFAULT_SETTINGS ℝ)) rfl

/-- The counterexample of C14: an unforced sub-step (`dt = 0.1`, no raindrop, no paddle) of the
`3 x 3` basin with fixed edges and a bump of `1` in the centre.  The leapfrog update puts
`1.875` in the centre, the border is zeroed, the mean `1.875 / 9` is subtracted everywhere and
the border is zeroed again: the centre holds `5/3`, the eight border cells `0`, and the sum of
the grid is `5/3`, its mean `5/27`, not `0`. -/
theorem basin_fixed_mean_nonzero :
    (basinSubStep ratMath (1 / 10) 0 0 0 bump3).curr 4 = 5 / 3 ∧
      (meanStats (3 * 3) bump3.solid (basinSubStep ratMath (1 / 10) 0 0 0 bump3).curr).1
        = 5 / 3 ∧
      gridMean bump3 (basinSubStep ratMath (1 / 10) 0 0 0 bump3).curr = 5 / 27 := by
  decide!

/-- The witness of C14: a sub-step of the simulation created from the default settings with
fixed edges, over the reals. -/
theorem basin_fixed_mean_witness :
    BorderZero
        (basinCreate (JsMath.mk Real.pi Real.sin Real.cos Real.exp Real.sqrt Real.rpow)
          { DEFAULT_SETTINGS ℝ with basinEdge := Edge.fixed }).n
        (basinSubStep (JsMath.mk Real.pi Real.sin Real.cos Real.exp Real.sqrt Real.rpow)
          0.027 7.625 1.65 1.1
          (basinCreate (JsMath.mk Real.pi Real.sin Real.cos Real.exp Real.sqrt Real.rpow)
            { DEFAULT_SETTINGS ℝ with basinEdge := Edge.fixed })).curr ∧
      (meanStats
          ((basinCreate (JsMath.mk Real.pi Real.sin Real.cos Real.exp Real.sqrt Real.rpow)
            { DEFAULT_SETTINGS ℝ with basinEdge := Edge.fixed }).n *
            (basinCreate (JsMath.mk Real.pi Real.sin Real.cos Real.exp Real.sqrt Real.rpow)
              { DEFAULT_SETTINGS ℝ with basinEdge := Edge.fixed }).n)
          (basinCreate (JsMath.mk Real.pi Real.sin Real.cos Real.exp Real.sqrt Real.rpow)
            { DEFAULT_SETTINGS ℝ with basinEdge := Edge.fixed }).solid
          (basinSubStep (JsMath.mk Real.pi Real.sin Real.cos Real.exp Real.sqrt Real.rpow)
            0.027 7.625 1.65 1.1
            (basinCreate (JsMath.mk Real.pi Real.sin Real.cos Real.exp Real.sqrt Real.rpow)
              { DEFAULT_SETTINGS ℝ with basinEdge := Edge.fixed })).curr).1
        = (borderCount
            (basinCreate (JsMath.mk Real.pi Real.sin Real.cos Real.exp Real.sqrt Real.rpow)
              { DEFAULT_SETTINGS ℝ with basinEdge := Edge.fixed }).n : ℝ) *
          gridMean
            (basinCreate (JsMath.mk Real.pi Real.sin Real.cos Real.exp Real.sqrt Real.rpow)
              { DEFAULT_SETTINGS ℝ with basinEdge := Edge.fixed })
            (forcedNext (JsMath.mk Real.pi Real.sin Real.cos Real.exp Real.sqrt Real.rpow)
              0.027 7.625 1.65 1.1
              (basinCreate (JsMath.mk Real.pi Real.sin Real.cos Real.exp Real.sqrt Real.rpow)
                { DEFAULT_SETTINGS ℝ with basinEdge := Edge.fixed })) ∧
      ((meanStats
          ((basinCreate (JsMath.mk Real.pi Real.sin Real.cos Real.exp Real.sqrt Real.rpow)
            { DEFAULT_SETTINGS ℝ with basinEdge := Edge.fixed }).n *
            (basinCreate (JsMath.mk Real.pi Real.sin Real.cos Real.exp Real.sqrt Real.rpow)
              { DEFAULT_SETTINGS ℝ with basinEdge := Edge.fixed }).n)
          (basinCreate (JsMath.mk Real.pi Real.sin Real.cos Real.exp Real.sqrt Real.rpow)
            { DEFAULT_SETTINGS ℝ with basinEdge := Edge.fixed }).solid
          (basinSubStep (JsMath.mk Real.pi Real.sin Real.cos Real.exp Real.sqrt Real.rpow)
            0.027 7.625 1.65 1.1
            (basinCreate (JsMath.mk Real.pi Real.sin Real.cos Real.exp Real.sqrt Real.rpow)
              { DEFAULT_SETTINGS ℝ with basinEdge := Edge.fixed })).curr).1 = 0 ↔
        gridMean
          (basinCreate (JsMath.mk Real.pi Real.sin Real.cos Real.exp Real.sqrt Real.rpow)
            { DEFAULT_SETTINGS ℝ with basinEdge := Edge.fixed })
          (forcedNext (JsMath.mk Real.pi Real.sin Real.cos Real.exp Real.sqrt Real.rpow)
            0.027 7.625 1.65 1.1
            (basinCreate (JsMath.mk Real.pi Real.sin Real.cos Real.exp Real.sqrt Real.rpow)
              { DEFAULT_SETTINGS ℝ with basinEdge := Edge.fixed })) = 0) :=
  basin_fixed_mean (JsMath.mk Real.pi Real.sin Real.cos Real.exp Real.sqrt Real.rpow)
    0.027 7.625 1.65 1.1
    (basinCreate (JsMath.mk Real.pi Real.sin Real.cos Real.exp Real.sqrt Real.rpow)
      { DEFAULT_SETTINGS ℝ with basinEdge := Edge.fixed }) rfl (fun _ => rfl) (by decide)

/-! ## The rasteriser -/

section RasteriserLemmas

variable {α : Type} [LinearOrderedField α] [FloorRing α]

theorem depthWrite_some (buf : PixelBuffers α) (i : ℤ) (z l y : α) :
    depthWrite buf (some (i, z, l, y)) =
      if z > buf.zBuf i then
        ⟨setAt buf.zBuf i z, setAt buf.lum i l, setAt buf.heightBuf i y⟩
      else buf := rfl

theorem depthWrite_other (buf : PixelBuffers α) (idx i : ℤ) (z l y : α) (h : idx ≠ i) :
    (depthWrite buf (some (i, z, l, y))).zBuf idx = buf.zBuf idx ∧
      (depthWrite buf (some (i, z, l, y))).lum idx = buf.lum idx ∧
      (depthWrite buf (some (i, z, l, y))).heightBuf idx = buf.heightBuf idx := by
  rw [depthWrite_some]
  by_cases hz : z > buf.zBuf i
  · rw [if_pos hz]
    exact ⟨setAt_other _ _ _ _ h, setAt_other _ _ _ _ h, setAt_other _ _ _ _ h⟩
  · rw [if_neg hz]
    exact ⟨rfl, rfl, rfl⟩

/-- The state of a pixel after a sequence of depth-tested writes into cleared buffers: it is
untouched if no write names it, and otherwise holds the first write of largest inverse depth. -/
theorem depthWrite_fold_spec (reqs : List (Option (ℤ × α × α × α)))
    (hpos : ∀ i z l y, some (i, z, l, y) ∈ reqs → 0 < z) (idx : ℤ) :
    ((∀ z l y, some (idx, z, l, y) ∉ reqs) ∧
        (reqs.foldl depthWrite (clearBuffers α)).zBuf idx = 0 ∧
        (reqs.foldl depthWrite (clearBuffers α)).lum idx = 0 ∧
        (reqs.foldl depthWrite (clearBuffers α)).heightBuf idx = 0) ∨
      ∃ pre post z l y, reqs = pre ++ some (idx, z, l, y) :: post ∧
        (reqs.foldl depthWrite (clearBuffers α)).zBuf idx = z ∧
        (reqs.foldl depthWrite (clearBuffers α)).lum idx = l ∧
        (reqs.foldl depthWrite (clearBuffers α)).heightBuf idx = y ∧
        (∀ z1 l1 y1, some (idx, z1, l1, y1) ∈ pre → z1 < z) ∧
        ∀ z1 l1 y1, some (idx, z1, l1, y1) ∈ post → z1 ≤ z := by
  induction reqs using List.reverseRecOn with
  | nil =>
    left
    exact ⟨fun z l y h => by simp at h, rfl, rfl, rfl⟩
  | append_singleton rs r ih =>
    have hpos1 : ∀ i z l y, some (i, z, l, y) ∈ rs → 0 < z :=
      fun i z l y h => hpos i z l y (List.mem_append_left _ h)
    specialize ih hpos1
    rw [List.foldl_append, List.foldl_cons, List.foldl_nil]
    cases r with
    | none =>
      rcases ih with ⟨h0, h1, h2, h3⟩ | ⟨pre, post, z, l, y, he, h1, h2, h3, h4, h5⟩
      · left
        refine ⟨fun z l y h => ?_, h1, h2, h3⟩
        rcases List.mem_append.mp h with h | h
        · exact h0 z l y h
        · simp at h
      · right
        refine ⟨pre, post ++ [none], z, l, y, by rw [he]; simp, h1, h2, h3, h4, ?_⟩
        intro z1 l1 y1 h
        rcases List.mem_append.mp h with h | h
        · exact h5 z1 l1 y1 h
        · simp at h
    | some q =>
      obtain ⟨i, zq, lq, yq⟩ := q
      by_cases hi : idx = i
      · subst hi
        have hzq : 0 < zq := hpos idx zq lq yq (by simp)
        rcases ih with ⟨h0, h1, h2, h3⟩ | ⟨pre, post, z, l, y, he, h1, h2, h3, h4, h5⟩
        · right
          refine ⟨rs, [], zq, lq, yq, rfl, ?_, ?_, ?_, ?_, ?_⟩
          · rw [depthWrite_some]
            rw [if_pos (by rw [h1]; exact hzq)]
            exact setAt_same _ _ _
          · rw [depthWrite_some]
            rw [if_pos (by rw [h1]; exact hzq)]
            exact setAt_same _ _ _
          · rw [depthWrite_some]
            rw [if_pos (by rw [h1]; exact hzq)]
            exact setAt_same _ _ _
          · intro z1 l1 y1 h
            exact absurd h (h0 z1 l1 y1)
          · intro z1 l1 y1 h
            simp at h
        · by_cases hgt : zq > z
          · right
            refine ⟨rs, [], zq, lq, yq, rfl, ?_, ?_, ?_, ?_, ?_⟩
            · rw [depthWrite_some]
              rw [if_pos (by rw [h1]; exact hgt)]
              exact setAt_same _ _ _
            · rw [depthWrite_some]
              rw [if_pos (by rw [h1]; exact hgt)]
              exact setAt_same _ _ _
            · rw [depthWrite_some]
              rw [if_pos (by rw [h1]; exact hgt)]
              exact setAt_same _ _ _
            · intro z1 l1 y1 h
              rw [he] at h
              rcases List.mem_append.mp h with h | h
              · exact lt_trans (h4 z1 l1 y1 h) hgt
              · rcases List.mem_cons.mp h with h | h
                · cases h
                  exact hgt
                · exact lt_of_le_of_lt (h5 z1 l1 y1 h) hgt
            · intro z1 l1 y1 h
              simp at h
          · right
            refine ⟨pre, post ++ [some (idx, zq, lq, yq)], z, l, y, by rw [he]; simp, ?_, ?_, ?_,
              h4, ?_⟩
            · rw [depthWrite_some]
              rw [if_neg (by rw [h1]; exact hgt)]
              exact h1
            · rw [depthWrite_some]
              rw [if_neg (by rw [h1]; exact hgt)]
              exact h2
            · rw [depthWrite_some]
              rw [if_neg (by rw [h1]; exact hgt)]
              exact h3
            · intro z1 l1 y1 h
              rcases List.mem_append.mp h with h | h
              · exact h5 z1 l1 y1 h
              · simp at h
                rw [h.1]
                exact not_lt.mp hgt
      · obtain ⟨e1, e2, e3⟩ := depthWrite_other (rs.foldl depthWrite (clearBuffers α)) idx i
          zq lq yq hi
        rw [e1, e2, e3]
        rcases ih with ⟨h0, h1, h2, h3⟩ | ⟨pre, post, z, l, y, he, h1, h2, h3, h4, h5⟩
        · left
          refine ⟨fun z l y h => ?_, h1, h2, h3⟩
          rcases List.mem_append.mp h with h | h
          · exact h0 z l y h
          · simp at h
            exact hi h.1
        · right
          refine ⟨pre, post ++ [some (i, zq, lq, yq)], z, l, y, by rw [he]; simp, h1, h2, h3, h4,
            ?_⟩
          intro z1 l1 y1 h
          rcases List.mem_append.mp h with h | h
          · exact h5 z1 l1 y1 h
          · simp at h
            exact absurd h.1 hi

theorem foldl_nested {σ β γ : Type} (f : σ → β × γ → σ) (xs : List β) (ys : List γ) (s : σ) :
    xs.foldl (fun s x => ys.foldl (fun s y => f s (x, y)) s) s
      = (xs.flatMap fun x => ys.map fun y => (x, y)).foldl f s := by
  induction xs generalizing s with
  | nil => rfl
  | cons x xs ih =>
    rw [List.foldl_cons, List.flatMap_cons, List.foldl_append, ih, List.foldl_map]

/-- The surface pass is the sequence of the depth-tested writes of the sample points. -/
theorem surfacePass_eq (M : JsMath α) (settings : Settings α) (t : α)
    (ref : Option (BasinSim α)) (PW PH : ℕ) (buf : PixelBuffers α) :
    surfacePass M settings t ref PW PH buf
      = ((samplePoints (sampleStep M PW)).map (sampleRequest M settings t ref PW PH)).foldl
          depthWrite buf := by
  unfold surfacePass samplePoints
  simp only
  rw [foldl_nested (fun buf uv => plot M settings t ref (rotation M t) PW PH buf uv),
    List.foldl_map]
  rfl

theorem project_pos (rot : Rotation α) (PW PH : ℕ) (s : WaveSample α) (i : ℤ) (z l y : α)
    (h : project rot PW PH s = some (i, z, l, y)) : 0 < z := by
  unfold project at h
  simp only at h
  split at h
  · cases h
  · rename_i hd
    split at h
    · simp only [Option.some.injEq, Prod.mk.injEq] at h
      rw [← h.2.1]
      apply one_div_pos.mpr
      push_neg at hd
      linarith
    · cases h

/-- A sample that is skipped leaves the buffers as they are. -/
theorem plot_skipped (M : JsMath α) (settings : Settings α) (t : α)
    (ref : Option (BasinSim α)) (PW PH : ℕ) (buf : PixelBuffers α) (uv : α × α)
    (h : sampleRequest M settings t ref PW PH uv = none) :
    plot M settings t ref (rotation M t) PW PH buf uv = buf := by
  unfold plot
  unfold sampleRequest at h
  rw [h]
  rfl

/-- With a positive step the loop stops by its own test once `lo + fuel * step > hi`: more
fuel does not change the values visited. -/
theorem stepValues_stable (fuel extra : ℕ) (lo hi step : α) (hs : 0 < step)
    (h : hi < lo + (fuel : α) * step) :
    stepValues (fuel + extra) lo hi step = stepValues fuel lo hi step := by
  induction fuel generalizing lo with
  | zero =>
    have hlo : ¬ lo ≤ hi := by
      simp at h
      exact not_le.mpr h
    cases extra with
    | zero => rfl
    | succ e =>
      show stepValues (0 + (e + 1)) lo hi step = []
      rw [Nat.zero_add, stepValues, if_neg hlo]
  | succ f ih =>
    rw [Nat.add_right_comm, stepValues, stepValues]
    by_cases hlo : lo ≤ hi
    · rw [if_pos hlo, if_pos hlo, ih]
      push_cast at h
      linarith
    · rw [if_neg hlo, if_neg hlo]

theorem sampleStep_range (M : JsMath α) (PW : ℕ) :
    0.03 ≤ sampleStep M PW ∧ sampleStep M PW ≤ 0.07 :=
  ⟨clamp_ge _ _ _, clamp_le _ _ _ (by norm_num)⟩

/-- The sampling loop of a frame ends by its own test: the 234 iterations allowed are enough. -/
theorem sampleCoords_complete (M : JsMath α) (PW extra : ℕ) :
    stepValues (234 + extra) (-3.5) 3.5 (sampleStep M PW) = sampleCoords (sampleStep M PW) := by
  have h := (sampleStep_range M PW).1
  apply stepValues_stable
  · linarith
  · push_cast
    linarith

theorem project_eq (rot : Rotation α) (PW PH : ℕ) (s : WaveSample α) :
    project rot PW PH s =
      if viewDepth rot s ≤ 0.1 then none
      else if pixelX rot PW s ≥ 0 ∧ pixelX rot PW s < PW ∧ pixelY rot PH s ≥ 0 ∧
          pixelY rot PH s < PH then
        some (pixelY rot PH s * PW + pixelX rot PW s, 1 / viewDepth rot s, s.lum, s.y)
      else none := rfl

end RasteriserLemmas

/-! ## The glyph encoder -/

section EncoderLemmas

variable {α : Type} [LinearOrderedField α] [FloorRing α]

theorem foldl_nested_map {σ β γ δ : Type} (F : σ → δ → σ) (g : β → γ → δ) (xs : List β)
    (ys : List γ) (s : σ) :
    xs.foldl (fun s x => ys.foldl (fun s y => F s (g x y)) s) s
      = (xs.flatMap fun x => ys.map fun y => g x y).foldl F s := by
  induction xs generalizing s with
  | nil => rfl
  | cons x xs ih =>
    rw [List.foldl_cons, List.flatMap_cons, List.foldl_append, ih, List.foldl_map]

theorem stats_foldl (buf : PixelBuffers α) (l : List ℤ) (st : α × α × α) :
    l.foldl (fun st idx =>
        if buf.zBuf idx > 0 then (st.1 + buf.lum idx, st.2.1 + 1, st.2.2 + buf.heightBuf idx)
        else st) st
      = (st.1 + ((l.filter fun idx => buf.zBuf idx > 0).map buf.lum).sum,
          st.2.1 + ((l.filter fun idx => buf.zBuf idx > 0).length : α),
          st.2.2 + ((l.filter fun idx => buf.zBuf idx > 0).map buf.heightBuf).sum) := by
  induction l generalizing st with
  | nil => simp
  | cons i l ih =>
    rw [List.foldl_cons, ih]
    by_cases hz : buf.zBuf i > 0
    · simp [hz]
      refine ⟨by ring, by ring, by ring⟩
    · simp [hz]

/-- The accumulation loops sum over the pixels of the cell that were hit. -/
theorem cellStats_eq (buf : PixelBuffers α) (PW cx cy : ℕ) :
    cellStats buf PW cx cy
      = (((cellHits buf PW cx cy).map buf.lum).sum, ((cellHits buf PW cx cy).length : α),
          ((cellHits buf PW cx cy).map buf.heightBuf).sum) := by
  have h : cellStats buf PW cx cy = (cellPixels PW cx cy).foldl (fun st idx =>
      if buf.zBuf idx > 0 then (st.1 + buf.lum idx, st.2.1 + 1, st.2.2 + buf.heightBuf idx)
      else st) (0, 0, 0) := by
    unfold cellStats cellPixels forRange
    exact foldl_nested_map (fun st idx =>
      if buf.zBuf idx > 0 then (st.1 + buf.lum idx, st.2.1 + 1, st.2.2 + buf.heightBuf idx)
      else st) (fun dy dx : ℕ => ((cy : ℤ) * 4 + dy) * PW + ((cx : ℤ) * 2 + dx)) _ _ _
  rw [h, stats_foldl]
  simp [cellHits]

theorem densityLevel_mono (a b : α) (h : a ≤ b) : densityLevel a ≤ densityLevel b := by
  unfold densityLevel
  exact min_le_min (le_refl _) (Int.floor_mono (by linarith))

theorem densityLevel_range (a : α) (h0 : 0 ≤ a) : 0 ≤ densityLevel a ∧ densityLevel a ≤ 8 := by
  unfold densityLevel
  refine ⟨le_min (by norm_num) (Int.floor_nonneg.mpr (by linarith)), min_le_left _ _⟩

theorem densityLevel_eq_zero (a : α) (h0 : 0 ≤ a) : densityLevel a = 0 ↔ a < 1 / 9 := by
  unfold densityLevel
  have hf : (0 : ℤ) ≤ ⌊a * 9⌋ := Int.floor_nonneg.mpr (by linarith)
  constructor
  · intro h
    have h1 : ⌊a * 9⌋ < 1 := by
      by_contra hc
      push_neg at hc
      have : (1 : ℤ) ≤ min 8 ⌊a * 9⌋ := le_min (by norm_num) hc
      omega
    rw [Int.floor_lt] at h1
    push_cast at h1
    linarith
  · intro h
    have h1 : ⌊a * 9⌋ < 1 := by
      rw [Int.floor_lt]
      push_cast
      linarith
    have h2 : ⌊a * 9⌋ = 0 := by omega
    rw [h2]
    rfl

theorem densityLevel_eq_eight (a : α) : densityLevel a = 8 ↔ 8 / 9 ≤ a := by
  unfold densityLevel
  constructor
  · intro h
    have h1 : (8 : ℤ) ≤ ⌊a * 9⌋ := by
      rw [← h]
      exact min_le_right _ _
    rw [Int.le_floor] at h1
    push_cast at h1
    linarith
  · intro h
    have h1 : (8 : ℤ) ≤ ⌊a * 9⌋ := by
      rw [Int.le_floor]
      push_cast
      linarith
    exact min_eq_left h1

theorem sum_map_range (l : List ℤ) (f : ℤ → α) (lo hi : α)
    (h : ∀ i ∈ l, lo ≤ f i ∧ f i ≤ hi) :
    lo * (l.length : α) ≤ (l.map f).sum ∧ (l.map f).sum ≤ hi * (l.length : α) := by
  induction l with
  | nil => simp
  | cons i l ih =>
    have h1 := h i (List.mem_cons_self _ _)
    have h2 := ih (fun j hj => h j (List.mem_cons_of_mem _ hj))
    simp only [List.map_cons, List.sum_cons, List.length_cons]
    push_cast
    constructor <;> nlinarith [h1.1, h1.2, h2.1, h2.2]

/-- The average of the values of `f` over a non-empty list lies between their bounds. -/
theorem average_range (l : List ℤ) (f : ℤ → α) (lo hi : α) (hne : l ≠ [])
    (h : ∀ i ∈ l, lo ≤ f i ∧ f i ≤ hi) :
    lo ≤ (l.map f).sum / (l.length : α) ∧ (l.map f).sum / (l.length : α) ≤ hi := by
  have hlen : (0 : α) < (l.length : α) := by
    have : 0 < l.length := List.length_pos.mpr hne
    exact_mod_cast this
  obtain ⟨h1, h2⟩ := sum_map_range l f lo hi h
  exact ⟨(le_div_iff₀ hlen).mpr h1, (div_le_iff₀ hlen).mpr h2⟩

theorem encodeCell_blank (settings : Settings α) (t : α) (buf : PixelBuffers α) (PW cx cy : ℕ)
    (h : cellHits buf PW cx cy = []) :
    encodeCell settings t buf PW cx cy = ⟨blankChar, Color.plain, none⟩ := by
  unfold encodeCell
  simp only [cellStats_eq, h, List.length_nil, Nat.cast_zero, gt_iff_lt, lt_self_iff_false,
    if_false]

theorem encodeCell_char (settings : Settings α) (t : α) (buf : PixelBuffers α) (PW cx cy : ℕ)
    (h : cellHits buf PW cx cy ≠ []) :
    (encodeCell settings t buf PW cx cy).char
      = patternChar (densityLevel (((cellHits buf PW cx cy).map buf.lum).sum /
          ((cellHits buf PW cx cy).length : α))) := by
  have hlen : (0 : α) < ((cellHits buf PW cx cy).length : α) := by
    have : 0 < (cellHits buf PW cx cy).length := List.length_pos.mpr h
    exact_mod_cast this
  unfold encodeCell
  simp only [cellStats_eq, gt_iff_lt, hlen, if_true]
  split <;> rfl

/-- C17: the accumulation loops of a cell sum the luminance (and the height) over exactly those
of its `2 x 4` pixels whose stored inverse depth is above `0`; with no such pixel the cell is
blank, otherwise its glyph is `patterns[level]` with `level = min(8, floor(avgLum * 9))`, which
for pixel luminances in `[0, 1]` lies in `0 .. 8`; the level is non-decreasing in `avgLum`, is
`0` exactly when `avgLum < 1/9` and `8` exactly when `avgLum >= 8/9`. -/
theorem encodeCell_density (settings : Settings α) (t : α) (buf : PixelBuffers α)
    (PW cx cy : ℕ)
    (hl : ∀ idx ∈ cellHits buf PW cx cy, 0 ≤ buf.lum idx ∧ buf.lum idx ≤ 1) :
    cellStats buf PW cx cy
        = (((cellHits buf PW cx cy).map buf.lum).sum, ((cellHits buf PW cx cy).length : α),
          ((cellHits buf PW cx cy).map buf.heightBuf).sum) ∧
      (cellHits buf PW cx cy = [] →
        encodeCell settings t buf PW cx cy = ⟨blankChar, Color.plain, none⟩) ∧
      (cellHits buf PW cx cy ≠ [] →
        (encodeCell settings t buf PW cx cy).char
            = patternChar (densityLevel (((cellHits buf PW cx cy).map buf.lum).sum /
                ((cellHits buf PW cx cy).length : α))) ∧
          0 ≤ densityLevel (((cellHits buf PW cx cy).map buf.lum).sum /
                ((cellHits buf PW cx cy).length : α)) ∧
          densityLevel (((cellHits buf PW cx cy).map buf.lum).sum /
                ((cellHits buf PW cx cy).length : α)) ≤ 8) ∧
      (∀ a b : α, a ≤ b → densityLevel a ≤ densityLevel b) ∧
      (∀ a : α, 0 ≤ a → (densityLevel a = 0 ↔ a < 1 / 9)) ∧
      ∀ a : α, densityLevel a = 8 ↔ 8 / 9 ≤ a := by
  refine ⟨cellStats_eq buf PW cx cy, encodeCell_blank settings t buf PW cx cy, fun hne => ?_,
    densityLevel_mono, densityLevel_eq_zero, densityLevel_eq_eight⟩
  obtain ⟨h0, -⟩ := average_range (cellHits buf PW cx cy) buf.lum 0 1 hne hl
  exact ⟨encodeCell_char settings t buf PW cx cy hne, densityLevel_range _ h0⟩

/-! ### Colour quantisation -/

/-- For a positive period the remainder differs from the dividend by an integer multiple of the
period, lies strictly between `-period` and `period`, and is not negative when the dividend is
not. -/
theorem jsRem_spec (x p : α) (hp : 0 < p) :
    (∃ q : ℤ, jsRem x p = x - p * (q : α)) ∧ -p < jsRem x p ∧ jsRem x p < p ∧
      (0 ≤ x → 0 ≤ jsRem x p) := by
  unfold jsRem jsTrunc
  by_cases hq : 0 ≤ x / p
  · rw [if_pos hq]
    have h1 : ((⌊x / p⌋ : ℤ) : α) ≤ x / p := Int.floor_le _
    have h2 : x / p < (⌊x / p⌋ : ℤ) + 1 := Int.lt_floor_add_one _
    rw [le_div_iff₀ hp] at h1
    rw [div_lt_iff₀ hp] at h2
    exact ⟨⟨_, rfl⟩, by nlinarith, by nlinarith, fun _ => by nlinarith⟩
  · rw [if_neg hq]
    have h1 : x / p ≤ ((⌈x / p⌉ : ℤ) : α) := Int.le_ceil _
    have h2 : ((⌈x / p⌉ : ℤ) : α) < x / p + 1 := Int.ceil_lt_add_one _
    rw [div_le_iff₀ hp] at h1
    rw [← sub_lt_iff_lt_add, lt_div_iff₀ hp] at h2
    refine ⟨⟨_, rfl⟩, by nlinarith, by nlinarith, fun hx => ?_⟩
    exact absurd (div_nonneg hx (le_of_lt hp)) hq

/-- The quantised hue is a multiple of 12 in `[0, 360)`. -/
theorem hueQ_spec (settings : Settings α) (t avgHeight : α) :
    ∃ m : ℤ, 0 ≤ m ∧ m < 30 ∧ hueQ settings t avgHeight = 12 * (m : α) := by
  unfold hueQ
  simp only
  generalize jsRound (jsRem (settings.hue +
    clamp ((avgHeight + amp settings) / (2 * amp settings)) 0 1 * settings.hueRange +
    hueShift settings t) 360 / 12) = r
  obtain ⟨⟨q1, e1⟩, l1, u1, -⟩ := jsRem_spec ((r : α) * 12) 360 (by norm_num)
  obtain ⟨⟨q2, e2⟩, -, u2, n2⟩ := jsRem_spec (jsRem ((r : α) * 12) 360 + 360) 360 (by norm_num)
  have hn := n2 (by linarith)
  refine ⟨r - 30 * q1 + 30 - 30 * q2, ?_, ?_, ?_⟩
  · have : (0 : α) ≤ 12 * ((r - 30 * q1 + 30 - 30 * q2 : ℤ) : α) := by
      push_cast
      rw [e2, e1] at hn
      linarith
    have h2 : (0 : α) ≤ ((r - 30 * q1 + 30 - 30 * q2 : ℤ) : α) := by linarith
    exact_mod_cast h2
  · have : 12 * ((r - 30 * q1 + 30 - 30 * q2 : ℤ) : α) < 360 := by
      push_cast
      rw [e2, e1] at u2
      linarith
    have h2 : ((r - 30 * q1 + 30 - 30 * q2 : ℤ) : α) < ((30 : ℤ) : α) := by
      push_cast
      push_cast at this
      linarith
    exact_mod_cast h2
  · rw [e2, e1]
    push_cast
    ring

/-- The quantised lightness is a multiple of 6 in `[6, 90]`. -/
theorem lightQ_spec (avgLum : α) :
    ∃ j : ℤ, 1 ≤ j ∧ j ≤ 15 ∧ lightQ avgLum = 6 * (j : α) := by
  unfold lightQ
  simp only
  have h0 := clamp_ge (15 + avgLum * 70) 8 90
  have h1 := clamp_le (15 + avgLum * 70) 8 90 (by norm_num)
  have r1 : 1 ≤ jsRound (clamp (15 + avgLum * 70) 8 90 / 6) := by
    unfold jsRound
    rw [Int.le_floor]
    push_cast
    linarith
  have r2 : jsRound (clamp (15 + avgLum * 70) 8 90 / 6) ≤ 15 := by
    unfold jsRound
    have : ⌊clamp (15 + avgLum * 70) 8 90 / 6 + 1 / 2⌋ < 16 := by
      rw [Int.floor_lt]
      push_cast
      linarith
    omega
  refine ⟨_, r1, r2, ?_⟩
  have c1 : (1 : α) ≤ (jsRound (clamp (15 + avgLum * 70) 8 90 / 6) : α) := by exact_mod_cast r1
  have c2 : (jsRound (clamp (15 + avgLum * 70) 8 90 / 6) : α) ≤ 15 := by exact_mod_cast r2
  rw [clamp_of_mem _ _ _ (by linarith) (by linarith)]
  ring

theorem encodeCell_colored (settings : Settings α) (t : α) (buf : PixelBuffers α)
    (PW cx cy : ℕ) (hcol : settings.colorMode ≠ ColorMode.mono)
    (h : cellHits buf PW cx cy ≠ []) :
    (encodeCell settings t buf PW cx cy).colorKey
        = some (hueQ settings t (((cellHits buf PW cx cy).map buf.heightBuf).sum /
            ((cellHits buf PW cx cy).length : α)),
          lightQ (((cellHits buf PW cx cy).map buf.lum).sum /
            ((cellHits buf PW cx cy).length : α))) ∧
      (encodeCell settings t buf PW cx cy).color
        = Color.hsl (hueQ settings t (((cellHits buf PW cx cy).map buf.heightBuf).sum /
            ((cellHits buf PW cx cy).length : α))) (saturation settings)
          (lightQ (((cellHits buf PW cx cy).map buf.lum).sum /
            ((cellHits buf PW cx cy).length : α))) := by
  have hlen : (0 : α) < ((cellHits buf PW cx cy).length : α) := by
    have : 0 < (cellHits buf PW cx cy).length := List.length_pos.mpr h
    exact_mod_cast this
  unfold encodeCell
  simp only [cellStats_eq, gt_iff_lt, hlen, if_true, ne_eq, hcol, not_false_eq_true, and_self]

/-- C18: in colour mode, for every base hue, hue range, time and cell average, the quantised hue
is a multiple of 12 in `[0, 360)` and the quantised lightness a multiple of 6 in `[6, 90]`; a
cell is either uncoloured (no hit pixel) or has the colour `hsl(12*m, saturation, 6*(j+1))` for
a pair `(m, j)` with `m < 30` and `j < 15`, of which there are `30 * 15 = 450`. -/
theorem color_quantised (settings : Settings α) (t : α) (buf : PixelBuffers α) (PW cx cy : ℕ)
    (hcol : settings.colorMode ≠ ColorMode.mono) :
    (∀ avgHeight : α, ∃ m : ℤ, 0 ≤ m ∧ m < 30 ∧ hueQ settings t avgHeight = 12 * (m : α)) ∧
      (∀ avgLum : α, ∃ j : ℤ, 1 ≤ j ∧ j ≤ 15 ∧ lightQ avgLum = 6 * (j : α)) ∧
      (((encodeCell settings t buf PW cx cy).colorKey = none ∧
          (encodeCell settings t buf PW cx cy).color = Color.plain) ∨
        ∃ p : Fin 30 × Fin 15,
          (encodeCell settings t buf PW cx cy).colorKey
              = some (12 * ((p.1 : ℕ) : α), 6 * (((p.2 : ℕ) : α) + 1)) ∧
            (encodeCell settings t buf PW cx cy).color
              = Color.hsl (12 * ((p.1 : ℕ) : α)) (saturation settings)
                  (6 * (((p.2 : ℕ) : α) + 1))) ∧
      Fintype.card (Fin 30 × Fin 15) = 450 := by
  refine ⟨hueQ_spec settings t, lightQ_spec, ?_, by simp⟩
  by_cases h : cellHits buf PW cx cy = []
  · left
    rw [encodeCell_blank settings t buf PW cx cy h]
    exact ⟨rfl, rfl⟩
  · right
    obtain ⟨hk, hc⟩ := encodeCell_colored settings t buf PW cx cy hcol h
    obtain ⟨m, m0, m1, hm⟩ := hueQ_spec settings t
      (((cellHits buf PW cx cy).map buf.heightBuf).sum / ((cellHits buf PW cx cy).length : α))
    obtain ⟨j, j0, j1, hj⟩ := lightQ_spec
      (((cellHits buf PW cx cy).map buf.lum).sum / ((cellHits buf PW cx cy).length : α))
    have em : ((m.toNat : ℕ) : α) = (m : α) := by
      have : ((m.toNat : ℕ) : ℤ) = m := Int.toNat_of_nonneg m0
      exact_mod_cast congrArg (fun z : ℤ => (z : α)) this
    have ej : (((j - 1).toNat : ℕ) : α) + 1 = (j : α) := by
      have : (((j - 1).toNat : ℕ) : ℤ) = j - 1 := Int.toNat_of_nonneg (by omega)
      have h2 := congrArg (fun z : ℤ => (z : α)) this
      simp only [Int.cast_natCast, Int.cast_sub, Int.cast_one] at h2
      rw [h2]
      ring
    refine ⟨(⟨m.toNat, by omega⟩, ⟨(j - 1).toNat, by omega⟩), ?_, ?_⟩
    · rw [hk, hm, hj]
      simp only [em, ej]
    · rw [hc, hm, hj]
      simp only [em, ej]

end EncoderLemmas

/-- The witness of C18: the default settings with colour mode `'depth'` and a cell with one hit
pixel, over the rationals. -/
theorem color_quantised_witness :
    (∀ avgHeight : ℚ, ∃ m : ℤ, 0 ≤ m ∧ m < 30 ∧
        hueQ { DEFAULT_SETTINGS ℚ with colorMode := ColorMode.depth } 0 avgHeight
          = 12 * (m : ℚ)) ∧
      (∀ avgLum : ℚ, ∃ j : ℤ, 1 ≤ j ∧ j ≤ 15 ∧ lightQ avgLum = 6 * (j : ℚ)) ∧
      (((encodeCell { DEFAULT_SETTINGS ℚ with colorMode := ColorMode.depth } 0
            (⟨fun idx => if idx = 0 then 1 else 0, fun _ => 1 / 2, fun _ => 0⟩ : PixelBuffers ℚ)
            4 0 0).colorKey = none ∧
          (encodeCell { DEFAULT_SETTINGS ℚ with colorMode := ColorMode.depth } 0
            (⟨fun idx => if idx = 0 then 1 else 0, fun _ => 1 / 2, fun _ => 0⟩ : PixelBuffers ℚ)
            4 0 0).color = Color.plain) ∨
        ∃ p : Fin 30 × Fin 15,
          (encodeCell { DEFAULT_SETTINGS ℚ with colorMode := ColorMode.depth } 0
            (⟨fun idx => if idx = 0 then 1 else 0, fun _ => 1 / 2, fun _ => 0⟩ : PixelBuffers ℚ)
            4 0 0).colorKey
              = some (12 * ((p.1 : ℕ) : ℚ), 6 * (((p.2 : ℕ) : ℚ) + 1)) ∧
            (encodeCell { DEFAULT_SETTINGS ℚ with colorMode := ColorMode.depth } 0
              (⟨fun idx => if idx = 0 then 1 else 0, fun _ => 1 / 2, fun _ => 0⟩ :
                PixelBuffers ℚ) 4 0 0).color
              = Color.hsl (12 * ((p.1 : ℕ) : ℚ))
                  (saturation { DEFAULT_SETTINGS ℚ with colorMode := ColorMode.depth })
                  (6 * (((p.2 : ℕ) : ℚ) + 1))) ∧
      Fintype.card (Fin 30 × Fin 15) = 450 :=
  color_quantised { DEFAULT_SETTINGS ℚ with colorMode := ColorMode.depth } 0
    (⟨fun idx => if idx = 0 then 1 else 0, fun _ => 1 / 2, fun _ => 0⟩ : PixelBuffers ℚ) 4 0 0
    (by decide)

/-- The witness of C17: a cell with one hit pixel of luminance `1/2`, over the rationals. -/
theorem encodeCell_density_witness :
    cellStats (⟨fun idx => if idx = 0 then 1 else 0, fun _ => 1 / 2, fun _ => 0⟩ :
        PixelBuffers ℚ) 4 0 0
        = (((cellHits (⟨fun idx => if idx = 0 then 1 else 0, fun _ => 1 / 2, fun _ => 0⟩ :
              PixelBuffers ℚ) 4 0 0).map fun _ => (1 / 2 : ℚ)).sum,
          ((cellHits (⟨fun idx => if idx = 0 then 1 else 0, fun _ => 1 / 2, fun _ => 0⟩ :
              PixelBuffers ℚ) 4 0 0).length : ℚ),
          ((cellHits (⟨fun idx => if idx = 0 then 1 else 0, fun _ => 1 / 2, fun _ => 0⟩ :
              PixelBuffers ℚ) 4 0 0).map fun _ => (0 : ℚ)).sum) ∧
      (cellHits (⟨fun idx => if idx = 0 then 1 else 0, fun _ => 1 / 2, fun _ => 0⟩ :
          PixelBuffers ℚ) 4 0 0 = [] →
        encodeCell (DEFAULT_SETTINGS ℚ) 0
          (⟨fun idx => if idx = 0 then 1 else 0, fun _ => 1 / 2, fun _ => 0⟩ : PixelBuffers ℚ)
          4 0 0 = ⟨blankChar, Color.plain, none⟩) ∧
      (cellHits (⟨fun idx => if idx = 0 then 1 else 0, fun _ => 1 / 2, fun _ => 0⟩ :
          PixelBuffers ℚ) 4 0 0 ≠ [] →
        (encodeCell (DEFAULT_SETTINGS ℚ) 0
          (⟨fun idx => if idx = 0 then 1 else 0, fun _ => 1 / 2, fun _ => 0⟩ : PixelBuffers ℚ)
          4 0 0).char
            = patternChar (densityLevel
              (((cellHits (⟨fun idx => if idx = 0 then 1 else 0, fun _ => 1 / 2, fun _ => 0⟩ :
                  PixelBuffers ℚ) 4 0 0).map fun _ => (1 / 2 : ℚ)).sum /
                ((cellHits (⟨fun idx => if idx = 0 then 1 else 0, fun _ => 1 / 2, fun _ => 0⟩ :
                  PixelBuffers ℚ) 4 0 0).length : ℚ))) ∧
          0 ≤ densityLevel
              (((cellHits (⟨fun idx => if idx = 0 then 1 else 0, fun _ => 1 / 2, fun _ => 0⟩ :
                  PixelBuffers ℚ) 4 0 0).map fun _ => (1 / 2 : ℚ)).sum /
                ((cellHits (⟨fun idx => if idx = 0 then 1 else 0, fun _ => 1 / 2, fun _ => 0⟩ :
                  PixelBuffers ℚ) 4 0 0).length : ℚ)) ∧
          densityLevel
              (((cellHits (⟨fun idx => if idx = 0 then 1 else 0, fun _ => 1 / 2, fun _ => 0⟩ :
                  PixelBuffers ℚ) 4 0 0).map fun _ => (1 / 2 : ℚ)).sum /
                ((cellHits (⟨fun idx => if idx = 0 then 1 else 0, fun _ => 1 / 2, fun _ => 0⟩ :
                  PixelBuffers ℚ) 4 0 0).length : ℚ)) ≤ 8) ∧
      (∀ a b : ℚ, a ≤ b → densityLevel a ≤ densityLevel b) ∧
      (∀ a : ℚ, 0 ≤ a → (densityLevel a = 0 ↔ a < 1 / 9)) ∧
      ∀ a : ℚ, densityLevel a = 8 ↔ 8 / 9 ≤ a :=
  encodeCell_density (DEFAULT_SETTINGS ℚ) 0
    (⟨fun idx => if idx = 0 then 1 else 0, fun _ => 1 / 2, fun _ => 0⟩ : PixelBuffers ℚ) 4 0 0
    (fun _ _ => ⟨by norm_num, by norm_num⟩)

/-! ### Run grouping: the text of a row -/

section RunLemmas

variable {α : Type} [LinearOrderedField α] [FloorRing α]

/-- One cell of the run grouping appends its glyph to the text emitted and pending. -/
theorem runStep_text (cy : ℕ) (st : RunState α) (cell : Cell α) :
    ((runStep cy st cell).coloredOutput.map Span.text).flatten ++ (runStep cy st cell).runText
      = ((st.coloredOutput.map Span.text).flatten ++ st.runText) ++ [cell.char] := by
  unfold runStep
  by_cases h : cell.colorKey ≠ st.runColorKey
  · by_cases h2 : st.runText ≠ []
    · simp [h, h2]
    · have h3 : st.runText = [] := not_not.mp h2
      simp [h, h3]
  · simp [h]

theorem foldl_runStep_text (cy : ℕ) (cells : List (Cell α)) (st : RunState α) :
    (((cells.foldl (runStep cy) st).coloredOutput.map Span.text).flatten
        ++ (cells.foldl (runStep cy) st).runText)
      = ((st.coloredOutput.map Span.text).flatten ++ st.runText) ++ cells.map Cell.char := by
  induction cells generalizing st with
  | nil => simp
  | cons c cs ih =>
    rw [List.foldl_cons, ih, runStep_text]
    simp

/-- The spans pushed before a row stay in place. -/
theorem runStep_earlier (cy : ℕ) (out : List (Span α)) (st : RunState α) (cell : Cell α) :
    runStep cy { st with coloredOutput := out ++ st.coloredOutput } cell
      = { runStep cy st cell with coloredOutput := out ++ (runStep cy st cell).coloredOutput } := by
  unfold runStep
  by_cases h : cell.colorKey ≠ st.runColorKey
  · by_cases h2 : st.runText ≠ []
    · simp [h, h2]
    · have h3 : st.runText = [] := not_not.mp h2
      simp [h, h3]
  · simp [h]

theorem foldl_runStep_earlier (cy : ℕ) (out : List (Span α)) (cells : List (Cell α))
    (st : RunState α) :
    cells.foldl (runStep cy) { st with coloredOutput := out ++ st.coloredOutput }
      = { cells.foldl (runStep cy) st with
          coloredOutput := out ++ (cells.foldl (runStep cy) st).coloredOutput } := by
  induction cells generalizing st with
  | nil => rfl
  | cons c cs ih =>
    rw [List.foldl_cons, List.foldl_cons, runStep_earlier, ← ih]

theorem encodeRowColor_earlier (cy : ℕ) (cells : List (Cell α)) (out : List (Span α)) :
    encodeRowColor cy cells out = out ++ encodeRowColor cy cells [] := by
  unfold encodeRowColor
  have h := foldl_runStep_earlier cy out cells ⟨none, Color.plain, [], 0, []⟩
  simp only [List.append_nil] at h
  simp only [h, List.append_assoc]

theorem encodeRowMono_eq (cells : List (Cell α)) (output : List ℕ) :
    encodeRowMono cells output = output ++ (cells.map Cell.char ++ [newline]) := by
  unfold encodeRowMono
  have : ∀ (cs : List (Cell α)) (o : List ℕ),
      cs.foldl (fun output cell => output ++ [cell.char]) o = o ++ cs.map Cell.char := by
    intro cs
    induction cs with
    | nil => intro o; simp
    | cons c cs ih => intro o; rw [List.foldl_cons, ih]; simp
  rw [this, List.append_assoc]

theorem encodeRowColor_text (cy : ℕ) (cells : List (Cell α)) :
    ((encodeRowColor cy cells []).map Span.text).flatten = cells.map Cell.char ++ [newline] := by
  unfold encodeRowColor
  have h := foldl_runStep_text cy cells ⟨none, Color.plain, [], 0, []⟩
  simp only [List.map_nil, List.flatten_nil, List.nil_append] at h
  simp only [List.map_append, List.flatten_append, List.map_cons, List.map_nil,
    List.flatten_cons, List.flatten_nil, List.append_nil, ← List.append_assoc, h]

/-- The glyph of a cell does not depend on the colour mode. -/
theorem encodeCell_char_mode (settings : Settings α) (mode : ColorMode) (t : α)
    (buf : PixelBuffers α) (PW cx cy : ℕ) :
    (encodeCell { settings with colorMode := mode } t buf PW cx cy).char
      = (encodeCell settings t buf PW cx cy).char := by
  unfold encodeCell
  simp only
  split
  · split <;> split <;> rfl
  · rfl

theorem rowCells_char_mode (settings : Settings α) (mode : ColorMode) (t : α)
    (buf : PixelBuffers α) (W cy : ℕ) :
    (rowCells { settings with colorMode := mode } t buf W cy).map Cell.char
      = (rowCells settings t buf W cy).map Cell.char := by
  unfold rowCells
  simp only [List.map_map]
  apply List.map_congr_left
  intro cx _
  exact encodeCell_char_mode settings mode t buf (W * 2) cx cy

/-- C19: in colour mode the texts of the spans emitted for a row, concatenated in order, are the
`W` glyphs of the row followed by a newline, which is the text mono mode appends for that row; the
spans emitted for earlier rows are left in place. -/
theorem row_runs_text (settings : Settings α) (t : α) (buf : PixelBuffers α) (W cy : ℕ)
    (out : List (Span α)) (output : List ℕ) :
    encodeRowColor cy (rowCells settings t buf W cy) out
        = out ++ encodeRowColor cy (rowCells settings t buf W cy) [] ∧
      ((encodeRowColor cy (rowCells settings t buf W cy) []).map Span.text).flatten
        = (rowCells settings t buf W cy).map Cell.char ++ [newline] ∧
      ((rowCells settings t buf W cy).map Cell.char).length = W ∧
      encodeRowMono (rowCells { settings with colorMode := ColorMode.mono } t buf W cy) output
        = output ++ ((rowCells settings t buf W cy).map Cell.char ++ [newline]) := by
  refine ⟨encodeRowColor_earlier cy _ out, encodeRowColor_text cy _, ?_, ?_⟩
  · simp [rowCells]
  · rw [encodeRowMono_eq, rowCells_char_mode]

end RunLemmas

/-! ### Run grouping: maximal runs -/

section RunGrouping

variable {α : Type} [LinearOrderedField α] [FloorRing α]

theorem groupRuns_cons_same (c d : Cell α) (cs r : List (Cell α)) (rs : List (List (Cell α)))
    (h : c.colorKey = d.colorKey) (hg : groupRuns (d :: cs) = r :: rs) :
    groupRuns (c :: d :: cs) = (c :: r) :: rs := by
  rw [groupRuns, if_pos h, hg]

theorem groupRuns_cons_diff (c d : Cell α) (cs : List (Cell α))
    (h : c.colorKey ≠ d.colorKey) :
    groupRuns (c :: d :: cs) = [c] :: groupRuns (d :: cs) := by
  rw [groupRuns, if_neg h]

theorem groupRuns_spec (c : Cell α) (cs : List (Cell α)) :
    ∃ r rs, groupRuns (c :: cs) = (c :: r) :: rs ∧
      (groupRuns (c :: cs)).flatten = c :: cs ∧
      (∀ q ∈ groupRuns (c :: cs), q ≠ []) ∧
      (∀ q ∈ groupRuns (c :: cs), ∀ x ∈ q, ∀ y ∈ q, x.colorKey = y.colorKey) ∧
      List.Chain' (fun q s : List (Cell α) => ∀ x ∈ q, ∀ y ∈ s, x.colorKey ≠ y.colorKey)
        (groupRuns (c :: cs)) ∧
      (groupRuns (c :: cs)).length = 1 + keyChanges (c :: cs) := by
  induction cs generalizing c with
  | nil =>
    refine ⟨[], [], rfl, rfl, ?_, ?_, ?_, rfl⟩
    · intro q hq
      simp only [groupRuns, List.mem_singleton] at hq
      simp [hq]
    · intro q hq x hx y hy
      simp only [groupRuns, List.mem_singleton] at hq
      subst hq
      simp only [List.mem_singleton] at hx hy
      rw [hx, hy]
    · simp [groupRuns]
  | cons d cs ih =>
    obtain ⟨r, rs, hg, hflat, hne, huni, hchain, hlen⟩ := ih d
    by_cases h : c.colorKey = d.colorKey
    · have hg2 := groupRuns_cons_same c d cs (d :: r) rs h hg
      rw [hg] at hflat hne huni hchain hlen
      rw [hg2]
      refine ⟨d :: r, rs, rfl, ?_, ?_, ?_, ?_, ?_⟩
      · simp only [List.flatten_cons, List.cons_append] at hflat ⊢
        rw [hflat]
      · intro q hq
        rcases List.mem_cons.mp hq with hq | hq
        · simp [hq]
        · exact hne q (List.mem_cons_of_mem _ hq)
      · have hd : ∀ x ∈ c :: d :: r, x.colorKey = d.colorKey := by
          intro x hx
          rcases List.mem_cons.mp hx with hx | hx
          · rw [hx, h]
          · exact huni (d :: r) (List.mem_cons_self _ _) x hx d (List.mem_cons_self _ _)
        intro q hq x hx y hy
        rcases List.mem_cons.mp hq with hq | hq
        · subst hq
          rw [hd x hx, hd y hy]
        · exact huni q (List.mem_cons_of_mem _ hq) x hx y hy
      · cases rs with
        | nil => exact List.chain'_singleton _
        | cons s rs =>
          rw [List.chain'_cons] at hchain ⊢
          refine ⟨?_, hchain.2⟩
          intro x hx y hy
          rcases List.mem_cons.mp hx with hx | hx
          · rw [hx, h]
            exact hchain.1 d (List.mem_cons_self _ _) y hy
          · exact hchain.1 x hx y hy
      · simp only [List.length_cons] at hlen ⊢
        rw [hlen]
        simp [keyChanges, h]
    · have hg2 := groupRuns_cons_diff c d cs h
      rw [hg2]
      refine ⟨[], groupRuns (d :: cs), rfl, ?_, ?_, ?_, ?_, ?_⟩
      · simp only [List.flatten_cons, List.singleton_append, hflat]
      · intro q hq
        rcases List.mem_cons.mp hq with hq | hq
        · simp [hq]
        · exact hne q hq
      · intro q hq x hx y hy
        rcases List.mem_cons.mp hq with hq | hq
        · subst hq
          simp only [List.mem_singleton] at hx hy
          rw [hx, hy]
        · exact huni q hq x hx y hy
      · rw [hg] at hchain huni ⊢
        rw [List.chain'_cons]
        refine ⟨?_, hchain⟩
        intro x hx y hy
        simp only [List.mem_singleton] at hx
        rw [hx, huni (d :: r) (List.mem_cons_self _ _) y hy d (List.mem_cons_self _ _)]
        exact h
      · simp only [List.length_cons] at hlen ⊢
        rw [hlen]
        simp [keyChanges, h]
        omega

theorem groupRuns_uniform (cur : List (Cell α)) (key : ColorKey α) (hne : cur ≠ [])
    (hkey : ∀ c ∈ cur, c.colorKey = key) : groupRuns cur = [cur] := by
  induction cur with
  | nil => exact absurd rfl hne
  | cons a cur ih =>
    cases cur with
    | nil => rfl
    | cons b cur =>
      have hb : ∀ c ∈ b :: cur, c.colorKey = key := fun c hc => hkey c (List.mem_cons_of_mem _ hc)
      have hab : a.colorKey = b.colorKey := by
        rw [hkey a (List.mem_cons_self _ _), hb b (List.mem_cons_self _ _)]
      exact groupRuns_cons_same a b cur (b :: cur) [] hab (ih (List.cons_ne_nil _ _) hb)

theorem groupRuns_append_diff (cur : List (Cell α)) (key : ColorKey α) (hne : cur ≠ [])
    (hkey : ∀ c ∈ cur, c.colorKey = key) (c : Cell α) (cs : List (Cell α))
    (hc : c.colorKey ≠ key) : groupRuns (cur ++ c :: cs) = cur :: groupRuns (c :: cs) := by
  induction cur with
  | nil => exact absurd rfl hne
  | cons a cur ih =>
    cases cur with
    | nil =>
      have ha : a.colorKey ≠ c.colorKey := by
        rw [hkey a (List.mem_cons_self _ _)]
        exact fun h => hc h.symm
      exact groupRuns_cons_diff a c cs ha
    | cons b cur =>
      have hb : ∀ c ∈ b :: cur, c.colorKey = key := fun c hc => hkey c (List.mem_cons_of_mem _ hc)
      have hab : a.colorKey = b.colorKey := by
        rw [hkey a (List.mem_cons_self _ _), hb b (List.mem_cons_self _ _)]
      exact groupRuns_cons_same a b (cur ++ c :: cs) (b :: cur) (groupRuns (c :: cs)) hab
        (ih (List.cons_ne_nil _ _) hb)

theorem groupRuns_ne_nil (c : Cell α) (cs : List (Cell α)) : groupRuns (c :: cs) ≠ [] := by
  obtain ⟨r, rs, hg, _⟩ := groupRuns_spec c cs
  rw [hg]
  exact List.cons_ne_nil _ _

theorem spansOfRuns_cons (cy i : ℕ) (r : List (Cell α)) (rs : List (List (Cell α)))
    (h : rs ≠ []) :
    spansOfRuns cy i (r :: rs)
      = ⟨cy, i, runColorOf r, r.map Cell.char⟩ :: spansOfRuns cy (i + 1) rs := by
  cases rs with
  | nil => exact absurd rfl h
  | cons s rs => rfl

theorem spansOfRuns_length (cy i : ℕ) (runs : List (List (Cell α))) :
    (spansOfRuns cy i runs).length = runs.length := by
  induction runs generalizing i with
  | nil => rfl
  | cons r rs ih =>
    cases rs with
    | nil => rfl
    | cons s rs =>
      rw [spansOfRuns_cons cy i r (s :: rs) (List.cons_ne_nil _ _), List.length_cons, ih]
      rfl

theorem runColorOf_append (cur : List (Cell α)) (hne : cur ≠ []) (more : List (Cell α)) :
    runColorOf (cur ++ more) = runColorOf cur := by
  cases cur with
  | nil => exact absurd rfl hne
  | cons a cur => rfl

/-- The run grouping loop, from a state whose pending run is `cur`, emits the maximal runs of
`cur` followed by the remaining cells. -/
theorem foldl_runStep_runs (cy : ℕ) (cells : List (Cell α)) (st : RunState α)
    (cur : List (Cell α)) (hne : cur ≠ [])
    (hkey : ∀ c ∈ cur, c.colorKey = st.runColorKey)
    (htext : st.runText = cur.map Cell.char) (hcol : st.runColor = runColorOf cur) :
    (cells.foldl (runStep cy) st).coloredOutput
        ++ [⟨cy, (cells.foldl (runStep cy) st).runIndex, (cells.foldl (runStep cy) st).runColor,
            (cells.foldl (runStep cy) st).runText ++ [newline]⟩]
      = st.coloredOutput ++ spansOfRuns cy st.runIndex (groupRuns (cur ++ cells)) := by
  induction cells generalizing st cur with
  | nil =>
    rw [List.append_nil, groupRuns_uniform cur st.runColorKey hne hkey]
    simp only [List.foldl_nil, spansOfRuns, htext, hcol]
  | cons c cs ih =>
    have htne : st.runText ≠ [] := by
      rw [htext]
      simpa using hne
    rw [List.foldl_cons]
    by_cases h : c.colorKey ≠ st.runColorKey
    · have hstep : runStep cy st c
          = ⟨c.colorKey, c.color, [c.char], st.runIndex + 1,
              st.coloredOutput ++ [⟨cy, st.runIndex, st.runColor, st.runText⟩]⟩ := by
        unfold runStep
        simp only [h, htne, ne_eq, not_false_eq_true, if_true]
      rw [hstep, ih _ [c] (List.cons_ne_nil _ _) (by simp) rfl rfl,
        groupRuns_append_diff cur st.runColorKey hne hkey c cs h,
        spansOfRuns_cons cy st.runIndex cur _ (groupRuns_ne_nil c cs), htext, hcol]
      simp only [List.append_assoc, List.singleton_append]
    · have heq : c.colorKey = st.runColorKey := not_not.mp h
      have hstep : runStep cy st c = { st with runText := st.runText ++ [c.char] } := by
        unfold runStep
        simp only [h, if_false]
      rw [hstep, ih _ (cur ++ [c]) (by simp) ?_ (by simp [htext])
        (by rw [runColorOf_append cur hne]; exact hcol)]
      · simp only [List.append_assoc, List.singleton_append]
      · intro x hx
        rcases List.mem_append.mp hx with hx | hx
        · exact hkey x hx
        · simp only [List.mem_singleton] at hx
          rw [hx]
          exact heq

/-- A row of cells whose uncoloured cells have the default colour is emitted as its runs. -/
theorem encodeRowColor_runs (cy : ℕ) (cells : List (Cell α)) (out : List (Span α))
    (hplain : ∀ c ∈ cells, c.colorKey = none → c.color = Color.plain) :
    encodeRowColor cy cells out = out ++ spansOfRuns cy 0 (rowRuns cells) := by
  cases cells with
  | nil => rfl
  | cons c cs =>
    unfold encodeRowColor
    simp only [List.foldl_cons]
    have hstep : runStep cy (⟨none, Color.plain, [], 0, out⟩ : RunState α) c
        = ⟨c.colorKey, c.color, [c.char], 0, out⟩ := by
      unfold runStep
      by_cases h : c.colorKey = none
      · simp [h, hplain c (List.mem_cons_self _ _) h]
      · simp [h]
    rw [hstep]
    exact foldl_runStep_runs cy cs ⟨c.colorKey, c.color, [c.char], 0, out⟩ [c]
      (List.cons_ne_nil _ _) (by simp) rfl rfl

/-- The colour of a cell is determined by its colour key. -/
theorem encodeCell_color_of_key (settings : Settings α) (t : α) (buf : PixelBuffers α)
    (PW cx cy : ℕ) :
    (encodeCell settings t buf PW cx cy).color
      = match (encodeCell settings t buf PW cx cy).colorKey with
        | none => Color.plain
        | some p => Color.hsl p.1 (saturation settings) p.2 := by
  unfold encodeCell
  by_cases h1 : (cellStats buf PW cx cy).2.1 > 0
  · by_cases h2 : settings.colorMode = ColorMode.mono
    · simp [h1, h2]
    · simp [h1, h2]
  · simp [h1]

theorem rowCells_plain (settings : Settings α) (t : α) (buf : PixelBuffers α) (W cy : ℕ) :
    ∀ c ∈ rowCells settings t buf W cy, c.colorKey = none → c.color = Color.plain := by
  intro c hc h
  unfold rowCells at hc
  obtain ⟨cx, _, rfl⟩ := List.mem_map.mp hc
  rw [encodeCell_color_of_key, h]

theorem rowCells_color (settings : Settings α) (t : α) (buf : PixelBuffers α) (W cy : ℕ) :
    ∀ c ∈ rowCells settings t buf W cy, ∀ d ∈ rowCells settings t buf W cy,
      c.colorKey = d.colorKey → c.color = d.color := by
  intro c hc d hd h
  unfold rowCells at hc hd
  obtain ⟨cx, _, rfl⟩ := List.mem_map.mp hc
  obtain ⟨dx, _, rfl⟩ := List.mem_map.mp hd
  rw [encodeCell_color_of_key, encodeCell_color_of_key settings t buf (W * 2) dx, h]

theorem rowRuns_spec (cells : List (Cell α)) :
    (rowRuns cells).flatten = cells ∧
      (cells ≠ [] → ∀ r ∈ rowRuns cells, r ≠ []) ∧
      (∀ r ∈ rowRuns cells, ∀ x ∈ r, ∀ y ∈ r, x.colorKey = y.colorKey) ∧
      List.Chain' (fun q s : List (Cell α) => ∀ x ∈ q, ∀ y ∈ s, x.colorKey ≠ y.colorKey)
        (rowRuns cells) ∧
      (rowRuns cells).length = 1 + keyChanges cells := by
  cases cells with
  | nil =>
    refine ⟨rfl, fun h => absurd rfl h, ?_, List.chain'_singleton _, rfl⟩
    intro r hr x hx
    simp only [rowRuns, List.mem_singleton] at hr
    rw [hr] at hx
    exact absurd hx (List.not_mem_nil _)
  | cons c cs =>
    obtain ⟨r, rs, _, hflat, hne, huni, hchain, hlen⟩ := groupRuns_spec c cs
    exact ⟨hflat, fun _ => hne, huni, hchain, hlen⟩

/-- C20: in colour mode the spans emitted for a row, after those of the rows before, present the
maximal runs of the row from left to right: the runs concatenate to the cells of the row, a run
is non-empty (when the row has cells), all cells of a run have the same colour key and the
colour of the span, adjacent runs differ in their colour keys, and there are as many spans as
there are changes of colour key between adjacent cells, plus one. -/
theorem row_runs_maximal (settings : Settings α) (t : α) (buf : PixelBuffers α) (W cy : ℕ)
    (out : List (Span α)) :
    encodeRowColor cy (rowCells settings t buf W cy) out
        = out ++ spansOfRuns cy 0 (rowRuns (rowCells settings t buf W cy)) ∧
      (rowRuns (rowCells settings t buf W cy)).flatten = rowCells settings t buf W cy ∧
      (0 < W → ∀ r ∈ rowRuns (rowCells settings t buf W cy), r ≠ []) ∧
      (∀ r ∈ rowRuns (rowCells settings t buf W cy), ∀ x ∈ r, ∀ y ∈ r,
        x.colorKey = y.colorKey) ∧
      (∀ r ∈ rowRuns (rowCells settings t buf W cy), ∀ x ∈ r, x.color = runColorOf r) ∧
      List.Chain' (fun q s : List (Cell α) => ∀ x ∈ q, ∀ y ∈ s, x.colorKey ≠ y.colorKey)
        (rowRuns (rowCells settings t buf W cy)) ∧
      (spansOfRuns cy 0 (rowRuns (rowCells settings t buf W cy))).length
        = 1 + keyChanges (rowCells settings t buf W cy) := by
  obtain ⟨hflat, hne, huni, hchain, hlen⟩ := rowRuns_spec (rowCells settings t buf W cy)
  refine ⟨encodeRowColor_runs cy _ out (rowCells_plain settings t buf W cy), hflat, ?_, huni, ?_,
    hchain, ?_⟩
  · intro hW
    apply hne
    intro h
    have hl := congrArg List.length h
    simp only [rowCells, List.length_map, List.length_range, List.length_nil] at hl
    omega
  · intro r hr x hx
    cases r with
    | nil => exact absurd hx (List.not_mem_nil _)
    | cons a r =>
      have hmem : ∀ y ∈ a :: r, y ∈ rowCells settings t buf W cy := by
        intro y hy
        rw [← hflat]
        exact List.mem_flatten.mpr ⟨a :: r, hr, hy⟩
      exact rowCells_color settings t buf W cy x (hmem x hx) a (hmem a (List.mem_cons_self _ _))
        (huni (a :: r) hr x hx a (List.mem_cons_self _ _))
  · rw [spansOfRuns_length, hlen]

end RunGrouping

/-! ## A frame of the flat surface -/

section FlatSurface

variable {α : Type} [LinearOrderedField α] [FloorRing α]

theorem amp_zero (settings : Settings α) (h : settings.amplitude = 0) :
    amp settings = 0.001 := by
  unfold amp
  rw [h]
  exact max_eq_left (by norm_num)

theorem k_range (M : JsMath α) (hpi : 0 < M.PI ∧ M.PI ≤ 4) (settings : Settings α) :
    0 < k M settings ∧ k M settings ≤ 16 := by
  unfold k
  have h1 : (0.5 : α) ≤ max 0.5 settings.wavelength := le_max_left _ _
  have h2 : (0 : α) < max 0.5 settings.wavelength := by linarith
  constructor
  · apply div_pos _ h2
    linarith [hpi.1]
  · rw [div_le_iff₀ h2]
    linarith [hpi.2]

/-- The shading of a surface whose normal is `(nx, 1, nz)` with small `nx`, `nz` and no
foam. -/
theorem flat_shading (nx nz nl : α) (hx : |nx| ≤ 0.016) (hz : |nz| ≤ 0.016) (h1 : 1 ≤ nl)
    (h2 : nl ≤ 1.001) :
    2 / 3 ≤ lumOut (nx / nl * 0.3 + 1 / nl + nz / nl * -0.4) 0 ∧
      lumOut (nx / nl * 0.3 + 1 / nl + nz / nl * -0.4) 0 ≤ 0.7 := by
  have hpos : (0 : α) < nl := by linarith
  obtain ⟨hx1, hx2⟩ := abs_le.mp hx
  obtain ⟨hz1, hz2⟩ := abs_le.mp hz
  have hL : nx / nl * 0.3 + 1 / nl + nz / nl * -0.4 = (1 + 0.3 * nx - 0.4 * nz) / nl := by
    field_simp
    ring
  rw [hL]
  have hlo : 0.98 ≤ (1 + 0.3 * nx - 0.4 * nz) / nl := by
    rw [le_div_iff₀ hpos]
    nlinarith
  have hhi : (1 + 0.3 * nx - 0.4 * nz) / nl ≤ 1.02 := by
    rw [div_le_iff₀ hpos]
    nlinarith
  unfold lumOut
  rw [min_eq_right (by linarith), max_eq_right (by linarith)]
  constructor <;> linarith

theorem normal_length_range (nx nz r : α) (hx : |nx| ≤ 0.016) (hz : |nz| ≤ 0.016)
    (hr0 : 0 ≤ r) (hr : r * r = nx * nx + 1 + nz * nz) : 1 ≤ r ∧ r ≤ 1.001 := by
  obtain ⟨hx1, hx2⟩ := abs_le.mp hx
  obtain ⟨hz1, hz2⟩ := abs_le.mp hz
  have hr1 : 1 ≤ r := by
    by_contra hlt
    push_neg at hlt
    have e0 : 0 ≤ (1 - r) * (1 + r) := mul_nonneg (by linarith) (by linarith)
    have e1 : 0 ≤ (1 - r) * r := mul_nonneg (by linarith) hr0
    nlinarith [mul_self_nonneg nx, mul_self_nonneg nz]
  refine ⟨hr1, ?_⟩
  have e1 : 0 ≤ (0.016 - nx) * (0.016 + nx) := mul_nonneg (by linarith) (by linarith)
  have e2 : 0 ≤ (0.016 - nz) * (0.016 + nz) := mul_nonneg (by linarith) (by linarith)
  have e3 : 0 ≤ r * (r - 1) := mul_nonneg hr0 (by linarith)
  linarith

theorem small_product (kk c d : α) (hk : 0 < kk ∧ kk ≤ 16) (hc : -1 ≤ c ∧ c ≤ 1)
    (hd : -1 ≤ d ∧ d ≤ 1) : |(-(1e-3 * kk * c * d))| ≤ 0.016 := by
  rw [abs_neg, abs_mul, abs_mul, abs_mul, abs_of_pos (by norm_num : (0 : α) < 1e-3)]
  have h1 : |c| ≤ 1 := abs_le.mpr hc
  have h2 : |d| ≤ 1 := abs_le.mpr hd
  have h3 : |kk| ≤ 16 := abs_le.mpr ⟨by linarith, hk.2⟩
  calc 1e-3 * |kk| * |c| * |d| ≤ 1e-3 * 16 * 1 * 1 := by gcongr
    _ = 0.016 := by norm_num

theorem trochoidal_flat_lum (M : JsMath α)
    (hsin : ∀ x, -1 ≤ M.sin x ∧ M.sin x ≤ 1) (hcos : ∀ x, -1 ≤ M.cos x ∧ M.cos x ≤ 1)
    (hsqrt : ∀ x, 0 ≤ x → 0 ≤ M.sqrt x ∧ M.sqrt x * M.sqrt x = x)
    (hpi : 0 < M.PI ∧ M.PI ≤ 4) (settings : Settings α)
    (hamp : settings.amplitude = 0) (hsteep : settings.steepness = 0) (t u v : α) :
    2 / 3 ≤ (trochoidalSample M settings t u v).1.lum ∧
      (trochoidalSample M settings t u v).1.lum ≤ 0.7 := by
  have hc := hcos (k M settings *
    (M.cos (windAngle M settings) * u + M.sin (windAngle M settings) * v) -
      M.sqrt (9.81 * k M settings) * t * settings.speed)
  have hX := hcos (windAngle M settings)
  have hZ := hsin (windAngle M settings)
  have hk := k_range M hpi settings
  unfold trochoidalSample
  simp only [hsteep, amp_zero settings hamp, zero_mul, mul_zero, sub_zero, neg_zero, zero_div,
    mul_one, one_mul, sub_self, zero_sub, light]
  generalize M.cos (k M settings *
    (M.cos (windAngle M settings) * u + M.sin (windAngle M settings) * v) -
      M.sqrt (9.81 * k M settings) * t * settings.speed) = c at hc ⊢
  generalize M.cos (windAngle M settings) = dX at hX ⊢
  generalize M.sin (windAngle M settings) = dZ at hZ ⊢
  generalize k M settings = kk at hk ⊢
  have hf : clamp (((0.55 : α) - 1) * 2.2) 0 1 = 0 := by
    unfold clamp
    norm_num
  rw [hf, zero_mul, zero_mul]
  have hnx := small_product kk c dX hk hc hX
  have hnz := small_product kk c dZ hk hc hZ
  generalize -(1e-3 * kk * c * dX) = nx at hnx ⊢
  generalize -(1e-3 * kk * c * dZ) = nz at hnz ⊢
  have harg : 0 ≤ nx * nx + 1 + nz * nz := by
    have e1 := mul_self_nonneg nx
    have e2 := mul_self_nonneg nz
    linarith
  obtain ⟨hr0, hr⟩ := hsqrt _ harg
  generalize M.sqrt (nx * nx + 1 + nz * nz) = r at hr0 hr ⊢
  obtain ⟨hr1, hr2⟩ := normal_length_range nx nz r hnx hnz hr0 hr
  have hor : orElse r 1 = r := by
    unfold orElse
    rw [if_neg (by linarith)]
  rw [hor]
  exact flat_shading nx nz r hnx hnz hr1 hr2

theorem sprayPass_other (M : JsMath α) (settings : Settings α) (t : α) (PW PH : ℕ)
    (buf : PixelBuffers α) (h : settings.model ≠ Model.tsunami) :
    sprayPass M settings t PW PH buf = buf := by
  unfold sprayPass
  split
  · rename_i h1 _
    exact absurd h1 h
  · rfl

theorem project_lum (rot : Rotation α) (PW PH : ℕ) (s : WaveSample α) (i : ℤ) (z l y : α)
    (h : project rot PW PH s = some (i, z, l, y)) : l = s.lum := by
  rw [project_eq] at h
  split at h
  · cases h
  · split at h
    · simp only [Option.some.injEq, Prod.mk.injEq] at h
      exact h.2.2.1.symm
    · cases h

/-- A pixel that was hit in the surface pass holds the luminance of a sample. -/
theorem surfacePass_hit (M : JsMath α) (settings : Settings α) (t : α)
    (ref : Option (BasinSim α)) (PW PH : ℕ) (idx : ℤ)
    (h : (surfacePass M settings t ref PW PH (clearBuffers α)).zBuf idx > 0) :
    ∃ uv : α × α, (surfacePass M settings t ref PW PH (clearBuffers α)).lum idx
      = (sampleWave M settings t ref uv.1 uv.2).lum := by
  rw [surfacePass_eq] at h ⊢
  have hpos : ∀ i z l y,
      some (i, z, l, y) ∈ (samplePoints (sampleStep M PW)).map
        (sampleRequest M settings t ref PW PH) → 0 < z := by
    intro i z l y hmem
    obtain ⟨uv, _, huv⟩ := List.mem_map.mp hmem
    exact project_pos _ _ _ _ _ _ _ _ huv
  rcases depthWrite_fold_spec _ hpos idx with ⟨_, h1, _, _⟩ | ⟨pre, post, z, l, y, he, _, h2, _⟩
  · rw [h1] at h
    exact absurd h (lt_irrefl _)
  · have hmem : some (idx, z, l, y) ∈ (samplePoints (sampleStep M PW)).map
        (sampleRequest M settings t ref PW PH) := by
      rw [he]
      exact List.mem_append_right _ (List.mem_cons_self _ _)
    obtain ⟨uv, _, huv⟩ := List.mem_map.mp hmem
    exact ⟨uv, by rw [h2]; exact project_lum _ _ _ _ _ _ _ _ huv⟩

/-- A pixel onto which a sample of the surface pass projects is hit. -/
theorem surfacePass_covered (M : JsMath α) (settings : Settings α) (t : α)
    (ref : Option (BasinSim α)) (PW PH : ℕ) (idx : ℤ) (uv : α × α) (z l y : α)
    (hmem : uv ∈ samplePoints (sampleStep M PW))
    (hreq : sampleRequest M settings t ref PW PH uv = some (idx, z, l, y)) :
    (surfacePass M settings t ref PW PH (clearBuffers α)).zBuf idx > 0 := by
  rw [surfacePass_eq]
  have hpos : ∀ i z l y,
      some (i, z, l, y) ∈ (samplePoints (sampleStep M PW)).map
        (sampleRequest M settings t ref PW PH) → 0 < z := by
    intro i z l y hmem
    obtain ⟨uv, _, huv⟩ := List.mem_map.mp hmem
    exact project_pos _ _ _ _ _ _ _ _ huv
  rcases depthWrite_fold_spec _ hpos idx with ⟨h0, _, _, _⟩ | ⟨pre, post, z1, l1, y1, he, h1, _⟩
  · exact absurd (List.mem_map.mpr ⟨uv, hmem, hreq⟩) (h0 z l y)
  · rw [h1]
    apply hpos idx z1 l1 y1
    rw [he]
    exact List.mem_append_right _ (List.mem_cons_self _ _)

theorem densityLevel_six (a : α) (h1 : 2 / 3 ≤ a) (h2 : a ≤ 0.7) : densityLevel a = 6 := by
  unfold densityLevel
  have hf : ⌊a * 9⌋ = 6 := by
    rw [Int.floor_eq_iff]
    push_cast
    constructor <;> linarith
  rw [hf]
  rfl

/-- The cells of a frame of the flat trochoidal surface: a cell that holds a hit pixel shows
density level `6`. -/
theorem flat_cell (M : JsMath α)
    (hsin : ∀ x, -1 ≤ M.sin x ∧ M.sin x ≤ 1) (hcos : ∀ x, -1 ≤ M.cos x ∧ M.cos x ≤ 1)
    (hsqrt : ∀ x, 0 ≤ x → 0 ≤ M.sqrt x ∧ M.sqrt x * M.sqrt x = x)
    (hpi : 0 < M.PI ∧ M.PI ≤ 4) (settings : Settings α)
    (hm : settings.model = Model.trochoidal)
    (hamp : settings.amplitude = 0) (hsteep : settings.steepness = 0) (t : α)
    (ref : Option (BasinSim α)) (W H cx cy : ℕ)
    (hne : cellHits (frameBuffers M settings t ref W H) (W * 2) cx cy ≠ []) :
    (encodeCell settings t (frameBuffers M settings t ref W H) (W * 2) cx cy).char
      = patternChar 6 := by
  rw [encodeCell_char settings t _ (W * 2) cx cy hne]
  have hbuf : frameBuffers M settings t ref W H
      = surfacePass M settings t ref (W * 2) (H * 4) (clearBuffers α) := by
    unfold frameBuffers
    exact sprayPass_other M settings t _ _ _ (by rw [hm]; decide)
  have hr := average_range (cellHits (frameBuffers M settings t ref W H) (W * 2) cx cy)
    (frameBuffers M settings t ref W H).lum (2 / 3) 0.7 hne (by
      intro idx hidx
      unfold cellHits at hidx
      have hz := (List.mem_filter.mp hidx).2
      simp only [decide_eq_true_eq] at hz
      rw [hbuf] at hz ⊢
      obtain ⟨uv, huv⟩ := surfacePass_hit M settings t ref _ _ idx hz
      rw [huv, sampleWave_trochoidal M settings t ref uv.1 uv.2 hm]
      exact trochoidal_flat_lum M hsin hcos hsqrt hpi settings hamp hsteep t uv.1 uv.2)
  rw [densityLevel_six _ hr.1 hr.2]

theorem mem_stepValues (fuel : ℕ) (lo hi step : α) (hs : 0 ≤ step) (i : ℕ) (hi1 : i < fuel)
    (h : lo + (i : α) * step ≤ hi) : lo + (i : α) * step ∈ stepValues fuel lo hi step := by
  induction fuel generalizing lo i with
  | zero => exact absurd hi1 (Nat.not_lt_zero _)
  | succ f ih =>
    have hlo : lo ≤ hi := by
      have : 0 ≤ (i : α) * step := mul_nonneg (Nat.cast_nonneg _) hs
      linarith
    rw [stepValues, if_pos hlo]
    cases i with
    | zero => simp
    | succ j =>
      have e : lo + ((j + 1 : ℕ) : α) * step = (lo + step) + (j : α) * step := by
        push_cast
        ring
      rw [e]
      apply List.mem_cons_of_mem
      apply ih (lo + step) j (by omega)
      rw [← e]
      exact h

/-- C15, as the code has it: with the configured amplitude `0` (effective amplitude `0.001`)
the surface is still lit.  In the trochoidal model with steepness `0` every sample has a
luminance between `2/3` and `0.7`, so in a frame of any size a cell is blank only if none of
its pixels was hit, and every other cell shows density level `6`, which is not the blank
glyph. -/
theorem flat_surface_cells (M : JsMath α)
    (hsin : ∀ x, -1 ≤ M.sin x ∧ M.sin x ≤ 1) (hcos : ∀ x, -1 ≤ M.cos x ∧ M.cos x ≤ 1)
    (hsqrt : ∀ x, 0 ≤ x → 0 ≤ M.sqrt x ∧ M.sqrt x * M.sqrt x = x)
    (hpi : 0 < M.PI ∧ M.PI ≤ 4) (settings : Settings α)
    (hm : settings.model = Model.trochoidal)
    (hamp : settings.amplitude = 0) (hsteep : settings.steepness = 0) (t : α)
    (ref : Option (BasinSim α)) (W H cx cy : ℕ) :
    (∀ u v : α, 2 / 3 ≤ (sampleWave M settings t ref u v).lum ∧
        (sampleWave M settings t ref u v).lum ≤ 0.7) ∧
      (cellHits (frameBuffers M settings t ref W H) (W * 2) cx cy = [] →
        encodeCell settings t (frameBuffers M settings t ref W H) (W * 2) cx cy
          = ⟨blankChar, Color.plain, none⟩) ∧
      (cellHits (frameBuffers M settings t ref W H) (W * 2) cx cy ≠ [] →
        (encodeCell settings t (frameBuffers M settings t ref W H) (W * 2) cx cy).char
          = patternChar 6) ∧
      patternChar 6 ≠ blankChar := by
  refine ⟨fun u v => ?_, encodeCell_blank settings t _ (W * 2) cx cy,
    flat_cell M hsin hcos hsqrt hpi settings hm hamp hsteep t ref W H cx cy, by decide⟩
  rw [sampleWave_trochoidal M settings t ref u v hm]
  exact trochoidal_flat_lum M hsin hcos hsqrt hpi settings hamp hsteep t u v

end FlatSurface

/-- The witness of C15: the flat trochoidal surface at `t = 0` in the `90 x 32` frame, cell
`(46, 16)`, over the reals. -/
theorem flat_surface_cells_witness :
    (∀ u v : ℝ, 2 / 3 ≤ (sampleWave
          (JsMath.mk Real.pi Real.sin Real.cos Real.exp Real.sqrt Real.rpow)
          { DEFAULT_SETTINGS ℝ with model := Model.trochoidal, amplitude := 0, steepness := 0 }
          0 none u v).lum ∧
        (sampleWave (JsMath.mk Real.pi Real.sin Real.cos Real.exp Real.sqrt Real.rpow)
          { DEFAULT_SETTINGS ℝ with model := Model.trochoidal, amplitude := 0, steepness := 0 }
          0 none u v).lum ≤ 0.7) ∧
      (cellHits (frameBuffers (JsMath.mk Real.pi Real.sin Real.cos Real.exp Real.sqrt Real.rpow)
          { DEFAULT_SETTINGS ℝ with model := Model.trochoidal, amplitude := 0, steepness := 0 }
          0 none 90 32) (90 * 2) 46 16 = [] →
        encodeCell
          { DEFAULT_SETTINGS ℝ with model := Model.trochoidal, amplitude := 0, steepness := 0 } 0
          (frameBuffers (JsMath.mk Real.pi Real.sin Real.cos Real.exp Real.sqrt Real.rpow)
            { DEFAULT_SETTINGS ℝ with model := Model.trochoidal, amplitude := 0, steepness := 0 }
            0 none 90 32) (90 * 2) 46 16
          = ⟨blankChar, Color.plain, none⟩) ∧
      (cellHits (frameBuffers (JsMath.mk Real.pi Real.sin Real.cos Real.exp Real.sqrt Real.rpow)
          { DEFAULT_SETTINGS ℝ with model := Model.trochoidal, amplitude := 0, steepness := 0 }
          0 none 90 32) (90 * 2) 46 16 ≠ [] →
        (encodeCell
          { DEFAULT_SETTINGS ℝ with model := Model.trochoidal, amplitude := 0, steepness := 0 } 0
          (frameBuffers (JsMath.mk Real.pi Real.sin Real.cos Real.exp Real.sqrt Real.rpow)
            { DEFAULT_SETTINGS ℝ with model := Model.trochoidal, amplitude := 0, steepness := 0 }
            0 none 90 32) (90 * 2) 46 16).char = patternChar 6) ∧
      patternChar 6 ≠ blankChar :=
  flat_surface_cells (JsMath.mk Real.pi Real.sin Real.cos Real.exp Real.sqrt Real.rpow)
    (fun x => ⟨Real.neg_one_le_sin x, Real.sin_le_one x⟩)
    (fun x => ⟨Real.neg_one_le_cos x, Real.cos_le_one x⟩)
    (fun x hx => ⟨Real.sqrt_nonneg x, Real.mul_self_sqrt hx⟩)
    ⟨Real.pi_pos, Real.pi_le_four⟩
    { DEFAULT_SETTINGS ℝ with model := Model.trochoidal, amplitude := 0, steepness := 0 }
    rfl rfl rfl 0 none 90 32 46 16

/-! ## Guards against a zero period -/

section GuardLemmas

variable {α : Type} [LinearOrderedField α] [FloorRing α]

/-- C26: a zero period is answered by the neutral value `0`: `mod(x, 0) = 0` and
`wrapSigned(x, 0) = 0` for every `x` (the remainder is not computed), and
`smoothstep(e, e, x) = 0` for every `e` and `x` (the quotient is not computed). -/
theorem zero_period_guard (x e : α) :
    mod x 0 = 0 ∧ wrapSigned x 0 = 0 ∧ smoothstep e e x = 0 := by
  refine ⟨?_, ?_, ?_⟩
  · unfold mod
    rw [if_pos rfl]
  · unfold wrapSigned mod
    rw [if_pos rfl]
    norm_num
  · unfold smoothstep
    rw [if_pos rfl]

end GuardLemmas

/-! ## The density glyphs -/

/-- C29: the nine density glyphs are ordered by ink coverage: the glyph of level `L` is
`0x2800` plus a mask of the 8 dots with exactly `L` dots set, level `0` is the blank glyph
`0x2800`, and the dots of level `L` are among those of level `L + 1`. -/
theorem patterns_ordered :
    patterns.length = 9 ∧ blankChar = 0x2800 ∧ patternChar 0 = blankChar ∧
      ∀ L : Fin 9,
        0x2800 ≤ patternChar ((L : ℕ) : ℤ) ∧ patternChar ((L : ℕ) : ℤ) - 0x2800 < 256 ∧
          (glyphDots (patternChar ((L : ℕ) : ℤ))).length = (L : ℕ) ∧
          ((L : ℕ) < 8 → ∀ b ∈ glyphDots (patternChar ((L : ℕ) : ℤ)),
            b ∈ glyphDots (patternChar (((L : ℕ) : ℤ) + 1))) := by
  decide

/-! ## The time budget of a frame -/

section StepBudget

variable {α : Type} [LinearOrderedField α] [FloorRing α]

theorem subSteps_range (settings : Settings α) (sim : BasinSim α) :
    1 ≤ subSteps settings sim ∧ subSteps settings sim ≤ 10 := by
  unfold subSteps
  exact ⟨le_max_left _ _, max_le (by norm_num) (min_le_left _ _)⟩

theorem subSteps_mul_dt (settings : Settings α) (sim : BasinSim α) :
    (subSteps settings sim : α) * basinDt settings sim = dtWanted settings := by
  have h1 : (1 : α) ≤ (subSteps settings sim : α) := by
    exact_mod_cast (subSteps_range settings sim).1
  unfold basinDt
  field_simp

theorem basinSubStep_time (M : JsMath α) (dt dropRate dropMag paddleMag : α)
    (sim : BasinSim α) :
    (basinSubStep M dt dropRate dropMag paddleMag sim).time = sim.time + dt := rfl

/-- The simulation time after `m` sub-steps of size `dt`. -/
theorem substeps_time (M : JsMath α) (dt dropRate dropMag paddleMag : α) (sim : BasinSim α)
    (m : ℕ) :
    (forRange m (fun _ sim => basinSubStep M dt dropRate dropMag paddleMag sim) sim).time
      = sim.time + (m : α) * dt := by
  induction m with
  | zero => simp [forRange_zero]
  | succ m ih =>
    rw [forRange_succ, basinSubStep_time, ih]
    push_cast
    ring

end StepBudget

/-! ## Bilinear sampling -/

section BilinearLemmas

variable {α : Type} [LinearOrderedField α] [FloorRing α]

/-- A blend `a * (1 - t) + b * t` with `0 <= t <= 1` lies between `a` and `b`. -/
theorem blend_range (a b t : α) (h0 : 0 ≤ t) (h1 : t ≤ 1) :
    min a b ≤ a * (1 - t) + b * t ∧ a * (1 - t) + b * t ≤ max a b := by
  have ha1 : min a b ≤ a := min_le_left _ _
  have hb1 : min a b ≤ b := min_le_right _ _
  have ha2 : a ≤ max a b := le_max_left _ _
  have hb2 : b ≤ max a b := le_max_right _ _
  have e1 : 0 ≤ 1 - t := by linarith
  constructor
  · nlinarith [mul_nonneg e1 (sub_nonneg.mpr ha1), mul_nonneg h0 (sub_nonneg.mpr hb1)]
  · nlinarith [mul_nonneg e1 (sub_nonneg.mpr ha2), mul_nonneg h0 (sub_nonneg.mpr hb2)]

/-- The clamped grid coordinate `fx` and the cells `x0`, `x1` and weight `tx` derived from
it. -/
theorem grid_coord_range (n : ℕ) (hn : 1 ≤ n) (c : α) :
    0 ≤ ⌊clamp c 0 ((n : α) - 1)⌋ ∧
      ⌊clamp c 0 ((n : α) - 1)⌋ ≤ min (⌊clamp c 0 ((n : α) - 1)⌋ + 1) ((n : ℤ) - 1) ∧
      min (⌊clamp c 0 ((n : α) - 1)⌋ + 1) ((n : ℤ) - 1) ≤ (n : ℤ) - 1 ∧
      0 ≤ clamp c 0 ((n : α) - 1) - (⌊clamp c 0 ((n : α) - 1)⌋ : α) ∧
      clamp c 0 ((n : α) - 1) - (⌊clamp c 0 ((n : α) - 1)⌋ : α) ≤ 1 := by
  have hn1 : (0 : α) ≤ (n : α) - 1 := by
    have : (1 : α) ≤ (n : α) := by exact_mod_cast hn
    linarith
  have h0 := clamp_ge c 0 ((n : α) - 1)
  have h1 := clamp_le c 0 ((n : α) - 1) hn1
  have hf0 : 0 ≤ ⌊clamp c 0 ((n : α) - 1)⌋ := Int.floor_nonneg.mpr h0
  have hf1 : ⌊clamp c 0 ((n : α) - 1)⌋ ≤ (n : ℤ) - 1 := by
    have : ⌊clamp c 0 ((n : α) - 1)⌋ ≤ ⌊(((n : ℤ) - 1 : ℤ) : α)⌋ := by
      apply Int.floor_mono
      push_cast
      exact h1
    rwa [Int.floor_intCast] at this
  refine ⟨hf0, le_min (by omega) hf1, min_le_right _ _, ?_, ?_⟩
  · linarith [Int.floor_le (clamp c 0 ((n : α) - 1))]
  · linarith [Int.lt_floor_add_one (clamp c 0 ((n : α) - 1))]

theorem cell_index_range (n : ℕ) (x z : ℤ) (hx0 : 0 ≤ x) (hx1 : x ≤ (n : ℤ) - 1) (hz0 : 0 ≤ z)
    (hz1 : z ≤ (n : ℤ) - 1) : 0 ≤ z * n + x ∧ z * n + x ≤ (n : ℤ) * n - 1 := by
  have hn : (0 : ℤ) ≤ n := Int.natCast_nonneg n
  constructor
  · nlinarith [mul_nonneg hz0 hn]
  · nlinarith [mul_nonneg (sub_nonneg.mpr hz1) hn]

end BilinearLemmas

/-! ## Wavelength and dispersion of the spectrum -/

section Dispersion

variable {α : Type} [LinearOrderedField α] [FloorRing α]

/-- The clamped wavelength bounds of the builder. -/
theorem wavelength_bounds (settings : Settings α) :
    0.4 ≤ clamp settings.minWavelength 0.4 12 ∧ clamp settings.minWavelength 0.4 12 ≤ 12 ∧
      clamp settings.minWavelength 0.4 12 + 0.2
        ≤ clamp settings.maxWavelength (clamp settings.minWavelength 0.4 12 + 0.2) 12 :=
  ⟨clamp_ge _ _ _, clamp_le _ _ _ (by norm_num), clamp_ge _ _ _⟩

/-- Every component pushed by the generation loop has a wavelength between the bounds, the
wavenumber `2 * PI / lambda` and the angular frequency `sqrt(9.81 * k)`. -/
theorem genWaves_dispersion (M : JsMath α)
    (hpow : ∀ b r : α, 1 ≤ b → 0 ≤ r → r ≤ 1 → 1 ≤ M.pow b r ∧ M.pow b r ≤ b)
    (hsqrt : ∀ x : α, 0 ≤ x → 0 ≤ M.sqrt x ∧ M.sqrt x * M.sqrt x = x)
    (hpi : 0 ≤ M.PI) (minWL maxWL spread : α) (hmin : 0 < minWL) (hmax : minWL ≤ maxWL)
    (count t : ℕ) :
    ∀ w ∈ genWaves M minWL maxWL spread count t,
      ∃ lambda : α, minWL ≤ lambda ∧ lambda ≤ maxWL ∧ w.k * lambda = M.PI * 2 ∧
        0 ≤ w.w ∧ w.w * w.w = 9.81 * w.k := by
  induction count generalizing t with
  | zero => intro w hw; simp [genWaves] at hw
  | succ c ih =>
    intro w hw
    simp only [genWaves, List.mem_cons] at hw
    rcases hw with rfl | hw
    · obtain ⟨r0, r1⟩ := @rand_range α _ _ t
      have hb : 1 ≤ maxWL / minWL := (one_le_div hmin).mpr hmax
      obtain ⟨p1, p2⟩ := hpow (maxWL / minWL) (rand α t).1 hb r0 (le_of_lt r1)
      have hl1 : minWL ≤ minWL * M.pow (maxWL / minWL) (rand α t).1 := by
        nlinarith
      have hl2 : minWL * M.pow (maxWL / minWL) (rand α t).1 ≤ maxWL := by
        calc minWL * M.pow (maxWL / minWL) (rand α t).1 ≤ minWL * (maxWL / minWL) :=
              mul_le_mul_of_nonneg_left p2 (le_of_lt hmin)
          _ = maxWL := by field_simp
      have hlpos : 0 < minWL * M.pow (maxWL / minWL) (rand α t).1 := lt_of_lt_of_le hmin hl1
      have hk : 0 ≤ 9.81 * (M.PI * 2 / (minWL * M.pow (maxWL / minWL) (rand α t).1)) := by
        have : 0 ≤ M.PI * 2 / (minWL * M.pow (maxWL / minWL) (rand α t).1) :=
          div_nonneg (by linarith) (le_of_lt hlpos)
        linarith
      obtain ⟨s0, s1⟩ := hsqrt _ hk
      refine ⟨minWL * M.pow (maxWL / minWL) (rand α t).1, hl1, hl2, ?_, s0, s1⟩
      exact div_mul_cancel₀ _ (ne_of_gt hlpos)
    · exact ih _ w hw

/-- C23: for every configuration and seed, each component of the spectrum has a wavelength
`lambda` with `minWL <= lambda <= maxWL`, where `minWL = clamp(minWavelength, 0.4, 12)` and
`maxWL = clamp(maxWavelength, minWL + 0.2, 12) >= minWL + 0.2`, a wavenumber `k` with
`k * lambda = 2 * PI`, and an angular frequency `w >= 0` with `w^2 = 9.81 * k` (`Math.pow`
between `1` and its base for exponents in `[0, 1]`, `Math.sqrt` a non-negative square
root). -/
theorem spectrum_dispersion (M : JsMath α)
    (hpow : ∀ b r : α, 1 ≤ b → 0 ≤ r → r ≤ 1 → 1 ≤ M.pow b r ∧ M.pow b r ≤ b)
    (hsqrt : ∀ x : α, 0 ≤ x → 0 ≤ M.sqrt x ∧ M.sqrt x * M.sqrt x = x)
    (hpi : 0 ≤ M.PI) (settings : Settings α) (hm : settings.model = Model.spectrum) :
    clamp settings.minWavelength 0.4 12 + 0.2
        ≤ clamp settings.maxWavelength (clamp settings.minWavelength 0.4 12 + 0.2) 12 ∧
      ∃ waves, spectrum M settings = some waves ∧
        ∀ w ∈ waves, ∃ lambda : α,
          clamp settings.minWavelength 0.4 12 ≤ lambda ∧
          lambda ≤ clamp settings.maxWavelength (clamp settings.minWavelength 0.4 12 + 0.2) 12 ∧
          w.k * lambda = M.PI * 2 ∧ 0 ≤ w.w ∧ w.w * w.w = 9.81 * w.k := by
  obtain ⟨b1, b2, b3⟩ := wavelength_bounds settings
  refine ⟨b3, ?_⟩
  unfold spectrum
  rw [if_neg (by rw [hm]; decide)]
  refine ⟨_, rfl, ?_⟩
  intro w hw
  obtain ⟨w0, hw0, rfl⟩ := List.mem_map.mp hw
  exact genWaves_dispersion M hpow hsqrt hpi _ _ _ (by linarith) (by linarith) _ _ w0 hw0

end Dispersion

/-- The witness of C23: the default settings, over the reals. -/
theorem spectrum_dispersion_witness :
    clamp (DEFAULT_SETTINGS ℝ).minWavelength 0.4 12 + 0.2
        ≤ clamp (DEFAULT_SETTINGS ℝ).maxWavelength
            (clamp (DEFAULT_SETTINGS ℝ).minWavelength 0.4 12 + 0.2) 12 ∧
      ∃ waves, spectrum (JsMath.mk Real.pi Real.sin Real.cos Real.exp Real.sqrt Real.rpow)
          (DEFAULT_SETTINGS ℝ) = some waves ∧
        ∀ w ∈ waves, ∃ lambda : ℝ,
          clamp (DEFAULT_SETTINGS ℝ).minWavelength 0.4 12 ≤ lambda ∧
          lambda ≤ clamp (DEFAULT_SETTINGS ℝ).maxWavelength
            (clamp (DEFAULT_SETTINGS ℝ).minWavelength 0.4 12 + 0.2) 12 ∧
          w.k * lambda = Real.pi * 2 ∧ 0 ≤ w.w ∧ w.w * w.w = 9.81 * w.k :=
  spectrum_dispersion (JsMath.mk Real.pi Real.sin Real.cos Real.exp Real.sqrt Real.rpow)
    (fun b r hb h0 h1 => ⟨Real.one_le_rpow hb h0, by
      have h := Real.rpow_le_rpow_of_exponent_le hb h1
      rwa [Real.rpow_one] at h⟩)
    (fun x hx => ⟨Real.sqrt_nonneg x, Real.mul_self_sqrt hx⟩)
    (le_of_lt Real.pi_pos) (DEFAULT_SETTINGS ℝ) rfl

/-! ## Orientation of the spectrum -/

section Orientation

variable {α : Type} [LinearOrderedField α] [FloorRing α]

/-- The base direction of every generated component is `(cos a, sin a)` for its angle offset
`a`. -/
theorem genWaves_direction (M : JsMath α) (minWL maxWL spread : α) (count t : ℕ) :
    ∀ w ∈ genWaves M minWL maxWL spread count t,
      ∃ a : α, w.dirX0 = M.cos a ∧ w.dirZ0 = M.sin a := by
  induction count generalizing t with
  | zero => intro w hw; simp [genWaves] at hw
  | succ c ih =>
    intro w hw
    simp only [genWaves, List.mem_cons] at hw
    rcases hw with rfl | hw
    · exact ⟨_, rfl, rfl⟩
    · exact ih _ w hw

theorem spectrum_direction (M : JsMath α) (settings : Settings α) (waves : List (Wave α))
    (h : spectrum M settings = some waves) :
    ∀ w ∈ waves, ∃ a : α, w.dirX0 = M.cos a ∧ w.dirZ0 = M.sin a := by
  unfold spectrum at h
  split at h
  · cases h
  · simp only [Option.some.injEq] at h
    intro w hw
    rw [← h] at hw
    obtain ⟨w0, hw0, rfl⟩ := List.mem_map.mp hw
    exact genWaves_direction M _ _ _ _ _ w0 hw0

theorem orElse_of_ne (a b : α) (h : a ≠ 0) : orElse a b = a := by
  unfold orElse
  rw [if_neg h]

/-- The normalised weights of the spectrum sum to `1`. -/
theorem spectrum_weightSum (M : JsMath α) (hpow : ∀ x y : α, 0 < x → 0 < M.pow x y)
    (settings : Settings α) (waves : List (Wave α)) (h : spectrum M settings = some waves) :
    weightSum waves = 1 := by
  have hmin : (0 : α) < clamp settings.minWavelength 0.4 12 :=
    lt_of_lt_of_le (by norm_num) (clamp_ge _ _ _)
  have hmax : (0 : α) < clamp settings.maxWavelength
      (clamp settings.minWavelength 0.4 12 + 0.2) 12 :=
    lt_of_lt_of_le (by linarith) (clamp_ge _ _ _)
  have hcount := jsRound_clamp_pos settings.components
  have hlen := genWaves_length M (clamp settings.minWavelength 0.4 12)
    (clamp settings.maxWavelength (clamp settings.minWavelength 0.4 12 + 0.2) 12)
    (clamp settings.spread 0 180 * (M.PI / 180))
    (jsRound (clamp settings.components 1 24)).toNat (mulberryInit ⌊orElse settings.seed 1⌋)
  have hpos := genWaves_weight_pos M hpow (clamp settings.minWavelength 0.4 12)
    (clamp settings.maxWavelength (clamp settings.minWavelength 0.4 12 + 0.2) 12)
    (clamp settings.spread 0 180 * (M.PI / 180)) hmin hmax
    (jsRound (clamp settings.components 1 24)).toNat (mulberryInit ⌊orElse settings.seed 1⌋)
  have hne : genWaves M (clamp settings.minWavelength 0.4 12)
      (clamp settings.maxWavelength (clamp settings.minWavelength 0.4 12 + 0.2) 12)
      (clamp settings.spread 0 180 * (M.PI / 180))
      (jsRound (clamp settings.components 1 24)).toNat (mulberryInit ⌊orElse settings.seed 1⌋)
        ≠ [] := by
    intro hnil
    rw [hnil] at hlen
    simp at hlen
    omega
  have hsum := weightSum_pos _ hpos hne
  unfold spectrum at h
  split at h
  · cases h
  · simp only [Option.some.injEq] at h
    rw [← h, weightSum_scale, orElse_of_ne _ _ (ne_of_gt hsum), div_self (ne_of_gt hsum)]

theorem orientedSpectrum_eq (M : JsMath α) (settings : Settings α) (waves : List (Wave α))
    (h : spectrum M settings = some waves) :
    orientedSpectrum M settings = some (waves.map fun wave =>
      ⟨wave, wave.dirX0 * M.cos (windAngle M settings) - wave.dirZ0 * M.sin (windAngle M settings),
        wave.dirX0 * M.sin (windAngle M settings)
          + wave.dirZ0 * M.cos (windAngle M settings)⟩) := by
  unfold orientedSpectrum
  rw [h]
  cases waves with
  | nil => rfl
  | cons w ws => rfl

/-- C24: for every wind direction, orienting the spectrum changes only the direction: the
oriented list has the length of the spectrum, every component keeps its `dirX0`, `dirZ0`, `k`,
`w`, `weight` and `phase` (so the weights still sum to `1`), and its direction
`(dirX, dirZ)` is `(dirX0, dirZ0)` rotated by the wind angle, a unit vector as `(dirX0, dirZ0)`
is (`cos^2 + sin^2 = 1`, `Math.pow` positive on a positive base). -/
theorem orientedSpectrum_rotation (M : JsMath α)
    (hcs : ∀ x : α, M.cos x * M.cos x + M.sin x * M.sin x = 1)
    (hpow : ∀ x y : α, 0 < x → 0 < M.pow x y)
    (settings : Settings α) (hm : settings.model = Model.spectrum) :
    ∃ waves oriented, spectrum M settings = some waves ∧
      orientedSpectrum M settings = some oriented ∧
      oriented.length = waves.length ∧
      oriented.map OrientedWave.toWave = waves ∧
      weightSum (oriented.map OrientedWave.toWave) = 1 ∧
      ∀ wave ∈ oriented,
        wave.dirX = wave.dirX0 * M.cos (windAngle M settings)
          - wave.dirZ0 * M.sin (windAngle M settings) ∧
        wave.dirZ = wave.dirX0 * M.sin (windAngle M settings)
          + wave.dirZ0 * M.cos (windAngle M settings) ∧
        wave.dirX0 * wave.dirX0 + wave.dirZ0 * wave.dirZ0 = 1 ∧
        wave.dirX * wave.dirX + wave.dirZ * wave.dirZ = 1 := by
  have hs : ∃ waves, spectrum M settings = some waves := by
    unfold spectrum
    rw [if_neg (by rw [hm]; decide)]
    exact ⟨_, rfl⟩
  obtain ⟨waves, hw⟩ := hs
  have hmap : (waves.map fun wave => (⟨wave,
      wave.dirX0 * M.cos (windAngle M settings) - wave.dirZ0 * M.sin (windAngle M settings),
      wave.dirX0 * M.sin (windAngle M settings) + wave.dirZ0 * M.cos (windAngle M settings)⟩ :
        OrientedWave α)).map OrientedWave.toWave = waves := by
    rw [List.map_map]
    exact List.map_id _
  refine ⟨waves, _, hw, orientedSpectrum_eq M settings waves hw, by simp, hmap, ?_, ?_⟩
  · rw [hmap]
    exact spectrum_weightSum M hpow settings waves hw
  · intro wave hwave
    obtain ⟨w0, hw0, rfl⟩ := List.mem_map.mp hwave
    obtain ⟨a, ha1, ha2⟩ := spectrum_direction M settings waves hw w0 hw0
    have hu : w0.dirX0 * w0.dirX0 + w0.dirZ0 * w0.dirZ0 = 1 := by
      rw [ha1, ha2]
      exact hcs a
    refine ⟨rfl, rfl, hu, ?_⟩
    have hc := hcs (windAngle M settings)
    show (w0.dirX0 * M.cos (windAngle M settings) - w0.dirZ0 * M.sin (windAngle M settings))
        * (w0.dirX0 * M.cos (windAngle M settings) - w0.dirZ0 * M.sin (windAngle M settings))
      + (w0.dirX0 * M.sin (windAngle M settings) + w0.dirZ0 * M.cos (windAngle M settings))
        * (w0.dirX0 * M.sin (windAngle M settings) + w0.dirZ0 * M.cos (windAngle M settings))
      = 1
    calc _ = (w0.dirX0 * w0.dirX0 + w0.dirZ0 * w0.dirZ0)
          * (M.cos (windAngle M settings) * M.cos (windAngle M settings)
            + M.sin (windAngle M settings) * M.sin (windAngle M settings)) := by ring
      _ = 1 := by rw [hu, hc, mul_one]

end Orientation

/-- The witness of C24: the default settings, over the reals. -/
theorem orientedSpectrum_rotation_witness :
    ∃ waves oriented,
      spectrum (JsMath.mk Real.pi Real.sin Real.cos Real.exp Real.sqrt Real.rpow)
        (DEFAULT_SETTINGS ℝ) = some waves ∧
      orientedSpectrum (JsMath.mk Real.pi Real.sin Real.cos Real.exp Real.sqrt Real.rpow)
        (DEFAULT_SETTINGS ℝ) = some oriented ∧
      oriented.length = waves.length ∧
      oriented.map OrientedWave.toWave = waves ∧
      weightSum (oriented.map OrientedWave.toWave) = 1 ∧
      ∀ wave ∈ oriented,
        wave.dirX = wave.dirX0 * Real.cos (windAngle
            (JsMath.mk Real.pi Real.sin Real.cos Real.exp Real.sqrt Real.rpow)
            (DEFAULT_SETTINGS ℝ))
          - wave.dirZ0 * Real.sin (windAngle
            (JsMath.mk Real.pi Real.sin Real.cos Real.exp Real.sqrt Real.rpow)
            (DEFAULT_SETTINGS ℝ)) ∧
        wave.dirZ = wave.dirX0 * Real.sin (windAngle
            (JsMath.mk Real.pi Real.sin Real.cos Real.exp Real.sqrt Real.rpow)
            (DEFAULT_SETTINGS ℝ))
          + wave.dirZ0 * Real.cos (windAngle
            (JsMath.mk Real.pi Real.sin Real.cos Real.exp Real.sqrt Real.rpow)
            (DEFAULT_SETTINGS ℝ)) ∧
        wave.dirX0 * wave.dirX0 + wave.dirZ0 * wave.dirZ0 = 1 ∧
        wave.dirX * wave.dirX + wave.dirZ * wave.dirZ = 1 :=
  orientedSpectrum_rotation (JsMath.mk Real.pi Real.sin Real.cos Real.exp Real.sqrt Real.rpow)
    (fun x => by
      have h := Real.cos_sq_add_sin_sq x
      show Real.cos x * Real.cos x + Real.sin x * Real.sin x = 1
      nlinarith [h])
    (fun x y hx => Real.rpow_pos_of_pos hx y) (DEFAULT_SETTINGS ℝ) rfl

/-! ## The period of the tsunami crest -/

section TsunamiPeriod

variable {α : Type} [LinearOrderedField α] [FloorRing α]

/-- The period and the centre computed by the `tsunami` block. -/
theorem tsunami_period (M : JsMath α) (settings : Settings α) (t : α)
    (hm : settings.model = Model.tsunami) :
    ∃ ts, tsunami M settings t = some ts ∧ ts.half = 3.5 ∧
      ts.period = 2 * 3.5 * max 0.25 (|M.cos (windAngle M settings)|
        + |M.sin (windAngle M settings)|) ∧
      ts.center = wrapSigned (0.55 - t * settings.speed * 1.35) ts.period := by
  unfold tsunami
  rw [if_neg (by rw [hm]; decide)]
  exact ⟨_, rfl, rfl, rfl, rfl⟩

/-- The sum `|c| + |s|` for a unit vector `(c, s)`. -/
theorem abs_sum_unit (c s : α) (h : c * c + s * s = 1) :
    1 ≤ |c| + |s| ∧ (|c| + |s|) * (|c| + |s|) ≤ 2 ∧ (|c| + |s| = 1 ↔ c * s = 0) := by
  have hc : |c| * |c| = c * c := abs_mul_abs_self c
  have hs : |s| * |s| = s * s := abs_mul_abs_self s
  have hc0 : 0 ≤ |c| := abs_nonneg c
  have hs0 : 0 ≤ |s| := abs_nonneg s
  have hcs : 0 ≤ |c| * |s| := mul_nonneg hc0 hs0
  have hsq : (|c| + |s|) * (|c| + |s|) = 1 + 2 * (|c| * |s|) := by
    have : (|c| + |s|) * (|c| + |s|) = |c| * |c| + |s| * |s| + 2 * (|c| * |s|) := by ring
    rw [this, hc, hs, h]
  refine ⟨?_, ?_, ?_⟩
  · by_contra hlt
    push_neg at hlt
    have : (|c| + |s|) * (|c| + |s|) < 1 := by nlinarith
    linarith
  · have : 0 ≤ (|c| - |s|) * (|c| - |s|) := mul_self_nonneg _
    have e : (|c| - |s|) * (|c| - |s|) = |c| * |c| + |s| * |s| - 2 * (|c| * |s|) := by ring
    rw [e, hc, hs, h] at this
    linarith
  · constructor
    · intro h1
      rw [h1] at hsq
      have h0 : |c| * |s| = 0 := by linarith
      rw [← abs_mul] at h0
      exact abs_eq_zero.mp h0
    · intro h0
      have h1 : |c| * |s| = 0 := by rw [← abs_mul, h0, abs_zero]
      rw [h1] at hsq
      have h2 : (|c| + |s| - 1) * (|c| + |s| + 1) = 0 := by linarith
      rcases mul_eq_zero.mp h2 with h3 | h3
      · linarith
      · linarith

end TsunamiPeriod

/-- The counterexample to C27: with the wind at 45 degrees the period of the crest centre is
`7 * sqrt 2`, not `2 * 3.5 = 7`. -/
theorem tsunami_period_diagonal :
    ∃ ts, tsunami (JsMath.mk Real.pi Real.sin Real.cos Real.exp Real.sqrt Real.rpow)
        { DEFAULT_SETTINGS ℝ with model := Model.tsunami, windDir := 45 } 0 = some ts ∧
      ts.half = 3.5 ∧ ts.period = 7 * Real.sqrt 2 ∧ ts.period ≠ 2 * ts.half := by
  obtain ⟨ts, h1, h2, h3, -⟩ := tsunami_period
    (JsMath.mk Real.pi Real.sin Real.cos Real.exp Real.sqrt Real.rpow)
    { DEFAULT_SETTINGS ℝ with model := Model.tsunami, windDir := 45 } 0 rfl
  have hfl : ⌊(45 : ℝ) / 360⌋ = 0 := by
    rw [Int.floor_eq_zero_iff]
    constructor <;> norm_num
  have hw : windAngle (JsMath.mk Real.pi Real.sin Real.cos Real.exp Real.sqrt Real.rpow)
      { DEFAULT_SETTINGS ℝ with model := Model.tsunami, windDir := 45 } = Real.pi / 4 := by
    unfold windAngle jsRem jsTrunc
    simp only
    rw [if_pos (by norm_num), hfl]
    norm_num
    ring
  have hs2 : (1 : ℝ) < Real.sqrt 2 := by
    rw [Real.lt_sqrt (by norm_num)]
    norm_num
  have hs0 : (0 : ℝ) ≤ Real.sqrt 2 / 2 := by positivity
  rw [hw] at h3
  simp only [Real.cos_pi_div_four, Real.sin_pi_div_four, abs_of_nonneg hs0] at h3
  have hsum : Real.sqrt 2 / 2 + Real.sqrt 2 / 2 = Real.sqrt 2 := by ring
  rw [hsum, max_eq_right (by linarith)] at h3
  have hp : ts.period = 7 * Real.sqrt 2 := by
    rw [h3]
    ring
  refine ⟨ts, h1, h2, hp, ?_⟩
  rw [hp, h2]
  intro h
  nlinarith

/-! ## Raindrops -/

section RaindropLemmas

variable {α : Type} [LinearOrderedField α] [FloorRing α]

/-- The centre coordinate of a raindrop, `2 + floor(r * (n - 4))` with `0 <= r < 1`. -/
theorem drop_coord_range (n0 : ℕ) (hn : 5 ≤ n0) (r : α) (h0 : 0 ≤ r) (h1 : r < 1) :
    2 ≤ 2 + ⌊r * ((n0 : α) - 4)⌋ ∧ 2 + ⌊r * ((n0 : α) - 4)⌋ ≤ (n0 : ℤ) - 3 := by
  have hn4 : (0 : α) < (n0 : α) - 4 := by
    have : (5 : α) ≤ (n0 : α) := by exact_mod_cast hn
    linarith
  have hf0 : 0 ≤ ⌊r * ((n0 : α) - 4)⌋ := Int.floor_nonneg.mpr (mul_nonneg h0 (le_of_lt hn4))
  have hf1 : ⌊r * ((n0 : α) - 4)⌋ < (n0 : ℤ) - 4 := by
    rw [Int.floor_lt]
    push_cast
    nlinarith
  constructor <;> omega

/-- A cell off the first and last row and column is not written by the loops that zero the
border. -/
theorem interior_not_border (n : ℕ) (i j : ℤ) (hi : 1 ≤ i ∧ i ≤ (n : ℤ) - 2)
    (hj : 1 ≤ j ∧ j ≤ (n : ℤ) - 2) : ¬ isBorder n (j * n + i) := by
  obtain ⟨hi1, hi2⟩ := hi
  obtain ⟨hj1, hj2⟩ := hj
  have hn : (3 : ℤ) ≤ n := by omega
  unfold isBorder
  rintro (⟨a, ha, h | h⟩ | ⟨b, hb, h | h⟩)
  · have ha1 : (a : ℤ) < n := by exact_mod_cast ha
    nlinarith
  · have ha0 : (0 : ℤ) ≤ a := Int.natCast_nonneg a
    have e : ((n : ℤ) - 1 - j) * n = i - a := by linarith
    have : (n : ℤ) ≤ ((n : ℤ) - 1 - j) * n := by nlinarith
    omega
  · have e : ((b : ℤ) - j) * n = i := by linarith
    rcases le_or_lt ((b : ℤ) - j) 0 with hle | hgt
    · nlinarith
    · have : (n : ℤ) ≤ ((b : ℤ) - j) * n := by nlinarith
      omega
  · have e : (j - (b : ℤ)) * n = (n : ℤ) - 1 - i := by linarith
    rcases le_or_lt (j - (b : ℤ)) 0 with hle | hgt
    · nlinarith
    · have : (n : ℤ) ≤ (j - (b : ℤ)) * n := by nlinarith
      omega

/-- A cell off the border has an index of the grid. -/
theorem interior_index (n : ℕ) (i j : ℤ) (hi : 1 ≤ i ∧ i ≤ (n : ℤ) - 2)
    (hj : 1 ≤ j ∧ j ≤ (n : ℤ) - 2) : 0 ≤ j * n + i ∧ j * n + i < (n : ℤ) * n := by
  obtain ⟨hi1, hi2⟩ := hi
  obtain ⟨hj1, hj2⟩ := hj
  have hn : (3 : ℤ) ≤ n := by omega
  constructor <;> nlinarith

/-- A raindrop changes the grid at the nine cells of its splat only. -/
theorem raindrop_other (n0 : ℕ) (dropMag : α) (st : Grid α × ℕ) (k : ℤ)
    (h : ∀ di dj : ℤ, -1 ≤ di → di ≤ 1 → -1 ≤ dj → dj ≤ 1 →
      k ≠ (2 + ⌊(rand α (rand α st.2).2).1 * ((n0 : α) - 4)⌋ + dj) * n0
        + (2 + ⌊(rand α st.2).1 * ((n0 : α) - 4)⌋ + di)) :
    (raindrop n0 dropMag st).1 k = st.1 k := by
  unfold raindrop
  simp only
  generalize 2 + ⌊(rand α (rand α st.2).2).1 * ((n0 : α) - 4)⌋ = j at h ⊢
  generalize 2 + ⌊(rand α st.2).1 * ((n0 : α) - 4)⌋ = i at h ⊢
  have e0 : k ≠ j * n0 + i := by
    have := h 0 0 (by norm_num) (by norm_num) (by norm_num) (by norm_num)
    simpa using this
  have e1 : k ≠ j * n0 + i - 1 := by
    have := h (-1) 0 (by norm_num) (by norm_num) (by norm_num) (by norm_num)
    intro hk; apply this; rw [hk]; ring
  have e2 : k ≠ j * n0 + i + 1 := by
    have := h 1 0 (by norm_num) (by norm_num) (by norm_num) (by norm_num)
    intro hk; apply this; rw [hk]; ring
  have e3 : k ≠ j * n0 + i - n0 := by
    have := h 0 (-1) (by norm_num) (by norm_num) (by norm_num) (by norm_num)
    intro hk; apply this; rw [hk]; ring
  have e4 : k ≠ j * n0 + i + n0 := by
    have := h 0 1 (by norm_num) (by norm_num) (by norm_num) (by norm_num)
    intro hk; apply this; rw [hk]; ring
  have e5 : k ≠ j * n0 + i - n0 - 1 := by
    have := h (-1) (-1) (by norm_num) (by norm_num) (by norm_num) (by norm_num)
    intro hk; apply this; rw [hk]; ring
  have e6 : k ≠ j * n0 + i - n0 + 1 := by
    have := h 1 (-1) (by norm_num) (by norm_num) (by norm_num) (by norm_num)
    intro hk; apply this; rw [hk]; ring
  have e7 : k ≠ j * n0 + i + n0 - 1 := by
    have := h (-1) 1 (by norm_num) (by norm_num) (by norm_num) (by norm_num)
    intro hk; apply this; rw [hk]; ring
  have e8 : k ≠ j * n0 + i + n0 + 1 := by
    have := h 1 1 (by norm_num) (by norm_num) (by norm_num) (by norm_num)
    intro hk; apply this; rw [hk]; ring
  rw [addAt_other _ _ _ _ e8, addAt_other _ _ _ _ e7, addAt_other _ _ _ _ e6,
    addAt_other _ _ _ _ e5, addAt_other _ _ _ _ e4, addAt_other _ _ _ _ e3,
    addAt_other _ _ _ _ e2, addAt_other _ _ _ _ e1, addAt_other _ _ _ _ e0]

/-- A raindrop leaves the border cells and everything outside the grid as they are. -/
theorem raindrop_border (n0 : ℕ) (hn : 5 ≤ n0) (dropMag : α) (st : Grid α × ℕ) (k : ℤ)
    (hk : k < 0 ∨ (n0 : ℤ) * n0 ≤ k ∨ isBorder n0 k) :
    (raindrop n0 dropMag st).1 k = st.1 k := by
  obtain ⟨i0, i1⟩ := drop_coord_range n0 hn (rand α st.2).1 (rand_range _).1 (rand_range _).2
  obtain ⟨j0, j1⟩ := drop_coord_range n0 hn (rand α (rand α st.2).2).1 (rand_range _).1
    (rand_range _).2
  apply raindrop_other
  intro di dj hd1 hd2 he1 he2 hkeq
  have hi : 1 ≤ 2 + ⌊(rand α st.2).1 * ((n0 : α) - 4)⌋ + di ∧
      2 + ⌊(rand α st.2).1 * ((n0 : α) - 4)⌋ + di ≤ (n0 : ℤ) - 2 := by
    constructor <;> omega
  have hj : 1 ≤ 2 + ⌊(rand α (rand α st.2).2).1 * ((n0 : α) - 4)⌋ + dj ∧
      2 + ⌊(rand α (rand α st.2).2).1 * ((n0 : α) - 4)⌋ + dj ≤ (n0 : ℤ) - 2 := by
    constructor <;> omega
  obtain ⟨x0, x1⟩ := interior_index n0 _ _ hi hj
  rcases hk with hk | hk | hk
  · rw [hkeq] at hk
    linarith
  · rw [hkeq] at hk
    linarith
  · rw [hkeq] at hk
    exact interior_not_border n0 _ _ hi hj hk

/-- C28: for every value the generator returns (a number in `[0, 1)`) and every grid size
`n >= 5`, in particular `n = 96`, the centre cell `(i, j)` of a raindrop satisfies
`2 <= i, j <= n - 3`; the nine cells of its splat lie in the rows and columns `1 .. n - 2`, are
indices of the grid and are not border cells; a raindrop, and so the raindrops of a sub-step,
change no other cell: nothing outside the grid and no border cell. -/
theorem raindrop_interior (n0 : ℕ) (hn : 5 ≤ n0) (dropMag : α) (st : Grid α × ℕ) :
    ∃ i j : ℤ,
      i = 2 + ⌊(rand α st.2).1 * ((n0 : α) - 4)⌋ ∧
      j = 2 + ⌊(rand α (rand α st.2).2).1 * ((n0 : α) - 4)⌋ ∧
      (2 ≤ i ∧ i ≤ (n0 : ℤ) - 3) ∧ (2 ≤ j ∧ j ≤ (n0 : ℤ) - 3) ∧
      (∀ di dj : ℤ, -1 ≤ di → di ≤ 1 → -1 ≤ dj → dj ≤ 1 →
        (1 ≤ i + di ∧ i + di ≤ (n0 : ℤ) - 2) ∧ (1 ≤ j + dj ∧ j + dj ≤ (n0 : ℤ) - 2) ∧
        0 ≤ (j + dj) * n0 + (i + di) ∧ (j + dj) * n0 + (i + di) < (n0 : ℤ) * n0 ∧
        ¬ isBorder n0 ((j + dj) * n0 + (i + di))) ∧
      (∀ k : ℤ, (∀ di dj : ℤ, -1 ≤ di → di ≤ 1 → -1 ≤ dj → dj ≤ 1 →
          k ≠ (j + dj) * n0 + (i + di)) → (raindrop n0 dropMag st).1 k = st.1 k) ∧
      (∀ k : ℤ, k < 0 ∨ (n0 : ℤ) * n0 ≤ k ∨ isBorder n0 k →
        (raindrop n0 dropMag st).1 k = st.1 k) ∧
      ∀ (dropRate dt : α) (k : ℤ), k < 0 ∨ (n0 : ℤ) * n0 ≤ k ∨ isBorder n0 k →
        (raindrops n0 dropRate dropMag dt st).1 k = st.1 k := by
  obtain ⟨i0, i1⟩ := drop_coord_range n0 hn (rand α st.2).1 (rand_range _).1 (rand_range _).2
  obtain ⟨j0, j1⟩ := drop_coord_range n0 hn (rand α (rand α st.2).2).1 (rand_range _).1
    (rand_range _).2
  refine ⟨_, _, rfl, rfl, ⟨i0, i1⟩, ⟨j0, j1⟩, ?_, ?_, ?_, ?_⟩
  · intro di dj hd1 hd2 he1 he2
    have hi : 1 ≤ 2 + ⌊(rand α st.2).1 * ((n0 : α) - 4)⌋ + di ∧
        2 + ⌊(rand α st.2).1 * ((n0 : α) - 4)⌋ + di ≤ (n0 : ℤ) - 2 := by
      constructor <;> omega
    have hj : 1 ≤ 2 + ⌊(rand α (rand α st.2).2).1 * ((n0 : α) - 4)⌋ + dj ∧
        2 + ⌊(rand α (rand α st.2).2).1 * ((n0 : α) - 4)⌋ + dj ≤ (n0 : ℤ) - 2 := by
      constructor <;> omega
    obtain ⟨x0, x1⟩ := interior_index n0 _ _ hi hj
    exact ⟨hi, hj, x0, x1, interior_not_border n0 _ _ hi hj⟩
  · intro k hk
    exact raindrop_other n0 dropMag st k hk
  · intro k hk
    exact raindrop_border n0 hn dropMag st k hk
  · intro dropRate dt k hk
    unfold raindrops
    simp only
    apply forRange_invariant (fun s : Grid α × ℕ => s.1 k = st.1 k)
    · intro _ s hs
      show (raindrop n0 dropMag s).1 k = st.1 k
      rw [raindrop_border n0 hn dropMag s k hk]
      exact hs
    · rfl

end RaindropLemmas

/-- The witness of C28: the grid size `96` of the program and the generator in state `1337`,
over the rationals. -/
theorem raindrop_interior_witness :
    ∃ i j : ℤ,
      i = 2 + ⌊(rand ℚ ((fun _ => 0, 1337) : Grid ℚ × ℕ).2).1 * (((96 : ℕ) : ℚ) - 4)⌋ ∧
      j = 2 + ⌊(rand ℚ (rand ℚ ((fun _ => 0, 1337) : Grid ℚ × ℕ).2).2).1
        * (((96 : ℕ) : ℚ) - 4)⌋ ∧
      (2 ≤ i ∧ i ≤ ((96 : ℕ) : ℤ) - 3) ∧ (2 ≤ j ∧ j ≤ ((96 : ℕ) : ℤ) - 3) ∧
      (∀ di dj : ℤ, -1 ≤ di → di ≤ 1 → -1 ≤ dj → dj ≤ 1 →
        (1 ≤ i + di ∧ i + di ≤ ((96 : ℕ) : ℤ) - 2) ∧ (1 ≤ j + dj ∧ j + dj ≤ ((96 : ℕ) : ℤ) - 2) ∧
        0 ≤ (j + dj) * (96 : ℕ) + (i + di) ∧
        (j + dj) * (96 : ℕ) + (i + di) < ((96 : ℕ) : ℤ) * (96 : ℕ) ∧
        ¬ isBorder 96 ((j + dj) * (96 : ℕ) + (i + di))) ∧
      (∀ k : ℤ, (∀ di dj : ℤ, -1 ≤ di → di ≤ 1 → -1 ≤ dj → dj ≤ 1 →
          k ≠ (j + dj) * (96 : ℕ) + (i + di)) →
        (raindrop 96 (1 : ℚ) (fun _ => 0, 1337)).1 k = ((fun _ => 0, 1337) : Grid ℚ × ℕ).1 k) ∧
      (∀ k : ℤ, k < 0 ∨ ((96 : ℕ) : ℤ) * (96 : ℕ) ≤ k ∨ isBorder 96 k →
        (raindrop 96 (1 : ℚ) (fun _ => 0, 1337)).1 k = ((fun _ => 0, 1337) : Grid ℚ × ℕ).1 k) ∧
      ∀ (dropRate dt : ℚ) (k : ℤ), k < 0 ∨ ((96 : ℕ) : ℤ) * (96 : ℕ) ≤ k ∨ isBorder 96 k →
        (raindrops 96 dropRate (1 : ℚ) dt (fun _ => 0, 1337)).1 k
          = ((fun _ => 0, 1337) : Grid ℚ × ℕ).1 k :=
  raindrop_interior 96 (by decide) (1 : ℚ) (fun _ => 0, 1337)

/-! ## The leapfrog update -/

section LeapfrogLemmas

variable {α : Type} [LinearOrderedField α] [FloorRing α]

theorem row_index_ne (n : ℕ) (j j2 i i2 : ℕ) (hi : i < n) (hi2 : i2 < n) (hj : j ≠ j2) :
    (j : ℤ) * n + i ≠ (j2 : ℤ) * n + i2 := by
  intro h
  have hi1 : (i : ℤ) < n := by exact_mod_cast hi
  have hi3 : (i2 : ℤ) < n := by exact_mod_cast hi2
  have hi0 : (0 : ℤ) ≤ i := Int.natCast_nonneg i
  have hi4 : (0 : ℤ) ≤ i2 := Int.natCast_nonneg i2
  rcases Nat.lt_or_gt_of_ne hj with hlt | hgt
  · have : (j : ℤ) + 1 ≤ j2 := by exact_mod_cast hlt
    nlinarith
  · have : (j2 : ℤ) + 1 ≤ j := by exact_mod_cast hgt
    nlinarith

/-- A loop over the columns of row `j` that writes `f i` to the cell `j * n + i`. -/
theorem row_write (n j m : ℕ) (f : ℕ → α) (g : Grid α) :
    (∀ i, i < m → forRange m (fun i g => setAt g ((j : ℤ) * n + i) (f i)) g ((j : ℤ) * n + i)
        = f i) ∧
      ∀ k : ℤ, (∀ i, i < m → k ≠ (j : ℤ) * n + i) →
        forRange m (fun i g => setAt g ((j : ℤ) * n + i) (f i)) g k = g k := by
  induction m with
  | zero =>
    exact ⟨fun i hi => absurd hi (Nat.not_lt_zero _), fun k _ => rfl⟩
  | succ m ih =>
    obtain ⟨ih1, ih2⟩ := ih
    constructor
    · intro i hi
      rw [forRange_succ]
      by_cases him : i = m
      · rw [him, setAt_same]
      · rw [setAt_other _ _ _ _ (by
          intro h
          apply him
          have : (i : ℤ) = m := by linarith
          exact_mod_cast this)]
        exact ih1 i (by omega)
    · intro k hk
      rw [forRange_succ, setAt_other _ _ _ _ (hk m (Nat.lt_succ_self m))]
      exact ih2 k (fun i hi => hk i (by omega))

/-- Two nested loops over the rows and columns of an `n x n` grid that write `f j i` to the
cell `j * n + i`. -/
theorem grid_write (n m : ℕ) (f : ℕ → ℕ → α) (g : Grid α) :
    (∀ j i, j < m → i < n →
        forRange m (fun j g => forRange n (fun i g => setAt g ((j : ℤ) * n + i) (f j i)) g) g
          ((j : ℤ) * n + i) = f j i) ∧
      ∀ k : ℤ, (∀ j i, j < m → i < n → k ≠ (j : ℤ) * n + i) →
        forRange m (fun j g => forRange n (fun i g => setAt g ((j : ℤ) * n + i) (f j i)) g) g k
          = g k := by
  induction m with
  | zero =>
    exact ⟨fun j i hj => absurd hj (Nat.not_lt_zero _), fun k _ => rfl⟩
  | succ m ih =>
    obtain ⟨ih1, ih2⟩ := ih
    constructor
    · intro j i hj hi
      rw [forRange_succ]
      by_cases hjm : j = m
      · rw [hjm]
        exact (row_write n m n (f m) _).1 i hi
      · rw [(row_write n m n (f m) _).2 _ (fun i2 hi2 => row_index_ne n j m i i2 hi hi2 hjm)]
        exact ih1 j i (by omega) hi
    · intro k hk
      rw [forRange_succ, (row_write n m n (f m) _).2 k (fun i hi => hk m i (Nat.lt_succ_self m) hi)]
      exact ih2 k (fun j i hj hi => hk j i (by omega) hi)

theorem leapfrogCell_eq (dt : α) (sim : BasinSim α) (hsolid : ∀ k, sim.solid k = false)
    (j i : ℕ) (hj : j < sim.n) (hi : i < sim.n) (next : Grid α) :
    leapfrogCell sim (0.85 * dt) (dt * dt / (sim.dx * sim.dx)) j i next
      = setAt next ((j : ℤ) * sim.n + i) (leapfrogValue dt sim i j) := by
  have hi1 : (i : ℤ) < sim.n := by exact_mod_cast hi
  have hj1 : (j : ℤ) < sim.n := by exact_mod_cast hj
  have hi0 : (0 : ℤ) ≤ i := Int.natCast_nonneg i
  have hj0 : (0 : ℤ) ≤ j := Int.natCast_nonneg j
  unfold leapfrogCell leapfrogValue laplacian neighbourValue
  simp only [hsolid, Bool.false_eq_true, if_false, and_true]
  have hjn : (0 : ℤ) ≤ (j : ℤ) * sim.n := mul_nonneg hj0 (Int.natCast_nonneg _)
  generalize (if sim.edge = Edge.fixed then (0 : α) else sim.curr ((j : ℤ) * sim.n + i)) = ev
  have hL : (if (if (i : ℤ) > 0 then (j : ℤ) * sim.n + i - 1 else -1) ≥ 0 then
        sim.curr (if (i : ℤ) > 0 then (j : ℤ) * sim.n + i - 1 else -1) else ev)
      = if 0 ≤ (i : ℤ) - 1 ∧ (i : ℤ) - 1 < sim.n ∧ 0 ≤ (j : ℤ) ∧ (j : ℤ) < sim.n then
          sim.curr ((j : ℤ) * sim.n + ((i : ℤ) - 1)) else ev := by
    by_cases h : (i : ℤ) > 0
    · rw [if_pos h, if_pos (by omega), if_pos ⟨by omega, by omega, hj0, hj1⟩]
      congr 1
      ring
    · rw [if_neg h, if_neg (by norm_num), if_neg (by omega)]
  have hR : (if (if (i : ℤ) < (sim.n : ℤ) - 1 then (j : ℤ) * sim.n + i + 1 else -1) ≥ 0 then
        sim.curr (if (i : ℤ) < (sim.n : ℤ) - 1 then (j : ℤ) * sim.n + i + 1 else -1) else ev)
      = if 0 ≤ (i : ℤ) + 1 ∧ (i : ℤ) + 1 < sim.n ∧ 0 ≤ (j : ℤ) ∧ (j : ℤ) < sim.n then
          sim.curr ((j : ℤ) * sim.n + ((i : ℤ) + 1)) else ev := by
    by_cases h : (i : ℤ) < (sim.n : ℤ) - 1
    · rw [if_pos h, if_pos (by omega), if_pos ⟨by omega, by omega, hj0, hj1⟩]
      congr 1
    · rw [if_neg h, if_neg (by norm_num), if_neg (by omega)]
  have hD : (if (if (!decide ((j : ℤ) = 0)) = true then (j : ℤ) * sim.n + i - sim.n else -1) ≥ 0
        then sim.curr (if (!decide ((j : ℤ) = 0)) = true then (j : ℤ) * sim.n + i - sim.n else -1)
        else ev)
      = if 0 ≤ (i : ℤ) ∧ (i : ℤ) < sim.n ∧ 0 ≤ (j : ℤ) - 1 ∧ (j : ℤ) - 1 < sim.n then
          sim.curr (((j : ℤ) - 1) * sim.n + i) else ev := by
    by_cases h : (j : ℤ) = 0
    · have hb : ¬ ((!decide ((j : ℤ) = 0)) = true) := by simp [h]
      rw [if_neg hb, if_neg (by norm_num), if_neg (by omega)]
    · have hb : (!decide ((j : ℤ) = 0)) = true := by simp [h]
      have hge : (0 : ℤ) ≤ ((j : ℤ) - 1) * sim.n :=
        mul_nonneg (by omega) (Int.natCast_nonneg _)
      have he : (j : ℤ) * sim.n + i - sim.n = ((j : ℤ) - 1) * sim.n + i := by ring
      rw [if_pos hb, he, if_pos (by omega), if_pos ⟨hi0, hi1, by omega, by omega⟩]
  have hU : (if (if (!decide ((j : ℤ) = (sim.n : ℤ) - 1)) = true then (j : ℤ) * sim.n + i + sim.n
          else -1) ≥ 0
        then sim.curr (if (!decide ((j : ℤ) = (sim.n : ℤ) - 1)) = true then
          (j : ℤ) * sim.n + i + sim.n else -1)
        else ev)
      = if 0 ≤ (i : ℤ) ∧ (i : ℤ) < sim.n ∧ 0 ≤ (j : ℤ) + 1 ∧ (j : ℤ) + 1 < sim.n then
          sim.curr (((j : ℤ) + 1) * sim.n + i) else ev := by
    by_cases h : (j : ℤ) = (sim.n : ℤ) - 1
    · have hb : ¬ ((!decide ((j : ℤ) = (sim.n : ℤ) - 1)) = true) := by simp [h]
      rw [if_neg hb, if_neg (by norm_num), if_neg (by omega)]
    · have hb : (!decide ((j : ℤ) = (sim.n : ℤ) - 1)) = true := by simp [h]
      have he : (j : ℤ) * sim.n + i + sim.n = ((j : ℤ) + 1) * sim.n + i := by ring
      rw [if_pos hb, he, if_pos (by nlinarith), if_pos ⟨hi0, hi1, by omega, by omega⟩]
  rw [hL, hR, hD, hU]

theorem leapfrogPass_apply (dt : α) (sim : BasinSim α) (hsolid : ∀ k, sim.solid k = false)
    (j i : ℕ) (hj : j < sim.n) (hi : i < sim.n) :
    leapfrogPass dt sim ((j : ℤ) * sim.n + i) = leapfrogValue dt sim i j := by
  unfold leapfrogPass
  have hloop : ∀ g : Grid α,
      forRange sim.n (fun j g => forRange sim.n (fun i g =>
        leapfrogCell sim (0.85 * dt) (dt * dt / (sim.dx * sim.dx)) j i g) g) g
      = forRange sim.n (fun j g => forRange sim.n (fun i g =>
        setAt g ((j : ℤ) * sim.n + i) (leapfrogValue dt sim i j)) g) g := by
    intro g
    unfold forRange
    apply List.foldl_ext
    intro g1 j1 hj1
    apply List.foldl_ext
    intro g2 i1 hi1
    exact leapfrogCell_eq dt sim hsolid j1 i1 (List.mem_range.mp hj1) (List.mem_range.mp hi1) g2
  rw [hloop]
  exact (grid_write sim.n sim.n (fun j i => leapfrogValue dt sim i j) _).1 j i hj hi

theorem forcedNext_leapfrog (M : JsMath α) (dt dropRate dropMag paddleMag : α)
    (sim : BasinSim α) :
    forcedNext M dt dropRate dropMag paddleMag sim
      = if sim.edge = Edge.fixed then
          zeroEdges sim.n (raindrops sim.n dropRate dropMag dt
            (paddle M sim (sim.time + dt) paddleMag (dt * dt) (leapfrogPass dt sim), sim.rand)).1
        else (raindrops sim.n dropRate dropMag dt
            (paddle M sim (sim.time + dt) paddleMag (dt * dt) (leapfrogPass dt sim), sim.rand)).1 :=
  rfl

/-- C21: in a sub-step of a basin without solid cells (as every basin the program creates),
before the paddle and the raindrops are added, the next value of the cell in column `i` and row
`j` is `(2 - 0.85*dt)*curr - (1 - 0.85*dt)*prev + c2*(dt^2/dx^2)*lap` with
`lap = left + right + down + up - 4*curr`, where a neighbour outside the grid counts as `0`
with fixed edges and as the cell's own current value with free edges; the grid handed to the
forcing, the border zeroing and the mean removal is this one. -/
theorem leapfrog_update (M : JsMath α) (dt dropRate dropMag paddleMag : α) (sim : BasinSim α)
    (hsolid : ∀ k, sim.solid k = false) (i j : ℕ) (hi : i < sim.n) (hj : j < sim.n) :
    leapfrogPass dt sim ((j : ℤ) * sim.n + i)
        = (2 - 0.85 * dt) * sim.curr ((j : ℤ) * sim.n + i)
          - (1 - 0.85 * dt) * sim.prev ((j : ℤ) * sim.n + i)
          + sim.c2 ((j : ℤ) * sim.n + i) * (dt * dt / (sim.dx * sim.dx)) * laplacian sim i j ∧
      laplacian sim i j
        = neighbourValue sim (sim.curr ((j : ℤ) * sim.n + i)) ((i : ℤ) - 1) j
          + neighbourValue sim (sim.curr ((j : ℤ) * sim.n + i)) ((i : ℤ) + 1) j
          + neighbourValue sim (sim.curr ((j : ℤ) * sim.n + i)) i ((j : ℤ) - 1)
          + neighbourValue sim (sim.curr ((j : ℤ) * sim.n + i)) i ((j : ℤ) + 1)
          - 4 * sim.curr ((j : ℤ) * sim.n + i) ∧
      (basinSubStep M dt dropRate dropMag paddleMag sim).curr
        = removeMean sim
            (if sim.edge = Edge.fixed then
              zeroEdges sim.n (raindrops sim.n dropRate dropMag dt
                (paddle M sim (sim.time + dt) paddleMag (dt * dt) (leapfrogPass dt sim),
                  sim.rand)).1
            else (raindrops sim.n dropRate dropMag dt
                (paddle M sim (sim.time + dt) paddleMag (dt * dt) (leapfrogPass dt sim),
                  sim.rand)).1) := by
  refine ⟨leapfrogPass_apply dt sim hsolid j i hj hi, rfl, ?_⟩
  rw [basinSubStep_curr, forcedNext_leapfrog]

end LeapfrogLemmas

/-- The witness of C21: the centre cell of the `3 x 3` basin with a bump, step `1/10`, over the
rationals. -/
theorem leapfrog_update_witness :
    leapfrogPass (1 / 10) bump3 (((1 : ℕ) : ℤ) * bump3.n + (1 : ℕ))
        = (2 - 0.85 * (1 / 10)) * bump3.curr (((1 : ℕ) : ℤ) * bump3.n + (1 : ℕ))
          - (1 - 0.85 * (1 / 10)) * bump3.prev (((1 : ℕ) : ℤ) * bump3.n + (1 : ℕ))
          + bump3.c2 (((1 : ℕ) : ℤ) * bump3.n + (1 : ℕ))
            * ((1 / 10 : ℚ) * (1 / 10) / (bump3.dx * bump3.dx)) * laplacian bump3 (1 : ℕ) (1 : ℕ) ∧
      laplacian bump3 (1 : ℕ) (1 : ℕ)
        = neighbourValue bump3 (bump3.curr (((1 : ℕ) : ℤ) * bump3.n + (1 : ℕ)))
            (((1 : ℕ) : ℤ) - 1) (1 : ℕ)
          + neighbourValue bump3 (bump3.curr (((1 : ℕ) : ℤ) * bump3.n + (1 : ℕ)))
            (((1 : ℕ) : ℤ) + 1) (1 : ℕ)
          + neighbourValue bump3 (bump3.curr (((1 : ℕ) : ℤ) * bump3.n + (1 : ℕ)))
            (1 : ℕ) (((1 : ℕ) : ℤ) - 1)
          + neighbourValue bump3 (bump3.curr (((1 : ℕ) : ℤ) * bump3.n + (1 : ℕ)))
            (1 : ℕ) (((1 : ℕ) : ℤ) + 1)
          - 4 * bump3.curr (((1 : ℕ) : ℤ) * bump3.n + (1 : ℕ)) ∧
      (basinSubStep ratMath (1 / 10) 0 0 0 bump3).curr
        = removeMean bump3
            (if bump3.edge = Edge.fixed then
              zeroEdges bump3.n (raindrops bump3.n 0 0 (1 / 10)
                (paddle ratMath bump3 (bump3.time + 1 / 10) 0 ((1 / 10 : ℚ) * (1 / 10))
                  (leapfrogPass (1 / 10) bump3), bump3.rand)).1
            else (raindrops bump3.n 0 0 (1 / 10)
                (paddle ratMath bump3 (bump3.time + 1 / 10) 0 ((1 / 10 : ℚ) * (1 / 10))
                  (leapfrogPass (1 / 10) bump3), bump3.rand)).1) :=
  leapfrog_update ratMath (1 / 10) 0 0 0 bump3 (fun _ => rfl) 1 1 (by decide) (by decide)

/-! ## The steepness of the sampler -/

section Steepness

variable {α : Type} [LinearOrderedField α] [FloorRing α]

/-- The horizontal position returned by the trochoidal branch: the displacement is the
steepness of the settings times a factor in which the steepness does not occur. -/
theorem trochoidal_position (M : JsMath α) (settings : Settings α) (s t u v : α) :
    (trochoidalSample M { settings with steepness := s } t u v).1.x
        = u + s * (M.cos (windAngle M settings) / k M settings
          * M.cos (k M settings * (M.cos (windAngle M settings) * u
              + M.sin (windAngle M settings) * v)
            - M.sqrt (9.81 * k M settings) * t * settings.speed)) ∧
      (trochoidalSample M { settings with steepness := s } t u v).1.z
        = v + s * (M.sin (windAngle M settings) / k M settings
          * M.cos (k M settings * (M.cos (windAngle M settings) * u
              + M.sin (windAngle M settings) * v)
            - M.sqrt (9.81 * k M settings) * t * settings.speed)) := by
  have hw : windAngle M { settings with steepness := s } = windAngle M settings := rfl
  have hk : k M { settings with steepness := s } = k M settings := rfl
  unfold trochoidalSample
  simp only [hw, hk]
  constructor <;> ring

/-- The horizontal position accumulated by the component loop of the spectrum branch. -/
theorem spectrumAdd_position (M : JsMath α) (settings : Settings α) (s t u v : α)
    (waves : List (OrientedWave α)) (acc : SpectrumAcc α) :
    (waves.foldl (spectrumAdd M { settings with steepness := s } t u v) acc).x
        = acc.x + s * (waves.map fun wave => wave.dirX * (wave.weight / wave.k)
          * M.cos (wave.k * (wave.dirX * u + wave.dirZ * v) - wave.w * t * settings.speed
            + wave.phase)).sum ∧
      (waves.foldl (spectrumAdd M { settings with steepness := s } t u v) acc).z
        = acc.z + s * (waves.map fun wave => wave.dirZ * (wave.weight / wave.k)
          * M.cos (wave.k * (wave.dirX * u + wave.dirZ * v) - wave.w * t * settings.speed
            + wave.phase)).sum := by
  induction waves generalizing acc with
  | nil => simp
  | cons w ws ih =>
    rw [List.foldl_cons]
    obtain ⟨h1, h2⟩ := ih (spectrumAdd M { settings with steepness := s } t u v acc w)
    rw [h1, h2]
    simp only [List.map_cons, List.sum_cons]
    constructor
    · show acc.x + w.dirX * (s * w.weight / w.k) * _ + _ = _
      ring
    · show acc.z + w.dirZ * (s * w.weight / w.k) * _ + _ = _
      ring

/-- C25, as the code has it: the steepness is not clamped by the sampler.  For every value `s`
of `settings.steepness` the horizontal displacement of the trochoidal sample is `s` times a
factor free of the steepness, and that of the spectrum sample is `s` times a sum over the
components that is free of the steepness; the samples are those of `clamp(s, 0, 1)` when `s`
lies in `[0, 1]`, the range of the control. -/
theorem steepness_unclamped (M : JsMath α) (settings : Settings α) (t u v : α) :
    (∀ s : α,
        (trochoidalSample M { settings with steepness := s } t u v).1.x
          = u + s * (M.cos (windAngle M settings) / k M settings
            * M.cos (k M settings * (M.cos (windAngle M settings) * u
                + M.sin (windAngle M settings) * v)
              - M.sqrt (9.81 * k M settings) * t * settings.speed)) ∧
        (trochoidalSample M { settings with steepness := s } t u v).1.z
          = v + s * (M.sin (windAngle M settings) / k M settings
            * M.cos (k M settings * (M.cos (windAngle M settings) * u
                + M.sin (windAngle M settings) * v)
              - M.sqrt (9.81 * k M settings) * t * settings.speed))) ∧
      (∀ (s : α) (waves : List (OrientedWave α)),
        (spectrumSample M { settings with steepness := s } t waves u v).1.x
          = u + s * (waves.map fun wave => wave.dirX * (wave.weight / wave.k)
            * M.cos (wave.k * (wave.dirX * u + wave.dirZ * v) - wave.w * t * settings.speed
              + wave.phase)).sum ∧
        (spectrumSample M { settings with steepness := s } t waves u v).1.z
          = v + s * (waves.map fun wave => wave.dirZ * (wave.weight / wave.k)
            * M.cos (wave.k * (wave.dirX * u + wave.dirZ * v) - wave.w * t * settings.speed
              + wave.phase)).sum) ∧
      ∀ (s : α) (ref : Option (BasinSim α)), 0 ≤ s → s ≤ 1 →
        sampleWave M { settings with steepness := clamp s 0 1 } t ref u v
          = sampleWave M { settings with steepness := s } t ref u v := by
  refine ⟨fun s => trochoidal_position M settings s t u v, fun s waves => ?_, ?_⟩
  · exact spectrumAdd_position M settings s t u v waves ⟨u, v, 0, 1, 0, 0, 1, 0, 0⟩
  · intro s ref h0 h1
    rw [clamp_of_mem s 0 1 h0 h1]

end Steepness

/-- The counterexample to C25: in the trochoidal model with wind direction `0`, at
`u = v = t = 0`, the steepness `2` gives the sample `x = 2 / k` and the clamped steepness
`clamp(2, 0, 1) = 1` gives `x = 1 / k`, with `k = 2 * PI / 3.2`. -/
theorem steepness_two_differs :
    sampleWave (JsMath.mk Real.pi Real.sin Real.cos Real.exp Real.sqrt Real.rpow)
        { DEFAULT_SETTINGS ℝ with model := Model.trochoidal, windDir := 0, steepness := 2 }
        0 none 0 0
      ≠ sampleWave (JsMath.mk Real.pi Real.sin Real.cos Real.exp Real.sqrt Real.rpow)
        { DEFAULT_SETTINGS ℝ with
          model := Model.trochoidal, windDir := 0, steepness := clamp 2 0 1 }
        0 none 0 0 := by
  have hw : windAngle (JsMath.mk Real.pi Real.sin Real.cos Real.exp Real.sqrt Real.rpow)
      { DEFAULT_SETTINGS ℝ with model := Model.trochoidal, windDir := 0 } = 0 := by
    simp [windAngle, jsRem, jsTrunc]
  have hk := k_pos (JsMath.mk Real.pi Real.sin Real.cos Real.exp Real.sqrt Real.rpow)
    Real.pi_pos { DEFAULT_SETTINGS ℝ with model := Model.trochoidal, windDir := 0 }
  have hc : clamp (2 : ℝ) 0 1 = 1 := by
    unfold clamp
    rw [min_eq_left (by norm_num), max_eq_right (by norm_num)]
  have h2 := (trochoidal_position
    (JsMath.mk Real.pi Real.sin Real.cos Real.exp Real.sqrt Real.rpow)
    { DEFAULT_SETTINGS ℝ with model := Model.trochoidal, windDir := 0 } 2 0 0 0).1
  have h1 := (trochoidal_position
    (JsMath.mk Real.pi Real.sin Real.cos Real.exp Real.sqrt Real.rpow)
    { DEFAULT_SETTINGS ℝ with model := Model.trochoidal, windDir := 0 } 1 0 0 0).1
  rw [hw] at h1 h2
  simp only [Real.cos_zero, mul_zero, add_zero, zero_mul, sub_zero, zero_add, mul_one,
    one_mul] at h1 h2
  intro h
  rw [hc] at h
  have hx := congrArg WaveSample.x h
  rw [sampleWave_trochoidal _ _ _ _ _ _ rfl, sampleWave_trochoidal _ _ _ _ _ _ rfl] at hx
  have e : (2 : ℝ) * (1 / k (JsMath.mk Real.pi Real.sin Real.cos Real.exp Real.sqrt Real.rpow)
      { DEFAULT_SETTINGS ℝ with model := Model.trochoidal, windDir := 0 })
      = 1 / k (JsMath.mk Real.pi Real.sin Real.cos Real.exp Real.sqrt Real.rpow)
      { DEFAULT_SETTINGS ℝ with model := Model.trochoidal, windDir := 0 } := by
    rw [← h2, ← h1]
    exact hx
  have hpos : 0 < 1 / k (JsMath.mk Real.pi Real.sin Real.cos Real.exp Real.sqrt Real.rpow)
      { DEFAULT_SETTINGS ℝ with model := Model.trochoidal, windDir := 0 } :=
    one_div_pos.mpr hk
  linarith

/-! ## The Jacobian of the trochoidal wave -/

section TrochoidalFoam

variable {α : Type} [LinearOrderedField α] [FloorRing α]

/-- The foam of the trochoidal branch in terms of its Jacobian determinant. -/
theorem trochoidalSample_foam_jac (M : JsMath α) (settings : Settings α) (t u v : α) :
    (trochoidalSample M settings t u v).2
      = clamp ((0.55 - trochoidalJacobian M settings t u v) * 2.2) 0 1
        * clamp ((trochoidalSample M settings t u v).1.y / (amp settings * 0.85)) 0 1 * 0.3 :=
  rfl

theorem trochoidalJacobian_eq (M : JsMath α)
    (hcs : ∀ x : α, M.cos x * M.cos x + M.sin x * M.sin x = 1)
    (settings : Settings α) (t u v : α) :
    trochoidalJacobian M settings t u v
      = 1 - settings.steepness * M.sin (k M settings * (M.cos (windAngle M settings) * u
          + M.sin (windAngle M settings) * v)
        - M.sqrt (9.81 * k M settings) * t * settings.speed) := by
  have h := hcs (windAngle M settings)
  unfold trochoidalJacobian
  simp only
  generalize M.sin (k M settings * (M.cos (windAngle M settings) * u
          + M.sin (windAngle M settings) * v)
        - M.sqrt (9.81 * k M settings) * t * settings.speed) = S
  generalize M.cos (windAngle M settings) = c at h ⊢
  generalize M.sin (windAngle M settings) = s at h ⊢
  have e : (1 - settings.steepness * S * c * c) * (1 - settings.steepness * S * s * s)
      - -(settings.steepness * S) * c * s * (-(settings.steepness * S) * s * c)
      = 1 - settings.steepness * S * (c * c + s * s) := by ring
  rw [e, h, mul_one]

/-- C31: in the trochoidal model the Jacobian determinant of the horizontal displacement is
`1 - steepness * sin(phase)` at every point and time, the wind direction being a unit vector
(`cos^2 + sin^2 = 1`); so for `0 <= steepness <= 0.45` the Jacobian is at least `0.55`, and the
foam is `0` at every point and time (`sin <= 1`). -/
theorem trochoidal_no_foam (M : JsMath α)
    (hcs : ∀ x : α, M.cos x * M.cos x + M.sin x * M.sin x = 1)
    (hsin : ∀ x : α, M.sin x ≤ 1) (settings : Settings α)
    (h0 : 0 ≤ settings.steepness) (h1 : settings.steepness ≤ 0.45) (t u v : α) :
    trochoidalJacobian M settings t u v
        = 1 - settings.steepness * M.sin (k M settings * (M.cos (windAngle M settings) * u
            + M.sin (windAngle M settings) * v)
          - M.sqrt (9.81 * k M settings) * t * settings.speed) ∧
      (trochoidalSample M settings t u v).2
        = clamp ((0.55 - trochoidalJacobian M settings t u v) * 2.2) 0 1
          * clamp ((trochoidalSample M settings t u v).1.y / (amp settings * 0.85)) 0 1 * 0.3 ∧
      0.55 ≤ trochoidalJacobian M settings t u v ∧
      (trochoidalSample M settings t u v).2 = 0 := by
  have hj := trochoidalJacobian_eq M hcs settings t u v
  have hS := hsin (k M settings * (M.cos (windAngle M settings) * u
      + M.sin (windAngle M settings) * v)
    - M.sqrt (9.81 * k M settings) * t * settings.speed)
  have hge : 0.55 ≤ trochoidalJacobian M settings t u v := by
    rw [hj]
    nlinarith
  refine ⟨hj, rfl, hge, ?_⟩
  rw [trochoidalSample_foam_jac]
  have hc : clamp ((0.55 - trochoidalJacobian M settings t u v) * 2.2) 0 1 = 0 := by
    unfold clamp
    have hle : (0.55 - trochoidalJacobian M settings t u v) * 2.2 ≤ 0 := by nlinarith
    rw [min_eq_right (by linarith), max_eq_left hle]
  rw [hc, zero_mul, zero_mul]

end TrochoidalFoam

/-- The witness of C31: the default settings with steepness `0.3`, at `u = 0.8`, `v = 0`,
`t = 2`, over the reals. -/
theorem trochoidal_no_foam_witness :
    trochoidalJacobian (JsMath.mk Real.pi Real.sin Real.cos Real.exp Real.sqrt Real.rpow)
        { DEFAULT_SETTINGS ℝ with model := Model.trochoidal, steepness := 0.3 } 2 0.8 0
        = 1 - ({ DEFAULT_SETTINGS ℝ with model := Model.trochoidal, steepness := 0.3 } :
            Settings ℝ).steepness
          * Real.sin (k (JsMath.mk Real.pi Real.sin Real.cos Real.exp Real.sqrt Real.rpow)
              { DEFAULT_SETTINGS ℝ with model := Model.trochoidal, steepness := 0.3 }
            * (Real.cos (windAngle
                  (JsMath.mk Real.pi Real.sin Real.cos Real.exp Real.sqrt Real.rpow)
                  { DEFAULT_SETTINGS ℝ with model := Model.trochoidal, steepness := 0.3 }) * 0.8
              + Real.sin (windAngle
                  (JsMath.mk Real.pi Real.sin Real.cos Real.exp Real.sqrt Real.rpow)
                  { DEFAULT_SETTINGS ℝ with model := Model.trochoidal, steepness := 0.3 }) * 0)
            - Real.sqrt (9.81 * k
                (JsMath.mk Real.pi Real.sin Real.cos Real.exp Real.sqrt Real.rpow)
                { DEFAULT_SETTINGS ℝ with model := Model.trochoidal, steepness := 0.3 }) * 2
              * ({ DEFAULT_SETTINGS ℝ with model := Model.trochoidal, steepness := 0.3 } :
                Settings ℝ).speed) ∧
      (trochoidalSample (JsMath.mk Real.pi Real.sin Real.cos Real.exp Real.sqrt Real.rpow)
          { DEFAULT_SETTINGS ℝ with model := Model.trochoidal, steepness := 0.3 } 2 0.8 0).2
        = clamp ((0.55 - trochoidalJacobian
              (JsMath.mk Real.pi Real.sin Real.cos Real.exp Real.sqrt Real.rpow)
              { DEFAULT_SETTINGS ℝ with model := Model.trochoidal, steepness := 0.3 } 2 0.8 0)
            * 2.2) 0 1
          * clamp ((trochoidalSample
              (JsMath.mk Real.pi Real.sin Real.cos Real.exp Real.sqrt Real.rpow)
              { DEFAULT_SETTINGS ℝ with model := Model.trochoidal, steepness := 0.3 } 2 0.8 0).1.y
            / (amp { DEFAULT_SETTINGS ℝ with model := Model.trochoidal, steepness := 0.3 }
              * 0.85)) 0 1 * 0.3 ∧
      0.55 ≤ trochoidalJacobian
        (JsMath.mk Real.pi Real.sin Real.cos Real.exp Real.sqrt Real.rpow)
        { DEFAULT_SETTINGS ℝ with model := Model.trochoidal, steepness := 0.3 } 2 0.8 0 ∧
      (trochoidalSample (JsMath.mk Real.pi Real.sin Real.cos Real.exp Real.sqrt Real.rpow)
        { DEFAULT_SETTINGS ℝ with model := Model.trochoidal, steepness := 0.3 } 2 0.8 0).2 = 0 :=
  trochoidal_no_foam (JsMath.mk Real.pi Real.sin Real.cos Real.exp Real.sqrt Real.rpow)
    (fun x => by
      have h := Real.cos_sq_add_sin_sq x
      show Real.cos x * Real.cos x + Real.sin x * Real.sin x = 1
      nlinarith [h])
    Real.sin_le_one
    { DEFAULT_SETTINGS ℝ with model := Model.trochoidal, steepness := 0.3 }
    (by norm_num [DEFAULT_SETTINGS]) (by norm_num [DEFAULT_SETTINGS]) 2 0.8 0

/-! ## A constant state of the basin -/

section ConstantState

variable {α : Type} [LinearOrderedField α] [FloorRing α]

/-- With free edges every neighbour of a cell of a constant grid counts as the constant. -/
theorem neighbourValue_const (sim : BasinSim α) (he : sim.edge = Edge.free) (c : α)
    (hc : ∀ i j : ℤ, 0 ≤ i → i < sim.n → 0 ≤ j → j < sim.n → sim.curr (j * sim.n + i) = c)
    (i j : ℤ) : neighbourValue sim c i j = c := by
  unfold neighbourValue
  by_cases h : 0 ≤ i ∧ i < sim.n ∧ 0 ≤ j ∧ j < sim.n
  · rw [if_pos h]
    exact hc i j h.1 h.2.1 h.2.2.1 h.2.2.2
  · rw [if_neg h, if_neg (by rw [he]; decide)]

/-- C32: with edge mode `'free'` a constant state is a fixed point of the unforced leapfrog
update: in a basin without solid cells whose current and previous grids hold the value `c` in
every cell, the update gives `c` in every cell, border cells included, for every `dt`; the
Laplacian is `0` there. -/
theorem leapfrog_constant (dt : α) (sim : BasinSim α) (hsolid : ∀ k, sim.solid k = false)
    (he : sim.edge = Edge.free) (c : α)
    (hc : ∀ i j : ℤ, 0 ≤ i → i < sim.n → 0 ≤ j → j < sim.n → sim.curr (j * sim.n + i) = c)
    (hp : ∀ i j : ℤ, 0 ≤ i → i < sim.n → 0 ≤ j → j < sim.n → sim.prev (j * sim.n + i) = c)
    (i j : ℕ) (hi : i < sim.n) (hj : j < sim.n) :
    laplacian sim i j = 0 ∧ leapfrogPass dt sim ((j : ℤ) * sim.n + i) = c := by
  have hi1 : (i : ℤ) < sim.n := by exact_mod_cast hi
  have hj1 : (j : ℤ) < sim.n := by exact_mod_cast hj
  have hi0 : (0 : ℤ) ≤ i := Int.natCast_nonneg i
  have hj0 : (0 : ℤ) ≤ j := Int.natCast_nonneg j
  have hcc := hc i j hi0 hi1 hj0 hj1
  have hpp := hp i j hi0 hi1 hj0 hj1
  have hlap : laplacian sim i j = 0 := by
    unfold laplacian
    simp only [hcc, neighbourValue_const sim he c hc]
    ring
  refine ⟨hlap, ?_⟩
  rw [leapfrogPass_apply dt sim hsolid j i hj hi]
  unfold leapfrogValue
  rw [hlap, hcc, hpp]
  ring

end ConstantState

/-- The witness of C32: a `3 x 3` basin with free edges holding the value `2` in every cell,
centre cell, step `1/10`, over the rationals. -/
theorem leapfrog_constant_witness :
    laplacian ({ bump3 with edge := Edge.free, curr := fun _ => 2, prev := fun _ => 2 } :
        BasinSim ℚ) (1 : ℕ) (1 : ℕ) = 0 ∧
      leapfrogPass (1 / 10)
        ({ bump3 with edge := Edge.free, curr := fun _ => 2, prev := fun _ => 2 } : BasinSim ℚ)
        (((1 : ℕ) : ℤ)
          * ({ bump3 with edge := Edge.free, curr := fun _ => 2, prev := fun _ => 2 } :
            BasinSim ℚ).n + (1 : ℕ)) = 2 :=
  leapfrog_constant (1 / 10)
    ({ bump3 with edge := Edge.free, curr := fun _ => 2, prev := fun _ => 2 } : BasinSim ℚ)
    (fun _ => rfl) rfl 2 (fun _ _ _ _ _ _ => rfl) (fun _ _ _ _ _ _ => rfl) 1 1 (by decide)
    (by decide)

/-! ## Binary floating-point rounding -/

theorem bitsGo_spec : ∀ (fuel n : ℕ), n ≤ fuel → 0 < n →
    2 ^ (bitsGo fuel n - 1) ≤ n ∧ n < 2 ^ bitsGo fuel n ∧ 0 < bitsGo fuel n
  | 0, n, h, hn => by omega
  | fuel + 1, n, h, hn => by
    rw [bitsGo, if_neg (by omega)]
    by_cases h2 : n / 2 = 0
    · have h1 : n = 1 := by omega
      subst h1
      cases fuel with
      | zero => simp [bitsGo]
      | succ f => simp [bitsGo]
    · obtain ⟨a, b, c⟩ := bitsGo_spec fuel (n / 2) (by omega) (by omega)
      refine ⟨?_, ?_, by omega⟩
      · simp only [Nat.add_sub_cancel]
        have e : 2 ^ (bitsGo fuel (n / 2)) = 2 * 2 ^ (bitsGo fuel (n / 2) - 1) := by
          rw [← pow_succ']
          congr 1
          omega
        omega
      · rw [pow_succ]
        omega

theorem bitLength_spec (n : ℕ) (hn : 0 < n) :
    2 ^ (bitLength n - 1) ≤ n ∧ n < 2 ^ bitLength n ∧ 0 < bitLength n :=
  bitsGo_spec n n le_rfl hn

theorem pow2_eq (e : ℤ) : pow2 e = (2 : ℚ) ^ e := by
  unfold pow2
  split_ifs with h
  · push_cast
    rw [← zpow_natCast, Int.toNat_of_nonneg h]
  · push_cast
    rw [one_div, ← zpow_natCast, Int.toNat_of_nonneg (by omega), zpow_neg, inv_inv]

theorem pow2_pos (e : ℤ) : 0 < pow2 e := by
  rw [pow2_eq]
  positivity

theorem pow2_add (a b : ℤ) : pow2 (a + b) = pow2 a * pow2 b := by
  rw [pow2_eq, pow2_eq, pow2_eq, zpow_add₀ (by norm_num)]

theorem pow2_succ (e : ℤ) : pow2 (e + 1) = 2 * pow2 e := by
  rw [pow2_add, mul_comm]
  congr 1

theorem pow2_natCast (n : ℕ) : pow2 (n : ℤ) = (2 : ℚ) ^ n := by
  rw [pow2_eq, zpow_natCast]

theorem pow2_mono {a b : ℤ} (h : a ≤ b) : pow2 a ≤ pow2 b := by
  rw [pow2_eq, pow2_eq]
  exact zpow_le_zpow_right₀ (by norm_num) h

theorem pow2_lt {a b : ℤ} (h : a < b) : pow2 a < pow2 b := by
  rw [pow2_eq, pow2_eq]
  exact zpow_lt_zpow_right₀ (by norm_num) h

/-- The binary exponent brackets a positive rational. -/
theorem expo_spec (q : ℚ) (hq : 0 < q) : pow2 (expo q) ≤ q ∧ q < pow2 (expo q + 1) := by
  have hnum : 0 < q.num := Rat.num_pos.mpr hq
  have hn0 : 0 < q.num.natAbs := Int.natAbs_pos.mpr (ne_of_gt hnum)
  obtain ⟨a1, a2, a3⟩ := bitLength_spec q.num.natAbs hn0
  obtain ⟨b1, b2, b3⟩ := bitLength_spec q.den q.den_pos
  have hqe : q = (q.num.natAbs : ℚ) / (q.den : ℚ) := by
    have h := (Rat.num_div_den q).symm
    have e0 : ((q.num.natAbs : ℕ) : ℤ) = q.num := Int.natAbs_of_nonneg (le_of_lt hnum)
    have e : (q.num : ℚ) = ((q.num.natAbs : ℕ) : ℚ) := by
      rw [← Int.cast_natCast, e0]
    rw [e] at h
    exact h
  have hd : (0 : ℚ) < (q.den : ℚ) := by exact_mod_cast q.den_pos
  set a := bitLength q.num.natAbs with ha
  set b := bitLength q.den with hb
  set n := q.num.natAbs with hn
  set d := q.den with hdd
  have A1 : pow2 ((a : ℤ) - 1) ≤ (n : ℚ) := by
    have e : ((a : ℤ) - 1) = ((a - 1 : ℕ) : ℤ) := by omega
    rw [e, pow2_natCast]
    exact_mod_cast a1
  have A2 : (n : ℚ) < pow2 (a : ℤ) := by
    rw [pow2_natCast]
    exact_mod_cast a2
  have B1 : pow2 ((b : ℤ) - 1) ≤ (d : ℚ) := by
    have e : ((b : ℤ) - 1) = ((b - 1 : ℕ) : ℤ) := by omega
    rw [e, pow2_natCast]
    exact_mod_cast b1
  have B2 : (d : ℚ) < pow2 (b : ℤ) := by
    rw [pow2_natCast]
    exact_mod_cast b2
  have up : q < pow2 ((a : ℤ) - (b : ℤ) + 1) := by
    rw [hqe, div_lt_iff₀ hd]
    have e : pow2 ((a : ℤ) - (b : ℤ) + 1) * pow2 ((b : ℤ) - 1) = pow2 (a : ℤ) := by
      rw [← pow2_add]
      congr 1
      ring
    have h1 : pow2 ((a : ℤ) - (b : ℤ) + 1) * pow2 ((b : ℤ) - 1)
        ≤ pow2 ((a : ℤ) - (b : ℤ) + 1) * (d : ℚ) :=
      mul_le_mul_of_nonneg_left B1 (le_of_lt (pow2_pos _))
    linarith
  have lo : pow2 ((a : ℤ) - (b : ℤ) - 1) < q := by
    rw [hqe, lt_div_iff₀ hd]
    have e : pow2 ((a : ℤ) - (b : ℤ) - 1) * pow2 (b : ℤ) = pow2 ((a : ℤ) - 1) := by
      rw [← pow2_add]
      congr 1
      ring
    have h1 : pow2 ((a : ℤ) - (b : ℤ) - 1) * (d : ℚ)
        < pow2 ((a : ℤ) - (b : ℤ) - 1) * pow2 (b : ℤ) :=
      mul_lt_mul_of_pos_left B2 (pow2_pos _)
    linarith
  unfold expo
  simp only
  rw [← ha, ← hb]
  split_ifs with h
  · exact ⟨h, up⟩
  · refine ⟨le_of_lt lo, ?_⟩
    rw [sub_add_cancel]
    exact not_le.mp h

/-- The binary exponent is determined by the bracket. -/
theorem expo_unique (q : ℚ) (hq : 0 < q) (e : ℤ) (h1 : pow2 e ≤ q) (h2 : q < pow2 (e + 1)) :
    expo q = e := by
  obtain ⟨s1, s2⟩ := expo_spec q hq
  by_contra hne
  rcases lt_or_gt_of_ne hne with h | h
  · have := pow2_mono (show expo q + 1 ≤ e by omega)
    linarith
  · have := pow2_mono (show e + 1 ≤ expo q by omega)
    linarith

theorem expo_mono (x y : ℚ) (hx : 0 < x) (hxy : x ≤ y) : expo x ≤ expo y := by
  obtain ⟨s1, s2⟩ := expo_spec x hx
  obtain ⟨t1, t2⟩ := expo_spec y (lt_of_lt_of_le hx hxy)
  by_contra h
  have := pow2_mono (show expo y + 1 ≤ expo x by omega)
  linarith

theorem rne_bounds (x : ℚ) : ⌊x⌋ ≤ rne x ∧ rne x ≤ ⌊x⌋ + 1 := by
  unfold rne
  simp only
  split_ifs <;> omega

theorem rne_intCast (n : ℤ) : rne (n : ℚ) = n := by
  unfold rne
  simp

theorem rne_mono (x y : ℚ) (h : x ≤ y) : rne x ≤ rne y := by
  have hf : ⌊x⌋ ≤ ⌊y⌋ := Int.floor_mono h
  rcases lt_or_eq_of_le hf with hlt | heq
  · have := (rne_bounds x).2
    have := (rne_bounds y).1
    omega
  · unfold rne
    simp only
    rw [← heq]
    have hxy : x - (⌊x⌋ : ℚ) ≤ y - (⌊x⌋ : ℚ) := by linarith
    split_ifs <;> first | omega | linarith

/-- The error of rounding to an integer is at most one half. -/
theorem rne_error (x : ℚ) : |(rne x : ℚ) - x| ≤ 1 / 2 := by
  have h1 : ((⌊x⌋ : ℤ) : ℚ) ≤ x := Int.floor_le x
  have h2 : x < (⌊x⌋ : ℤ) + 1 := Int.lt_floor_add_one x
  unfold rne
  simp only
  rw [abs_le]
  split_ifs <;> push_cast <;> constructor <;> linarith

/-- The significand of a positive rational lies in `[2^(prec-1), 2^prec)`. -/
theorem significand_range (prec : ℕ) (hp : 1 ≤ prec) (q : ℚ) (hq : 0 < q) :
    (((2 : ℤ) ^ (prec - 1) : ℤ) : ℚ) ≤ q / pow2 (expo q - ((prec : ℤ) - 1)) ∧
      q / pow2 (expo q - ((prec : ℤ) - 1)) < (((2 : ℤ) ^ prec : ℤ) : ℚ) := by
  obtain ⟨s1, s2⟩ := expo_spec q hq
  have hu := pow2_pos (expo q - ((prec : ℤ) - 1))
  have e1 : (((2 : ℤ) ^ (prec - 1) : ℤ) : ℚ) = pow2 ((prec : ℤ) - 1) := by
    have e : ((prec : ℤ) - 1) = ((prec - 1 : ℕ) : ℤ) := by omega
    rw [e, pow2_natCast]
    push_cast
    rfl
  have e2 : (((2 : ℤ) ^ prec : ℤ) : ℚ) = pow2 (prec : ℤ) := by
    rw [pow2_natCast]
    push_cast
    rfl
  rw [e1, e2, le_div_iff₀ hu, div_lt_iff₀ hu, ← pow2_add, ← pow2_add]
  have a1 : (prec : ℤ) - 1 + (expo q - ((prec : ℤ) - 1)) = expo q := by ring
  have a2 : (prec : ℤ) + (expo q - ((prec : ℤ) - 1)) = expo q + 1 := by ring
  rw [a1, a2]
  exact ⟨s1, s2⟩

/-- A rounded positive rational stays in the closed binade of its argument. -/
theorem roundPos_range (prec : ℕ) (hp : 1 ≤ prec) (q : ℚ) (hq : 0 < q) :
    pow2 (expo q) ≤ roundPos prec q ∧ roundPos prec q ≤ pow2 (expo q + 1) := by
  obtain ⟨g1, g2⟩ := significand_range prec hp q hq
  have hu := pow2_pos (expo q - ((prec : ℤ) - 1))
  have r1 : (2 : ℤ) ^ (prec - 1) ≤ rne (q / pow2 (expo q - ((prec : ℤ) - 1))) := by
    have := rne_mono _ _ g1
    rwa [rne_intCast] at this
  have r2 : rne (q / pow2 (expo q - ((prec : ℤ) - 1))) ≤ (2 : ℤ) ^ prec := by
    have := rne_mono _ _ (le_of_lt g2)
    rwa [rne_intCast] at this
  have c1 : (((2 : ℤ) ^ (prec - 1) : ℤ) : ℚ)
      ≤ (rne (q / pow2 (expo q - ((prec : ℤ) - 1))) : ℚ) := by exact_mod_cast r1
  have c2 : (rne (q / pow2 (expo q - ((prec : ℤ) - 1))) : ℚ)
      ≤ (((2 : ℤ) ^ prec : ℤ) : ℚ) := by exact_mod_cast r2
  have e1 : (((2 : ℤ) ^ (prec - 1) : ℤ) : ℚ) * pow2 (expo q - ((prec : ℤ) - 1))
      = pow2 (expo q) := by
    have e : ((prec : ℤ) - 1) = ((prec - 1 : ℕ) : ℤ) := by omega
    have : (((2 : ℤ) ^ (prec - 1) : ℤ) : ℚ) = pow2 ((prec : ℤ) - 1) := by
      rw [e, pow2_natCast]
      push_cast
      rfl
    rw [this, ← pow2_add]
    congr 1
    ring
  have e2 : (((2 : ℤ) ^ prec : ℤ) : ℚ) * pow2 (expo q - ((prec : ℤ) - 1))
      = pow2 (expo q + 1) := by
    have : (((2 : ℤ) ^ prec : ℤ) : ℚ) = pow2 (prec : ℤ) := by
      rw [pow2_natCast]
      push_cast
      rfl
    rw [this, ← pow2_add]
    congr 1
    ring
  unfold roundPos
  simp only
  constructor
  · rw [← e1]
    exact mul_le_mul_of_nonneg_right c1 (le_of_lt hu)
  · rw [← e2]
    exact mul_le_mul_of_nonneg_right c2 (le_of_lt hu)

theorem roundPos_pos (prec : ℕ) (hp : 1 ≤ prec) (q : ℚ) (hq : 0 < q) : 0 < roundPos prec q :=
  lt_of_lt_of_le (pow2_pos _) (roundPos_range prec hp q hq).1

theorem roundPos_mono (prec : ℕ) (hp : 1 ≤ prec) (x y : ℚ) (hx : 0 < x) (hxy : x ≤ y) :
    roundPos prec x ≤ roundPos prec y := by
  have hy : 0 < y := lt_of_lt_of_le hx hxy
  rcases lt_or_eq_of_le (expo_mono x y hx hxy) with hlt | heq
  · have h1 := (roundPos_range prec hp x hx).2
    have h2 := (roundPos_range prec hp y hy).1
    have := pow2_mono (show expo x + 1 ≤ expo y by omega)
    linarith
  · unfold roundPos
    simp only
    rw [heq]
    have hu := pow2_pos (expo y - ((prec : ℤ) - 1))
    apply mul_le_mul_of_nonneg_right _ (le_of_lt hu)
    have : rne (x / pow2 (expo y - ((prec : ℤ) - 1)))
        ≤ rne (y / pow2 (expo y - ((prec : ℤ) - 1))) :=
      rne_mono _ _ (div_le_div_of_nonneg_right hxy (le_of_lt hu))
    exact_mod_cast this

/-- A positive multiple `m * 2^(e - prec + 1)` with `2^(prec-1) ≤ m ≤ 2^prec` is a number of
the format. -/
theorem roundPos_fixed (prec : ℕ) (hp : 1 ≤ prec) (e m : ℤ) (h1 : (2 : ℤ) ^ (prec - 1) ≤ m)
    (h2 : m ≤ (2 : ℤ) ^ prec) :
    roundPos prec ((m : ℚ) * pow2 (e - ((prec : ℤ) - 1)))
      = (m : ℚ) * pow2 (e - ((prec : ℤ) - 1)) := by
  have hu := pow2_pos (e - ((prec : ℤ) - 1))
  have p1 : (((2 : ℤ) ^ (prec - 1) : ℤ) : ℚ) = pow2 ((prec : ℤ) - 1) := by
    have e : ((prec : ℤ) - 1) = ((prec - 1 : ℕ) : ℤ) := by omega
    rw [e, pow2_natCast]
    push_cast
    rfl
  have p2 : (((2 : ℤ) ^ prec : ℤ) : ℚ) = pow2 (prec : ℤ) := by
    rw [pow2_natCast]
    push_cast
    rfl
  have c1 : pow2 ((prec : ℤ) - 1) ≤ (m : ℚ) := by
    rw [← p1]
    exact_mod_cast h1
  have c2 : (m : ℚ) ≤ pow2 (prec : ℤ) := by
    rw [← p2]
    exact_mod_cast h2
  have hm : (0 : ℚ) < (m : ℚ) := lt_of_lt_of_le (pow2_pos _) c1
  have hq : 0 < (m : ℚ) * pow2 (e - ((prec : ℤ) - 1)) := mul_pos hm hu
  have lo : pow2 e ≤ (m : ℚ) * pow2 (e - ((prec : ℤ) - 1)) := by
    have : pow2 e = pow2 ((prec : ℤ) - 1) * pow2 (e - ((prec : ℤ) - 1)) := by
      rw [← pow2_add]
      congr 1
      ring
    rw [this]
    exact mul_le_mul_of_nonneg_right c1 (le_of_lt hu)
  rcases lt_or_eq_of_le h2 with hlt | heq
  · have c3 : (m : ℚ) < pow2 (prec : ℤ) := by
      rw [← p2]
      exact_mod_cast hlt
    have up : (m : ℚ) * pow2 (e - ((prec : ℤ) - 1)) < pow2 (e + 1) := by
      have : pow2 (e + 1) = pow2 (prec : ℤ) * pow2 (e - ((prec : ℤ) - 1)) := by
        rw [← pow2_add]
        congr 1
        ring
      rw [this]
      exact mul_lt_mul_of_pos_right c3 hu
    have he := expo_unique _ hq e lo up
    unfold roundPos
    simp only
    rw [he, mul_div_assoc, div_self (ne_of_gt hu), mul_one, rne_intCast]
  · have hval : (m : ℚ) * pow2 (e - ((prec : ℤ) - 1)) = pow2 (e + 1) := by
      have : pow2 (e + 1) = pow2 (prec : ℤ) * pow2 (e - ((prec : ℤ) - 1)) := by
        rw [← pow2_add]
        congr 1
        ring
      rw [this, ← p2, heq]
    have he : expo (pow2 (e + 1)) = e + 1 :=
      expo_unique _ (pow2_pos _) (e + 1) le_rfl (pow2_lt (by omega))
    rw [hval]
    unfold roundPos
    simp only
    rw [he]
    have hu2 := pow2_pos (e + 1 - ((prec : ℤ) - 1))
    have hd : pow2 (e + 1) / pow2 (e + 1 - ((prec : ℤ) - 1))
        = (((2 : ℤ) ^ (prec - 1) : ℤ) : ℚ) := by
      rw [div_eq_iff (ne_of_gt hu2), p1, ← pow2_add]
      congr 1
      ring
    rw [hd, rne_intCast, p1, ← pow2_add]
    congr 1
    ring

theorem roundPos_idem (prec : ℕ) (hp : 1 ≤ prec) (q : ℚ) (hq : 0 < q) :
    roundPos prec (roundPos prec q) = roundPos prec q := by
  obtain ⟨g1, g2⟩ := significand_range prec hp q hq
  have r1 : (2 : ℤ) ^ (prec - 1) ≤ rne (q / pow2 (expo q - ((prec : ℤ) - 1))) := by
    have := rne_mono _ _ g1
    rwa [rne_intCast] at this
  have r2 : rne (q / pow2 (expo q - ((prec : ℤ) - 1))) ≤ (2 : ℤ) ^ prec := by
    have := rne_mono _ _ (le_of_lt g2)
    rwa [rne_intCast] at this
  have h := roundPos_fixed prec hp (expo q) _ r1 r2
  have e : roundPos prec q = (rne (q / pow2 (expo q - ((prec : ℤ) - 1))) : ℚ)
      * pow2 (expo q - ((prec : ℤ) - 1)) := rfl
  rw [e]
  exact h

theorem roundPos_half (prec : ℕ) (q : ℚ) (hq : 0 < q) :
    roundPos prec (q / 2) = roundPos prec q / 2 := by
  obtain ⟨s1, s2⟩ := expo_spec q hq
  have he : expo (q / 2) = expo q - 1 := by
    apply expo_unique _ (by linarith)
    · have := pow2_succ (expo q - 1)
      rw [sub_add_cancel] at this
      linarith
    · rw [sub_add_cancel]
      rw [pow2_succ] at s2
      linarith
  unfold roundPos
  simp only
  rw [he]
  have hu : pow2 (expo q - ((prec : ℤ) - 1)) = 2 * pow2 (expo q - 1 - ((prec : ℤ) - 1)) := by
    rw [← pow2_succ]
    congr 1
    ring
  have hpos := pow2_pos (expo q - 1 - ((prec : ℤ) - 1))
  rw [hu]
  have hd : q / 2 / pow2 (expo q - 1 - ((prec : ℤ) - 1))
      = q / (2 * pow2 (expo q - 1 - ((prec : ℤ) - 1))) := by
    field_simp
  rw [hd]
  ring

theorem roundTo_zero (prec : ℕ) : roundTo prec 0 = 0 := by
  unfold roundTo
  rw [if_pos rfl]

theorem roundTo_of_pos (prec : ℕ) (q : ℚ) (hq : 0 < q) : roundTo prec q = roundPos prec q := by
  unfold roundTo
  rw [if_neg (ne_of_gt hq), if_pos hq]

theorem roundTo_of_neg (prec : ℕ) (q : ℚ) (hq : q < 0) :
    roundTo prec q = -roundPos prec (-q) := by
  unfold roundTo
  rw [if_neg (ne_of_lt hq), if_neg (not_lt.mpr (le_of_lt hq))]

/-- Rounding commutes with the change of sign. -/
theorem roundTo_neg (prec : ℕ) (q : ℚ) : roundTo prec (-q) = -roundTo prec q := by
  rcases lt_trichotomy q 0 with h | h | h
  · rw [roundTo_of_neg prec q h, roundTo_of_pos prec (-q) (by linarith), neg_neg]
  · rw [h, neg_zero, roundTo_zero, neg_zero]
  · rw [roundTo_of_pos prec q h, roundTo_of_neg prec (-q) (by linarith), neg_neg]

/-- Rounding keeps the sign. -/
theorem roundTo_pos (prec : ℕ) (hp : 1 ≤ prec) (q : ℚ) (hq : 0 < q) : 0 < roundTo prec q := by
  rw [roundTo_of_pos prec q hq]
  exact roundPos_pos prec hp q hq

/-- Rounding is monotone. -/
theorem roundTo_mono (prec : ℕ) (hp : 1 ≤ prec) : Monotone (roundTo prec) := by
  intro x y hxy
  rcases lt_trichotomy x 0 with hx | hx | hx
  · rcases lt_trichotomy y 0 with hy | hy | hy
    · rw [roundTo_of_neg prec x hx, roundTo_of_neg prec y hy]
      have := roundPos_mono prec hp (-y) (-x) (by linarith) (by linarith)
      linarith
    · rw [hy, roundTo_zero, roundTo_of_neg prec x hx]
      have := roundPos_pos prec hp (-x) (by linarith)
      linarith
    · rw [roundTo_of_neg prec x hx, roundTo_of_pos prec y hy]
      have := roundPos_pos prec hp (-x) (by linarith)
      have := roundPos_pos prec hp y hy
      linarith
  · rw [hx] at hxy ⊢
    rw [roundTo_zero]
    rcases lt_or_eq_of_le hxy with hy | hy
    · exact le_of_lt (roundTo_pos prec hp y hy)
    · rw [← hy, roundTo_zero]
  · have hy : 0 < y := lt_of_lt_of_le hx hxy
    rw [roundTo_of_pos prec x hx, roundTo_of_pos prec y hy]
    exact roundPos_mono prec hp x y hx hxy

/-- A rounded number is a number of the format: rounding it again changes nothing. -/
theorem roundTo_idem (prec : ℕ) (hp : 1 ≤ prec) (q : ℚ) :
    roundTo prec (roundTo prec q) = roundTo prec q := by
  rcases lt_trichotomy q 0 with h | h | h
  · rw [roundTo_of_neg prec q h, roundTo_neg,
      roundTo_of_pos prec _ (roundPos_pos prec hp (-q) (by linarith)),
      roundPos_idem prec hp (-q) (by linarith)]
  · rw [h, roundTo_zero, roundTo_zero]
  · rw [roundTo_of_pos prec q h, roundTo_of_pos prec _ (roundPos_pos prec hp q h),
      roundPos_idem prec hp q h]

/-- Halving is exact: it commutes with rounding. -/
theorem roundTo_half (prec : ℕ) (q : ℚ) : roundTo prec (q / 2) = roundTo prec q / 2 := by
  rcases lt_trichotomy q 0 with h | h | h
  · rw [roundTo_of_neg prec q h, roundTo_of_neg prec (q / 2) (by linarith)]
    have e : -(q / 2) = -q / 2 := by ring
    rw [e, roundPos_half prec (-q) (by linarith)]
    ring
  · rw [h, zero_div, roundTo_zero, zero_div]
  · rw [roundTo_of_pos prec q h, roundTo_of_pos prec (q / 2) (by linarith),
      roundPos_half prec q h]

/-- The relative error of rounding is at most `2^(-prec)`. -/
theorem roundTo_error (prec : ℕ) (hp : 1 ≤ prec) (q : ℚ) :
    |roundTo prec q - q| ≤ |q| * pow2 (-(prec : ℤ)) := by
  have key : ∀ x : ℚ, 0 < x → |roundPos prec x - x| ≤ x * pow2 (-(prec : ℤ)) := by
    intro x hx
    obtain ⟨s1, s2⟩ := expo_spec x hx
    have hu := pow2_pos (expo x - ((prec : ℤ) - 1))
    have h := rne_error (x / pow2 (expo x - ((prec : ℤ) - 1)))
    have e : roundPos prec x - x
        = ((rne (x / pow2 (expo x - ((prec : ℤ) - 1))) : ℚ)
            - x / pow2 (expo x - ((prec : ℤ) - 1))) * pow2 (expo x - ((prec : ℤ) - 1)) := by
      unfold roundPos
      simp only
      field_simp
    rw [e, abs_mul, abs_of_pos hu]
    have h1 : |(rne (x / pow2 (expo x - ((prec : ℤ) - 1))) : ℚ)
        - x / pow2 (expo x - ((prec : ℤ) - 1))| * pow2 (expo x - ((prec : ℤ) - 1))
        ≤ 1 / 2 * pow2 (expo x - ((prec : ℤ) - 1)) :=
      mul_le_mul_of_nonneg_right h (le_of_lt hu)
    have h2 : 1 / 2 * pow2 (expo x - ((prec : ℤ) - 1)) = pow2 (expo x) * pow2 (-(prec : ℤ)) := by
      rw [← pow2_add]
      have := pow2_succ (expo x + -(prec : ℤ))
      have e3 : expo x + -(prec : ℤ) + 1 = expo x - ((prec : ℤ) - 1) := by ring
      rw [e3] at this
      rw [this]
      ring
    have h3 : pow2 (expo x) * pow2 (-(prec : ℤ)) ≤ x * pow2 (-(prec : ℤ)) :=
      mul_le_mul_of_nonneg_right s1 (le_of_lt (pow2_pos _))
    linarith
  rcases lt_trichotomy q 0 with h | h | h
  · rw [roundTo_of_neg prec q h, abs_of_neg h]
    have := key (-q) (by linarith)
    have e : -roundPos prec (-q) - q = -(roundPos prec (-q) - -q) := by ring
    rw [e, abs_neg]
    exact this
  · rw [h, roundTo_zero]
    simp
  · rw [roundTo_of_pos prec q h, abs_of_pos h]
    exact key q h

/-! ## The signed wrap with rounding -/

section RoundedWrap

variable {α : Type} [LinearOrderedField α] [FloorRing α]

/-- With `fl` the identity the rounded `mod` is `mod`. -/
theorem modR_id (value period : α) : modR id value period = mod value period := rfl

/-- With `fl` the identity the rounded `wrapSigned` is `wrapSigned`. -/
theorem wrapSignedR_id (value period : α) :
    wrapSignedR id value period = wrapSigned value period := rfl

/-- For a positive period of the format and a monotone rounding the rounded `mod` returns a
value in the closed interval `[0, period]`. -/
theorem modR_range (fl : α → α) (v p : α) (hp : 0 < p) (hmono : Monotone fl)
    (h0 : fl 0 = 0) (hpp : fl p = p) : 0 ≤ modR fl v p ∧ modR fl v p ≤ p := by
  obtain ⟨-, h1, h2, -⟩ := jsRem_spec v p hp
  unfold modR
  rw [if_neg (ne_of_gt hp)]
  simp only
  split_ifs with h
  · constructor
    · rw [← h0]
      exact hmono (by linarith)
    · have h3 := hmono (show jsRem v p + p ≤ p by linarith)
      rw [hpp] at h3
      exact h3
  · exact ⟨not_lt.mp h, le_of_lt h2⟩

/-- For a positive period of the format whose half is of the format, and a monotone rounding,
the rounded `wrapSigned` returns a value in the closed interval `[-period/2, period/2]`. -/
theorem wrapSignedR_range (fl : α → α) (x p : α) (hp : 0 < p) (hmono : Monotone fl)
    (h0 : fl 0 = 0) (hpp : fl p = p) (hh : fl (p / 2) = p / 2)
    (hn : fl (-(p / 2)) = -(p / 2)) :
    -(p / 2) ≤ wrapSignedR fl x p ∧ wrapSignedR fl x p ≤ p / 2 := by
  unfold wrapSignedR
  rw [hh]
  obtain ⟨m0, m1⟩ := modR_range fl (fl (x + p / 2)) p hp hmono h0 hpp
  constructor
  · rw [← hn]
    exact hmono (by linarith)
  · have h := hmono (show modR fl (fl (x + p / 2)) p - p / 2 ≤ p / 2 by linarith)
    rw [hh] at h
    exact h

/-- C5, as the code has it: for every value `x` and every period `p > 0`, `wrapSigned(x, p)`
lies in `[-p/2, p/2)` in exact arithmetic; with the result of each operation rounded by a
monotone rounding `fl` that keeps `0`, `p`, `p/2` and `-p/2` (binary64 rounding to nearest
for a period `p` of the format whose half is of the format), `wrapSigned(x, p)` lies in the
closed interval `[-p/2, p/2]`. -/
theorem wrapSigned_range_rounded (fl : α → α) (x p : α) (hp : 0 < p) (hmono : Monotone fl)
    (h0 : fl 0 = 0) (hpp : fl p = p) (hh : fl (p / 2) = p / 2)
    (hn : fl (-(p / 2)) = -(p / 2)) :
    (-(p / 2) ≤ wrapSigned x p ∧ wrapSigned x p < p / 2) ∧
      -(p / 2) ≤ wrapSignedR fl x p ∧ wrapSignedR fl x p ≤ p / 2 := by
  obtain ⟨a0, a1, -⟩ := mod_spec (x + p / 2) p hp
  refine ⟨?_, wrapSignedR_range fl x p hp hmono h0 hpp hh hn⟩
  unfold wrapSigned
  constructor <;> linarith

end RoundedWrap

/-- The rounding of binary64 arithmetic is monotone. -/
theorem round64_mono : Monotone round64 := roundTo_mono 53 (by norm_num)

/-- The counterexample to C5: in binary64 arithmetic
`wrapSigned(-1.5000000000000002, 3)` is `1.5`, the half period itself: the sum
`-1.5000000000000002 + 1.5` is `-2^-52`, its remainder by `3` is negative, and
`-2^-52 + 3` rounds to `3`. -/
theorem wrapSigned_reaches_half :
    round64 (-(6755399441055745 / 4503599627370496)) = -(6755399441055745 / 4503599627370496) ∧
      wrapSignedR round64 (-(6755399441055745 / 4503599627370496)) 3 = 3 / 2 ∧
      ¬ wrapSignedR round64 (-(6755399441055745 / 4503599627370496)) 3 < 3 / 2 := by
  decide!

/-- The witness of C5: binary64 rounding, `x = -1.5000000000000002`, `p = 3`. -/
theorem wrapSigned_range_rounded_witness :
    ((0 : ℚ) < 3 ∧ Monotone round64 ∧ round64 0 = 0 ∧ round64 3 = 3 ∧
        round64 (3 / 2) = 3 / 2 ∧ round64 (-(3 / 2)) = -(3 / 2)) ∧
      (-((3 : ℚ) / 2) ≤ wrapSigned (-(6755399441055745 / 4503599627370496)) 3 ∧
        wrapSigned (-(6755399441055745 / 4503599627370496) : ℚ) 3 < 3 / 2) ∧
      -((3 : ℚ) / 2) ≤ wrapSignedR round64 (-(6755399441055745 / 4503599627370496)) 3 ∧
      wrapSignedR round64 (-(6755399441055745 / 4503599627370496)) 3 ≤ 3 / 2 :=
  ⟨⟨by norm_num, round64_mono, by decide!, by decide!, by decide!, by decide!⟩,
    wrapSigned_range_rounded round64 (-(6755399441055745 / 4503599627370496)) 3 (by norm_num)
      round64_mono (by decide!) (by decide!) (by decide!) (by decide!)⟩

/-- The counterexample to C6: in binary64 arithmetic, with `p` the number `0.1`,
`wrapSigned(0 + p, p)` is `2^-56` while `wrapSigned(0, p)` is `0`: the sum `0.1 + 0.05` is
rounded before the remainder is taken. -/
theorem wrapSigned_shift_differs :
    round64 (1 / 10) = 3602879701896397 / 36028797018963968 ∧
      wrapSignedR round64 (round64 (0 + round64 (1 / 10))) (round64 (1 / 10))
        = 1 / 72057594037927936 ∧
      wrapSignedR round64 0 (round64 (1 / 10)) = 0 ∧
      wrapSignedR round64 (round64 (0 + round64 (1 / 10))) (round64 (1 / 10))
        ≠ wrapSignedR round64 0 (round64 (1 / 10)) := by
  decide!

/-! ## The centre of the tsunami with rounding -/

section RoundedTsunami

variable {α : Type} [LinearOrderedField α] [FloorRing α]

/-- With `fl` the identity the rounded period and centre are those of the `tsunami` block. -/
theorem tsunamiCenterR_id (M : JsMath α) (settings : Settings α) (t : α) (ts : Tsunami α)
    (h : tsunami M settings t = some ts) :
    tsunamiCenterR id M settings t = (ts.period, ts.center) := by
  unfold tsunami at h
  split_ifs at h
  simp only [Option.some.injEq] at h
  rw [← h]
  rfl

/-- The rounded period of the tsunami block is at least the rounded product `7 * 0.25`, and the
rounded centre lies in the closed interval `[-period/2, period/2]`. -/
theorem tsunamiCenterR_range (fl : α → α) (M : JsMath α) (settings : Settings α) (t : α)
    (hmono : Monotone fl) (h0 : fl 0 = 0) (hidem : ∀ y, fl (fl y) = fl y)
    (hneg : ∀ y, fl (-y) = -fl y) (hhalf : ∀ y, 1 ≤ fl y → fl (fl y / 2) = fl y / 2)
    (hone : 1 ≤ fl (fl (2 * fl 3.5) * fl 0.25)) :
    1 ≤ (tsunamiCenterR fl M settings t).1 ∧
      -((tsunamiCenterR fl M settings t).1 / 2) ≤ (tsunamiCenterR fl M settings t).2 ∧
      (tsunamiCenterR fl M settings t).2 ≤ (tsunamiCenterR fl M settings t).1 / 2 := by
  unfold tsunamiCenterR
  simp only
  generalize fl (fl (jsRem settings.windDir 360 * M.PI) / 180) = wind
  generalize fl (fl 0.55 - fl (fl (t * settings.speed) * fl 1.35)) = v
  set absSum := max (fl 0.25) (fl (|M.cos wind| + |M.sin wind|)) with habs
  have h35 : 0 ≤ fl 3.5 := by
    rw [← h0]
    exact hmono (by norm_num)
  have h7 : 0 ≤ fl (2 * fl 3.5) := by
    rw [← h0]
    exact hmono (by linarith)
  have hle : fl (fl (2 * fl 3.5) * fl 0.25) ≤ fl (fl (2 * fl 3.5) * absSum) :=
    hmono (mul_le_mul_of_nonneg_left (le_max_left _ _) h7)
  have hp1 : 1 ≤ fl (fl (2 * fl 3.5) * absSum) := le_trans hone hle
  have hpp : fl (fl (fl (2 * fl 3.5) * absSum)) = fl (fl (2 * fl 3.5) * absSum) := hidem _
  have hh := hhalf _ hp1
  have hn : fl (-(fl (fl (2 * fl 3.5) * absSum) / 2)) = -(fl (fl (2 * fl 3.5) * absSum) / 2) := by
    rw [hneg, hh]
  exact ⟨hp1, wrapSignedR_range fl v _ (by linarith) hmono h0 hpp hh hn⟩

/-- C27, as the code has it: in the tsunami model the crest centre is wrapped with the period
`2 * half * max(0.25, |cos wind| + |sin wind|)`, `half = 3.5`, which depends on the wind
direction: in exact arithmetic it lies between `7` and `7 * sqrt 2` and equals `7`, twice the
half-extent, exactly when the wind blows along an axis, and for every time and speed the centre
lies in `[-period/2, period/2)`.  With the result of each operation rounded by `fl` (a monotone
rounding that keeps `0`, is idempotent and odd, and halves the numbers of the format above `1`
exactly, as binary64 rounding to nearest does) the period is at least `1` and the centre lies
in the closed interval `[-period/2, period/2]`. -/
theorem tsunami_center_closed (M : JsMath α)
    (hcs : ∀ x : α, M.cos x * M.cos x + M.sin x * M.sin x = 1)
    (settings : Settings α) (t : α) (hm : settings.model = Model.tsunami)
    (fl : α → α) (hmono : Monotone fl) (h0 : fl 0 = 0) (hidem : ∀ y, fl (fl y) = fl y)
    (hneg : ∀ y, fl (-y) = -fl y) (hhalf : ∀ y, 1 ≤ fl y → fl (fl y / 2) = fl y / 2)
    (hone : 1 ≤ fl (fl (2 * fl 3.5) * fl 0.25)) :
    (∃ ts, tsunami M settings t = some ts ∧ ts.half = 3.5 ∧
      ts.period = 2 * ts.half * (|M.cos (windAngle M settings)|
        + |M.sin (windAngle M settings)|) ∧
      7 ≤ ts.period ∧ ts.period * ts.period ≤ 98 ∧
      (ts.period = 7 ↔ M.cos (windAngle M settings) * M.sin (windAngle M settings) = 0) ∧
      ts.center = wrapSigned (0.55 - t * settings.speed * 1.35) ts.period ∧
      -(ts.period / 2) ≤ ts.center ∧ ts.center < ts.period / 2 ∧
      tsunamiCenterR id M settings t = (ts.period, ts.center)) ∧
    1 ≤ (tsunamiCenterR fl M settings t).1 ∧
    -((tsunamiCenterR fl M settings t).1 / 2) ≤ (tsunamiCenterR fl M settings t).2 ∧
    (tsunamiCenterR fl M settings t).2 ≤ (tsunamiCenterR fl M settings t).1 / 2 := by
  refine ⟨?_, tsunamiCenterR_range fl M settings t hmono h0 hidem hneg hhalf hone⟩
  obtain ⟨ts, h1, h2, h3, h4⟩ := tsunami_period M settings t hm
  obtain ⟨a1, a2, a3⟩ := abs_sum_unit _ _ (hcs (windAngle M settings))
  have hmax : max 0.25 (|M.cos (windAngle M settings)| + |M.sin (windAngle M settings)|)
      = |M.cos (windAngle M settings)| + |M.sin (windAngle M settings)| :=
    max_eq_right (by linarith)
  rw [hmax] at h3
  have hp7 : 7 ≤ ts.period := by rw [h3]; linarith
  obtain ⟨m0, m1, -⟩ := mod_spec (0.55 - t * settings.speed * 1.35 + ts.period / 2) ts.period
    (by linarith)
  refine ⟨ts, h1, h2, by rw [h3, h2], hp7, ?_, ?_, h4, ?_, ?_, tsunamiCenterR_id M settings t ts h1⟩
  · rw [h3]
    nlinarith
  · rw [← a3, h3]
    constructor
    · intro h
      linarith
    · intro h
      rw [h]
      norm_num
  · rw [h4]
    unfold wrapSigned
    linarith
  · rw [h4]
    unfold wrapSigned
    linarith

end RoundedTsunami

/-- The rounding of binary64 arithmetic gives numbers of the format. -/
theorem round64_idem (q : ℚ) : round64 (round64 q) = round64 q := roundTo_idem 53 (by norm_num) q

/-- The rounding of binary64 arithmetic is odd. -/
theorem round64_neg (q : ℚ) : round64 (-q) = -round64 q := roundTo_neg 53 q

/-- Halving a number of the format is exact. -/
theorem round64_half (q : ℚ) : round64 (round64 q / 2) = round64 q / 2 := by
  unfold round64
  rw [roundTo_half, roundTo_idem 53 (by norm_num)]

/-- The witness of C27: binary64 rounding, the tsunami model with the default settings at time
`2`, with the host functions of a wind along the first axis. -/
theorem tsunami_center_closed_witness :
    ((∀ x : ℚ, axisMath.cos x * axisMath.cos x + axisMath.sin x * axisMath.sin x = 1) ∧
      Monotone round64 ∧ round64 0 = 0 ∧ (∀ y, round64 (round64 y) = round64 y) ∧
      (∀ y, round64 (-y) = -round64 y) ∧
      (∀ y, 1 ≤ round64 y → round64 (round64 y / 2) = round64 y / 2) ∧
      1 ≤ round64 (round64 (2 * round64 3.5) * round64 0.25)) ∧
    1 ≤ (tsunamiCenterR round64 axisMath
      { DEFAULT_SETTINGS ℚ with model := Model.tsunami } 2).1 ∧
    -((tsunamiCenterR round64 axisMath
      { DEFAULT_SETTINGS ℚ with model := Model.tsunami } 2).1 / 2)
      ≤ (tsunamiCenterR round64 axisMath
      { DEFAULT_SETTINGS ℚ with model := Model.tsunami } 2).2 ∧
    (tsunamiCenterR round64 axisMath
      { DEFAULT_SETTINGS ℚ with model := Model.tsunami } 2).2
      ≤ (tsunamiCenterR round64 axisMath
      { DEFAULT_SETTINGS ℚ with model := Model.tsunami } 2).1 / 2 :=
  ⟨⟨fun x => by norm_num [axisMath], round64_mono, by decide!, round64_idem, round64_neg,
      fun y _ => round64_half y, by decide!⟩,
    (tsunami_center_closed axisMath (fun x => by norm_num [axisMath])
      { DEFAULT_SETTINGS ℚ with model := Model.tsunami } 2 rfl round64 round64_mono
      (by decide!) round64_idem round64_neg (fun y _ => round64_half y) (by decide!)).2⟩

/-! ## Bilinear sampling of an array with rounding -/

section RoundedBilinear

variable {α : Type} [LinearOrderedField α] [FloorRing α]

/-- An index in `[0, length - 1]` is read from the array. -/
theorem readAt_some (field : List α) (i : ℤ) (h0 : 0 ≤ i) (h1 : i ≤ (field.length : ℤ) - 1) :
    ∃ v, readAt field i = some v ∧ gridOf field i = v := by
  have hlt : i.toNat < field.length := by omega
  refine ⟨field.get ⟨i.toNat, hlt⟩, ?_, ?_⟩
  · unfold readAt
    rw [if_pos h0, List.get?_eq_get hlt]
  · unfold gridOf readAt
    rw [if_pos h0, List.get?_eq_get hlt]
    rfl

/-- An index outside `[0, length - 1]` is not read from the array. -/
theorem readAt_none (field : List α) (i : ℤ) (h : i < 0 ∨ (field.length : ℤ) ≤ i) :
    readAt field i = none := by
  unfold readAt
  rcases h with h | h
  · rw [if_neg (by omega)]
  · rw [if_pos (by omega)]
    exact List.get?_eq_none.mpr (by omega)

/-- A rounded weight: the rounding of a number of `[0, 1]` by a monotone rounding that keeps `0`
and `1` lies in `[0, 1]`. -/
theorem weight_range (fl : α → α) (hmono : Monotone fl) (h0 : fl 0 = 0) (h1 : fl 1 = 1)
    (w : α) (hw0 : 0 ≤ w) (hw1 : w ≤ 1) : 0 ≤ fl w ∧ fl w ≤ 1 := by
  constructor
  · rw [← h0]
    exact hmono hw0
  · have h := hmono hw1
    rw [h1] at h
    exact h

/-- With `fl` the identity, the blend lies between the least and the largest of the four
values. -/
theorem bilinearBlend_range (v00 v10 v01 v11 tx tz : α) (hx0 : 0 ≤ tx) (hx1 : tx ≤ 1)
    (hz0 : 0 ≤ tz) (hz1 : tz ≤ 1) :
    min (min v00 v10) (min v01 v11) ≤ bilinearBlend id v00 v10 v01 v11 tx tz ∧
      bilinearBlend id v00 v10 v01 v11 tx tz ≤ max (max v00 v10) (max v01 v11) := by
  obtain ⟨p1, p2⟩ := blend_range v00 v10 tx hx0 hx1
  obtain ⟨q1, q2⟩ := blend_range v01 v11 tx hx0 hx1
  obtain ⟨r1, r2⟩ := blend_range (v00 * (1 - tx) + v10 * tx) (v01 * (1 - tx) + v11 * tx) tz
    hz0 hz1
  exact ⟨le_trans (min_le_min p1 q1) r1, le_trans r2 (max_le_max p2 q2)⟩

/-- The indices and weights of a call: the four indices lie in `[0, n * n - 1]` and the
weights in `[0, 1]`. -/
theorem bilinearTrace_range (fl : α → α) (n : ℕ) (half x z : α) (hn : 1 ≤ n)
    (hmono : Monotone fl) (h0 : fl 0 = 0) (h1 : fl 1 = 1) :
    (0 ≤ (bilinearTrace fl n half x z).i00 ∧
        (bilinearTrace fl n half x z).i00 ≤ (n : ℤ) * n - 1) ∧
      (0 ≤ (bilinearTrace fl n half x z).i10 ∧
        (bilinearTrace fl n half x z).i10 ≤ (n : ℤ) * n - 1) ∧
      (0 ≤ (bilinearTrace fl n half x z).i01 ∧
        (bilinearTrace fl n half x z).i01 ≤ (n : ℤ) * n - 1) ∧
      (0 ≤ (bilinearTrace fl n half x z).i11 ∧
        (bilinearTrace fl n half x z).i11 ≤ (n : ℤ) * n - 1) ∧
      (0 ≤ (bilinearTrace fl n half x z).tx ∧ (bilinearTrace fl n half x z).tx ≤ 1) ∧
      0 ≤ (bilinearTrace fl n half x z).tz ∧ (bilinearTrace fl n half x z).tz ≤ 1 := by
  obtain ⟨a0, a1, a2, a3, a4⟩ := grid_coord_range n hn
    (fl (fl (fl (x + half) / fl (half * 2)) * ((n : α) - 1)))
  obtain ⟨b0, b1, b2, b3, b4⟩ := grid_coord_range n hn
    (fl (fl (fl (z + half) / fl (half * 2)) * ((n : α) - 1)))
  exact ⟨cell_index_range n _ _ a0 (le_trans a1 a2) b0 (le_trans b1 b2),
    cell_index_range n _ _ (le_trans a0 a1) a2 b0 (le_trans b1 b2),
    cell_index_range n _ _ a0 (le_trans a1 a2) (le_trans b0 b1) b2,
    cell_index_range n _ _ (le_trans a0 a1) a2 (le_trans b0 b1) b2,
    weight_range fl hmono h0 h1 _ a3 a4, weight_range fl hmono h0 h1 _ b3 b4⟩

/-- The four reads of a call on an array of `n * n` values succeed, and the call returns the
blend of the four values read. -/
theorem sampleBilinearR_reads (fl : α → α) (field : List α) (n : ℕ) (half x z : α)
    (hn : 1 ≤ n) (hlen : field.length = n * n) (hmono : Monotone fl) (h0 : fl 0 = 0)
    (h1 : fl 1 = 1) :
    ∃ v00 v10 v01 v11 : α,
      (readAt field (bilinearTrace fl n half x z).i00 = some v00 ∧
        readAt field (bilinearTrace fl n half x z).i10 = some v10 ∧
        readAt field (bilinearTrace fl n half x z).i01 = some v01 ∧
        readAt field (bilinearTrace fl n half x z).i11 = some v11) ∧
      (gridOf field (bilinearTrace fl n half x z).i00 = v00 ∧
        gridOf field (bilinearTrace fl n half x z).i10 = v10 ∧
        gridOf field (bilinearTrace fl n half x z).i01 = v01 ∧
        gridOf field (bilinearTrace fl n half x z).i11 = v11) ∧
      sampleBilinearR fl field n half x z
        = some (bilinearBlend fl v00 v10 v01 v11 (bilinearTrace fl n half x z).tx
            (bilinearTrace fl n half x z).tz) := by
  obtain ⟨⟨a0, a1⟩, ⟨b0, b1⟩, ⟨c0, c1⟩, ⟨d0, d1⟩, -⟩ :=
    bilinearTrace_range fl n half x z hn hmono h0 h1
  have hl : (field.length : ℤ) = (n : ℤ) * n := by
    rw [hlen]
    push_cast
    rfl
  obtain ⟨v00, e00, g00⟩ := readAt_some field _ a0 (by rw [hl]; exact a1)
  obtain ⟨v10, e10, g10⟩ := readAt_some field _ b0 (by rw [hl]; exact b1)
  obtain ⟨v01, e01, g01⟩ := readAt_some field _ c0 (by rw [hl]; exact c1)
  obtain ⟨v11, e11, g11⟩ := readAt_some field _ d0 (by rw [hl]; exact d1)
  refine ⟨v00, v10, v01, v11, ⟨e00, e10, e01, e11⟩, ⟨g00, g10, g01, g11⟩, ?_⟩
  unfold sampleBilinearR
  simp only [e00, e10, e01, e11]

/-- With `fl` the identity the sampler on the array is `sampleBilinear` on the array read as a
total function, with the blend of the four values of the trace. -/
theorem sampleBilinear_gridOf (field : List α) (n : ℕ) (half x z : α) :
    sampleBilinear (gridOf field) n half x z
      = bilinearBlend id (gridOf field (bilinearTrace id n half x z).i00)
          (gridOf field (bilinearTrace id n half x z).i10)
          (gridOf field (bilinearTrace id n half x z).i01)
          (gridOf field (bilinearTrace id n half x z).i11)
          (bilinearTrace id n half x z).tx (bilinearTrace id n half x z).tz := rfl

/-- C30, as the code has it: for every `n >= 1`, `half > 0`, array of `n * n` values and query
point `(x, z)`, also outside the basin, and for every monotone rounding `fl` of the arithmetic
that keeps `0` and `1` (binary64 rounding to nearest, and no rounding at all), the four indices
`i00`, `i10`, `i01`, `i11` that `sampleBilinear` reads lie in `[0, n * n - 1]`, the four reads
succeed, the weights `tx`, `tz` lie in `[0, 1]`, and the call returns the blend of the four
values read.  In exact arithmetic (`fl` the identity) the result lies between the minimum and
the maximum of the four values read. -/
theorem sampleBilinear_reads (fl : α → α) (field : List α) (n : ℕ) (half x z : α)
    (hn : 1 ≤ n) (hh : 0 < half) (hlen : field.length = n * n) (hmono : Monotone fl)
    (h0 : fl 0 = 0) (h1 : fl 1 = 1) :
    ((0 ≤ (bilinearTrace fl n half x z).i00 ∧
        (bilinearTrace fl n half x z).i00 ≤ (n : ℤ) * n - 1) ∧
      (0 ≤ (bilinearTrace fl n half x z).i10 ∧
        (bilinearTrace fl n half x z).i10 ≤ (n : ℤ) * n - 1) ∧
      (0 ≤ (bilinearTrace fl n half x z).i01 ∧
        (bilinearTrace fl n half x z).i01 ≤ (n : ℤ) * n - 1) ∧
      (0 ≤ (bilinearTrace fl n half x z).i11 ∧
        (bilinearTrace fl n half x z).i11 ≤ (n : ℤ) * n - 1) ∧
      (0 ≤ (bilinearTrace fl n half x z).tx ∧ (bilinearTrace fl n half x z).tx ≤ 1) ∧
      0 ≤ (bilinearTrace fl n half x z).tz ∧ (bilinearTrace fl n half x z).tz ≤ 1) ∧
    (∃ v00 v10 v01 v11 : α,
      (readAt field (bilinearTrace fl n half x z).i00 = some v00 ∧
        readAt field (bilinearTrace fl n half x z).i10 = some v10 ∧
        readAt field (bilinearTrace fl n half x z).i01 = some v01 ∧
        readAt field (bilinearTrace fl n half x z).i11 = some v11) ∧
      sampleBilinearR fl field n half x z
        = some (bilinearBlend fl v00 v10 v01 v11 (bilinearTrace fl n half x z).tx
            (bilinearTrace fl n half x z).tz)) ∧
    ∃ v00 v10 v01 v11 r : α,
      (readAt field (bilinearTrace id n half x z).i00 = some v00 ∧
        readAt field (bilinearTrace id n half x z).i10 = some v10 ∧
        readAt field (bilinearTrace id n half x z).i01 = some v01 ∧
        readAt field (bilinearTrace id n half x z).i11 = some v11) ∧
      sampleBilinearR id field n half x z = some r ∧
      sampleBilinear (gridOf field) n half x z = r ∧
      min (min v00 v10) (min v01 v11) ≤ r ∧ r ≤ max (max v00 v10) (max v01 v11) := by
  refine ⟨bilinearTrace_range fl n half x z hn hmono h0 h1, ?_, ?_⟩
  · obtain ⟨v00, v10, v01, v11, hr, -, hs⟩ :=
      sampleBilinearR_reads fl field n half x z hn hlen hmono h0 h1
    exact ⟨v00, v10, v01, v11, hr, hs⟩
  · obtain ⟨v00, v10, v01, v11, hr, hg, hs⟩ :=
      sampleBilinearR_reads id field n half x z hn hlen monotone_id rfl rfl
    obtain ⟨-, -, -, -, ⟨x0, x1⟩, z0, z1⟩ :=
      bilinearTrace_range id n half x z hn monotone_id rfl rfl
    refine ⟨v00, v10, v01, v11, _, hr, hs, ?_, bilinearBlend_range v00 v10 v01 v11 _ _ x0 x1 z0 z1⟩
    rw [sampleBilinear_gridOf, hg.1, hg.2.1, hg.2.2.1, hg.2.2.2]

end RoundedBilinear

/-- The counterexample to C30: in binary64 arithmetic, on the `2 x 2` array of half-extent `1`
whose four values are the number `0.9`, the sample at `x = -0.99`, `z = -1` is
`0.8999999999999999`, below the minimum of the four values read: the weight is
`0.0050000000000000044` and `0.9 * (1 - tx) + 0.9 * tx` is rounded three times. -/
theorem sampleBilinear_leaves_range :
    round64 (9 / 10) = 8106479329266893 / 9007199254740992 ∧
      round64 (-(99 / 100)) = -(4458563631096791 / 4503599627370496) ∧
      sampleBilinearR round64
          [round64 (9 / 10), round64 (9 / 10), round64 (9 / 10), round64 (9 / 10)] 2 1
          (round64 (-(99 / 100))) (-1)
        = some (2026619832316723 / 2251799813685248) ∧
      (2026619832316723 / 2251799813685248 : ℚ) < round64 (9 / 10) := by
  decide!

/-- The witness of C30: binary64 rounding, a `3 x 3` array of half-extent `1`, queried outside
the basin at `(5, -7)`. -/
theorem sampleBilinear_reads_witness :
    ((1 : ℕ) ≤ 3 ∧ (0 : ℚ) < 1 ∧ ([0, 1, 2, 3, 4, 5, 6, 7, 8] : List ℚ).length = 3 * 3 ∧
        Monotone round64 ∧ round64 0 = 0 ∧ round64 1 = 1) ∧
      ∃ v00 v10 v01 v11 : ℚ,
        (readAt [0, 1, 2, 3, 4, 5, 6, 7, 8] (bilinearTrace round64 3 1 5 (-7)).i00 = some v00 ∧
          readAt [0, 1, 2, 3, 4, 5, 6, 7, 8] (bilinearTrace round64 3 1 5 (-7)).i10 = some v10 ∧
          readAt [0, 1, 2, 3, 4, 5, 6, 7, 8] (bilinearTrace round64 3 1 5 (-7)).i01 = some v01 ∧
          readAt [0, 1, 2, 3, 4, 5, 6, 7, 8] (bilinearTrace round64 3 1 5 (-7)).i11
            = some v11) ∧
        sampleBilinearR round64 [0, 1, 2, 3, 4, 5, 6, 7, 8] 3 1 5 (-7)
          = some (bilinearBlend round64 v00 v10 v01 v11 (bilinearTrace round64 3 1 5 (-7)).tx
              (bilinearTrace round64 3 1 5 (-7)).tz) :=
  ⟨⟨by decide, by norm_num, rfl, round64_mono, by decide!, by decide!⟩,
    (sampleBilinear_reads round64 [0, 1, 2, 3, 4, 5, 6, 7, 8] 3 1 5 (-7) (by decide)
      (by norm_num) rfl round64_mono (by decide!) (by decide!)).2.1⟩

/-- The counterexample to C7: in binary64 arithmetic, on the `96 x 96` grid of half-extent
`3.5` of the program, the coordinate of node `1` is `-3.4263157894736844` and its scaled
coordinate is `0.999999999999997`, so the sampler reads the cells `0` and `1` with the weight
`0.999999999999997` and returns `0.999999999999997` for the field that is `1` at node `(1, 0)`
and `0` elsewhere. -/
theorem sampleBilinear_node_rounded :
    nodeCoordR round64 96 (7 / 2) 1 = -(3857688628181833 / 1125899906842624) ∧
      nodeCoordR round64 96 (7 / 2) 0 = -(7 / 2) ∧
      readAt (0 :: 1 :: List.replicate 9214 (0 : ℚ)) ((0 : ℤ) * 96 + 1) = some 1 ∧
      sampleBilinearR round64 (0 :: 1 :: List.replicate 9214 (0 : ℚ)) 96 (7 / 2)
          (nodeCoordR round64 96 (7 / 2) 1) (nodeCoordR round64 96 (7 / 2) 0)
        = some (9007199254740965 / 9007199254740992) ∧
      sampleBilinearR round64 (0 :: 1 :: List.replicate 9214 (0 : ℚ)) 96 (7 / 2)
          (nodeCoordR round64 96 (7 / 2) 1) (nodeCoordR round64 96 (7 / 2) 0)
        ≠ readAt (0 :: 1 :: List.replicate 9214 (0 : ℚ)) ((0 : ℤ) * 96 + 1) := by
  decide!

/-! ## The time budget of a frame with rounding -/

section RoundedBudget

variable {α : Type} [LinearOrderedField α] [FloorRing α]

/-- Whatever the rounding, the number of sub-steps lies in `[1, 10]`. -/
theorem subStepsR_range (fl : α → α) (settings : Settings α) (sim : BasinSim α) :
    1 ≤ subStepsR fl settings sim ∧ subStepsR fl settings sim ≤ 10 := by
  unfold subStepsR
  exact ⟨le_max_left _ _, max_le (by norm_num) (min_le_left _ _)⟩

/-- With `fl` the identity the rounded quantities are those of the frame. -/
theorem subStepsR_id (settings : Settings α) (sim : BasinSim α) :
    dtWantedR id settings = dtWanted settings ∧ dtMaxR id sim = dtMax sim ∧
      subStepsR id settings sim = subSteps settings sim ∧
      basinDtR id settings sim = basinDt settings sim := ⟨rfl, rfl, rfl, rfl⟩

/-- The time after `m` exact additions of `dt`. -/
theorem forRange_time (m : ℕ) (dt time : α) :
    forRange m (fun _ time => id (time + dt)) time = time + (m : α) * dt := by
  induction m with
  | zero => simp [forRange_zero]
  | succ m ih =>
    rw [forRange_succ, ih]
    simp only [id]
    push_cast
    ring

/-- In exact arithmetic the sub-step loop advances the time by `dtWanted`. -/
theorem frameTimeR_id (settings : Settings α) (sim : BasinSim α) :
    frameTimeR id settings sim = sim.time + 0.045 * clamp settings.speed 0.05 2.5 := by
  unfold frameTimeR
  rw [forRange_time]
  obtain ⟨-, -, e3, e4⟩ := subStepsR_id settings sim
  rw [e3, e4]
  have h1 := (subSteps_range settings sim).1
  have hc : (((subSteps settings sim).toNat : ℕ) : α) = (subSteps settings sim : α) := by
    have : (((subSteps settings sim).toNat : ℕ) : ℤ) = subSteps settings sim :=
      Int.toNat_of_nonneg (by omega)
    exact_mod_cast congrArg (fun z : ℤ => (z : α)) this
  rw [hc, subSteps_mul_dt]
  rfl

/-- C22, as the code has it: for every speed setting and every rounding `fl` of the arithmetic
the number of sub-steps of a frame lies in `[1, 10]`.  In exact arithmetic
`subSteps * dt = 0.045 * clamp(speed, 0.05, 2.5)`, and a frame of the basin model advances
the simulation time by exactly `0.045 * clamp(speed, 0.05, 2.5)`, whatever the number of
sub-steps. -/
theorem substeps_budget_exact (M : JsMath α) (settings : Settings α)
    (ref : Option (BasinSim α)) (hm : settings.model = Model.basin) :
    (∀ (fl : α → α) (sim : BasinSim α),
        1 ≤ subStepsR fl settings sim ∧ subStepsR fl settings sim ≤ 10) ∧
      (∀ sim : BasinSim α, 1 ≤ subSteps settings sim ∧ subSteps settings sim ≤ 10 ∧
        (subSteps settings sim : α) * basinDt settings sim
          = 0.045 * clamp settings.speed 0.05 2.5 ∧
        frameTimeR id settings sim = sim.time + 0.045 * clamp settings.speed 0.05 2.5) ∧
      ∃ sim, basinFrame M settings ref = some sim ∧
        sim.time = (basinEnsure M settings ref).time + 0.045 * clamp settings.speed 0.05 2.5 := by
  refine ⟨fun fl sim => subStepsR_range fl settings sim, fun sim => ?_, ?_⟩
  · exact ⟨(subSteps_range settings sim).1, (subSteps_range settings sim).2,
      subSteps_mul_dt settings sim, frameTimeR_id settings sim⟩
  · unfold basinFrame
    rw [if_neg (by rw [hm]; decide)]
    refine ⟨_, rfl, ?_⟩
    rw [substeps_time]
    have h1 := (subSteps_range settings (basinEnsure M settings ref)).1
    have hc : (((subSteps settings (basinEnsure M settings ref)).toNat : ℕ) : α)
        = (subSteps settings (basinEnsure M settings ref) : α) := by
      have : (((subSteps settings (basinEnsure M settings ref)).toNat : ℕ) : ℤ)
          = subSteps settings (basinEnsure M settings ref) := Int.toNat_of_nonneg (by omega)
      exact_mod_cast congrArg (fun z : ℤ => (z : α)) this
    rw [hc, subSteps_mul_dt]
    rfl

end RoundedBudget

/-- The counterexample to C22: in binary64 arithmetic, at speed `2.5` in the basin of depth
`10` (`dx = 7/95` rounded, `maxC = 3.138062882300821`), `dtWanted` is
`0.11249999999999999`, the frame runs `8` sub-steps of `dt = dtWanted / 8`, and the eight
rounded additions to a time `0` end at `0.11250000000000002`. -/
theorem substeps_time_rounded :
    round64 (7 / 95) = 5309506929110479 / 72057594037927936 ∧
      round64 (7066289413697581 / 2251799813685248) = 7066289413697581 / 2251799813685248 ∧
      dtWantedR round64
        { DEFAULT_SETTINGS ℚ with model := Model.basin, speed := 2.5, basinDepth := 10 }
        = 2026619832316723 / 18014398509481984 ∧
      subStepsR round64
        { DEFAULT_SETTINGS ℚ with model := Model.basin, speed := 2.5, basinDepth := 10 }
        { bump3 with dx := round64 (7 / 95), maxC := 7066289413697581 / 2251799813685248 }
        = 8 ∧
      frameTimeR round64
        { DEFAULT_SETTINGS ℚ with model := Model.basin, speed := 2.5, basinDepth := 10 }
        { bump3 with dx := round64 (7 / 95), maxC := 7066289413697581 / 2251799813685248 }
        = 4053239664633447 / 36028797018963968 ∧
      frameTimeR round64
        { DEFAULT_SETTINGS ℚ with model := Model.basin, speed := 2.5, basinDepth := 10 }
        { bump3 with dx := round64 (7 / 95), maxC := 7066289413697581 / 2251799813685248 }
        ≠ BasinSim.time
            { bump3 with dx := round64 (7 / 95), maxC := 7066289413697581 / 2251799813685248 }
          + dtWantedR round64
            { DEFAULT_SETTINGS ℚ with model := Model.basin, speed := 2.5, basinDepth := 10 } := by
  decide!

/-- The witness of C22: the default settings with the basin model and no stored simulation,
over the rationals. -/
theorem substeps_budget_exact_witness :
    (∀ (fl : ℚ → ℚ) (sim : BasinSim ℚ),
        1 ≤ subStepsR fl { DEFAULT_SETTINGS ℚ with model := Model.basin } sim ∧
        subStepsR fl { DEFAULT_SETTINGS ℚ with model := Model.basin } sim ≤ 10) ∧
      (∀ sim : BasinSim ℚ,
        1 ≤ subSteps { DEFAULT_SETTINGS ℚ with model := Model.basin } sim ∧
        subSteps { DEFAULT_SETTINGS ℚ with model := Model.basin } sim ≤ 10 ∧
        (subSteps { DEFAULT_SETTINGS ℚ with model := Model.basin } sim : ℚ)
            * basinDt { DEFAULT_SETTINGS ℚ with model := Model.basin } sim
          = 0.045 * clamp ({ DEFAULT_SETTINGS ℚ with model := Model.basin } : Settings ℚ).speed
              0.05 2.5 ∧
        frameTimeR id { DEFAULT_SETTINGS ℚ with model := Model.basin } sim
          = sim.time
            + 0.045 * clamp ({ DEFAULT_SETTINGS ℚ with model := Model.basin } : Settings ℚ).speed
              0.05 2.5) ∧
      ∃ sim, basinFrame ratMath { DEFAULT_SETTINGS ℚ with model := Model.basin } none = some sim ∧
        sim.time = (basinEnsure ratMath { DEFAULT_SETTINGS ℚ with model := Model.basin } none).time
          + 0.045 * clamp ({ DEFAULT_SETTINGS ℚ with model := Model.basin } : Settings ℚ).speed
              0.05 2.5 :=
  substeps_budget_exact ratMath { DEFAULT_SETTINGS ℚ with model := Model.basin } none rfl

/-! ## The rasteriser on `Float32Array` buffers -/

section RoundedRaster

variable {α : Type} [LinearOrderedField α] [FloorRing α]

theorem depthWriteR_some (f32 : α → α) (buf : PixelBuffers α) (i : ℤ) (z l y : α) :
    depthWriteR f32 buf (some (i, z, l, y)) =
      if z > buf.zBuf i then
        ⟨setAt buf.zBuf i (f32 z), setAt buf.lum i (f32 l), setAt buf.heightBuf i (f32 y)⟩
      else buf := rfl

theorem depthWriteR_other (f32 : α → α) (buf : PixelBuffers α) (idx i : ℤ) (z l y : α)
    (h : idx ≠ i) :
    (depthWriteR f32 buf (some (i, z, l, y))).zBuf idx = buf.zBuf idx ∧
      (depthWriteR f32 buf (some (i, z, l, y))).lum idx = buf.lum idx ∧
      (depthWriteR f32 buf (some (i, z, l, y))).heightBuf idx = buf.heightBuf idx := by
  rw [depthWriteR_some]
  by_cases hz : z > buf.zBuf i
  · rw [if_pos hz]
    exact ⟨setAt_other _ _ _ _ h, setAt_other _ _ _ _ h, setAt_other _ _ _ _ h⟩
  · rw [if_neg hz]
    exact ⟨rfl, rfl, rfl⟩

/-- With `f32` the identity the rounded write is the exact write. -/
theorem depthWriteR_id (buf : PixelBuffers α) (r : Option (ℤ × α × α × α)) :
    depthWriteR id buf r = depthWrite buf r := by
  cases r with
  | none => rfl
  | some q => rfl

/-- The state of a pixel after a sequence of depth-tested writes into cleared `Float32Array`
buffers: it is untouched if no write names it; otherwise it holds the rounded values of one of
the writes, whose inverse depth exceeds the rounded inverse depth of every earlier write on the
pixel, while every later one is at most the stored depth, and the stored depth is the largest
rounded inverse depth. -/
theorem depthWriteR_fold_spec (f32 : α → α) (hmono : Monotone f32)
    (hidem : ∀ x, f32 (f32 x) = f32 x) (reqs : List (Option (ℤ × α × α × α)))
    (hpos : ∀ i z l y, some (i, z, l, y) ∈ reqs → 0 < z) (idx : ℤ) :
    ((∀ z l y, some (idx, z, l, y) ∉ reqs) ∧
        (reqs.foldl (depthWriteR f32) (clearBuffers α)).zBuf idx = 0 ∧
        (reqs.foldl (depthWriteR f32) (clearBuffers α)).lum idx = 0 ∧
        (reqs.foldl (depthWriteR f32) (clearBuffers α)).heightBuf idx = 0) ∨
      ∃ pre post z l y, reqs = pre ++ some (idx, z, l, y) :: post ∧
        (reqs.foldl (depthWriteR f32) (clearBuffers α)).zBuf idx = f32 z ∧
        (reqs.foldl (depthWriteR f32) (clearBuffers α)).lum idx = f32 l ∧
        (reqs.foldl (depthWriteR f32) (clearBuffers α)).heightBuf idx = f32 y ∧
        (∀ z1 l1 y1, some (idx, z1, l1, y1) ∈ pre → f32 z1 < z) ∧
        (∀ z1 l1 y1, some (idx, z1, l1, y1) ∈ post → z1 ≤ f32 z) ∧
        ∀ z1 l1 y1, some (idx, z1, l1, y1) ∈ reqs → f32 z1 ≤ f32 z := by
  induction reqs using List.reverseRecOn with
  | nil =>
    left
    exact ⟨fun z l y h => by simp at h, rfl, rfl, rfl⟩
  | append_singleton rs r ih =>
    have hpos1 : ∀ i z l y, some (i, z, l, y) ∈ rs → 0 < z :=
      fun i z l y h => hpos i z l y (List.mem_append_left _ h)
    specialize ih hpos1
    rw [List.foldl_append, List.foldl_cons, List.foldl_nil]
    cases r with
    | none =>
      rcases ih with ⟨h0, h1, h2, h3⟩ | ⟨pre, post, z, l, y, he, h1, h2, h3, h4, h5, h6⟩
      · left
        refine ⟨fun z l y h => ?_, h1, h2, h3⟩
        rcases List.mem_append.mp h with h | h
        · exact h0 z l y h
        · simp at h
      · right
        refine ⟨pre, post ++ [none], z, l, y, by rw [he]; simp, h1, h2, h3, h4, ?_, ?_⟩
        · intro z1 l1 y1 h
          rcases List.mem_append.mp h with h | h
          · exact h5 z1 l1 y1 h
          · simp at h
        · intro z1 l1 y1 h
          rcases List.mem_append.mp h with h | h
          · exact h6 z1 l1 y1 h
          · simp at h
    | some q =>
      obtain ⟨i, zq, lq, yq⟩ := q
      by_cases hi : idx = i
      · subst hi
        have hzq : 0 < zq := hpos idx zq lq yq (by simp)
        rcases ih with ⟨h0, h1, h2, h3⟩ | ⟨pre, post, z, l, y, he, h1, h2, h3, h4, h5, h6⟩
        · right
          refine ⟨rs, [], zq, lq, yq, rfl, ?_, ?_, ?_, ?_, ?_, ?_⟩
          · rw [depthWriteR_some]
            rw [if_pos (by rw [h1]; exact hzq)]
            exact setAt_same _ _ _
          · rw [depthWriteR_some]
            rw [if_pos (by rw [h1]; exact hzq)]
            exact setAt_same _ _ _
          · rw [depthWriteR_some]
            rw [if_pos (by rw [h1]; exact hzq)]
            exact setAt_same _ _ _
          · intro z1 l1 y1 h
            exact absurd h (h0 z1 l1 y1)
          · intro z1 l1 y1 h
            simp at h
          · intro z1 l1 y1 h
            rcases List.mem_append.mp h with h | h
            · exact absurd h (h0 z1 l1 y1)
            · simp at h
              rw [h.1]
        · by_cases hgt : zq > f32 z
          · right
            have hle : f32 z ≤ f32 zq := by
              have := hmono (le_of_lt hgt)
              rwa [hidem] at this
            refine ⟨rs, [], zq, lq, yq, rfl, ?_, ?_, ?_, ?_, ?_, ?_⟩
            · rw [depthWriteR_some]
              rw [if_pos (by rw [h1]; exact hgt)]
              exact setAt_same _ _ _
            · rw [depthWriteR_some]
              rw [if_pos (by rw [h1]; exact hgt)]
              exact setAt_same _ _ _
            · rw [depthWriteR_some]
              rw [if_pos (by rw [h1]; exact hgt)]
              exact setAt_same _ _ _
            · intro z1 l1 y1 h
              exact lt_of_le_of_lt (h6 z1 l1 y1 h) hgt
            · intro z1 l1 y1 h
              simp at h
            · intro z1 l1 y1 h
              rcases List.mem_append.mp h with h | h
              · exact le_trans (h6 z1 l1 y1 h) hle
              · simp at h
                rw [h.1]
          · right
            have hle : f32 zq ≤ f32 z := by
              have := hmono (not_lt.mp hgt)
              rwa [hidem] at this
            refine ⟨pre, post ++ [some (idx, zq, lq, yq)], z, l, y, by rw [he]; simp, ?_, ?_, ?_,
              h4, ?_, ?_⟩
            · rw [depthWriteR_some]
              rw [if_neg (by rw [h1]; exact hgt)]
              exact h1
            · rw [depthWriteR_some]
              rw [if_neg (by rw [h1]; exact hgt)]
              exact h2
            · rw [depthWriteR_some]
              rw [if_neg (by rw [h1]; exact hgt)]
              exact h3
            · intro z1 l1 y1 h
              rcases List.mem_append.mp h with h | h
              · exact h5 z1 l1 y1 h
              · simp at h
                rw [h.1]
                exact not_lt.mp hgt
            · intro z1 l1 y1 h
              rcases List.mem_append.mp h with h | h
              · exact h6 z1 l1 y1 h
              · simp at h
                rw [h.1]
                exact hle
      · obtain ⟨e1, e2, e3⟩ := depthWriteR_other f32
          (rs.foldl (depthWriteR f32) (clearBuffers α)) idx i zq lq yq hi
        rw [e1, e2, e3]
        rcases ih with ⟨h0, h1, h2, h3⟩ | ⟨pre, post, z, l, y, he, h1, h2, h3, h4, h5, h6⟩
        · left
          refine ⟨fun z l y h => ?_, h1, h2, h3⟩
          rcases List.mem_append.mp h with h | h
          · exact h0 z l y h
          · simp at h
            exact hi h.1
        · right
          refine ⟨pre, post ++ [some (i, zq, lq, yq)], z, l, y, by rw [he]; simp, h1, h2, h3, h4,
            ?_, ?_⟩
          · intro z1 l1 y1 h
            rcases List.mem_append.mp h with h | h
            · exact h5 z1 l1 y1 h
            · simp at h
              exact absurd h.1 hi
          · intro z1 l1 y1 h
            rcases List.mem_append.mp h with h | h
            · exact h6 z1 l1 y1 h
            · simp at h
              exact absurd h.1 hi

/-- Among the writes of a list that name a pixel there is one of largest inverse depth. -/
theorem largest_request (reqs : List (Option (ℤ × α × α × α))) (idx : ℤ) (z l y : α)
    (h : some (idx, z, l, y) ∈ reqs) :
    ∃ zm lm ym, some (idx, zm, lm, ym) ∈ reqs ∧
      ∀ z1 l1 y1, some (idx, z1, l1, y1) ∈ reqs → z1 ≤ zm := by
  induction reqs generalizing z l y with
  | nil => simp at h
  | cons r rs ih =>
    by_cases hex : ∃ z2 l2 y2, some (idx, z2, l2, y2) ∈ rs
    · obtain ⟨z2, l2, y2, h2⟩ := hex
      obtain ⟨zm, lm, ym, hm, hmax⟩ := ih z2 l2 y2 h2
      by_cases hr : ∃ zr lr yr, r = some (idx, zr, lr, yr) ∧ zm < zr
      · obtain ⟨zr, lr, yr, er, hlt⟩ := hr
        refine ⟨zr, lr, yr, by rw [er]; exact List.mem_cons_self _ _, ?_⟩
        intro z1 l1 y1 h1
        rcases List.mem_cons.mp h1 with h1 | h1
        · rw [er] at h1
          simp only [Option.some.injEq, Prod.mk.injEq] at h1
          rw [h1.2.1]
        · exact le_trans (hmax z1 l1 y1 h1) (le_of_lt hlt)
      · refine ⟨zm, lm, ym, List.mem_cons_of_mem _ hm, ?_⟩
        intro z1 l1 y1 h1
        rcases List.mem_cons.mp h1 with h1 | h1
        · by_contra hc
          exact hr ⟨z1, l1, y1, h1.symm, not_le.mp hc⟩
        · exact hmax z1 l1 y1 h1
    · have hr : r = some (idx, z, l, y) := by
        rcases List.mem_cons.mp h with h1 | h1
        · exact h1.symm
        · exact absurd ⟨z, l, y, h1⟩ hex
      refine ⟨z, l, y, h, ?_⟩
      intro z1 l1 y1 h1
      rcases List.mem_cons.mp h1 with h1 | h1
      · rw [hr] at h1
        simp only [Option.some.injEq, Prod.mk.injEq] at h1
        rw [h1.2.1]
      · exact absurd ⟨z1, l1, y1, h1⟩ hex

/-- The surface pass is the sequence of the depth-tested writes of the sample points. -/
theorem surfacePassR_eq (fl f32 : α → α) (M : JsMath α) (settings : Settings α) (t : α)
    (ref : Option (BasinSim α)) (PW PH : ℕ) (step : α) (buf : PixelBuffers α) :
    surfacePassR fl f32 M settings t ref PW PH step buf
      = ((samplePointsR fl step).map (sampleRequest M settings t ref PW PH)).foldl
          (depthWriteR f32) buf := by
  unfold surfacePassR samplePointsR
  simp only
  rw [foldl_nested (fun buf uv => depthWriteR f32 buf
      (project (rotation M t) PW PH (sampleWave M settings t ref uv.1 uv.2))),
    List.foldl_map]
  rfl

/-- With `fl` the identity the rounded loop visits the values of the exact loop. -/
theorem stepValuesR_id (fuel : ℕ) (lo hi step : α) :
    stepValuesR id fuel lo hi step = stepValues fuel lo hi step := by
  induction fuel generalizing lo with
  | zero => rfl
  | succ f ih =>
    rw [stepValuesR, stepValues, ih]
    rfl

/-- Without rounding the surface pass on `Float32Array` buffers is the exact surface pass. -/
theorem surfacePassR_id (M : JsMath α) (settings : Settings α) (t : α)
    (ref : Option (BasinSim α)) (PW PH : ℕ) (buf : PixelBuffers α) :
    surfacePassR id id M settings t ref PW PH (sampleStep M PW) buf
      = surfacePass M settings t ref PW PH buf := by
  have hc : sampleCoordsR id (sampleStep M PW) = sampleCoords (sampleStep M PW) :=
    stepValuesR_id _ _ _ _
  unfold surfacePassR surfacePass plot
  simp only [hc, depthWriteR_id]

/-- With a rounding that loses at most `d` of each step, the loop stops by its own test once
`lo + fuel * (step - d) > hi`: more fuel does not change the values visited. -/
theorem stepValuesR_stable (fl : α → α) (fuel extra : ℕ) (lo0 lo hi step d : α)
    (hprog : ∀ u, lo0 ≤ u → u ≤ hi → u + (step - d) ≤ fl (u + step)) (hs : 0 < step - d)
    (hlo : lo0 ≤ lo) (h : hi < lo + (fuel : α) * (step - d)) :
    stepValuesR fl (fuel + extra) lo hi step = stepValuesR fl fuel lo hi step := by
  induction fuel generalizing lo with
  | zero =>
    have hn : ¬ lo ≤ hi := by
      simp at h
      exact not_le.mpr h
    cases extra with
    | zero => rfl
    | succ e =>
      show stepValuesR fl (0 + (e + 1)) lo hi step = []
      rw [Nat.zero_add, stepValuesR, if_neg hn]
  | succ f ih =>
    rw [Nat.add_right_comm, stepValuesR, stepValuesR]
    by_cases hle : lo ≤ hi
    · rw [if_pos hle, if_pos hle, ih]
      · have := hprog lo hlo hle
        linarith
      · have := hprog lo hlo hle
        push_cast at h
        linarith
    · rw [if_neg hle, if_neg hle]

/-- C16, as the code has it: the pixel buffers are `Float32Array`s, so every stored value is
rounded to binary32 (`f32`, monotone and idempotent), and the depth test compares the number
`1/depth` with the stored, rounded value.  After the surface pass over cleared buffers, a pixel
onto which no sample projects holds inverse depth, luminance and height `0`; any other pixel
holds the rounded inverse depth, luminance and height of a sample that projects onto it, the
rounded inverse depth of every earlier sample on that pixel being smaller than its `1/depth`
and the `1/depth` of every later one being at most the stored value; the stored inverse depth
is the rounding of the largest `1/depth` on the pixel.  A sample projects onto the pixel
`py * PW + px` when its depth is above `0.1` and `0 <= px < PW`, `0 <= py < PH`; any other
sample changes nothing.  The statement holds for every sampling step and every rounding `fl`
of the loop variables. -/
theorem surfacePass_rounded (fl f32 : α → α) (hmono : Monotone f32)
    (hidem : ∀ x, f32 (f32 x) = f32 x) (M : JsMath α) (settings : Settings α) (t : α)
    (ref : Option (BasinSim α)) (PW PH : ℕ) (step : α) (idx : ℤ) :
    (((∀ uv ∈ samplePointsR fl step, ∀ z l y,
          sampleRequest M settings t ref PW PH uv ≠ some (idx, z, l, y)) ∧
        (surfacePassR fl f32 M settings t ref PW PH step (clearBuffers α)).zBuf idx = 0 ∧
        (surfacePassR fl f32 M settings t ref PW PH step (clearBuffers α)).lum idx = 0 ∧
        (surfacePassR fl f32 M settings t ref PW PH step (clearBuffers α)).heightBuf idx = 0) ∨
      ∃ pre uv post z, samplePointsR fl step = pre ++ uv :: post ∧
        sampleRequest M settings t ref PW PH uv
          = some (idx, z, (sampleWave M settings t ref uv.1 uv.2).lum,
              (sampleWave M settings t ref uv.1 uv.2).y) ∧
        (surfacePassR fl f32 M settings t ref PW PH step (clearBuffers α)).zBuf idx = f32 z ∧
        (surfacePassR fl f32 M settings t ref PW PH step (clearBuffers α)).lum idx
          = f32 (sampleWave M settings t ref uv.1 uv.2).lum ∧
        (surfacePassR fl f32 M settings t ref PW PH step (clearBuffers α)).heightBuf idx
          = f32 (sampleWave M settings t ref uv.1 uv.2).y ∧
        (∀ uv1 ∈ pre, ∀ z1 l1 y1,
          sampleRequest M settings t ref PW PH uv1 = some (idx, z1, l1, y1) → f32 z1 < z) ∧
        (∀ uv1 ∈ post, ∀ z1 l1 y1,
          sampleRequest M settings t ref PW PH uv1 = some (idx, z1, l1, y1) → z1 ≤ f32 z) ∧
        ∃ uvm zm lm ym, uvm ∈ samplePointsR fl step ∧
          sampleRequest M settings t ref PW PH uvm = some (idx, zm, lm, ym) ∧
          (∀ uv1 ∈ samplePointsR fl step, ∀ z1 l1 y1,
            sampleRequest M settings t ref PW PH uv1 = some (idx, z1, l1, y1) → z1 ≤ zm) ∧
          (surfacePassR fl f32 M settings t ref PW PH step (clearBuffers α)).zBuf idx
            = f32 zm) ∧
      (∀ uv : α × α, sampleRequest M settings t ref PW PH uv =
        if viewDepth (rotation M t) (sampleWave M settings t ref uv.1 uv.2) ≤ 0.1 then none
        else if pixelX (rotation M t) PW (sampleWave M settings t ref uv.1 uv.2) ≥ 0 ∧
            pixelX (rotation M t) PW (sampleWave M settings t ref uv.1 uv.2) < PW ∧
            pixelY (rotation M t) PH (sampleWave M settings t ref uv.1 uv.2) ≥ 0 ∧
            pixelY (rotation M t) PH (sampleWave M settings t ref uv.1 uv.2) < PH then
          some (pixelY (rotation M t) PH (sampleWave M settings t ref uv.1 uv.2) * PW
              + pixelX (rotation M t) PW (sampleWave M settings t ref uv.1 uv.2),
            1 / viewDepth (rotation M t) (sampleWave M settings t ref uv.1 uv.2),
            (sampleWave M settings t ref uv.1 uv.2).lum,
            (sampleWave M settings t ref uv.1 uv.2).y)
        else none) ∧
      ∀ (buf : PixelBuffers α) (uv : α × α),
        sampleRequest M settings t ref PW PH uv = none →
          depthWriteR f32 buf (sampleRequest M settings t ref PW PH uv) = buf := by
  refine ⟨?_, fun uv => project_eq _ _ _ _, fun buf uv h => by rw [h]; rfl⟩
  have hpos : ∀ i z l y,
      some (i, z, l, y) ∈ (samplePointsR fl step).map
        (sampleRequest M settings t ref PW PH) → 0 < z := by
    intro i z l y h
    obtain ⟨uv, -, huv⟩ := List.mem_map.mp h
    exact project_pos _ _ _ _ i z l y huv
  rw [surfacePassR_eq]
  rcases depthWriteR_fold_spec f32 hmono hidem _ hpos idx with ⟨h0, h1, h2, h3⟩ |
    ⟨pre, post, z, l, y, he, h1, h2, h3, h4, h5, h6⟩
  · left
    refine ⟨fun uv huv z l y h => ?_, h1, h2, h3⟩
    exact h0 z l y (List.mem_map.mpr ⟨uv, huv, h⟩)
  · right
    have hmem : some (idx, z, l, y) ∈ (samplePointsR fl step).map
        (sampleRequest M settings t ref PW PH) := by
      rw [he]
      exact List.mem_append_right _ (List.mem_cons_self _ _)
    obtain ⟨zm, lm, ym, hm, hmax⟩ := largest_request _ idx z l y hmem
    obtain ⟨uvm, huvm, hreqm⟩ := List.mem_map.mp hm
    have hzm : f32 z = f32 zm :=
      le_antisymm (hmono (hmax z l y hmem)) (h6 zm lm ym hm)
    obtain ⟨pre1, rest, hs, hpre, hrest⟩ := List.map_eq_append_iff.mp he
    obtain ⟨uv, post1, hr, huv, hpost⟩ := List.map_eq_cons_iff.mp hrest
    have hl : l = (sampleWave M settings t ref uv.1 uv.2).lum ∧
        y = (sampleWave M settings t ref uv.1 uv.2).y := by
      have h := huv
      unfold sampleRequest at h
      rw [project_eq] at h
      split at h
      · cases h
      · split at h
        · simp only [Option.some.injEq, Prod.mk.injEq] at h
          exact ⟨h.2.2.1.symm, h.2.2.2.symm⟩
        · cases h
    refine ⟨pre1, uv, post1, z, by rw [hs, hr], by rw [huv, hl.1, hl.2], h1, by rw [h2, hl.1],
      by rw [h3, hl.2], ?_, ?_, uvm, zm, lm, ym, huvm, hreqm, ?_, by rw [h1, hzm]⟩
    · intro uv1 h1' z1 l1 y1 hq
      exact h4 z1 l1 y1 (by rw [← hpre]; exact List.mem_map.mpr ⟨uv1, h1', hq⟩)
    · intro uv1 h1' z1 l1 y1 hq
      exact h5 z1 l1 y1 (by rw [← hpost]; exact List.mem_map.mpr ⟨uv1, h1', hq⟩)
    · intro uv1 h1' z1 l1 y1 hq
      exact hmax z1 l1 y1 (List.mem_map.mpr ⟨uv1, h1', hq⟩)

end RoundedRaster

/-- The rounding of a `Float32Array` store is monotone. -/
theorem round32_mono : Monotone round32 := roundTo_mono 24 (by norm_num)

/-- The rounding of a `Float32Array` store gives numbers of the format. -/
theorem round32_idem (q : ℚ) : round32 (round32 q) = round32 q := roundTo_idem 24 (by norm_num) q

/-- In binary64 arithmetic a sum of magnitude at most `4` loses at most `2^-51`. -/
theorem round64_progress (u step : ℚ) (h1 : -4 ≤ u + step) (h2 : u + step ≤ 4) :
    u + (step - 1 / 2251799813685248) ≤ round64 (u + step) := by
  have h := roundTo_error 53 (by norm_num) (u + step)
  have hp : pow2 (-((53 : ℕ) : ℤ)) = 1 / 9007199254740992 := by decide!
  rw [hp] at h
  have ha : |u + step| ≤ 4 := abs_le.mpr ⟨h1, h2⟩
  have hb := (abs_le.mp h).1
  unfold round64
  linarith

/-- In binary64 arithmetic the sampling loop of a frame ends by its own test: the 234
iterations allowed are enough for every step between `0.03` and `0.07`. -/
theorem sampleCoordsR_complete (step : ℚ) (h1 : 0.03 ≤ step) (h2 : step ≤ 0.07) (extra : ℕ) :
    stepValuesR round64 (234 + extra) (-3.5) 3.5 step = sampleCoordsR round64 step := by
  apply stepValuesR_stable round64 234 extra (-3.5) (-3.5) 3.5 step (1 / 2251799813685248)
  · intro u hu1 hu2
    exact round64_progress u step (by linarith) (by linarith)
  · linarith
  · exact le_rfl
  · push_cast
    linarith

/-- The counterexample to C16: two samples on one pixel with depths `7` and `6.9999999`, in
this order.  The first store rounds `1/7` to binary32, `0.142857149243...`, which is above the
`1/depth` of the second, nearer sample, `0.14285714489...`; the second sample is not written.
The pixel holds a depth that is the `1/depth` of neither sample, and the luminance and height of
the first sample, which does not attain the largest `1/depth`. -/
theorem depth_store_rounded :
    round64 (1 / 7) < round64 (1 / round64 (69999999 / 10000000)) ∧
      ([some ((5 : ℤ), round64 (1 / 7), (1 / 2 : ℚ), (1 / 4 : ℚ)),
          some (5, round64 (1 / round64 (69999999 / 10000000)), 1 / 4, 3 / 4)].foldl
        (depthWriteR round32) (clearBuffers ℚ)).zBuf 5 = 9586981 / 67108864 ∧
      (9586981 / 67108864 : ℚ) ≠ round64 (1 / round64 (69999999 / 10000000)) ∧
      (9586981 / 67108864 : ℚ) ≠ round64 (1 / 7) ∧
      ([some ((5 : ℤ), round64 (1 / 7), (1 / 2 : ℚ), (1 / 4 : ℚ)),
          some (5, round64 (1 / round64 (69999999 / 10000000)), 1 / 4, 3 / 4)].foldl
        (depthWriteR round32) (clearBuffers ℚ)).lum 5 = 1 / 2 ∧
      ([some ((5 : ℤ), round64 (1 / 7), (1 / 2 : ℚ), (1 / 4 : ℚ)),
          some (5, round64 (1 / round64 (69999999 / 10000000)), 1 / 4, 3 / 4)].foldl
        (depthWriteR round32) (clearBuffers ℚ)).heightBuf 5 = 1 / 4 := by
  decide!

/-- The witness of C16: binary64 loop variables and binary32 stores, the default settings at
time `0` in the `180 x 128` buffer with the sampling step `0.05`, pixel `0`, with stand-in host
functions over the rationals. -/
theorem surfacePass_rounded_witness :
    (Monotone round32 ∧ ∀ x, round32 (round32 x) = round32 x) ∧
      (((∀ uv ∈ samplePointsR round64 0.05, ∀ z l y,
            sampleRequest ratMath (DEFAULT_SETTINGS ℚ) 0 none (180 : ℕ) (128 : ℕ) uv ≠ some
                ((0 : ℤ), z, l, y)) ∧
          (surfacePassR round64 round32 ratMath (DEFAULT_SETTINGS ℚ) 0 none (180 : ℕ) (128 : ℕ)
              0.05 (clearBuffers ℚ)).zBuf (0 : ℤ) = 0 ∧
          (surfacePassR round64 round32 ratMath (DEFAULT_SETTINGS ℚ) 0 none (180 : ℕ) (128 : ℕ)
              0.05 (clearBuffers ℚ)).lum (0 : ℤ) = 0 ∧
          (surfacePassR round64 round32 ratMath (DEFAULT_SETTINGS ℚ) 0 none (180 : ℕ) (128 : ℕ)
              0.05 (clearBuffers ℚ)).heightBuf (0 : ℤ) = 0) ∨
        ∃ pre uv post z, samplePointsR round64 0.05 = pre ++ uv :: post ∧
          sampleRequest ratMath (DEFAULT_SETTINGS ℚ) 0 none (180 : ℕ) (128 : ℕ) uv
            = some ((0 : ℤ), z, (sampleWave ratMath (DEFAULT_SETTINGS ℚ) 0 none uv.1 uv.2).lum,
                (sampleWave ratMath (DEFAULT_SETTINGS ℚ) 0 none uv.1 uv.2).y) ∧
          (surfacePassR round64 round32 ratMath (DEFAULT_SETTINGS ℚ) 0 none (180 : ℕ) (128 : ℕ)
              0.05 (clearBuffers ℚ)).zBuf (0 : ℤ) = round32 z ∧
          (surfacePassR round64 round32 ratMath (DEFAULT_SETTINGS ℚ) 0 none (180 : ℕ) (128 : ℕ)
              0.05 (clearBuffers ℚ)).lum (0 : ℤ)
            = round32 (sampleWave ratMath (DEFAULT_SETTINGS ℚ) 0 none uv.1 uv.2).lum ∧
          (surfacePassR round64 round32 ratMath (DEFAULT_SETTINGS ℚ) 0 none (180 : ℕ) (128 : ℕ)
              0.05 (clearBuffers ℚ)).heightBuf (0 : ℤ)
            = round32 (sampleWave ratMath (DEFAULT_SETTINGS ℚ) 0 none uv.1 uv.2).y ∧
          (∀ uv1 ∈ pre, ∀ z1 l1 y1,
            sampleRequest ratMath (DEFAULT_SETTINGS ℚ) 0 none (180 : ℕ) (128 : ℕ) uv1 = some
                ((0 : ℤ), z1, l1, y1) → round32 z1 < z) ∧
          (∀ uv1 ∈ post, ∀ z1 l1 y1,
            sampleRequest ratMath (DEFAULT_SETTINGS ℚ) 0 none (180 : ℕ) (128 : ℕ) uv1 = some
                ((0 : ℤ), z1, l1, y1) → z1 ≤ round32 z) ∧
          ∃ uvm zm lm ym, uvm ∈ samplePointsR round64 0.05 ∧
            sampleRequest ratMath (DEFAULT_SETTINGS ℚ) 0 none (180 : ℕ) (128 : ℕ) uvm = some
                ((0 : ℤ), zm, lm, ym) ∧
            (∀ uv1 ∈ samplePointsR round64 0.05, ∀ z1 l1 y1,
              sampleRequest ratMath (DEFAULT_SETTINGS ℚ) 0 none (180 : ℕ) (128 : ℕ) uv1 = some
                  ((0 : ℤ), z1, l1, y1) → z1 ≤ zm) ∧
            (surfacePassR round64 round32 ratMath (DEFAULT_SETTINGS ℚ) 0 none (180 : ℕ) (128 : ℕ)
                0.05 (clearBuffers ℚ)).zBuf (0 : ℤ)
              = round32 zm) ∧
        (∀ uv : ℚ × ℚ, sampleRequest ratMath (DEFAULT_SETTINGS ℚ) 0 none (180 : ℕ) (128 : ℕ) uv =
          if viewDepth (rotation ratMath 0) (sampleWave ratMath (DEFAULT_SETTINGS ℚ) 0 none uv.1
              uv.2) ≤ 0.1 then none
          else if pixelX (rotation ratMath 0) (180 : ℕ) (sampleWave ratMath (DEFAULT_SETTINGS ℚ) 0
              none uv.1 uv.2) ≥ 0 ∧
              pixelX (rotation ratMath 0) (180 : ℕ) (sampleWave ratMath (DEFAULT_SETTINGS ℚ) 0 none
                  uv.1 uv.2) < (180 : ℕ) ∧
              pixelY (rotation ratMath 0) (128 : ℕ) (sampleWave ratMath (DEFAULT_SETTINGS ℚ) 0 none
                  uv.1 uv.2) ≥ 0 ∧
              pixelY (rotation ratMath 0) (128 : ℕ) (sampleWave ratMath (DEFAULT_SETTINGS ℚ) 0 none
                  uv.1 uv.2) < (128 : ℕ) then
            some (pixelY (rotation ratMath 0) (128 : ℕ) (sampleWave ratMath (DEFAULT_SETTINGS ℚ) 0
                none uv.1 uv.2) * (180 : ℕ)
                + pixelX (rotation ratMath 0) (180 : ℕ) (sampleWave ratMath (DEFAULT_SETTINGS ℚ) 0
                    none uv.1 uv.2),
              1 / viewDepth (rotation ratMath 0) (sampleWave ratMath (DEFAULT_SETTINGS ℚ) 0 none
                  uv.1 uv.2),
              (sampleWave ratMath (DEFAULT_SETTINGS ℚ) 0 none uv.1 uv.2).lum,
              (sampleWave ratMath (DEFAULT_SETTINGS ℚ) 0 none uv.1 uv.2).y)
          else none) ∧
        ∀ (buf : PixelBuffers ℚ) (uv : ℚ × ℚ),
          sampleRequest ratMath (DEFAULT_SETTINGS ℚ) 0 none (180 : ℕ) (128 : ℕ) uv = none →
            depthWriteR round32 buf (sampleRequest ratMath (DEFAULT_SETTINGS ℚ) 0 none (180 : ℕ)
                (128 : ℕ) uv) = buf :=
  ⟨⟨round32_mono, round32_idem⟩,
    surfacePass_rounded round64 round32 round32_mono round32_idem ratMath (DEFAULT_SETTINGS ℚ) 0
      none 180 128 0.05 0⟩

/-! ## The flat surface in the frame of the program -/

section FlatFrame

variable {α : Type} [LinearOrderedField α] [FloorRing α]

/-- With steepness `0` the trochoidal sample of `(u, v)` sits above `(u, v)` at a height of at
most the effective amplitude. -/
theorem trochoidal_flat_sample (M : JsMath α) (hsin : ∀ x, -1 ≤ M.sin x ∧ M.sin x ≤ 1)
    (settings : Settings α) (hamp : settings.amplitude = 0) (hsteep : settings.steepness = 0)
    (t u v : α) :
    (trochoidalSample M settings t u v).1.x = u ∧ (trochoidalSample M settings t u v).1.z = v ∧
      -0.001 ≤ (trochoidalSample M settings t u v).1.y ∧
      (trochoidalSample M settings t u v).1.y ≤ 0.001 := by
  have hs := hsin (k M settings *
    (M.cos (windAngle M settings) * u + M.sin (windAngle M settings) * v) -
      M.sqrt (9.81 * k M settings) * t * settings.speed)
  unfold trochoidalSample
  simp only [hsteep, amp_zero settings hamp, zero_div, mul_zero, zero_mul, add_zero]
  refine ⟨trivial, trivial, ?_, ?_⟩ <;> linarith [hs.1, hs.2]

/-- A height of at most `0.001` scaled by a sine or cosine stays within `0.001`. -/
theorem small_height (y c : α) (hy : -0.001 ≤ y ∧ y ≤ 0.001) (hc : -1 ≤ c ∧ c ≤ 1) :
    -0.001 ≤ y * c ∧ y * c ≤ 0.001 := by
  have h1 : |y * c| ≤ 0.001 := by
    rw [abs_mul]
    calc |y| * |c| ≤ 0.001 * 1 :=
          mul_le_mul (abs_le.mpr hy) (abs_le.mpr hc) (abs_nonneg _) (by norm_num)
      _ = 0.001 := by norm_num
  exact abs_le.mp h1

/-- The pixel column of a point `0.05` to the right of the axis at a depth near `7`. -/
theorem floor_column (d : α) (h1 : 6.949 ≤ d) (h2 : d ≤ 7.051) : ⌊(90 : α) + 15 / d⌋ = 92 := by
  have hd : 0 < d := lt_of_lt_of_le (by norm_num) h1
  rw [Int.floor_eq_iff]
  push_cast
  constructor
  · have : 2 ≤ 15 / d := by
      rw [le_div_iff₀ hd]
      linarith
    linarith
  · have : 15 / d < 3 := by
      rw [div_lt_iff₀ hd]
      linarith
    linarith

/-- The pixel row of a point that projects between `0.018` and `0.021` below the axis at a
depth near `7`. -/
theorem floor_row (n d : α) (hn1 : 0.018 ≤ n) (hn2 : n ≤ 0.021) (h1 : 6.949 ≤ d)
    (h2 : d ≤ 7.051) : ⌊(64 : α) + n * 300 / d⌋ = 64 := by
  have hd : 0 < d := lt_of_lt_of_le (by norm_num) h1
  rw [Int.floor_eq_iff]
  push_cast
  constructor
  · have : 0 ≤ n * 300 / d := div_nonneg (by linarith) (le_of_lt hd)
    linarith
  · have : n * 300 / d < 1 := by
      rw [div_lt_iff₀ hd]
      linarith
    linarith

/-- The depth and the pixel of a sample above `(0.05, 0.05)` when the view is not rotated about
the vertical axis. -/
theorem flat_sample_view (rot : Rotation α) (s : WaveSample α) (hcB : rot.cB = 1)
    (hsB : rot.sB = 0) (hx : s.x = 0.05) (hz : s.z = 0.05) :
    viewDepth rot s = s.y * rot.sA + 0.05 * rot.cA + 7 ∧
      pixelX rot (90 * 2) s = ⌊(90 : α) + 15 / viewDepth rot s⌋ ∧
      pixelY rot (32 * 4) s
        = ⌊(64 : α) + (0.05 * rot.sA - s.y * rot.cA) * 300 / viewDepth rot s⌋ := by
  refine ⟨?_, ?_, ?_⟩
  · unfold viewDepth
    rw [hx, hz, hcB, hsB]
    ring
  · unfold pixelX
    rw [hx, hz, hcB, hsB]
    congr 1
    push_cast
    ring
  · unfold pixelY
    rw [hz]
    congr 1
    push_cast
    ring

/-- In the `180 x 128` buffer of a `90 x 32` frame, with no rotation about the vertical axis and
a tilt whose sine lies in `[0.38, 0.4]`, a sample above `(0.05, 0.05)` of height at most `0.001`
lands on the pixel `(92, 64)`. -/
theorem project_flat_sample (rot : Rotation α) (s : WaveSample α) (hcB : rot.cB = 1)
    (hsB : rot.sB = 0) (hcA : -1 ≤ rot.cA ∧ rot.cA ≤ 1) (hsA : 0.38 ≤ rot.sA ∧ rot.sA ≤ 0.4)
    (hx : s.x = 0.05) (hz : s.z = 0.05) (hy : -0.001 ≤ s.y ∧ s.y ≤ 0.001) :
    project rot (90 * 2) (32 * 4) s = some (11612, 1 / viewDepth rot s, s.lum, s.y) := by
  obtain ⟨hd, hpx, hpy⟩ := flat_sample_view rot s hcB hsB hx hz
  obtain ⟨a1, a2⟩ := small_height s.y rot.sA hy ⟨by linarith [hsA.1], by linarith [hsA.2]⟩
  obtain ⟨b1, b2⟩ := small_height s.y rot.cA hy hcA
  have hd1 : 6.949 ≤ viewDepth rot s := by rw [hd]; linarith [hcA.1]
  have hd2 : viewDepth rot s ≤ 7.051 := by rw [hd]; linarith [hcA.2]
  rw [floor_column _ hd1 hd2] at hpx
  rw [floor_row _ _ (by linarith [hsA.1]) (by linarith [hsA.2]) hd1 hd2] at hpy
  have hnot : ¬ viewDepth rot s ≤ 0.1 := by
    rw [not_le]
    exact lt_of_lt_of_le (by norm_num) hd1
  rw [project_eq, if_neg hnot, hpx, hpy, if_pos (by decide)]
  rfl

end FlatFrame

theorem sampleStep_frame :
    sampleStep (JsMath.mk Real.pi Real.sin Real.cos Real.exp Real.sqrt Real.rpow) (90 * 2)
      = 0.05 := by
  unfold sampleStep clamp
  norm_num

theorem point_sampled :
    ((0.05 : ℝ), (0.05 : ℝ)) ∈ samplePoints
      (sampleStep (JsMath.mk Real.pi Real.sin Real.cos Real.exp Real.sqrt Real.rpow) (90 * 2)) := by
  rw [sampleStep_frame]
  have h := mem_stepValues 234 (-3.5 : ℝ) 3.5 0.05 (by norm_num) 71 (by norm_num) (by norm_num)
  have e : (-3.5 : ℝ) + ((71 : ℕ) : ℝ) * 0.05 = 0.05 := by norm_num
  rw [e] at h
  unfold samplePoints
  exact List.mem_flatMap.mpr ⟨0.05, h, List.mem_map.mpr ⟨0.05, h, rfl⟩⟩

/-- The rotation of the frame at `t = 0`: a tilt of `0.4` radians, whose sine lies in
`[0.38, 0.4]`, and no rotation about the vertical axis. -/
theorem rotation_start :
    (rotation (JsMath.mk Real.pi Real.sin Real.cos Real.exp Real.sqrt Real.rpow) 0).cB = 1 ∧
      (rotation (JsMath.mk Real.pi Real.sin Real.cos Real.exp Real.sqrt Real.rpow) 0).sB = 0 ∧
      (-1 ≤ (rotation (JsMath.mk Real.pi Real.sin Real.cos Real.exp Real.sqrt Real.rpow) 0).cA ∧
        (rotation (JsMath.mk Real.pi Real.sin Real.cos Real.exp Real.sqrt Real.rpow) 0).cA ≤ 1) ∧
      0.38 ≤ (rotation (JsMath.mk Real.pi Real.sin Real.cos Real.exp Real.sqrt Real.rpow) 0).sA ∧
      (rotation (JsMath.mk Real.pi Real.sin Real.cos Real.exp Real.sqrt Real.rpow) 0).sA ≤ 0.4 := by
  unfold rotation
  simp only [zero_mul, Real.sin_zero, Real.cos_zero, add_zero]
  refine ⟨trivial, trivial, ⟨Real.neg_one_le_cos _, Real.cos_le_one _⟩, ?_, ?_⟩
  · have h := Real.sin_gt_sub_cube (x := (0.4 : ℝ)) (by norm_num) (by norm_num)
    norm_num at h ⊢
    linarith
  · exact Real.sin_le (by norm_num)

/-- The counterexample to C15: at `t = 0`, in the trochoidal model with amplitude `0` and
steepness `0`, in the `90 x 32` frame of the program (a `180 x 128` pixel buffer, sampling step
`0.05`), the sample at `(0.05, 0.05)` has depth about `7.05` and lands on the pixel `(92, 64)`,
well inside it, so the cell `(46, 16)` holding that pixel shows density level `6`, not the
blank glyph. -/
theorem flat_frame_cell_lit :
    (encodeCell
        { DEFAULT_SETTINGS ℝ with model := Model.trochoidal, amplitude := 0, steepness := 0 } 0
        (frameBuffers (JsMath.mk Real.pi Real.sin Real.cos Real.exp Real.sqrt Real.rpow)
          { DEFAULT_SETTINGS ℝ with model := Model.trochoidal, amplitude := 0, steepness := 0 }
          0 none 90 32) (90 * 2) 46 16).char = patternChar 6 ∧
      patternChar 6 ≠ blankChar := by
  refine ⟨?_, by decide⟩
  apply flat_cell (JsMath.mk Real.pi Real.sin Real.cos Real.exp Real.sqrt Real.rpow)
    (fun x => ⟨Real.neg_one_le_sin x, Real.sin_le_one x⟩)
    (fun x => ⟨Real.neg_one_le_cos x, Real.cos_le_one x⟩)
    (fun x hx => ⟨Real.sqrt_nonneg x, Real.mul_self_sqrt hx⟩)
    ⟨Real.pi_pos, Real.pi_le_four⟩ _ rfl rfl rfl
  apply List.ne_nil_of_mem
  unfold cellHits
  apply List.mem_filter.mpr
  refine ⟨(by decide : (11612 : ℤ) ∈ cellPixels (90 * 2) 46 16), ?_⟩
  simp only [decide_eq_true_eq]
  unfold frameBuffers
  rw [sprayPass_other _ _ _ _ _ _ (by decide)]
  obtain ⟨hx, hz, hy1, hy2⟩ := trochoidal_flat_sample
    (JsMath.mk Real.pi Real.sin Real.cos Real.exp Real.sqrt Real.rpow)
    (fun x => ⟨Real.neg_one_le_sin x, Real.sin_le_one x⟩)
    { DEFAULT_SETTINGS ℝ with model := Model.trochoidal, amplitude := 0, steepness := 0 }
    rfl rfl 0 0.05 0.05
  obtain ⟨r1, r2, r3, r4, r5⟩ := rotation_start
  apply surfacePass_covered _ _ _ _ _ _ 11612 ((0.05 : ℝ), (0.05 : ℝ)) _ _ _ point_sampled
  unfold sampleRequest
  rw [sampleWave_trochoidal _ _ _ _ _ _ rfl]
  exact project_flat_sample _ _ r1 r2 r3 ⟨r4, r5⟩ hx hz ⟨hy1, hy2⟩

/-! ## Overflow in the trochoidal branch -/

/-- A finite number times `0` is `0`. -/
theorem JsNum.fin_mul_zero (r : ℚ) : JsNum.fin r * JsNum.fin 0 = JsNum.fin 0 := by
  show JsNum.ofRat (r * 0) = JsNum.fin 0
  rw [mul_zero]
  decide!

/-- The trochoidal branch at the origin at time `0`, for the amplitude `1.7e308` and a wind
along the first axis: whatever the host functions are away from the arguments `0` and `NaN`,
the luminance is `NaN`. -/
theorem trochoidal_overflow (M : JsMath JsNum) (hPI : M.PI = JsNum.fin piNumber)
    (hc : M.cos (JsNum.fin 0) = JsNum.fin 1) (hs : M.sin (JsNum.fin 0) = JsNum.fin 0)
    (hq : ∀ q : ℚ, 0 ≤ q → ∃ r : ℚ, M.sqrt (JsNum.fin q) = JsNum.fin r)
    (hn : M.sqrt JsNum.nan = JsNum.nan) :
    (trochoidalJs M hugeAmplitude
      (JsNum.fin 0) (JsNum.fin 0) (JsNum.fin 0)).lum = JsNum.nan := by
  have hk : kJs M hugeAmplitude
      = JsNum.fin (round64 (round64 (piNumber * 2) / round64 3.2)) := by
    unfold kJs
    rw [hPI]
    decide!
  have hgk : num 9.81 * JsNum.fin (round64 (round64 (piNumber * 2) / round64 3.2))
      = JsNum.fin (round64 (round64 9.81 * round64 (round64 (piNumber * 2) / round64 3.2))) := by
    decide!
  obtain ⟨r, hr⟩ := hq (round64 (round64 9.81 * round64 (round64 (piNumber * 2) / round64 3.2)))
    (by decide!)
  unfold trochoidalJs
  lift_lets
  extract_lets g w wind dirX dirZ phase sinP cosP QA x z y steepSin dx_dx0 dx_dz0 dz_dx0 dz_dz0
    dy_dx0 dy_dz0 jac foam nx ny nz nl nxf nyf nzf L lumOut
  have hw : w = JsNum.fin r := by
    show M.sqrt (num 9.81 * kJs M hugeAmplitude) = JsNum.fin r
    rw [hk, hgk, hr]
  have hwind : wind = JsNum.fin 0 := by
    show ((num 0 % num 360) * M.PI) / num 180 = JsNum.fin 0
    rw [hPI]
    decide!
  have hdirX : dirX = JsNum.fin 1 := by
    show M.cos wind = JsNum.fin 1
    rw [hwind, hc]
  have hdirZ : dirZ = JsNum.fin 0 := by
    show M.sin wind = JsNum.fin 0
    rw [hwind, hs]
  have hphase : phase = JsNum.fin 0 := by
    show kJs M hugeAmplitude * (dirX * JsNum.fin 0 + dirZ * JsNum.fin 0) - w * JsNum.fin 0 * num 0.6
      = JsNum.fin 0
    rw [hk, hdirX, hdirZ, hw]
    simp only [JsNum.fin_mul_zero]
    decide!
  have hsinP : sinP = JsNum.fin 0 := by
    show M.sin phase = JsNum.fin 0
    rw [hphase, hs]
  have hcosP : cosP = JsNum.fin 1 := by
    show M.cos phase = JsNum.fin 1
    rw [hphase, hc]
  have hamp : ampJs hugeAmplitude * kJs M hugeAmplitude = JsNum.inf false := by
    rw [hk]
    decide!
  have hdyx : dy_dx0 = JsNum.inf false := by
    show ampJs hugeAmplitude * kJs M hugeAmplitude * cosP * dirX = JsNum.inf false
    rw [hamp, hcosP, hdirX]
    decide!
  have hdyz : dy_dz0 = JsNum.nan := by
    show ampJs hugeAmplitude * kJs M hugeAmplitude * cosP * dirZ = JsNum.nan
    rw [hamp, hcosP, hdirZ]
    decide!
  have hxx : dx_dx0 = JsNum.fin 1 := by
    show num 1 - num hugeAmplitude.steepness * sinP * dirX * dirX = JsNum.fin 1
    rw [hsinP, hdirX]
    decide!
  have hxz : dx_dz0 = JsNum.fin 0 := by
    show -(num hugeAmplitude.steepness * sinP) * dirX * dirZ = JsNum.fin 0
    rw [hsinP, hdirX, hdirZ]
    decide!
  have hzx : dz_dx0 = JsNum.fin 0 := by
    show -(num hugeAmplitude.steepness * sinP) * dirZ * dirX = JsNum.fin 0
    rw [hsinP, hdirX, hdirZ]
    decide!
  have hzz : dz_dz0 = JsNum.fin 1 := by
    show num 1 - num hugeAmplitude.steepness * sinP * dirZ * dirZ = JsNum.fin 1
    rw [hsinP, hdirZ]
    decide!
  have hnx : nx = JsNum.nan := by
    show dy_dz0 * dz_dx0 - dz_dz0 * dy_dx0 = JsNum.nan
    rw [hdyz, hzx, hzz, hdyx]
    decide!
  have hny : ny = JsNum.fin 1 := by
    show dz_dz0 * dx_dx0 - dx_dz0 * dz_dx0 = JsNum.fin 1
    rw [hzz, hxx, hxz, hzx]
    decide!
  have hnz : nz = JsNum.nan := by
    show dx_dz0 * dy_dx0 - dy_dz0 * dx_dx0 = JsNum.nan
    rw [hxz, hdyx, hdyz, hxx]
    decide!
  have hnl : nl = JsNum.fin 1 := by
    show JsNum.orElse (M.sqrt (nx * nx + ny * ny + nz * nz)) (num 1) = JsNum.fin 1
    rw [hnx, hny, hnz]
    have e : JsNum.nan * JsNum.nan + JsNum.fin 1 * JsNum.fin 1 + JsNum.nan * JsNum.nan
        = JsNum.nan := by decide!
    rw [e, hn]
    decide!
  have hL : L = JsNum.nan := by
    show nx / nl * num 0.3 + ny / nl * num 1 + nz / nl * num (-0.4) = JsNum.nan
    rw [hnx, hny, hnz, hnl]
    decide!
  have hjac : jac = JsNum.fin 1 := by
    show dx_dx0 * dz_dz0 - dx_dz0 * dz_dx0 = JsNum.fin 1
    rw [hxx, hzz, hxz, hzx]
    decide!
  have hy : y = JsNum.fin 0 := by
    show ampJs hugeAmplitude * sinP = JsNum.fin 0
    rw [hsinP]
    decide!
  have hfoam : foam = JsNum.fin 0 := by
    show JsNum.clamp ((num 0.55 - jac) * num 2.2) (num 0) (num 1)
      * JsNum.clamp (y / (ampJs hugeAmplitude * num 0.85)) (num 0) (num 1) * num 0.3
      = JsNum.fin 0
    rw [hjac, hy]
    decide!
  have hlum : lumOut = JsNum.nan := by
    show JsNum.max (num 0) (JsNum.min (num 1) (L * num 0.6 + foam + num 0.08)) = JsNum.nan
    rw [hL, hfoam]
    decide!
  dsimp only
  exact hlum

theorem num_zero : num 0 = JsNum.fin 0 := by decide!

theorem num_one : num 1 = JsNum.fin 1 := by decide!

/-- The final shading step `Math.max(0, Math.min(1, v))` on numbers with infinities: the result
is `NaN` when `v` is `NaN`, and a number of `[0, 1]` otherwise. -/
theorem clamp_unit_nan (v : JsNum) :
    (v = JsNum.nan ∧ JsNum.max (num 0) (JsNum.min (num 1) v) = JsNum.nan) ∨
      (v ≠ JsNum.nan ∧
        ∃ q : ℚ, JsNum.max (num 0) (JsNum.min (num 1) v) = JsNum.fin q ∧ 0 ≤ q ∧ q ≤ 1) := by
  rw [num_zero, num_one]
  cases v with
  | nan => exact Or.inl ⟨rfl, rfl⟩
  | inf s =>
    right
    refine ⟨by simp, ?_⟩
    cases s
    · exact ⟨1, rfl, by norm_num, le_refl _⟩
    · exact ⟨0, rfl, le_refl _, by norm_num⟩
  | fin q =>
    right
    refine ⟨by simp, ?_⟩
    by_cases h1 : (1 : ℚ) ≤ q
    · refine ⟨1, ?_, by norm_num, le_refl _⟩
      show JsNum.fin (if (0 : ℚ) ≤ (if (1 : ℚ) ≤ q then 1 else q)
        then (if (1 : ℚ) ≤ q then 1 else q) else 0) = JsNum.fin 1
      rw [if_pos h1, if_pos (by norm_num)]
    · by_cases h0 : (0 : ℚ) ≤ q
      · refine ⟨q, ?_, h0, le_of_lt (not_le.mp h1)⟩
        show JsNum.fin (if (0 : ℚ) ≤ (if (1 : ℚ) ≤ q then 1 else q)
          then (if (1 : ℚ) ≤ q then 1 else q) else 0) = JsNum.fin q
        rw [if_neg h1, if_pos h0]
      · refine ⟨0, ?_, le_refl _, by norm_num⟩
        show JsNum.fin (if (0 : ℚ) ≤ (if (1 : ℚ) ≤ q then 1 else q)
          then (if (1 : ℚ) ≤ q then 1 else q) else 0) = JsNum.fin 0
        rw [if_neg h1, if_neg h0]

section ScopedShading

variable {α : Type} [LinearOrderedField α] [FloorRing α]

/-- C4, as the code has it: in exact arithmetic, for every model (basin, spectrum, trochoidal,
tsunami and the fallback) and every point `(u, v)`, time and configuration, the luminance
returned by `sampleWave` lies in `[0, 1]`, and the foam term of each branch lies in `[0, 1]`:
it is at most `0.32` (basin), `0.35` (spectrum), `0.30` (trochoidal) and `0.38` (tsunami).  On
the numbers of the program the final step `Math.max(0, Math.min(1, v))` of a branch returns a
number of `[0, 1]` for every `v` that is not `NaN`, infinities included, and `NaN` when `v` is
`NaN`. -/
theorem sampleWave_lum_scoped (M : JsMath α) (settings : Settings α) (t : α)
    (ref : Option (BasinSim α)) (u v : α) :
    ((0 ≤ (sampleWave M settings t ref u v).lum ∧ (sampleWave M settings t ref u v).lum ≤ 1) ∧
      (∀ sim : BasinSim α,
        0 ≤ (basinSample M settings sim u v).2 ∧ (basinSample M settings sim u v).2 ≤ 0.32) ∧
      (∀ waves : List (OrientedWave α),
        0 ≤ (spectrumSample M settings t waves u v).2 ∧
          (spectrumSample M settings t waves u v).2 ≤ 0.35) ∧
      (0 ≤ (trochoidalSample M settings t u v).2 ∧
        (trochoidalSample M settings t u v).2 ≤ 0.3) ∧
      (∀ ts : Tsunami α,
        0 ≤ (tsunamiSample M settings ts u v).2 ∧ (tsunamiSample M settings ts u v).2 ≤ 0.38)) ∧
    ∀ w : JsNum,
      (w = JsNum.nan ∧ JsNum.max (num 0) (JsNum.min (num 1) w) = JsNum.nan) ∨
        (w ≠ JsNum.nan ∧
          ∃ q : ℚ, JsNum.max (num 0) (JsNum.min (num 1) w) = JsNum.fin q ∧ 0 ≤ q ∧ q ≤ 1) :=
  ⟨⟨sampleWave_lum_range M settings t ref u v, fun sim => basinSample_foam M settings sim u v,
    fun waves => spectrumSample_foam M settings t waves u v,
    trochoidalSample_foam M settings t u v, fun ts => tsunamiSample_foam M settings ts u v⟩,
    clamp_unit_nan⟩

end ScopedShading

/-- The counterexample to C4: the trochoidal model with the amplitude `1.7e308`, a finite
number, and a wind along the first axis, sampled at the origin at time `0`.  The product
`amp * k` overflows to `Infinity`, `dy_dz0 = Infinity * 1 * 0` is `NaN`, the normal length
`Math.sqrt(NaN) || 1` is `1`, and the luminance `Math.max(0, Math.min(1, NaN))` is `NaN`, which
is not a number of `[0, 1]`.  This holds for every host whose `Math.PI` is the number nearest
to `π`, with `cos 0 = 1`, `sin 0 = 0`, a finite square root of every finite non-negative number
and `sqrt(NaN) = NaN`; `originMath` is such a host. -/
theorem trochoidal_overflow_nan :
    num hugeAmplitude.amplitude = JsNum.fin (round64 hugeAmplitude.amplitude) ∧
      ampJs hugeAmplitude * kJs originMath hugeAmplitude = JsNum.inf false ∧
      (trochoidalJs originMath hugeAmplitude (JsNum.fin 0) (JsNum.fin 0) (JsNum.fin 0)).lum
        = JsNum.nan ∧
      ∀ M : JsMath JsNum, M.PI = JsNum.fin piNumber → M.cos (JsNum.fin 0) = JsNum.fin 1 →
        M.sin (JsNum.fin 0) = JsNum.fin 0 →
        (∀ q : ℚ, 0 ≤ q → ∃ r : ℚ, M.sqrt (JsNum.fin q) = JsNum.fin r) →
        M.sqrt JsNum.nan = JsNum.nan →
        (trochoidalJs M hugeAmplitude (JsNum.fin 0) (JsNum.fin 0) (JsNum.fin 0)).lum
          = JsNum.nan :=
  ⟨by decide!, by decide!, by decide!, trochoidal_overflow⟩

end Waves
